import Mathlib

/-!
# ValuationEngine (OREAnalytics/orea/engine/valuationengine.cpp)

A shallow embedding of `ValuationEngine::buildCube` and its helpers
(`recalibrateModels`, the two `runCalculators` overloads, `tradeExercisable`),
of the constructor of the engine, and of the inspectors of
`Lgm1fPiecewiseLinearParametrization`
(QuantExt/qle/models/irlgm1fpiecewiselinearparametrization.hpp).

The engine is an orchestrator: nearly everything it does is a call on an
external collaborator (scenario market, model builders, instruments,
calculators, cubes).  The embedding therefore threads an explicit state
through the code that carries

* the ordered log of every external call made so far (`State.trace`),
* the contents of the three cubes (`State.cubes`),
* the local vector `tradeHasError`.

Collaborators are parameters (`Env`): for every call the environment decides,
from the complete history of the run, whether the call raises, whether what it
raises is a `std::exception`, and what a calculator writes into the cubes.  A
raise inside one of the two `try` blocks is caught as in the source, by a
handler for `const std::exception&`: a `std::exception` (as the errors of
`QL_REQUIRE` and `QL_FAIL` are) is handled, anything else escapes.  Every raise
outside the `try` blocks escapes.  An escaping raise aborts `buildCube`.

Cube values are rationals, the numbers the stored doubles denote.  The one
arithmetic operation of the engine on them, the addition of the dry-run fill,
is the addition of the machine, which rounds; it is a parameter too
(`Env.add`) and nothing is assumed of it.

The file has two parts: the definitions (the embedding, then the notions the
properties are stated with, then sample data), and the lemmas and theorems.

Not modelled: logging (`LOG`, `DLOG`, `TLOG`, `ALOG`), the timers and
`updateProgress`; the read-only getters `simMarket_->label()` and
`simMarket_->asofDate()` appear only through their use.
-/

namespace ValuationEngine

/-- Dates are QuantLib serial numbers. -/
abbrev Date := Nat

/-- The values of `ObservationMode::Mode`. -/
inductive Mode where
  | None
  | Disable
  | Defer
  | Unregister
  deriving DecidableEq, Repr

/-- What the message of a structured error identifies: the time-zero handler
writes "T0 valuation error: ...", the handler of `runCalculators` writes
"date = ..., sample = ..., label = ...". -/
inductive ErrorInfo where
  | t0
  | scenario (d : Date) (sample : Nat)
  deriving DecidableEq, Repr

/-- One entry of the call log.  Trades, calculators, counterparty calculators
and model builders are named by their position in the respective container. -/
inductive Event where
  /-- The call `simMarket_->reset()` of the scoped guard. -/
  | marketReset
  /-- The call `c->init(portfolio, simMarket_)`. -/
  | calcInit (c : Nat)
  /-- The call `c->initScenario()`. -/
  | calcInitScenario (c : Nat)
  /-- The call `trade->instrument()->initialise(dates)`. -/
  | instrumentInitialise (t : Nat)
  /-- The call `b.second->forceRecalculate()`. -/
  | forceRecalculate (b : Nat)
  /-- The call `b.second->recalibrate()`. -/
  | recalibrate (b : Nat)
  /-- The call `calc->calculateT0(trade, i, ...)`. -/
  | calculateT0 (c t : Nat)
  /-- The call `StructuredTradeErrorMessage(id, type, stage, message).log()`;
  `stage` is the third argument, a string. -/
  | structuredError (t : Nat) (stage : String) (info : ErrorInfo)
  /-- The unregistration of the floating rate coupons of a trade. -/
  | unregisterCoupons (t : Nat)
  /-- The call `simMarket_->fixingManager()->initialise(portfolio, simMarket_)`. -/
  | fixingInitialise
  /-- The call `simMarket_->fixingManager()->reset()`. -/
  | fixingReset
  /-- The call `trade->instrument()->reset()`. -/
  | instrumentReset (t : Nat)
  /-- The call `simMarket_->preUpdate()`. -/
  | preUpdate
  /-- The call `simMarket_->updateDate(d)`. -/
  | updateDate (d : Date)
  /-- The call `simMarket_->updateScenario(d)`. -/
  | updateScenario (d : Date)
  /-- The call `simMarket_->postUpdate(d, withFixings)`. -/
  | postUpdate (d : Date) (withFixings : Bool)
  /-- The call `simMarket_->updateAsd(d)`. -/
  | updateAsd (d : Date)
  /-- The call `trade->instrument()->updateQlInstruments()`. -/
  | updateQlInstruments (t : Nat)
  /-- The call `t->disableExercise()`. -/
  | disableExercise (t : Nat)
  /-- The call `t->enableExercise()`. -/
  | enableExercise (t : Nat)
  /-- The call `calc->calculate(trade, j, ..., d, cubeDateIndex, sample, isCloseOutDate)`. -/
  | calculate (c t : Nat) (d : Date) (dateIndex sample : Nat) (isCloseOut : Bool)
  /-- The call `calc->calculate(counterparty, idx, ..., d, cubeDateIndex, sample, isCloseOutDate)`. -/
  | cptyCalculate (c idx : Nat) (d : Date) (dateIndex sample : Nat) (isCloseOut : Bool)
  /-- The call `outputCube->set(value, j, i, sample, d)`. -/
  | cubeSet (j i sample d : Nat)
  /-- The call `outputCube->remove(i)`. -/
  | cubeRemove (i : Nat)
  deriving DecidableEq, Repr

/-- The fatal failures of `buildCube`: one per `QL_REQUIRE`, and the raise of a
collaborator call that no handler catches. -/
inductive Err where
  | emptyPortfolio
  | cubeXDimension
  | cubeYDimension
  | cptyCubeXDimension
  | cptyCubeYDimension
  | npvCurrencyNotSet (t : Nat)
  | negativeCubeDateIndex
  | escaped (ev : Event)
  deriving DecidableEq, Repr

/-- What the engine reads of a trade: whether `npvCurrency()` is empty and
whether its instrument casts to `OptionWrapper`. -/
structure Trade where
  npvCurrencyEmpty : Bool
  isOptionWrapper : Bool
  deriving DecidableEq, Repr

/-- Modelled from the spec: the `DateGrid` class (ored/utilities/dategrid.hpp)
is not part of the sources at hand.  A grid is an ordered sequence of dates,
each flagged as a valuation date and/or a close-out date. -/
structure GridSlot where
  date : Date
  isValuationDate : Bool
  isCloseOutDate : Bool
  deriving DecidableEq, Repr

/-- Modelled from the spec: `dg_->valuationDates()`, the dates of the grid
flagged as valuation dates. -/
def valuationDates (dg : List GridSlot) : List Date :=
  (dg.filter fun g => g.isValuationDate).map fun g => g.date

/-- Modelled from the spec: the close-out dates of the grid. -/
def closeOutDates (dg : List GridSlot) : List Date :=
  (dg.filter fun g => g.isCloseOutDate).map fun g => g.date

/-- Modelled from the spec: the read-only dimension accessors of `NPVCube`
(orea/cube/npvcube.hpp is not part of the sources at hand).  The dimensions
of a cube never change during a run. -/
structure CubeDims where
  numIds : Nat
  numDates : Nat
  samples : Nat
  depth : Nat
  deriving DecidableEq, Repr

/-- Modelled from the spec: the stored values of an `NPVCube`, addressed by
(entity, date, sample, depth), and its time-zero values addressed by
(entity, depth).  A value is the rational number the stored double denotes. -/
structure CubeData where
  data : Nat → Nat → Nat → Nat → ℚ
  t0 : Nat → Nat → ℚ

/-- Modelled from the spec: `NPVCube::get`. -/
def CubeData.get (c : CubeData) (id date sample depth : Nat) : ℚ :=
  c.data id date sample depth

/-- Modelled from the spec: `NPVCube::getT0`. -/
def CubeData.getT0 (c : CubeData) (id depth : Nat) : ℚ :=
  c.t0 id depth

/-- Modelled from the spec: `NPVCube::set(value, id, date, sample, depth)`
stores the value at the given coordinates and touches nothing else. -/
def CubeData.set (c : CubeData) (v : ℚ) (id date sample depth : Nat) : CubeData :=
  { c with
    data := fun i d s k =>
      if i = id ∧ d = date ∧ s = sample ∧ k = depth then v else c.data i d s k }

/-- Modelled from the spec: `NPVCube::remove(id)` zeroes every stored value of
that entity across all dates, samples and depths (its time-zero values
included) and touches no other entity. -/
def CubeData.remove (c : CubeData) (id : Nat) : CubeData :=
  { data := fun i d s k => if i = id then 0 else c.data i d s k
    t0 := fun i k => if i = id then 0 else c.t0 i k }

/-- The three cubes handed to `buildCube`. -/
structure Cubes where
  outputCube : CubeData
  outputCubeNettingSet : CubeData
  outputCptyCube : CubeData

/-- The mutable state of a run. -/
structure State where
  trace : List Event
  cubes : Cubes
  tradeHasError : List Bool

/-- The collaborators and the machine.  `raises h ev` tells whether the call
`ev`, made after the calls `h`, raises; `write h ev` is what a calculator call
does to the cubes (also when it raises half way); `std h ev` tells whether
what the call raises is a `std::exception`, the only kind of object the
handlers of the engine catch (it is read only when the call raises);
`add x y` is the sum of two `Real` (double) values as the machine computes
it. -/
structure Env where
  raises : List Event → Event → Bool
  write : List Event → Event → Cubes → Cubes
  std : List Event → Event → Bool := fun _ _ => true
  add : ℚ → ℚ → ℚ := fun x y => x + y

/-- The members of the engine set by its constructor. -/
structure Engine where
  today : Date
  dg : List GridSlot
  numModelBuilders : Nat
  deriving DecidableEq, Repr

/-- The arguments of `buildCube` other than `dryRun`, and the process-wide
observation mode `ObservationMode::instance().mode()`.
`outputCptyCube` is `none` for a null pointer, otherwise the dimensions of the
cube and the indexes of `idsAndIndexes()` in iteration order. -/
structure Input where
  trades : List Trade
  numCounterparties : Nat
  outputCube : CubeDims
  numCalculators : Nat
  mporStickyDate : Bool
  outputCptyCube : Option (CubeDims × List Nat)
  numCptyCalculators : Nat
  om : Mode
  deriving DecidableEq, Repr

/-- How a piece of the engine ends: normally (`err = none`) or with a fatal
failure, and in which state. -/
structure Outcome where
  err : Option Err
  st : State

/-- Normal completion. -/
def ok (s : State) : Outcome := ⟨none, s⟩

/-- Sequencing: the second piece runs only if the first completed normally. -/
def Outcome.andThen (o : Outcome) (f : State → Outcome) : Outcome :=
  match o.err with
  | none => f o.st
  | some _ => o

/-- A range-based `for` whose body may fail. -/
def forEach {α : Type} (f : α → State → Outcome) : List α → State → Outcome
  | [], s => ok s
  | x :: rest, s => (f x s).andThen (forEach f rest)

/-- A block of statements. -/
def block (fs : List (State → Outcome)) : State → Outcome :=
  forEach (fun f => f) fs

/-- An `if` without `else`. -/
def onlyIf (b : Bool) (f : State → Outcome) : State → Outcome :=
  fun s => if b then f s else ok s

/-- The check `QL_REQUIRE(cond, ...)`. -/
def require (cond : Bool) (e : Err) : State → Outcome :=
  fun s => if cond then ok s else ⟨some e, s⟩

/-- A collaborator call outside every `try` block: it is logged, and a raise
escapes. -/
def call (env : Env) (ev : Event) : State → Outcome :=
  fun s =>
    let s1 := { s with trace := s.trace ++ [ev] }
    if env.raises s.trace ev then ⟨some (Err.escaped ev), s1⟩ else ok s1

/-- A calculator call: it is logged, the calculator writes what it writes, and
the result tells whether it raised. -/
def invoke (env : Env) (ev : Event) (s : State) : Bool × State :=
  (env.raises s.trace ev,
   { s with trace := s.trace ++ [ev], cubes := env.write s.trace ev s.cubes })

/-- A calculator call outside every `try` block. -/
def callCalc (env : Env) (ev : Event) : State → Outcome :=
  fun s =>
    let r := invoke env ev s
    if r.1 then ⟨some (Err.escaped ev), r.2⟩ else ok r.2

/-- The body of a `try` block that loops over calculator calls: the calls are
made in order up to the first that raises; the result tells whether one did. -/
def tryCalls (env : Env) : List Event → State → Bool × State
  | [], s => (false, s)
  | ev :: rest, s =>
      let r := invoke env ev s
      if r.1 then (true, r.2) else tryCalls env rest r.2

/-- The call of the body of a `try` block whose raise the handler
`catch (const std::exception&)` does not catch: the first call that raises, if
what it raises is not a `std::exception`. -/
def uncaught (env : Env) : List Event → State → Option Event
  | [], _ => none
  | ev :: rest, s =>
      let r := invoke env ev s
      if r.1 then (if env.std s.trace ev then none else some ev) else uncaught env rest r.2

/-- The handler of both `try` blocks: log a structured error with the stage
tag "ScenarioValuation" and set `tradeHasError[t] = true`. -/
def handleError (t : Nat) (info : ErrorInfo) (s : State) : State :=
  { s with
    trace := s.trace ++ [Event.structuredError t "ScenarioValuation" info]
    tradeHasError := s.tradeHasError.set t true }

/-- A `try` block that loops over the calculator calls `evs` for trade `t`,
with its handler `catch (const std::exception&)`: a raise that is not a
`std::exception` escapes, a raise that is one is handled, and in both cases
the calls after the one that raised are not made. -/
def tryBlock (env : Env) (evs : List Event) (t : Nat) (info : ErrorInfo) : State → Outcome :=
  fun s =>
    let r := tryCalls env evs s
    match uncaught env evs s with
    | some ev => ⟨some (Err.escaped ev), r.2⟩
    | none => if r.1 then ok (handleError t info r.2) else ok r.2

/-- `ValuationEngine::recalibrateModels`. -/
def recalibrateModels (env : Env) (eng : Engine) (om : Mode) : State → Outcome :=
  forEach (fun b => block [
      onlyIf (om = Mode.Disable) (call env (Event.forceRecalculate b)),
      call env (Event.recalibrate b)])
    (List.range eng.numModelBuilders)

/-- `ValuationEngine::tradeExercisable`. -/
def tradeExercisable (env : Env) (enable : Bool) (trades : List Trade) : State → Outcome :=
  forEach (fun p : Nat × Trade =>
      onlyIf p.2.isOptionWrapper
        (if enable then call env (Event.enableExercise p.1)
         else call env (Event.disableExercise p.1)))
    trades.enum

/-- The body of the trade loop of `runCalculators` for trade `j`. -/
def runCalculatorsTrade (env : Env) (isCloseOutDate : Bool) (inp : Input) (om : Mode)
    (d : Date) (cubeDateIndex sample j : Nat) : State → Outcome :=
  fun s =>
    if s.tradeHasError.getD j false then ok s
    else
      block [
        onlyIf (om = Mode.Disable ∨ om = Mode.Unregister)
          (call env (Event.updateQlInstruments j)),
        tryBlock env
          ((List.range inp.numCalculators).map fun c =>
            Event.calculate c j d cubeDateIndex sample isCloseOutDate)
          j (ErrorInfo.scenario d sample)] s

/-- `ValuationEngine::runCalculators`, the overload for trades. -/
def runCalculators (env : Env) (isCloseOutDate : Bool) (inp : Input)
    (d : Date) (cubeDateIndex sample : Nat) : State → Outcome :=
  block [
    forEach (fun c => call env (Event.calcInitScenario c)) (List.range inp.numCalculators),
    forEach (runCalculatorsTrade env isCloseOutDate inp inp.om d cubeDateIndex sample)
      (List.range inp.trades.length)]

/-- The counterparties `buildCube` loops over: `idsAndIndexes()` of the
counterparty cube, or an empty map when no such cube is supplied. -/
def counterparties (inp : Input) : List Nat :=
  match inp.outputCptyCube with
  | some p => p.2
  | none => []

/-- `ValuationEngine::runCalculators`, the overload for counterparties. -/
def runCptyCalculators (env : Env) (isCloseOutDate : Bool) (inp : Input)
    (d : Date) (cubeDateIndex sample : Nat) : State → Outcome :=
  forEach (fun idx =>
      forEach (fun c =>
          callCalc env (Event.cptyCalculate c idx d cubeDateIndex sample isCloseOutDate))
        (List.range inp.numCptyCalculators))
    (counterparties inp)

/-- The checks at the head of `buildCube` (source lines 85 to 106), in order. -/
def checkDimensions (eng : Engine) (inp : Input) : State → Outcome :=
  block [
    require (decide (inp.trades.length > 0)) Err.emptyPortfolio,
    require (decide (inp.outputCube.numIds = inp.trades.length)) Err.cubeXDimension,
    require (decide (inp.outputCube.numDates = (valuationDates eng.dg).length))
      Err.cubeYDimension,
    match inp.outputCptyCube with
    | some p => block [
        require (decide (p.1.numIds = inp.numCounterparties + 1)) Err.cptyCubeXDimension,
        require (decide (p.1.numDates = eng.dg.length)) Err.cptyCubeYDimension]
    | none => ok]

/-- The body of the first trade loop of `buildCube` (source lines 130 to 164)
for the trade at position `p.1`. -/
def initialiseTrade (env : Env) (eng : Engine) (inp : Input) (p : Nat × Trade) :
    State → Outcome :=
  block [
    require (!p.2.npvCurrencyEmpty) (Err.npvCurrencyNotSet p.1),
    call env (Event.instrumentInitialise p.1),
    recalibrateModels env eng inp.om,
    tryBlock env ((List.range inp.numCalculators).map fun c => Event.calculateT0 c p.1)
      p.1 ErrorInfo.t0,
    onlyIf (inp.om = Mode.Unregister) (call env (Event.unregisterCoupons p.1))]

/-- The close-out part of the date loop of `buildCube` (source lines 195 to
223) at a grid slot with date `d`, given the current `cubeDateIndex`. -/
def processCloseOutDate (env : Env) (eng : Engine) (inp : Input) (sample : Nat)
    (d : Date) (cubeDateIndex : Int) : State → Outcome :=
  block [
    call env Event.preUpdate,
    onlyIf (!inp.mporStickyDate) (call env (Event.updateDate d)),
    call env (Event.updateScenario d),
    call env (Event.postUpdate d (!inp.mporStickyDate)),
    recalibrateModels env eng inp.om,
    onlyIf inp.mporStickyDate (tradeExercisable env false inp.trades),
    require (decide (cubeDateIndex ≥ 0)) Err.negativeCubeDateIndex,
    runCalculators env true inp d cubeDateIndex.toNat sample,
    onlyIf inp.mporStickyDate (tradeExercisable env true inp.trades)]

/-- The valuation part of the date loop of `buildCube` (source lines 226 to
256) at a grid slot with date `d`; `cubeDateIndex` is the value after the
increment and `scenarioUpdated` the flag set by the close-out part. -/
def processValuationDate (env : Env) (eng : Engine) (inp : Input) (sample : Nat)
    (d : Date) (cubeDateIndex : Int) (scenarioUpdated : Bool) : State → Outcome :=
  block [
    call env Event.preUpdate,
    call env (Event.updateDate d),
    onlyIf (!scenarioUpdated) (call env (Event.updateScenario d)),
    call env (Event.postUpdate d true),
    call env (Event.updateAsd d),
    recalibrateModels env eng inp.om,
    runCalculators env false inp d cubeDateIndex.toNat sample,
    runCptyCalculators env false inp d cubeDateIndex.toNat sample]

/-- The date loop of `buildCube` (source lines 187 to 257) over the remaining
grid slots, threading the local `cubeDateIndex`. -/
def dateLoop (env : Env) (eng : Engine) (inp : Input) (sample : Nat) :
    List GridSlot → Int → State → Outcome
  | [], _, s => ok s
  | g :: rest, cubeDateIndex, s =>
      let cubeDateIndex1 := if g.isValuationDate then cubeDateIndex + 1 else cubeDateIndex
      ((block [
          onlyIf g.isCloseOutDate
            (processCloseOutDate env eng inp sample g.date cubeDateIndex),
          onlyIf g.isValuationDate
            (processValuationDate env eng inp sample g.date cubeDateIndex1 g.isCloseOutDate)]
        s).andThen (dateLoop env eng inp sample rest cubeDateIndex1))

/-- The body of the date loop of `buildCube` (source lines 188 to 256) for the
grid slot `g`, given the value of `cubeDateIndex` before it: the close-out
part if the slot is a close-out date, then the valuation part if it is a
valuation date. -/
def processGridSlot (env : Env) (eng : Engine) (inp : Input) (sample : Nat) (g : GridSlot)
    (cubeDateIndex : Int) : State → Outcome :=
  block [
    onlyIf g.isCloseOutDate
      (processCloseOutDate env eng inp sample g.date cubeDateIndex),
    onlyIf g.isValuationDate
      (processValuationDate env eng inp sample g.date
        (if g.isValuationDate then cubeDateIndex + 1 else cubeDateIndex) g.isCloseOutDate)]

/-- The body of the sample loop of `buildCube` (source lines 177 to 262). -/
def processSample (env : Env) (eng : Engine) (inp : Input) (sample : Nat) :
    State → Outcome :=
  block [
    forEach (fun t => call env (Event.instrumentReset t)) (List.range inp.trades.length),
    dateLoop env eng inp sample eng.dg (-1),
    call env Event.fixingReset]

/-- The number of samples the sample loop replays:
`dryRun ? std::min<Size>(1, outputCube->samples()) : outputCube->samples()`. -/
def numSamplesReplayed (inp : Input) (dryRun : Bool) : Nat :=
  if dryRun then min 1 inp.outputCube.samples else inp.outputCube.samples

/-- The noise of the dry-run fill (source line 272):
`sample < 10 ? static_cast<Real>(i + j + d + sample) : 0.0`. -/
def dryRunNoise (i j d sample : Nat) : ℚ :=
  if sample < 10 then ((i + j + d + sample : Nat) : ℚ) else 0

/-- The innermost statement of the dry-run fill (source lines 272 and 273):
the value stored is the sum `outputCube->getT0(j, d) + noise` as the machine
computes it. -/
def dryRunSet (env : Env) (sample i j d : Nat) : State → Outcome :=
  fun s =>
    (call env (Event.cubeSet j i sample d) s).andThen fun s1 =>
      ok { s1 with
        cubes := { s1.cubes with
          outputCube := s1.cubes.outputCube.set
            (env.add (s1.cubes.outputCube.getT0 j d) (dryRunNoise i j d sample)) j i sample d } }

/-- The dry-run fill of `buildCube` (source lines 264 to 278). -/
def dryRunFill (env : Env) (eng : Engine) (inp : Input) (dryRun : Bool) : State → Outcome :=
  onlyIf dryRun
    (forEach (fun sample =>
        forEach (fun i =>
            forEach (fun j =>
                forEach (fun d => dryRunSet env sample i j d)
                  (List.range inp.outputCube.depth))
              (List.range inp.trades.length))
          (List.range eng.dg.length))
      (List.range' 1 (inp.outputCube.samples - 1)))

/-- The body of the last loop of `buildCube` (source lines 289 to 296). -/
def removeIfError (env : Env) (i : Nat) : State → Outcome :=
  fun s =>
    if s.tradeHasError.getD i false then
      (call env (Event.cubeRemove i) s).andThen fun s1 =>
        ok { s1 with cubes := { s1.cubes with outputCube := s1.cubes.outputCube.remove i } }
    else ok s

/-- The initialisation of the calculators (source lines 117 to 120). -/
def initialiseCalculators (env : Env) (inp : Input) : State → Outcome :=
  forEach (fun c => block [call env (Event.calcInit c), call env (Event.calcInitScenario c)])
    (List.range inp.numCalculators)

/-- The declaration `std::vector<bool> tradeHasError(portfolio->size(), false)`. -/
def createErrorFlags (inp : Input) : State → Outcome :=
  fun s => ok { s with tradeHasError := List.replicate inp.trades.length false }

/-- The start of the fixing manager (source lines 167 to 170); `asofDate` is
`simMarket_->asofDate()`. -/
def initialiseFixings (env : Env) (eng : Engine) (asofDate : Date) : State → Outcome :=
  onlyIf (match eng.dg.head? with
          | some g => decide (g.date > asofDate)
          | none => false)
    (call env Event.fixingInitialise)

/-- The steps of `buildCube` from the first trade loop to the last loop
(source lines 130 to 296). -/
def simulate (env : Env) (eng : Engine) (inp : Input) (dryRun : Bool)
    (asofDate : Date) : State → Outcome :=
  block [
    forEach (initialiseTrade env eng inp) inp.trades.enum,
    initialiseFixings env eng asofDate,
    forEach (processSample env eng inp) (List.range (numSamplesReplayed inp dryRun)),
    dryRunFill env eng inp dryRun,
    forEach (removeIfError env) (List.range inp.trades.length)]

/-- The steps of `buildCube` between the construction and the destruction of
the scoped `SimMarketResetter`. -/
def buildCubeBody (env : Env) (eng : Engine) (inp : Input) (dryRun : Bool)
    (asofDate : Date) : State → Outcome :=
  block [
    checkDimensions eng inp,
    initialiseCalculators env inp,
    createErrorFlags inp,
    simulate env eng inp dryRun asofDate]

/-- `ValuationEngine::buildCube`: the body, then the destructor of the scoped
`SimMarketResetter`, which calls `simMarket_->reset()` on every exit path.
The run starts with an empty call log and the cubes as handed in. -/
def buildCube (env : Env) (eng : Engine) (inp : Input) (dryRun : Bool) (asofDate : Date)
    (cubes : Cubes) : Outcome :=
  let o := buildCubeBody env eng inp dryRun asofDate ⟨[], cubes, []⟩
  ⟨o.err, { o.st with trace := o.st.trace ++ [Event.marketReset] }⟩

/-! ## The constructor -/

/-- The failures of the constructor: one per `QL_REQUIRE`. -/
inductive ConstructionError where
  | emptyDateGrid
  | todayAfterFirstDate
  | nullSimMarket
  deriving DecidableEq, Repr

set_option linter.dupNamespace false in
/-- The constructor `ValuationEngine::ValuationEngine` (source lines 49 to 59):
the three checks, in order.  `simMarket` tells whether the shared pointer
`simMarket_` is non-null; the model builders are represented by their
number. -/
def ValuationEngine (today : Date) (dg : List GridSlot) (simMarket : Bool)
    (numModelBuilders : Nat) : Except ConstructionError Engine :=
  if ¬ dg.length > 0 then Except.error ConstructionError.emptyDateGrid
  else if (match dg.head? with
           | some g => decide (today ≤ g.date)
           | none => false) = false then Except.error ConstructionError.todayAfterFirstDate
  else if simMarket = false then Except.error ConstructionError.nullSimMarket
  else Except.ok ⟨today, dg, numModelBuilders⟩

/-! ## The piecewise linear LGM parametrization (QuantExt/qle/models/irlgm1fpiecewiselinearparametrization.hpp) -/

/-- Modelled from the spec: the class `PiecewiseConstantHelper1`
(qle/models/piecewiseconstanthelper.hpp is not part of the sources at hand).
It holds the grid times `t`, ascending, and the values of a piecewise constant
function, one per interval: `values[i]` on `[t[i-1], t[i])`, with `t[-1] = 0`
and the last interval unbounded.  Real numbers are taken as exact
rationals. -/
structure PiecewiseConstantHelper1 where
  t : List ℚ
  values : List ℚ

/-- Modelled from the spec: `PiecewiseConstantHelper1::y(t)`, the value on the
interval that holds `x`, found by `upper_bound` over the grid times. -/
def PiecewiseConstantHelper1.y (h : PiecewiseConstantHelper1) (x : ℚ) : ℚ :=
  h.values.getD (h.t.filter fun ti => decide (ti ≤ x)).length 0

/-- Modelled from the spec: the integral over `[a, x]` of `g` applied to the
piecewise constant function with the grid times `ts` (all at least `a`) and
the values `vs`, summed interval by interval. -/
def stepIntegral (g : ℚ → ℚ) : List ℚ → List ℚ → ℚ → ℚ → ℚ
  | _, [], _, _ => 0
  | [], v :: _, a, x => g v * max 0 (x - a)
  | ti :: ts, v :: vs, a, x => g v * max 0 (min x ti - a) + stepIntegral g ts vs ti x

/-- Modelled from the spec: `PiecewiseConstantHelper1::int_y_sqr(t)`, the
integral of `y` squared over `[0, x]`. -/
def PiecewiseConstantHelper1.int_y_sqr (h : PiecewiseConstantHelper1) (x : ℚ) : ℚ :=
  stepIntegral (fun v => v * v) h.t h.values 0 x

/-- The members of `Lgm1fPiecewiseLinearParametrization` its inspectors read:
the two helpers of `PiecewiseConstantHelper11`, and `scaling_` and `shift_` of
the base class (1 and 0 unless set otherwise). -/
structure Lgm1fPiecewiseLinearParametrization where
  helper1 : PiecewiseConstantHelper1
  helper2 : PiecewiseConstantHelper1
  scaling : ℚ
  shift : ℚ

/-- `Lgm1fPiecewiseLinearParametrization::zeta`. -/
def Lgm1fPiecewiseLinearParametrization.zeta (p : Lgm1fPiecewiseLinearParametrization)
    (t : ℚ) : ℚ :=
  p.helper1.int_y_sqr t / (p.scaling * p.scaling)

/-- `Lgm1fPiecewiseLinearParametrization::H`. -/
def Lgm1fPiecewiseLinearParametrization.H (p : Lgm1fPiecewiseLinearParametrization)
    (t : ℚ) : ℚ :=
  p.scaling * p.helper2.int_y_sqr t + p.shift

/-- `Lgm1fPiecewiseLinearParametrization::alpha`. -/
def Lgm1fPiecewiseLinearParametrization.alpha (p : Lgm1fPiecewiseLinearParametrization)
    (t : ℚ) : ℚ :=
  p.helper1.y t / p.scaling

/-- `Lgm1fPiecewiseLinearParametrization::Hprime`. -/
def Lgm1fPiecewiseLinearParametrization.Hprime (p : Lgm1fPiecewiseLinearParametrization)
    (t : ℚ) : ℚ :=
  p.scaling * p.helper2.y t

/-! ## Definitions used to state the properties -/

/-- The failures raised by the checks at the head of `buildCube`. -/
def Err.isPrecondition : Err → Bool
  | Err.emptyPortfolio => true
  | Err.cubeXDimension => true
  | Err.cubeYDimension => true
  | Err.cptyCubeXDimension => true
  | Err.cptyCubeYDimension => true
  | _ => false

/-- The portfolio is empty, or a cube dimension does not match the portfolio
or the grid. -/
def dimensionMismatch (eng : Engine) (inp : Input) : Prop :=
  inp.trades.length = 0 ∨
  inp.outputCube.numIds ≠ inp.trades.length ∨
  inp.outputCube.numDates ≠ (valuationDates eng.dg).length ∨
  (match inp.outputCptyCube with
   | some p => p.1.numIds ≠ inp.numCounterparties + 1 ∨ p.1.numDates ≠ eng.dg.length
   | none => False)

instance (eng : Engine) (inp : Input) : Decidable (dimensionMismatch eng inp) := by
  unfold dimensionMismatch
  cases inp.outputCptyCube <;> exact inferInstance

/-- The step `f` touches nothing but the call log, and every event it adds
satisfies `P`. -/
def Quiet (P : Event → Prop) (f : State → Outcome) : Prop :=
  ∀ s, ∃ new, (f s).st = { s with trace := s.trace ++ new } ∧ ∀ ev ∈ new, P ev

/-- The trade a calculator call values, for the calls made inside a `try`
block (`calculateT0` and the trade overload of `calculate`). -/
def Event.calcTrade : Event → Option Nat
  | Event.calculateT0 _ t => some t
  | Event.calculate _ t _ _ _ _ => some t
  | _ => none

/-- The trade a structured error names. -/
def Event.errorTrade : Event → Option Nat
  | Event.structuredError t _ _ => some t
  | _ => none

/-- The state `s2` extends `s1`: the call log grew by events that satisfy `P`,
the error flags kept their number, none was cleared, and every flag that was
set comes with a structured error for its trade among the new events. -/
def Ext (P : Event → Prop) (s1 s2 : State) : Prop :=
  ∃ new, s2.trace = s1.trace ++ new ∧ (∀ ev ∈ new, P ev) ∧
    s2.tradeHasError.length = s1.tradeHasError.length ∧
    (∀ e, s1.tradeHasError.getD e false = true → s2.tradeHasError.getD e false = true) ∧
    (∀ e, s2.tradeHasError.getD e false = true →
      s1.tradeHasError.getD e false = true ∨ ∃ ev ∈ new, ev.errorTrade = some e)

/-- Every run of the step `f` extends the state, whether it fails or not. -/
def Step (P : Event → Prop) (f : State → Outcome) : Prop :=
  ∀ s, Ext P s (f s).st

/-- The property `I` survives the step `f`, whether it fails or not. -/
def Keeps (I : State → Prop) (f : State → Outcome) : Prop :=
  ∀ s, I s → I (f s).st

/-- If `Pre` holds before the step `f` and `f` completes normally, `Post`
holds after it. -/
def Triple (Pre : State → Prop) (f : State → Outcome) (Post : State → Prop) : Prop :=
  ∀ s, Pre s → (f s).err = none → Post (f s).st

/-! ## The events each part of the engine may log -/

/-- The number of valuation-flagged grid slots with index smaller than `i`. -/
def valuationDatesBefore (dg : List GridSlot) (i : Nat) : Nat :=
  ((dg.take i).filter fun g => g.isValuationDate).length

/-- The pair (date, cube date index) is that of some close-out-flagged slot
`i`: the date of the slot, and the number of valuation-flagged slots of index
smaller than `i`, minus one. -/
def CloseOutCall (dg : List GridSlot) (d : Date) (k : Nat) : Prop :=
  ∃ i g, dg[i]? = some g ∧ g.isCloseOutDate = true ∧ g.date = d ∧
    (k : Int) = (valuationDatesBefore dg i : Int) - 1

/-- The pair (date, cube date index) is that of some valuation-flagged slot
`i`: the date of the slot, and the number of valuation-flagged slots of index
smaller than `i`. -/
def ValuationCall (dg : List GridSlot) (d : Date) (k : Nat) : Prop :=
  ∃ i g, dg[i]? = some g ∧ g.isValuationDate = true ∧ g.date = d ∧
    k = valuationDatesBefore dg i

/-- The trade at position `t` casts to `OptionWrapper`. -/
def isExercisable (trades : List Trade) (t : Nat) : Prop :=
  ∃ tr, trades[t]? = some tr ∧ tr.isOptionWrapper = true

/-- The events one call of `runCalculators` (trade overload) may log. -/
def RoundEvent (inp : Input) (isCloseOutDate : Bool) (d : Date) (k sample : Nat) :
    Event → Prop
  | Event.calcInitScenario c => c < inp.numCalculators
  | Event.updateQlInstruments j =>
      j < inp.trades.length ∧ (inp.om = Mode.Disable ∨ inp.om = Mode.Unregister)
  | Event.calculate c j d1 k1 s1 m1 =>
      c < inp.numCalculators ∧ j < inp.trades.length ∧ d1 = d ∧ k1 = k ∧ s1 = sample ∧
        m1 = isCloseOutDate
  | Event.structuredError j stage info =>
      j < inp.trades.length ∧ stage = "ScenarioValuation" ∧ info = ErrorInfo.scenario d sample
  | _ => False

/-- The events the body of the sample loop may log while it replays `sample`. -/
def SampleEvent (eng : Engine) (inp : Input) (sample : Nat) : Event → Prop
  | Event.instrumentReset t => t < inp.trades.length
  | Event.preUpdate => True
  | Event.updateDate _ => True
  | Event.updateScenario _ => True
  | Event.postUpdate _ _ => True
  | Event.updateAsd _ => True
  | Event.fixingReset => True
  | Event.forceRecalculate _ => inp.om = Mode.Disable
  | Event.recalibrate _ => True
  | Event.disableExercise t => inp.mporStickyDate = true ∧ isExercisable inp.trades t
  | Event.enableExercise t => inp.mporStickyDate = true ∧ isExercisable inp.trades t
  | Event.calcInitScenario c => c < inp.numCalculators
  | Event.updateQlInstruments j => j < inp.trades.length
  | Event.calculate c j d k s m =>
      c < inp.numCalculators ∧ j < inp.trades.length ∧ s = sample ∧
        (m = true → CloseOutCall eng.dg d k) ∧ (m = false → ValuationCall eng.dg d k)
  | Event.cptyCalculate c idx d k s m =>
      c < inp.numCptyCalculators ∧ idx ∈ counterparties inp ∧ s = sample ∧ m = false ∧
        ValuationCall eng.dg d k
  | Event.structuredError j stage info =>
      j < inp.trades.length ∧ stage = "ScenarioValuation" ∧
        ∃ d, info = ErrorInfo.scenario d sample
  | _ => False

/-- The events the body of the first trade loop of `buildCube` may log for
the trade at position `t`. -/
def TradeInitEvent (inp : Input) (t : Nat) : Event → Prop
  | Event.instrumentInitialise t1 => t1 = t
  | Event.forceRecalculate _ => inp.om = Mode.Disable
  | Event.recalibrate _ => True
  | Event.calculateT0 c t1 => c < inp.numCalculators ∧ t1 = t
  | Event.structuredError t1 stage info =>
      t1 = t ∧ stage = "ScenarioValuation" ∧ info = ErrorInfo.t0
  | Event.unregisterCoupons t1 => t1 = t ∧ inp.om = Mode.Unregister
  | _ => False

/-- The events the first trade loop of `buildCube` may log. -/
def TimeZeroEvent (inp : Input) (ev : Event) : Prop :=
  ∃ t, t < inp.trades.length ∧ TradeInitEvent inp t ev

/-- The events the initialisation of the calculators may log. -/
def PreludeEvent (inp : Input) (ev : Event) : Prop :=
  ∃ c, c < inp.numCalculators ∧ (ev = Event.calcInit c ∨ ev = Event.calcInitScenario c)

/-- The events the dry-run fill may log. -/
def FillEvent (eng : Engine) (inp : Input) (dryRun : Bool) : Event → Prop
  | Event.cubeSet j i sample d =>
      dryRun = true ∧ j < inp.trades.length ∧ i < eng.dg.length ∧
        1 ≤ sample ∧ sample < inp.outputCube.samples ∧ d < inp.outputCube.depth
  | _ => False

/-- The events the dry-run fill and the last loop of `buildCube` may log. -/
def FinishEvent (eng : Engine) (inp : Input) (dryRun : Bool) (ev : Event) : Prop :=
  FillEvent eng inp dryRun ev ∨ ∃ i, i < inp.trades.length ∧ ev = Event.cubeRemove i

/-- The events a run of `buildCube` may log. -/
def RunEvent (eng : Engine) (inp : Input) (dryRun : Bool) (ev : Event) : Prop :=
  PreludeEvent inp ev ∨
  TimeZeroEvent inp ev ∨
  ev = Event.fixingInitialise ∨
  (∃ sample, sample < numSamplesReplayed inp dryRun ∧ SampleEvent eng inp sample ev) ∨
  FinishEvent eng inp dryRun ev ∨
  ev = Event.marketReset

/-- The call log of `s2` is that of `s1` followed by events that satisfy `P`. -/
def Grows (P : Event → Prop) (s1 s2 : State) : Prop :=
  ∃ new, s2.trace = s1.trace ++ new ∧ ∀ ev ∈ new, P ev

/-- Every event the step `f` logs satisfies `P`, whether it fails or not. -/
def Emits (P : Event → Prop) (f : State → Outcome) : Prop :=
  ∀ s, Grows P s (f s).st

/-! ## Raised calculators, error flags and structured errors -/

/-- Some calculator call for trade `t` in the log raised: the log splits into
the calls before it, the call, and the calls after it, and the environment
answers that the call raises after the calls before it. -/
def raisedFor (env : Env) (t : Nat) (tr : List Event) : Prop :=
  ∃ pre ev post, tr = pre ++ ev :: post ∧ ev.calcTrade = some t ∧ env.raises pre ev = true

/-- A structured error naming trade `t` is in the log. -/
def errorLogged (t : Nat) (tr : List Event) : Prop :=
  ∃ ev ∈ tr, ev.errorTrade = some t

/-- The number of structured errors naming trade `t` in the log. -/
def errorCount (t : Nat) (tr : List Event) : Nat :=
  tr.countP fun ev => decide (ev.errorTrade = some t)

/-- No calculator is called for a trade once a calculator call for that trade
has raised. -/
def NoCallAfterRaise (env : Env) (tr : List Event) : Prop :=
  ∀ pre ev post t, tr = pre ++ ev :: post → ev.calcTrade = some t → ¬ raisedFor env t pre

/-- An event that is neither a calculator call inside a `try` block nor a
structured error. -/
def Neutral (ev : Event) : Prop :=
  ev.calcTrade = none ∧ ev.errorTrade = none

/-- The bookkeeping invariant of a run over `n` trades: there are `n` error
flags; the flag of a trade is set exactly if a calculator call for it raised,
which is exactly if a structured error names it; no calculator is called for
a trade after one raised for it; at most one structured error names a
trade. -/
structure Inv (env : Env) (n : Nat) (s : State) : Prop where
  length : s.tradeHasError.length = n
  flag_iff : ∀ t, s.tradeHasError.getD t false = true ↔ raisedFor env t s.trace
  logged_iff : ∀ t, errorLogged t s.trace ↔ raisedFor env t s.trace
  noCall : NoCallAfterRaise env s.trace
  count : ∀ t, errorCount t s.trace ≤ 1

/-- Every stored value of entity `e` is zero. -/
def zeroAt (c : CubeData) (e : Nat) : Prop :=
  ∀ d s k, c.get e d s k = 0

/-- Every `remove` call in the log is for a trade whose error flag is set. -/
def RemovedFlagged (s : State) : Prop :=
  ∀ i, Event.cubeRemove i ∈ s.trace → s.tradeHasError.getD i false = true

/-- Whenever the step `f` fails on an escaping raise, the call that raised
satisfies `P`. -/
def Escapes (P : Event → Prop) (f : State → Outcome) : Prop :=
  ∀ s ev, (f s).err = some (Err.escaped ev) → P ev

/-- Some calculator call for trade `t` in the log raised a `std::exception`,
the kind of raise the handlers of the `try` blocks catch. -/
def raisedStdFor (env : Env) (t : Nat) (tr : List Event) : Prop :=
  ∃ pre ev post, tr = pre ++ ev :: post ∧ ev.calcTrade = some t ∧
    env.raises pre ev = true ∧ env.std pre ev = true

/-- The piece of the engine that ended with `o` was aborted by a raise inside
a `try` block that the handler does not catch: the log ends with a calculator
call for some trade `t` that raised something other than a `std::exception`,
no calculator call for `t` had raised before it, and the bookkeeping
invariant held when the call was made. -/
def Aborted (env : Env) (n : Nat) (o : Outcome) : Prop :=
  ∃ pre ev t, o.err = some (Err.escaped ev) ∧ o.st.trace = pre ++ [ev] ∧
    ev.calcTrade = some t ∧ env.raises pre ev = true ∧ env.std pre ev = false ∧
    ¬ raisedFor env t pre ∧ Inv env n { o.st with trace := pre }

/-- From a state that satisfies `I`, the step `f` either ends, normally or
not, in a state that satisfies `J`, and then not on the escaping raise of a
call made inside a `try` block, or it is aborted by such a raise. -/
def Guarded (env : Env) (n : Nat) (I J : State → Prop) (f : State → Outcome) : Prop :=
  ∀ s, I s →
    (J (f s).st ∧ ∀ ev, (f s).err = some (Err.escaped ev) → ev.calcTrade = none) ∨
    Aborted env n (f s)

/-! ## The calculate calls a trade receives -/

/-- A round of calculator calls, that is one call of `runCalculators`: the
date, the cube date index, the sample and the close-out flag it passes on. -/
abbrev Round := Date × Nat × Nat × Bool

/-- The calculator and the round of a `calculate` call for trade `e`. -/
def Event.callFor (e : Nat) : Event → Option (Nat × Round)
  | Event.calculate c t d k s m => if t = e then some (c, d, k, s, m) else none
  | _ => none

/-- The `calculate` calls for trade `e` in the log, in order. -/
def callsFor (e : Nat) (tr : List Event) : List (Nat × Round) :=
  tr.filterMap (Event.callFor e)

/-- The calls one round makes for a trade that raises nothing: every
calculator, in order. -/
def roundCalls (numCalculators : Nat) (r : Round) : List (Nat × Round) :=
  (List.range numCalculators).map fun c => (c, r)

/-- The rounds of the date loop over the remaining grid slots, given the
current `cubeDateIndex`: at each slot the close-out round (if flagged) at the
current index, then the valuation round (if flagged) at the incremented one. -/
def gridRounds (sample : Nat) : List GridSlot → Int → List Round
  | [], _ => []
  | g :: rest, cdi =>
      (if g.isCloseOutDate then [(g.date, cdi.toNat, sample, true)] else []) ++
      (if g.isValuationDate then [(g.date, (cdi + 1).toNat, sample, false)] else []) ++
      gridRounds sample rest (if g.isValuationDate then cdi + 1 else cdi)

/-- The rounds of the samples `samples`, in order. -/
def sampleRounds (dg : List GridSlot) (samples : List Nat) : List Round :=
  samples.flatMap fun s => gridRounds s dg (-1)

/-- The calls a trade that raises nothing receives in a complete run. -/
def expectedCalls (eng : Engine) (inp : Input) (dryRun : Bool) : List (Nat × Round) :=
  (sampleRounds eng.dg (List.range (numSamplesReplayed inp dryRun))).flatMap
    (roundCalls inp.numCalculators)

/-- There are `n` error flags; the calls trade `e` has received so far are an
initial part of `E`, and all of `E` unless the error flag of `e` is set. -/
def CallsInv (n e : Nat) (E : List (Nat × Round)) (s : State) : Prop :=
  s.tradeHasError.length = n ∧
  callsFor e s.trace <+: E ∧
  (¬ s.tradeHasError.getD e false = true → callsFor e s.trace = E)

/-- The round of a `calculate` call of calculator `c` for trade `e`. -/
def Event.roundBy (c e : Nat) : Event → Option Round
  | Event.calculate c1 t d k s m => if c1 = c ∧ t = e then some (d, k, s, m) else none
  | _ => none

/-- The rounds in which calculator `c` is called for trade `e`, in order. -/
def callsBy (c e : Nat) (tr : List Event) : List Round :=
  tr.filterMap (Event.roundBy c e)

/-- The pairs (cube date index, sample) of the valuation-mode rounds among
`rs`, in order. -/
def valuationIndexes (rs : List Round) : List (Nat × Nat) :=
  rs.filterMap fun r => if r.2.2.2 = true then none else some (r.2.1, r.2.2.1)

/-- The pairs (date, sample) of the close-out-mode rounds among `rs`, in
order. -/
def closeOutSlots (rs : List Round) : List (Date × Nat) :=
  rs.filterMap fun r => if r.2.2.2 = true then some (r.1, r.2.2.1) else none

/-- The step `f` never fails. -/
def Succeeds (f : State → Outcome) : Prop :=
  ∀ s, (f s).err = none

/-- An event other than a trade `calculate` call. -/
def NotCalculate (ev : Event) : Prop :=
  ∀ c t d k s m, ev ≠ Event.calculate c t d k s m

/-- The step `f` always fails with `e`, and every event it logs before it
fails satisfies `P`. -/
def FailsWith (P : Event → Prop) (e : Err) (f : State → Outcome) : Prop :=
  ∀ s, (f s).err = some e ∧ Grows P s (f s).st

/-- The cell (j, i, sample, k) of the output cube holds the value of the
dry-run fill: the sum of the time-zero value of (j, k) and the noise, as the
machine computes it. -/
def FilledAt (env : Env) (s : State) (j i sample k : Nat) : Prop :=
  s.cubes.outputCube.get j i sample k =
    env.add (s.cubes.outputCube.getT0 j k) (dryRunNoise i j k sample)

/-- A calculator call (trade or counterparty `calculate`) for sample 0. -/
def isSampleZeroCall : Event → Bool
  | Event.calculate _ _ _ _ s _ => decide (s = 0)
  | Event.cptyCalculate _ _ _ _ s _ => decide (s = 0)
  | _ => false

/-- An event other than a calculator call for sample 0. -/
def NotSampleZero (ev : Event) : Prop :=
  isSampleZeroCall ev = false

/-! ## Sticky close-out dates -/

/-- The positions of the trades whose instrument casts to `OptionWrapper`, in
portfolio order. -/
def exercisableTrades (trades : List Trade) : List Nat :=
  (trades.enum.filter fun p => p.2.isOptionWrapper).map Prod.fst

/-- The market update and recalibration calls of close-out processing at date
`d`. -/
def CloseOutUpdateEvent (sticky : Bool) (d : Date) : Event → Prop
  | Event.preUpdate => True
  | Event.updateDate d1 => sticky = false ∧ d1 = d
  | Event.updateScenario d1 => d1 = d
  | Event.postUpdate d1 b => d1 = d ∧ b = !sticky
  | Event.forceRecalculate _ => True
  | Event.recalibrate _ => True
  | _ => False

/-- Some `calculateT0` call for trade `t` in the log raised. -/
def raisedAtT0 (env : Env) (t : Nat) (tr : List Event) : Prop :=
  ∃ pre c post, tr = pre ++ Event.calculateT0 c t :: post ∧
    env.raises pre (Event.calculateT0 c t) = true

/-! ## The counterparty cube -/

/-- The cube date index a counterparty `calculate` call is passed. -/
def Event.cptyDateIndex : Event → Option Nat
  | Event.cptyCalculate _ _ _ k _ _ => some k
  | _ => none

/-- The cube date indexes of the counterparty `calculate` calls in the log, in
order. -/
def cptyDateIndexes (tr : List Event) : List Nat :=
  tr.filterMap Event.cptyDateIndex

/-! ## The helper parameter of the piecewise linear parametrization -/

/-- The integral of the helper parameter `h` over `[0, t]`, in the words of
the class documentation: `h(s)` is the piecewise constant value
`helper2().y(s)`. -/
def Lgm1fPiecewiseLinearParametrization.integral_h (p : Lgm1fPiecewiseLinearParametrization)
    (t : ℚ) : ℚ :=
  stepIntegral (fun v => v) p.helper2.t p.helper2.values 0 t

/-! ## The events a step logs when it completes normally -/

/-- Whenever the step `f` completes normally, the events it logged, in order,
satisfy `Q`. -/
def Logs (Q : List Event → Prop) (f : State → Outcome) : Prop :=
  ∀ s, (f s).err = none → ∃ new, (f s).st.trace = s.trace ++ new ∧ Q new

/-! ## Recalibration -/

/-- The calls one recalibration point makes when nothing raises: for every
model builder in turn, `forceRecalculate` under the policy `Disable`, then
`recalibrate`. -/
def recalRound (om : Mode) (numModelBuilders : Nat) : List Event :=
  (List.range numModelBuilders).flatMap fun b =>
    (if om = Mode.Disable then [Event.forceRecalculate b] else []) ++ [Event.recalibrate b]

/-- Every `forceRecalculate` call in the log is immediately followed by the
`recalibrate` call of the same model builder. -/
def ForceThenRecalibrate (tr : List Event) : Prop :=
  ∀ pre b post, tr = pre ++ Event.forceRecalculate b :: post →
    ∃ rest, post = Event.recalibrate b :: rest

/-- The number of recalibration points of a complete run: one per trade in
the time-zero loop, and one per close-out slot and per valuation slot of every
replayed sample. -/
def recalibrationPoints (eng : Engine) (inp : Input) (dryRun : Bool) : Nat :=
  inp.trades.length +
    numSamplesReplayed inp dryRun *
      ((closeOutDates eng.dg).length + (valuationDates eng.dg).length)

/-- The events `new` hold `k` recalibration points for model builder `b`: `k`
calls of `recalibrate`, as many of `forceRecalculate` under the policy
`Disable` and none otherwise, and every `forceRecalculate` call is immediately
followed by the `recalibrate` call of its model builder. -/
def RecalLog (om : Mode) (b k : Nat) (new : List Event) : Prop :=
  new.count (Event.forceRecalculate b) = (if om = Mode.Disable then k else 0) ∧
  new.count (Event.recalibrate b) = k ∧
  ForceThenRecalibrate new

/-- A call on a model builder. -/
def isRecalibration : Event → Bool
  | Event.forceRecalculate _ => true
  | Event.recalibrate _ => true
  | _ => false

/-! ## The order of the calls within a grid slot -/

/-- A call that advances the scenario market. -/
def isMarketAdvance : Event → Bool
  | Event.preUpdate => true
  | Event.updateDate _ => true
  | Event.updateScenario _ => true
  | Event.postUpdate _ _ => true
  | Event.updateAsd _ => true
  | _ => false

/-- A call of `calculate`, of a trade calculator or of a counterparty
calculator. -/
def isCalculate : Event → Bool
  | Event.calculate _ _ _ _ _ _ => true
  | Event.cptyCalculate _ _ _ _ _ _ => true
  | _ => false

/-- The market calls of close-out processing at date `d`. -/
def closeOutAdvance (sticky : Bool) (d : Date) : List Event :=
  if sticky then [Event.preUpdate, Event.updateScenario d, Event.postUpdate d false]
  else [Event.preUpdate, Event.updateDate d, Event.updateScenario d, Event.postUpdate d true]

/-- The market calls of valuation processing at date `d`; `scenarioUpdated`
tells whether the close-out part of the same slot has applied the scenario. -/
def valuationAdvance (d : Date) (scenarioUpdated : Bool) : List Event :=
  [Event.preUpdate, Event.updateDate d] ++
    (if scenarioUpdated then [] else [Event.updateScenario d]) ++
    [Event.postUpdate d true, Event.updateAsd d]

/-- The events the calculator phase of a part of a grid slot may log: those
of the round of the trade calculators, at a sticky close-out date the switches
of the exercise, and at a valuation date the calls of the counterparty
calculators. -/
def CalcPhaseEvent (inp : Input) (isCloseOut : Bool) (d : Date) (k sample : Nat)
    (ev : Event) : Prop :=
  RoundEvent inp isCloseOut d k sample ev ∨
  (isCloseOut = true ∧ inp.mporStickyDate = true ∧
    ∃ t, ev = Event.disableExercise t ∨ ev = Event.enableExercise t) ∨
  (isCloseOut = false ∧ ∃ c idx, ev = Event.cptyCalculate c idx d k sample false)

/-- The log of one part of a grid slot that completed: the market calls
`advance`, then the recalibration of every model builder, then the calculator
phase. -/
def PartLog (eng : Engine) (inp : Input) (advance : List Event) (isCloseOut : Bool)
    (d : Date) (k sample : Nat) (new : List Event) : Prop :=
  ∃ phase, new = advance ++ recalRound inp.om eng.numModelBuilders ++ phase ∧
    ∀ ev ∈ phase, CalcPhaseEvent inp isCloseOut d k sample ev

/-- The log of a grid slot that completed, given the value `cdi` of
`cubeDateIndex` before it: the close-out part if the slot is a close-out date,
at the cube date index `cdi`, then the valuation part if it is a valuation
date, at the cube date index `cdi + 1`. -/
def SlotLog (eng : Engine) (inp : Input) (sample : Nat) (g : GridSlot) (cdi : Int)
    (new : List Event) : Prop :=
  ∃ co va, new = co ++ va ∧
    (if g.isCloseOutDate then
      PartLog eng inp (closeOutAdvance inp.mporStickyDate g.date) true g.date cdi.toNat sample co
     else co = []) ∧
    (if g.isValuationDate then
      PartLog eng inp (valuationAdvance g.date g.isCloseOutDate) false g.date (cdi + 1).toNat
        sample va
     else va = [])

/-- The log of a sample that completed: the reset of every instrument, then
the grid slots in grid order, then the reset of the fixing manager. -/
def SampleLog (eng : Engine) (inp : Input) (sample : Nat) (new : List Event) : Prop :=
  ∃ resets slots, new = resets ++ slots.flatten ++ [Event.fixingReset] ∧
    (∀ ev ∈ resets, ∃ t, ev = Event.instrumentReset t) ∧
    List.Forall₂ (fun g slot => ∃ cdi, SlotLog eng inp sample g cdi slot) eng.dg slots

/-- An event that is neither a market advance nor a `calculate` call. -/
def OutsideSlots (ev : Event) : Prop :=
  isMarketAdvance ev = false ∧ isCalculate ev = false

/-- The log of a run that completed: a prelude, the replayed samples in
ascending order, and a finish; the prelude and the finish hold no market
advance and no `calculate` call. -/
def RunLog (eng : Engine) (inp : Input) (dryRun : Bool) (new : List Event) : Prop :=
  ∃ prelude samples finish, new = prelude ++ samples.flatten ++ finish ∧
    (∀ ev ∈ prelude, OutsideSlots ev) ∧
    (∀ ev ∈ finish, OutsideSlots ev) ∧
    List.Forall₂ (SampleLog eng inp) (List.range (numSamplesReplayed inp dryRun)) samples

/-! ## Independence of the observation policy -/

/-- A call only some observation policies make: `forceRecalculate` (policy
`Disable`), `updateQlInstruments` (`Disable` and `Unregister`) and the
unregistration of the coupons (`Unregister`). -/
def isPolicyCall : Event → Bool
  | Event.forceRecalculate _ => true
  | Event.updateQlInstruments _ => true
  | Event.unregisterCoupons _ => true
  | _ => false

/-- The call log without the calls only some observation policies make. -/
def policyFree (tr : List Event) : List Event :=
  tr.filter fun ev => !isPolicyCall ev

/-- The input with the observation mode `om` in place of its own. -/
def Input.withMode (inp : Input) (om : Mode) : Input :=
  { inp with om := om }

/-- The collaborators do not tell the policies apart: whether a call raises,
whether what it raises is a `std::exception` and what a calculator writes
depend on the earlier calls only through those every policy makes, and the
calls only some policies make never raise. -/
structure PolicyBlind (env : Env) : Prop where
  raises : ∀ pre ev, env.raises pre ev = env.raises (policyFree pre) ev
  write : ∀ pre ev, env.write pre ev = env.write (policyFree pre) ev
  std : ∀ pre ev, env.std pre ev = env.std (policyFree pre) ev
  calm : ∀ pre ev, isPolicyCall ev = true → env.raises pre ev = false

/-- Two states agree up to the calls only some observation policies make:
the same other calls in the same order, the same cubes, the same error
flags. -/
def Agree (s1 s2 : State) : Prop :=
  policyFree s1.trace = policyFree s2.trace ∧ s1.cubes = s2.cubes ∧
    s1.tradeHasError = s2.tradeHasError

/-- From states that agree, the steps `f` and `g` end the same way in states
that agree. -/
def Sim (f g : State → Outcome) : Prop :=
  ∀ s1 s2, Agree s1 s2 → (f s1).err = (g s2).err ∧ Agree (f s1).st (g s2).st

/-- The step `f` never fails and leaves a state that agrees with the one it
started from. -/
def Silent (f : State → Outcome) : Prop :=
  ∀ s, (f s).err = none ∧ Agree (f s).st s

/-! ## The coordinates of the dry-run fill -/

/-- The coordinates of a cube write are in range for a cube of the dimensions
`dims`: `entityIndex < numIds`, `dateIndex < numDates`,
`sampleIndex < samples` and `depthIndex < depth`.  Events other than cube
writes count as in range. -/
def cubeSetInRange (dims : CubeDims) : Event → Bool
  | Event.cubeSet j i sample d =>
      decide (j < dims.numIds) && decide (i < dims.numDates) &&
        decide (sample < dims.samples) && decide (d < dims.depth)
  | _ => true

/-! ## The start of the fixing manager -/

/-- The grid is not empty and its first date is strictly after the as-of date
of the scenario market: the condition of source line 167. -/
def firstDateAfter (dg : List GridSlot) (asofDate : Date) : Prop :=
  (match dg.head? with
   | some g => decide (g.date > asofDate)
   | none => false) = true

instance (dg : List GridSlot) (asofDate : Date) : Decidable (firstDateAfter dg asofDate) := by
  unfold firstDateAfter
  exact inferInstance

/-- Some date of the grid is strictly after the as-of date of the scenario
market. -/
def someDateAfter (dg : List GridSlot) (asofDate : Date) : Prop :=
  ∃ g ∈ dg, g.date > asofDate

instance (dg : List GridSlot) (asofDate : Date) : Decidable (someDateAfter dg asofDate) := by
  unfold someDateAfter
  exact inferInstance

/-- The events `buildCube` may log from the sample loop on: those of the
replayed samples, of the dry-run fill and of the last loop, and the reset of
the market. -/
def FromSamplesEvent (eng : Engine) (inp : Input) (dryRun : Bool) (ev : Event) : Prop :=
  (∃ sample, sample < numSamplesReplayed inp dryRun ∧ SampleEvent eng inp sample ev) ∨
  FinishEvent eng inp dryRun ev ∨
  ev = Event.marketReset

/-! ## Steps that never complete -/

/-- The step `f` never completes normally, and every event it logs before it
fails satisfies `P`. -/
def Halts (P : Event → Prop) (f : State → Outcome) : Prop :=
  ∀ s, (f s).err ≠ none ∧ Grows P s (f s).st

/-- Some `calculateT0` call for trade `t` in the log raised a
`std::exception`. -/
def raisedStdAtT0 (env : Env) (t : Nat) (tr : List Event) : Prop :=
  ∃ pre c post, tr = pre ++ Event.calculateT0 c t :: post ∧
    env.raises pre (Event.calculateT0 c t) = true ∧
    env.std pre (Event.calculateT0 c t) = true

/-! ## Sample data -/

/-- A cube that stores zero everywhere. -/
def zeroCube : CubeData := ⟨fun _ _ _ _ => 0, fun _ _ => 0⟩

/-- Three cubes that store zero everywhere. -/
def zeroCubes : Cubes := ⟨zeroCube, zeroCube, zeroCube⟩

/-- Collaborators that never raise and calculators that write nothing. -/
def calmEnv : Env := { raises := fun _ _ => false, write := fun _ _ c => c }

/-- A grid of two valuation dates, the second of which is also a close-out
date, and one model builder. -/
def engTwoDates : Engine := ⟨0, [⟨1, true, false⟩, ⟨2, true, true⟩], 1⟩

/-- A grid whose first slot is flagged both close-out and valuation. -/
def engCloseOutFirst : Engine := ⟨0, [⟨1, true, true⟩], 1⟩

/-- One exercisable trade, one calculator, three samples, depth one, sticky
close-out dates, no counterparty cube; the cube matches `engTwoDates`. -/
def inpOneTrade : Input :=
  { trades := [⟨false, true⟩], numCounterparties := 0, outputCube := ⟨1, 2, 3, 1⟩,
    numCalculators := 1, mporStickyDate := true, outputCptyCube := none,
    numCptyCalculators := 0, om := Mode.None }

/-- As `inpOneTrade`, with a cube of one date; it matches `engCloseOutFirst`. -/
def inpOneDate : Input := { inpOneTrade with outputCube := ⟨1, 1, 3, 1⟩ }

/-- As `inpOneTrade`, with a cube for two entities. -/
def inpTwoIds : Input := { inpOneTrade with outputCube := ⟨2, 2, 3, 1⟩ }

/-- Two trades (the first exercisable), one calculator, three samples, depth
one, sticky close-out dates; the cube matches `engTwoDates`. -/
def inpTwoTrades : Input :=
  { inpOneTrade with trades := [⟨false, true⟩, ⟨false, false⟩], outputCube := ⟨2, 2, 3, 1⟩ }

/-- Collaborators of which exactly one call raises: calculator 0 for trade 0
on the first valuation date of sample 1.  Every `calculate` call writes 5 at
its coordinates, depth 0. -/
def raisingEnv : Env :=
  { raises := fun _ ev => decide (ev = Event.calculate 0 0 1 0 1 false)
    write := fun _ ev c =>
      match ev with
      | Event.calculate _ t _ k s _ => { c with outputCube := c.outputCube.set 5 t k s 0 }
      | _ => c }

/-- Collaborators of which `initScenario` of calculator 0 raises once an
exercise has been disabled, that is in the first sticky close-out round. -/
def initScenarioFailsEnv : Env :=
  { raises := fun pre ev =>
      decide (ev = Event.calcInitScenario 0) && decide (Event.disableExercise 0 ∈ pre)
    write := fun _ _ c => c }

/-- Collaborators of which exactly the call `calculateT0` of calculator 0 for
trade 0 raises. -/
def t0FailsEnv : Env :=
  { raises := fun _ ev => decide (ev = Event.calculateT0 0 0)
    write := fun _ _ c => c }

/-- A grid of a valuation date followed by a date that is a close-out date
only, and one model builder. -/
def engCloseOutOnly : Engine := ⟨0, [⟨1, true, false⟩, ⟨2, false, true⟩], 1⟩

/-- One trade and one counterparty, with a counterparty cube and one
counterparty calculator; the trade cube has the one valuation date of
`engCloseOutOnly`, the counterparty cube its two grid dates and the two
entities the check asks for. -/
def inpCptyCube : Input :=
  { trades := [⟨false, true⟩], numCounterparties := 1, outputCube := ⟨1, 1, 3, 1⟩,
    numCalculators := 1, mporStickyDate := true,
    outputCptyCube := some (⟨2, 2, 3, 0⟩, [0, 1]),
    numCptyCalculators := 1, om := Mode.None }

/-- The parametrization with no grid times, `alpha = 1` and `h = 2`
throughout, and the default scaling and shift. -/
def lgmConstantTwo : Lgm1fPiecewiseLinearParametrization :=
  ⟨⟨[], [1]⟩, ⟨[], [2]⟩, 1, 0⟩

/-- As `inpOneTrade`, under the observation policy `Disable`. -/
def inpDisable : Input := { inpOneTrade with om := Mode.Disable }

/-- A grid whose first date is `today`, followed by a later date, and one
model builder. -/
def engStartsToday : Engine := ⟨1, [⟨1, true, false⟩, ⟨2, true, true⟩], 1⟩

/-- As `raisingEnv`, but what the one raising call raises is not a
`std::exception`. -/
def nonStdEnv : Env := { raisingEnv with std := fun _ _ => false }

/-- As `t0FailsEnv`, but what `calculateT0` raises is not a `std::exception`. -/
def t0NonStdEnv : Env := { t0FailsEnv with std := fun _ _ => false }

/-- Collaborators of which exactly the call `preUpdate` of the scenario market
raises. -/
def preUpdateFailsEnv : Env :=
  { raises := fun _ ev => decide (ev = Event.preUpdate)
    write := fun _ _ c => c }

/-- Collaborators of which exactly the call `forceRecalculate` of model
builder 0 raises. -/
def forceRecalculateFailsEnv : Env :=
  { raises := fun _ ev => decide (ev = Event.forceRecalculate 0)
    write := fun _ _ c => c }

/-- Three cubes that store zero everywhere but for the time-zero values of
the output cube, which are 10^17 (a number a double holds exactly; the double
next to it is 16 away). -/
def largeT0Cubes : Cubes :=
  ⟨⟨fun _ _ _ _ => 0, fun _ _ => 100000000000000000⟩, zeroCube, zeroCube⟩

/-- Collaborators that never raise, on a machine whose addition absorbs an
addend from 0 to 8 into 10^17, as the addition of doubles does (round to
nearest), and is exact on all other operands. -/
def roundingEnv : Env :=
  { raises := fun _ _ => false
    write := fun _ _ c => c
    add := fun x y => if x = 100000000000000000 ∧ 0 ≤ y ∧ y ≤ 8 then x else x + y }

/-! # Lemmas and theorems

## Sequencing lemmas -/

@[simp] theorem ok_err (s : State) : (ok s).err = none := rfl

@[simp] theorem ok_st (s : State) : (ok s).st = s := rfl

@[simp] theorem andThen_ok (s : State) (f : State → Outcome) : (ok s).andThen f = f s := rfl

@[simp] theorem andThen_fail (e : Err) (s : State) (f : State → Outcome) :
    (Outcome.mk (some e) s).andThen f = ⟨some e, s⟩ := rfl

theorem andThen_of_none {o : Outcome} (h : o.err = none) (f : State → Outcome) :
    o.andThen f = f o.st := by
  unfold Outcome.andThen; rw [h]

theorem andThen_of_some {o : Outcome} {e : Err} (h : o.err = some e) (f : State → Outcome) :
    o.andThen f = o := by
  unfold Outcome.andThen; rw [h]

@[simp] theorem forEach_nil {α : Type} (f : α → State → Outcome) (s : State) :
    forEach f [] s = ok s := rfl

@[simp] theorem forEach_cons {α : Type} (f : α → State → Outcome) (x : α) (xs : List α)
    (s : State) : forEach f (x :: xs) s = (f x s).andThen (forEach f xs) := rfl

@[simp] theorem block_nil (s : State) : block [] s = ok s := rfl

@[simp] theorem block_cons (f : State → Outcome) (fs : List (State → Outcome)) (s : State) :
    block (f :: fs) s = (f s).andThen (block fs) := rfl

theorem checkDimensions_fail (eng : Engine) (inp : Input) (s : State)
    (h : dimensionMismatch eng inp) :
    ∃ e, checkDimensions eng inp s = ⟨some e, s⟩ ∧ e.isPrecondition = true := by
  unfold dimensionMismatch at h
  unfold checkDimensions
  by_cases h1 : inp.trades.length > 0
  · by_cases h2 : inp.outputCube.numIds = inp.trades.length
    · by_cases h3 : inp.outputCube.numDates = (valuationDates eng.dg).length
      · cases hc : inp.outputCptyCube with
        | none =>
          rw [hc] at h
          rcases h with h | h | h | h
          · omega
          · exact absurd h2 h
          · exact absurd h3 h
          · exact h.elim
        | some p =>
          rw [hc] at h
          by_cases h4 : p.1.numIds = inp.numCounterparties + 1
          · by_cases h5 : p.1.numDates = eng.dg.length
            · rcases h with h | h | h | h | h
              · omega
              · exact absurd h2 h
              · exact absurd h3 h
              · exact absurd h4 h
              · exact absurd h5 h
            · exact ⟨Err.cptyCubeYDimension, by simp [require, h1, h2, h3, h4, h5], rfl⟩
          · exact ⟨Err.cptyCubeXDimension, by simp [require, h1, h2, h3, h4], rfl⟩
      · exact ⟨Err.cubeYDimension, by simp [require, h1, h2, h3], rfl⟩
    · exact ⟨Err.cubeXDimension, by simp [require, h1, h2], rfl⟩
  · exact ⟨Err.emptyPortfolio, by simp [require, h1], rfl⟩

theorem checkDimensions_ok (eng : Engine) (inp : Input) (s : State)
    (h : ¬ dimensionMismatch eng inp) : checkDimensions eng inp s = ok s := by
  unfold dimensionMismatch at h
  unfold checkDimensions
  cases hc : inp.outputCptyCube with
  | none =>
    rw [hc] at h
    simp only [not_or, not_not, not_false_eq_true, and_true] at h
    obtain ⟨h1, h2, h3⟩ := h
    have h1' : inp.trades.length > 0 := by omega
    simp [require, h1', h2, h3]
  | some p =>
    rw [hc] at h
    simp only [not_or, not_not] at h
    obtain ⟨h1, h2, h3, h4, h5⟩ := h
    have h1' : inp.trades.length > 0 := by omega
    simp [require, h1', h2, h3, h4, h5]

theorem andThen_err_none {o : Outcome} {f : State → Outcome} :
    (o.andThen f).err = none ↔ o.err = none ∧ (f o.st).err = none := by
  unfold Outcome.andThen
  cases h : o.err with
  | none => simp
  | some e => simp [h]

theorem andThen_cases (o : Outcome) (f : State → Outcome) :
    (o.err = none ∧ o.andThen f = f o.st) ∨ (∃ e, o.err = some e ∧ o.andThen f = o) := by
  cases h : o.err with
  | none => exact Or.inl ⟨rfl, andThen_of_none h f⟩
  | some e => exact Or.inr ⟨e, rfl, andThen_of_some h f⟩

/-! ## Steps that only log -/

theorem quiet_ok (P : Event → Prop) : Quiet P ok := by
  intro s
  exact ⟨[], by simp, by simp⟩

theorem quiet_call {P : Event → Prop} (env : Env) {ev : Event} (h : P ev) :
    Quiet P (call env ev) := by
  intro s
  refine ⟨[ev], ?_, by simpa using h⟩
  unfold call
  by_cases hr : env.raises s.trace ev <;> simp [hr, ok]

theorem quiet_callAt {P : Event → Prop} (env : Env) (ev : Event) (h : P ev) :
    Quiet P (call env ev) :=
  quiet_call env h

theorem quiet_require (P : Event → Prop) (c : Bool) (e : Err) : Quiet P (require c e) := by
  intro s
  refine ⟨[], ?_, by simp⟩
  unfold require
  cases c <;> simp [ok]

theorem quiet_onlyIf {P : Event → Prop} {b : Bool} {f : State → Outcome}
    (h : b = true → Quiet P f) : Quiet P (onlyIf b f) := by
  intro s
  unfold onlyIf
  cases b with
  | false => simpa using quiet_ok P s
  | true => simpa using h rfl s

theorem quiet_andThen {P : Event → Prop} {f g : State → Outcome}
    (hf : Quiet P f) (hg : Quiet P g) : Quiet P (fun s => (f s).andThen g) := by
  intro s
  obtain ⟨n1, h1, p1⟩ := hf s
  rcases andThen_cases (f s) g with ⟨_, h⟩ | ⟨e, _, h⟩
  · obtain ⟨n2, h2, p2⟩ := hg (f s).st
    refine ⟨n1 ++ n2, ?_, ?_⟩
    · show ((f s).andThen g).st = _
      rw [h, h2, h1]
      simp only [List.append_assoc]
    · intro ev hev
      rcases List.mem_append.1 hev with h' | h'
      · exact p1 ev h'
      · exact p2 ev h'
  · refine ⟨n1, ?_, p1⟩
    show ((f s).andThen g).st = _
    rw [h, h1]

theorem quiet_forEach {α : Type} {P : Event → Prop} {f : α → State → Outcome}
    (xs : List α) (h : ∀ x ∈ xs, Quiet P (f x)) : Quiet P (forEach f xs) := by
  induction xs with
  | nil => exact quiet_ok P
  | cons x rest ih =>
    have h1 : Quiet P (f x) := h x (List.mem_cons_self x rest)
    have h2 : Quiet P (forEach f rest) := ih fun y hy => h y (List.mem_cons_of_mem x hy)
    exact quiet_andThen h1 h2

theorem quiet_block {P : Event → Prop} (fs : List (State → Outcome))
    (h : ∀ f ∈ fs, Quiet P f) : Quiet P (block fs) :=
  quiet_forEach fs h

theorem quiet_recalibrateModels {P : Event → Prop} (env : Env) (eng : Engine) (om : Mode)
    (hf : om = Mode.Disable → ∀ b, P (Event.forceRecalculate b))
    (hr : ∀ b, P (Event.recalibrate b)) : Quiet P (recalibrateModels env eng om) := by
  unfold recalibrateModels
  apply quiet_forEach
  intro b _
  apply quiet_block
  intro f hf'
  simp only [List.mem_cons, List.mem_singleton, List.not_mem_nil, or_false] at hf'
  rcases hf' with rfl | rfl
  · exact quiet_onlyIf fun hb => quiet_call env (hf (by simpa using hb) b)
  · exact quiet_call env (hr b)

theorem quiet_tradeExercisable {P : Event → Prop} (env : Env) (enable : Bool)
    (trades : List Trade)
    (he : enable = true → ∀ t, isExercisable trades t → P (Event.enableExercise t))
    (hd : enable = false → ∀ t, isExercisable trades t → P (Event.disableExercise t)) :
    Quiet P (tradeExercisable env enable trades) := by
  unfold tradeExercisable
  apply quiet_forEach
  intro p hp
  apply quiet_onlyIf
  intro hw
  have hx : isExercisable trades p.1 :=
    ⟨p.2, List.mk_mem_enum_iff_getElem?.1 hp, hw⟩
  cases enable with
  | true => simpa using quiet_call env (he rfl p.1 hx)
  | false => simpa using quiet_call env (hd rfl p.1 hx)

theorem quiet_checkDimensions (P : Event → Prop) (eng : Engine) (inp : Input) :
    Quiet P (checkDimensions eng inp) := by
  unfold checkDimensions
  apply quiet_block
  intro f hf
  simp only [List.mem_cons, List.mem_singleton, List.not_mem_nil, or_false] at hf
  rcases hf with rfl | rfl | rfl | rfl
  · exact quiet_require _ _ _
  · exact quiet_require _ _ _
  · exact quiet_require _ _ _
  · cases inp.outputCptyCube with
    | none => exact quiet_ok P
    | some p =>
      apply quiet_block
      intro f hf
      simp only [List.mem_cons, List.mem_singleton, List.not_mem_nil, or_false] at hf
      rcases hf with rfl | rfl <;> exact quiet_require _ _ _

/-! ## The checks at the head of buildCube -/

theorem buildCubeBody_of_mismatch (env : Env) (eng : Engine) (inp : Input) (dryRun : Bool)
    (asofDate : Date) (s : State) (h : dimensionMismatch eng inp) :
    ∃ e, buildCubeBody env eng inp dryRun asofDate s = ⟨some e, s⟩ ∧
      e.isPrecondition = true := by
  obtain ⟨e, he, hp⟩ := checkDimensions_fail eng inp s h
  refine ⟨e, ?_, hp⟩
  unfold buildCubeBody
  rw [block_cons, he, andThen_fail]

/-- C4: `buildCube` fails with a precondition error whenever the portfolio is
empty, the entity or date count of the output cube differs from the number of
trades or of valuation dates, or a supplied counterparty cube has an entity
count other than counterparties + 1 or a date count other than the number of
grid dates; and when none of these holds the checks raise nothing. -/
theorem buildCube_precondition (env : Env) (eng : Engine) (inp : Input) (dryRun : Bool)
    (asofDate : Date) (cubes : Cubes) :
    (dimensionMismatch eng inp →
      ∃ e, (buildCube env eng inp dryRun asofDate cubes).err = some e ∧
        e.isPrecondition = true) ∧
    (¬ dimensionMismatch eng inp → ∀ s, checkDimensions eng inp s = ok s) := by
  constructor
  · intro h
    obtain ⟨e, he, hp⟩ := buildCubeBody_of_mismatch env eng inp dryRun asofDate ⟨[], cubes, []⟩ h
    exact ⟨e, by simp [buildCube, he], hp⟩
  · intro h s
    exact checkDimensions_ok eng inp s h

/-- Witness for C4: a cube for two entities against a portfolio of one trade
is rejected, the matching cube passes the checks. -/
theorem buildCube_precondition_witness :
    (dimensionMismatch engTwoDates inpTwoIds ∧
      ∃ e, (buildCube calmEnv engTwoDates inpTwoIds false 0 zeroCubes).err = some e ∧
        e.isPrecondition = true) ∧
    (¬ dimensionMismatch engTwoDates inpOneTrade ∧
      ∀ s, checkDimensions engTwoDates inpOneTrade s = ok s) :=
  ⟨⟨by decide,
    (buildCube_precondition calmEnv engTwoDates inpTwoIds false 0 zeroCubes).1 (by decide)⟩,
   ⟨by decide,
    (buildCube_precondition calmEnv engTwoDates inpOneTrade false 0 zeroCubes).2 (by decide)⟩⟩

/-- C5: when `buildCube` fails on an empty portfolio or a dimension mismatch,
the cubes are as they were handed in and the only collaborator call made is
the `reset()` of the scoped guard: no cube was written and no calculator
method was invoked. -/
theorem buildCube_mismatch_atomic (env : Env) (eng : Engine) (inp : Input) (dryRun : Bool)
    (asofDate : Date) (cubes : Cubes) (h : dimensionMismatch eng inp) :
    (buildCube env eng inp dryRun asofDate cubes).st.cubes = cubes ∧
    (buildCube env eng inp dryRun asofDate cubes).st.trace = [Event.marketReset] := by
  obtain ⟨e, he, _⟩ := buildCubeBody_of_mismatch env eng inp dryRun asofDate ⟨[], cubes, []⟩ h
  simp [buildCube, he]

/-- Witness for C5: the run with a cube for two entities against one trade. -/
theorem buildCube_mismatch_atomic_witness :
    dimensionMismatch engTwoDates inpTwoIds ∧
    (buildCube calmEnv engTwoDates inpTwoIds false 0 zeroCubes).st.cubes = zeroCubes ∧
    (buildCube calmEnv engTwoDates inpTwoIds false 0 zeroCubes).st.trace =
      [Event.marketReset] :=
  ⟨by decide,
   buildCube_mismatch_atomic calmEnv engTwoDates inpTwoIds false 0 zeroCubes (by decide)⟩

/-! ## Steps extend the state -/

theorem getD_set_true (l : List Bool) (t e : Nat) :
    (l.set t true).getD e false = true ↔ (e = t ∧ t < l.length) ∨ l.getD e false = true := by
  simp only [List.getD_eq_getElem?_getD, List.getElem?_set]
  by_cases h : t = e
  · subst h
    by_cases h2 : t < l.length
    · simp [h2]
    · simp only [h2, ↓reduceIte, and_false, false_or]
      simp only [not_lt] at h2
      simp [List.getElem?_eq_none h2]
  · simp only [h, ↓reduceIte, iff_or_self, and_imp]
    intro h3
    exact absurd h3.symm h

theorem getD_true_lt {l : List Bool} {e : Nat} (h : l.getD e false = true) : e < l.length := by
  by_contra hlt
  simp only [not_lt] at hlt
  simp [List.getD_eq_getElem?_getD, List.getElem?_eq_none hlt] at h

theorem ext_refl (P : Event → Prop) (s : State) : Ext P s s :=
  ⟨[], by simp, by simp, rfl, fun _ h => h, fun _ h => Or.inl h⟩

theorem ext_trans {P : Event → Prop} {s1 s2 s3 : State} (h12 : Ext P s1 s2)
    (h23 : Ext P s2 s3) : Ext P s1 s3 := by
  obtain ⟨n1, t1, p1, l1, m1, r1⟩ := h12
  obtain ⟨n2, t2, p2, l2, m2, r2⟩ := h23
  refine ⟨n1 ++ n2, by rw [t2, t1, List.append_assoc], ?_, l2.trans l1,
    fun e h => m2 e (m1 e h), ?_⟩
  · intro ev hev
    rcases List.mem_append.1 hev with h | h
    · exact p1 ev h
    · exact p2 ev h
  · intro e he
    rcases r2 e he with h | ⟨ev, hev, h⟩
    · rcases r1 e h with h' | ⟨ev, hev, h'⟩
      · exact Or.inl h'
      · exact Or.inr ⟨ev, List.mem_append_left _ hev, h'⟩
    · exact Or.inr ⟨ev, List.mem_append_right _ hev, h⟩

theorem ext_mono {P Q : Event → Prop} {s1 s2 : State} (h : ∀ ev, P ev → Q ev)
    (h12 : Ext P s1 s2) : Ext Q s1 s2 := by
  obtain ⟨n1, t1, p1, l1, m1, r1⟩ := h12
  exact ⟨n1, t1, fun ev hev => h ev (p1 ev hev), l1, m1, r1⟩

theorem step_mono {P Q : Event → Prop} {f : State → Outcome} (h : ∀ ev, P ev → Q ev)
    (hf : Step P f) : Step Q f :=
  fun s => ext_mono h (hf s)

theorem step_of_quiet {P : Event → Prop} {f : State → Outcome} (h : Quiet P f) : Step P f := by
  intro s
  obtain ⟨new, h1, h2⟩ := h s
  rw [h1]
  exact ⟨new, rfl, h2, rfl, fun _ h => h, fun _ h => Or.inl h⟩

theorem step_ok (P : Event → Prop) : Step P ok :=
  fun s => ext_refl P s

theorem step_andThen {P : Event → Prop} {f g : State → Outcome} (hf : Step P f)
    (hg : Step P g) : Step P (fun s => (f s).andThen g) := by
  intro s
  rcases andThen_cases (f s) g with ⟨_, h⟩ | ⟨e, _, h⟩
  · show Ext P s ((f s).andThen g).st
    rw [h]
    exact ext_trans (hf s) (hg _)
  · show Ext P s ((f s).andThen g).st
    rw [h]
    exact hf s

theorem step_forEach {α : Type} {P : Event → Prop} {f : α → State → Outcome}
    (xs : List α) (h : ∀ x ∈ xs, Step P (f x)) : Step P (forEach f xs) := by
  induction xs with
  | nil => exact step_ok P
  | cons x rest ih =>
    exact step_andThen (h x (List.mem_cons_self x rest))
      (ih fun y hy => h y (List.mem_cons_of_mem x hy))

theorem step_onlyIf {P : Event → Prop} {b : Bool} {f : State → Outcome}
    (h : b = true → Step P f) : Step P (onlyIf b f) := by
  intro s
  unfold onlyIf
  cases b with
  | false => simpa using ext_refl P s
  | true => simpa using h rfl s

theorem ext_invoke {P : Event → Prop} (env : Env) {ev : Event} (h : P ev) (s : State) :
    Ext P s (invoke env ev s).2 :=
  ⟨[ev], rfl, by simpa using h, rfl, fun _ h => h, fun _ h => Or.inl h⟩

theorem tryCalls_cons_raise (env : Env) (ev : Event) (rest : List Event) (s : State)
    (h : env.raises s.trace ev = true) :
    tryCalls env (ev :: rest) s = (true, (invoke env ev s).2) := by
  simp [tryCalls, invoke, h]

theorem tryCalls_cons_pass (env : Env) (ev : Event) (rest : List Event) (s : State)
    (h : ¬ env.raises s.trace ev = true) :
    tryCalls env (ev :: rest) s = tryCalls env rest (invoke env ev s).2 := by
  simp [tryCalls, invoke, h]

theorem uncaught_cons_raise (env : Env) (ev : Event) (rest : List Event) (s : State)
    (h : env.raises s.trace ev = true) :
    uncaught env (ev :: rest) s = if env.std s.trace ev then none else some ev := by
  simp [uncaught, invoke, h]

theorem uncaught_cons_pass (env : Env) (ev : Event) (rest : List Event) (s : State)
    (h : ¬ env.raises s.trace ev = true) :
    uncaught env (ev :: rest) s = uncaught env rest (invoke env ev s).2 := by
  simp [uncaught, invoke, h]

theorem uncaught_of_passed (env : Env) (evs : List Event) :
    ∀ s, ¬ (tryCalls env evs s).1 = true → uncaught env evs s = none := by
  induction evs with
  | nil => exact fun _ _ => rfl
  | cons ev rest ih =>
    intro s h
    by_cases hr : env.raises s.trace ev = true
    · rw [tryCalls_cons_raise env ev rest s hr] at h
      exact absurd rfl h
    · rw [tryCalls_cons_pass env ev rest s hr] at h
      rw [uncaught_cons_pass env ev rest s hr]
      exact ih _ h

theorem uncaught_of_std (env : Env)
    (hstd : ∀ pre ev, env.raises pre ev = true → env.std pre ev = true) (evs : List Event) :
    ∀ s, uncaught env evs s = none := by
  induction evs with
  | nil => exact fun _ => rfl
  | cons ev rest ih =>
    intro s
    by_cases hr : env.raises s.trace ev = true
    · rw [uncaught_cons_raise env ev rest s hr, hstd _ _ hr]
      rfl
    · rw [uncaught_cons_pass env ev rest s hr]
      exact ih _

theorem tryBlock_raised (env : Env) (evs : List Event) (t : Nat) (info : ErrorInfo)
    (s : State) (h : (tryCalls env evs s).1 = true) (hu : uncaught env evs s = none) :
    tryBlock env evs t info s = ok (handleError t info (tryCalls env evs s).2) := by
  simp [tryBlock, h, hu]

theorem tryBlock_passed (env : Env) (evs : List Event) (t : Nat) (info : ErrorInfo)
    (s : State) (h : ¬ (tryCalls env evs s).1 = true) :
    tryBlock env evs t info s = ok (tryCalls env evs s).2 := by
  simp [tryBlock, h, uncaught_of_passed env evs s h]

theorem tryBlock_escaped (env : Env) (evs : List Event) (t : Nat) (info : ErrorInfo)
    (s : State) (ev : Event) (hu : uncaught env evs s = some ev) :
    tryBlock env evs t info s = ⟨some (Err.escaped ev), (tryCalls env evs s).2⟩ := by
  simp [tryBlock, hu]

theorem tryBlock_err_none (env : Env) (evs : List Event) (t : Nat) (info : ErrorInfo)
    (s : State) (h : (tryBlock env evs t info s).err = none) : uncaught env evs s = none := by
  cases hu : uncaught env evs s with
  | none => rfl
  | some ev =>
    rw [tryBlock_escaped env evs t info s ev hu] at h
    exact absurd h (by simp)

theorem ext_tryCalls {P : Event → Prop} (env : Env) (evs : List Event)
    (h : ∀ ev ∈ evs, P ev) (s : State) : Ext P s (tryCalls env evs s).2 := by
  induction evs generalizing s with
  | nil => exact ext_refl P s
  | cons ev rest ih =>
    have h1 : Ext P s (invoke env ev s).2 := ext_invoke env (h ev (List.mem_cons_self ev rest)) s
    unfold tryCalls
    by_cases hr : (invoke env ev s).1 = true
    · simpa [hr] using h1
    · simp only [hr]
      exact ext_trans h1 (ih (fun e he => h e (List.mem_cons_of_mem ev he)) _)

theorem ext_handleError {P : Event → Prop} (t : Nat) (info : ErrorInfo) (s : State)
    (h : P (Event.structuredError t "ScenarioValuation" info)) :
    Ext P s (handleError t info s) := by
  refine ⟨[Event.structuredError t "ScenarioValuation" info], rfl, by simpa using h,
    ?_, ?_, ?_⟩
  · simp [handleError]
  · intro e he
    simp only [handleError]
    exact (getD_set_true _ _ _).2 (Or.inr he)
  · intro e he
    simp only [handleError] at he
    rcases (getD_set_true _ _ _).1 he with ⟨rfl, _⟩ | h'
    · exact Or.inr ⟨_, List.mem_singleton.2 rfl, rfl⟩
    · exact Or.inl h'

theorem step_callCalcAt {P : Event → Prop} (env : Env) (ev : Event) (h : P ev) :
    Step P (callCalc env ev) := by
  intro s
  unfold callCalc
  by_cases hr : (invoke env ev s).1 = true
  · simpa [hr] using ext_invoke env h s
  · simpa [hr] using ext_invoke env h s

theorem step_callCalc {P : Event → Prop} (env : Env) {ev : Event} (h : P ev) :
    Step P (callCalc env ev) := by
  intro s
  unfold callCalc
  by_cases hr : (invoke env ev s).1 = true
  · simpa [hr] using ext_invoke env h s
  · simpa [hr] using ext_invoke env h s

theorem step_block_nil (P : Event → Prop) : Step P (block []) :=
  fun s => ext_refl P s

theorem step_block_cons {P : Event → Prop} {f : State → Outcome}
    {fs : List (State → Outcome)} (hf : Step P f) (hfs : Step P (block fs)) :
    Step P (block (f :: fs)) :=
  step_andThen hf hfs

theorem step_require_cons {P : Event → Prop} {c : Bool} {e : Err}
    {fs : List (State → Outcome)} (hfs : c = true → Step P (block fs)) :
    Step P (block (require c e :: fs)) := by
  intro s
  rw [block_cons]
  cases c with
  | false => simpa [require] using ext_refl P s
  | true => simpa [require] using hfs rfl s

theorem step_tryBlock {P : Event → Prop} (env : Env) (evs : List Event) (t : Nat)
    (info : ErrorInfo) (h : ∀ ev ∈ evs, P ev)
    (he : P (Event.structuredError t "ScenarioValuation" info)) :
    Step P (tryBlock env evs t info) := by
  intro s
  have h1 := ext_tryCalls env evs h s
  cases hu : uncaught env evs s with
  | some ev1 =>
    rw [tryBlock_escaped env evs t info s ev1 hu]
    exact h1
  | none =>
    by_cases hr : (tryCalls env evs s).1 = true
    · rw [tryBlock_raised env evs t info s hr hu, ok_st]
      exact ext_trans h1 (ext_handleError t info _ he)
    · rw [tryBlock_passed env evs t info s hr, ok_st]
      exact h1

/-! ## The events of a run -/

theorem step_runCalculatorsTrade (env : Env) (m : Bool) (inp : Input) (d : Date)
    (k sample j : Nat) (hj : j < inp.trades.length) :
    Step (RoundEvent inp m d k sample) (runCalculatorsTrade env m inp inp.om d k sample j) := by
  intro s
  unfold runCalculatorsTrade
  by_cases hflag : s.tradeHasError.getD j false = true
  · rw [if_pos hflag]
    exact ext_refl _ s
  · rw [if_neg hflag]
    refine step_block_cons (step_onlyIf fun hb => step_of_quiet (quiet_call env ?_))
      (step_block_cons (step_tryBlock env _ j _ ?_ ?_) (step_block_nil _)) s
    · simp only [decide_eq_true_eq] at hb
      exact ⟨hj, hb⟩
    · intro ev hev
      obtain ⟨c, hc, rfl⟩ := List.mem_map.1 hev
      exact ⟨List.mem_range.1 hc, hj, rfl, rfl, rfl, rfl⟩
    · exact ⟨hj, rfl, rfl⟩

theorem step_runCalculators (env : Env) (m : Bool) (inp : Input) (d : Date) (k sample : Nat) :
    Step (RoundEvent inp m d k sample) (runCalculators env m inp d k sample) := by
  unfold runCalculators
  refine step_block_cons (step_forEach _ fun c hc => step_of_quiet (quiet_call env ?_))
    (step_block_cons (step_forEach _ fun j hj => ?_) (step_block_nil _))
  · exact List.mem_range.1 hc
  · exact step_runCalculatorsTrade env m inp d k sample j (List.mem_range.1 hj)

theorem roundEvent_sampleEvent (eng : Engine) (inp : Input) (m : Bool) (d : Date)
    (k sample : Nat) (hc : m = true → CloseOutCall eng.dg d k)
    (hv : m = false → ValuationCall eng.dg d k) (ev : Event)
    (h : RoundEvent inp m d k sample ev) : SampleEvent eng inp sample ev := by
  cases ev <;> simp only [RoundEvent, SampleEvent] at h ⊢
  · exact h
  · exact ⟨h.1, h.2.1, _, h.2.2⟩
  · exact h.1
  · obtain ⟨h1, h2, rfl, rfl, rfl, rfl⟩ := h
    exact ⟨h1, h2, rfl, hc, hv⟩

theorem step_recalibrate_sample (env : Env) (eng : Engine) (inp : Input) (sample : Nat) :
    Step (SampleEvent eng inp sample) (recalibrateModels env eng inp.om) :=
  step_of_quiet (quiet_recalibrateModels env eng inp.om (fun h _ => h) (fun _ => True.intro))

theorem step_runCptyCalculators (env : Env) (eng : Engine) (inp : Input) (d : Date)
    (k sample : Nat) (hv : ValuationCall eng.dg d k) :
    Step (SampleEvent eng inp sample) (runCptyCalculators env false inp d k sample) := by
  unfold runCptyCalculators
  refine step_forEach _ fun idx hidx => step_forEach _ fun c hc => step_callCalc env ?_
  exact ⟨List.mem_range.1 hc, hidx, rfl, rfl, hv⟩

theorem step_processCloseOutDate (env : Env) (eng : Engine) (inp : Input) (sample : Nat)
    (d : Date) (cdi : Int) (h : 0 ≤ cdi → CloseOutCall eng.dg d cdi.toNat) :
    Step (SampleEvent eng inp sample) (processCloseOutDate env eng inp sample d cdi) := by
  unfold processCloseOutDate
  refine step_block_cons (step_of_quiet (quiet_call env True.intro)) ?_
  refine step_block_cons (step_onlyIf fun _ => step_of_quiet (quiet_call env True.intro)) ?_
  refine step_block_cons (step_of_quiet (quiet_call env True.intro)) ?_
  refine step_block_cons (step_of_quiet (quiet_call env True.intro)) ?_
  refine step_block_cons (step_recalibrate_sample env eng inp sample) ?_
  refine step_block_cons (step_onlyIf fun hs => step_of_quiet
    (quiet_tradeExercisable env false inp.trades (fun h => by simp at h)
      (fun _ t ht => ⟨hs, ht⟩))) ?_
  refine step_require_cons fun hc => ?_
  have hcall := h (by simpa using hc)
  refine step_block_cons (step_mono (roundEvent_sampleEvent eng inp true d _ sample
    (fun _ => hcall) (fun h => by simp at h)) (step_runCalculators env true inp d _ sample)) ?_
  refine step_block_cons (step_onlyIf fun hs => step_of_quiet
    (quiet_tradeExercisable env true inp.trades (fun _ t ht => ⟨hs, ht⟩)
      (fun h => by simp at h))) (step_block_nil _)

theorem step_processValuationDate (env : Env) (eng : Engine) (inp : Input) (sample : Nat)
    (d : Date) (cdi : Int) (b : Bool) (h : ValuationCall eng.dg d cdi.toNat) :
    Step (SampleEvent eng inp sample) (processValuationDate env eng inp sample d cdi b) := by
  unfold processValuationDate
  refine step_block_cons (step_of_quiet (quiet_call env True.intro)) ?_
  refine step_block_cons (step_of_quiet (quiet_call env True.intro)) ?_
  refine step_block_cons (step_onlyIf fun _ => step_of_quiet (quiet_call env True.intro)) ?_
  refine step_block_cons (step_of_quiet (quiet_call env True.intro)) ?_
  refine step_block_cons (step_of_quiet (quiet_call env True.intro)) ?_
  refine step_block_cons (step_recalibrate_sample env eng inp sample) ?_
  refine step_block_cons (step_mono (roundEvent_sampleEvent eng inp false d _ sample
    (fun h => by simp at h) (fun _ => h)) (step_runCalculators env false inp d _ sample)) ?_
  exact step_block_cons (step_runCptyCalculators env eng inp d _ sample h) (step_block_nil _)

theorem drop_cons_spec {l : List GridSlot} {i : Nat} {g : GridSlot} {rest : List GridSlot}
    (h : l.drop i = g :: rest) :
    l[i]? = some g ∧ l.drop (i + 1) = rest ∧
      valuationDatesBefore l (i + 1) =
        valuationDatesBefore l i + (if g.isValuationDate then 1 else 0) := by
  have h1 : l[i]? = some g := by
    have := List.getElem?_drop (L := l) (i := i) (j := 0)
    rw [h] at this
    simpa using this.symm
  refine ⟨h1, ?_, ?_⟩
  · have : l.drop (i + 1) = (l.drop i).drop 1 := by
      rw [List.drop_drop, Nat.add_comm]
    rw [this, h]
    rfl
  · unfold valuationDatesBefore
    rw [List.take_succ, h1]
    cases hv : g.isValuationDate <;> simp [List.filter_append, hv]

theorem step_dateLoop (env : Env) (eng : Engine) (inp : Input) (sample : Nat) :
    ∀ (rest : List GridSlot) (i : Nat) (cdi : Int), eng.dg.drop i = rest →
      cdi = (valuationDatesBefore eng.dg i : Int) - 1 →
      Step (SampleEvent eng inp sample) (dateLoop env eng inp sample rest cdi) := by
  intro rest
  induction rest with
  | nil =>
    intro i cdi _ _ s
    exact ext_refl _ s
  | cons g rest ih =>
    intro i cdi hdrop hcdi
    obtain ⟨hg, hrest, hval⟩ := drop_cons_spec hdrop
    have hnext : (if g.isValuationDate = true then cdi + 1 else cdi) =
        (valuationDatesBefore eng.dg (i + 1) : Int) - 1 := by
      rw [hval, hcdi]
      cases g.isValuationDate <;> simp
    refine step_andThen (f := block _) (step_block_cons (step_onlyIf fun hc => ?_)
      (step_block_cons (step_onlyIf fun hv => ?_) (step_block_nil _)))
      (ih (i + 1) _ hrest hnext)
    · refine step_processCloseOutDate env eng inp sample g.date cdi fun h0 => ?_
      refine ⟨i, g, hg, hc, rfl, ?_⟩
      rw [Int.toNat_of_nonneg h0, hcdi]
    · refine step_processValuationDate env eng inp sample g.date _ g.isCloseOutDate ?_
      refine ⟨i, g, hg, hv, rfl, ?_⟩
      rw [hv, hcdi]
      simp

theorem step_processSample (env : Env) (eng : Engine) (inp : Input) (sample : Nat) :
    Step (SampleEvent eng inp sample) (processSample env eng inp sample) := by
  unfold processSample
  refine step_block_cons (step_forEach _ fun t ht =>
    step_of_quiet (quiet_call env (List.mem_range.1 ht))) ?_
  refine step_block_cons (step_dateLoop env eng inp sample eng.dg 0 (-1) rfl ?_) ?_
  · simp [valuationDatesBefore]
  · exact step_block_cons (step_of_quiet (quiet_call env True.intro)) (step_block_nil _)

theorem step_initialiseTrade (env : Env) (eng : Engine) (inp : Input) (p : Nat × Trade) :
    Step (TradeInitEvent inp p.1) (initialiseTrade env eng inp p) := by
  unfold initialiseTrade
  refine step_block_cons (step_of_quiet (quiet_require _ _ _)) ?_
  refine step_block_cons (step_of_quiet (quiet_call env rfl)) ?_
  refine step_block_cons (step_of_quiet
    (quiet_recalibrateModels env eng inp.om (fun h _ => h) (fun _ => True.intro))) ?_
  refine step_block_cons (step_tryBlock env _ p.1 _ ?_ ⟨rfl, rfl, rfl⟩) ?_
  · intro ev hev
    obtain ⟨c, hc, rfl⟩ := List.mem_map.1 hev
    exact ⟨List.mem_range.1 hc, rfl⟩
  · refine step_block_cons (step_onlyIf fun hb => step_of_quiet (quiet_call env ?_))
      (step_block_nil _)
    exact ⟨rfl, by simpa using hb⟩

theorem step_initialiseTrades (env : Env) (eng : Engine) (inp : Input) :
    Step (TimeZeroEvent inp) (forEach (initialiseTrade env eng inp) inp.trades.enum) :=
  step_forEach _ fun p hp =>
    step_mono (fun _ h => ⟨p.1, List.fst_lt_of_mem_enum hp, h⟩)
      (step_initialiseTrade env eng inp p)

theorem ext_call_then_cubes {P : Event → Prop} (env : Env) {ev : Event} (h : P ev)
    (g : State → Cubes) (s : State) :
    Ext P s ((call env ev s).andThen fun s1 => ok { s1 with cubes := g s1 }).st := by
  have hq := step_of_quiet (quiet_call env h) s
  rcases andThen_cases (call env ev s) (fun s1 => ok { s1 with cubes := g s1 })
    with ⟨_, h1⟩ | ⟨e, _, h1⟩
  · rw [h1]
    exact hq
  · rw [h1]
    exact hq

theorem step_dryRunSet {P : Event → Prop} (env : Env) (sample i j d : Nat)
    (h : P (Event.cubeSet j i sample d)) : Step P (dryRunSet env sample i j d) := by
  intro s
  unfold dryRunSet
  exact ext_call_then_cubes env h _ s

theorem step_dryRunFill (env : Env) (eng : Engine) (inp : Input) (dryRun : Bool) :
    Step (FillEvent eng inp dryRun) (dryRunFill env eng inp dryRun) := by
  unfold dryRunFill
  refine step_onlyIf fun hdry => step_forEach _ fun sample hs => step_forEach _ fun i hi =>
    step_forEach _ fun j hj => step_forEach _ fun d hd => step_dryRunSet env sample i j d ?_
  have hs' := List.mem_range'_1.1 hs
  exact ⟨hdry, List.mem_range.1 hj, List.mem_range.1 hi, hs'.1, by omega, List.mem_range.1 hd⟩

theorem step_removeIfError {P : Event → Prop} (env : Env) (i : Nat)
    (h : P (Event.cubeRemove i)) : Step P (removeIfError env i) := by
  intro s
  unfold removeIfError
  by_cases hflag : s.tradeHasError.getD i false = true
  · rw [if_pos hflag]
    exact ext_call_then_cubes env h _ s
  · rw [if_neg hflag]
    exact ext_refl P s

theorem step_sampleLoop (env : Env) (eng : Engine) (inp : Input) (dryRun : Bool) :
    Step (RunEvent eng inp dryRun)
      (forEach (processSample env eng inp) (List.range (numSamplesReplayed inp dryRun))) :=
  step_forEach _ fun sample hs =>
    step_mono (fun _ hev => Or.inr (Or.inr (Or.inr (Or.inl ⟨sample, List.mem_range.1 hs, hev⟩))))
      (step_processSample env eng inp sample)

theorem step_simulate (env : Env) (eng : Engine) (inp : Input) (dryRun : Bool)
    (asofDate : Date) :
    Step (RunEvent eng inp dryRun) (simulate env eng inp dryRun asofDate) := by
  unfold simulate
  refine step_block_cons (step_mono (fun _ h => Or.inr (Or.inl h))
    (step_initialiseTrades env eng inp)) ?_
  refine step_block_cons (step_onlyIf fun _ =>
    step_of_quiet (quiet_call env (Or.inr (Or.inr (Or.inl rfl))))) ?_
  refine step_block_cons (step_sampleLoop env eng inp dryRun) ?_
  refine step_block_cons (step_mono
    (fun _ h => Or.inr (Or.inr (Or.inr (Or.inr (Or.inl (Or.inl h))))))
    (step_dryRunFill env eng inp dryRun)) ?_
  exact step_block_cons (step_forEach _ fun i hi => step_removeIfError env i
    (Or.inr (Or.inr (Or.inr (Or.inr (Or.inl (Or.inr ⟨i, List.mem_range.1 hi, rfl⟩)))))))
    (step_block_nil _)

theorem grows_refl (P : Event → Prop) (s : State) : Grows P s s :=
  ⟨[], by simp, by simp⟩

theorem grows_trans {P : Event → Prop} {s1 s2 s3 : State} (h12 : Grows P s1 s2)
    (h23 : Grows P s2 s3) : Grows P s1 s3 := by
  obtain ⟨n1, t1, p1⟩ := h12
  obtain ⟨n2, t2, p2⟩ := h23
  refine ⟨n1 ++ n2, by rw [t2, t1, List.append_assoc], ?_⟩
  intro ev hev
  rcases List.mem_append.1 hev with h | h
  · exact p1 ev h
  · exact p2 ev h

theorem emits_of_step {P : Event → Prop} {f : State → Outcome} (h : Step P f) : Emits P f :=
  fun s => let ⟨new, h1, h2, _⟩ := h s; ⟨new, h1, h2⟩

theorem emits_andThen {P : Event → Prop} {f g : State → Outcome} (hf : Emits P f)
    (hg : Emits P g) : Emits P (fun s => (f s).andThen g) := by
  intro s
  rcases andThen_cases (f s) g with ⟨_, h⟩ | ⟨e, _, h⟩
  · show Grows P s ((f s).andThen g).st
    rw [h]
    exact grows_trans (hf s) (hg _)
  · show Grows P s ((f s).andThen g).st
    rw [h]
    exact hf s

theorem emits_block_cons {P : Event → Prop} {f : State → Outcome}
    {fs : List (State → Outcome)} (hf : Emits P f) (hfs : Emits P (block fs)) :
    Emits P (block (f :: fs)) :=
  emits_andThen hf hfs

theorem quiet_initialiseCalculators (env : Env) (eng : Engine) (inp : Input) (dryRun : Bool) :
    Quiet (RunEvent eng inp dryRun) (initialiseCalculators env inp) := by
  unfold initialiseCalculators
  refine quiet_forEach _ fun c hc => quiet_block _ fun f hf => ?_
  simp only [List.mem_cons, List.mem_singleton, List.not_mem_nil, or_false] at hf
  rcases hf with rfl | rfl
  · exact quiet_call env (Or.inl ⟨c, List.mem_range.1 hc, Or.inl rfl⟩)
  · exact quiet_call env (Or.inl ⟨c, List.mem_range.1 hc, Or.inr rfl⟩)


theorem emits_buildCubeBody (env : Env) (eng : Engine) (inp : Input) (dryRun : Bool)
    (asofDate : Date) :
    Emits (RunEvent eng inp dryRun) (buildCubeBody env eng inp dryRun asofDate) := by
  unfold buildCubeBody
  refine emits_block_cons (emits_of_step (step_of_quiet (quiet_checkDimensions _ eng inp))) ?_
  refine emits_block_cons (emits_of_step (step_of_quiet
    (quiet_initialiseCalculators env eng inp dryRun))) ?_
  refine emits_block_cons (fun s => grows_refl _ _) ?_
  exact emits_block_cons (emits_of_step (step_simulate env eng inp dryRun asofDate))
    (fun s => grows_refl _ _)

theorem buildCube_runEvent (env : Env) (eng : Engine) (inp : Input) (dryRun : Bool)
    (asofDate : Date) (cubes : Cubes) (ev : Event)
    (h : ev ∈ (buildCube env eng inp dryRun asofDate cubes).st.trace) :
    RunEvent eng inp dryRun ev := by
  obtain ⟨new, h1, h2⟩ := emits_buildCubeBody env eng inp dryRun asofDate ⟨[], cubes, []⟩
  simp only [buildCube, h1, List.nil_append, List.mem_append, List.mem_singleton] at h
  rcases h with h | rfl
  · exact h2 ev h
  · exact Or.inr (Or.inr (Or.inr (Or.inr (Or.inr rfl))))

/-! ## Raised calculators, error flags and structured errors -/

theorem snoc_eq_append_cons {α : Type} {tr pre post : List α} {a x : α}
    (h : tr ++ [a] = pre ++ x :: post) :
    (pre = tr ∧ x = a ∧ post = []) ∨ ∃ post1, post = post1 ++ [a] ∧ tr = pre ++ x :: post1 := by
  rcases List.eq_nil_or_concat post with rfl | ⟨post1, b, rfl⟩
  · obtain ⟨h1, h2⟩ := List.append_inj' h rfl
    exact Or.inl ⟨h1.symm, by simpa using h2.symm, rfl⟩
  · have h' : tr ++ [a] = (pre ++ x :: post1) ++ [b] := by simpa using h
    obtain ⟨h1, h2⟩ := List.append_inj' h' rfl
    have hab : a = b := by simpa using h2
    exact Or.inr ⟨post1, by rw [hab, List.concat_eq_append], h1⟩

theorem raisedFor_snoc (env : Env) (t : Nat) (tr : List Event) (ev : Event) :
    raisedFor env t (tr ++ [ev]) ↔
      raisedFor env t tr ∨ (ev.calcTrade = some t ∧ env.raises tr ev = true) := by
  constructor
  · rintro ⟨pre, x, post, h, hx, hr⟩
    rcases snoc_eq_append_cons h with ⟨rfl, rfl, rfl⟩ | ⟨post1, rfl, rfl⟩
    · exact Or.inr ⟨hx, hr⟩
    · exact Or.inl ⟨pre, x, post1, rfl, hx, hr⟩
  · rintro (⟨pre, x, post, rfl, hx, hr⟩ | ⟨hx, hr⟩)
    · exact ⟨pre, x, post ++ [ev], by simp, hx, hr⟩
    · exact ⟨tr, ev, [], rfl, hx, hr⟩

theorem noCallAfterRaise_snoc (env : Env) (tr : List Event) (ev : Event) :
    NoCallAfterRaise env (tr ++ [ev]) ↔
      NoCallAfterRaise env tr ∧ ∀ t, ev.calcTrade = some t → ¬ raisedFor env t tr := by
  constructor
  · intro h
    refine ⟨fun pre x post t hsplit hx => ?_, fun t ht => h tr ev [] t rfl ht⟩
    exact h pre x (post ++ [ev]) t (by simp [hsplit]) hx
  · rintro ⟨h1, h2⟩ pre x post t hsplit hx
    rcases snoc_eq_append_cons hsplit with ⟨rfl, rfl, rfl⟩ | ⟨post1, rfl, rfl⟩
    · exact h2 t hx
    · exact h1 pre x post1 t rfl hx

theorem errorLogged_append (t : Nat) (tr new : List Event) :
    errorLogged t (tr ++ new) ↔ errorLogged t tr ∨ errorLogged t new := by
  unfold errorLogged
  constructor
  · rintro ⟨ev, hev, h⟩
    rcases List.mem_append.1 hev with h' | h'
    · exact Or.inl ⟨ev, h', h⟩
    · exact Or.inr ⟨ev, h', h⟩
  · rintro (⟨ev, hev, h⟩ | ⟨ev, hev, h⟩)
    · exact ⟨ev, List.mem_append_left _ hev, h⟩
    · exact ⟨ev, List.mem_append_right _ hev, h⟩

theorem errorCount_append (t : Nat) (tr new : List Event) :
    errorCount t (tr ++ new) = errorCount t tr + errorCount t new := by
  unfold errorCount
  exact List.countP_append _ _ _

theorem errorCount_eq_zero {t : Nat} {tr : List Event} (h : ¬ errorLogged t tr) :
    errorCount t tr = 0 := by
  unfold errorCount
  rw [List.countP_eq_zero]
  intro ev hev
  simp only [decide_eq_true_eq]
  exact fun he => h ⟨ev, hev, he⟩

theorem raisedFor_append_neutral (env : Env) (t : Nat) (tr new : List Event)
    (h : ∀ ev ∈ new, ev.calcTrade = none) :
    raisedFor env t (tr ++ new) ↔ raisedFor env t tr := by
  induction new using List.reverseRecOn with
  | nil => simp
  | append_singleton l a ih =>
    rw [← List.append_assoc, raisedFor_snoc, ih fun ev hev => h ev (List.mem_append_left _ hev)]
    have ha : a.calcTrade = none := h a (by simp)
    simp [ha]

theorem noCallAfterRaise_append_neutral (env : Env) (tr new : List Event)
    (h : ∀ ev ∈ new, ev.calcTrade = none) :
    NoCallAfterRaise env (tr ++ new) ↔ NoCallAfterRaise env tr := by
  induction new using List.reverseRecOn with
  | nil => simp
  | append_singleton l a ih =>
    rw [← List.append_assoc, noCallAfterRaise_snoc,
      ih fun ev hev => h ev (List.mem_append_left _ hev)]
    have ha : a.calcTrade = none := h a (by simp)
    simp [ha]

theorem not_errorLogged_of_neutral (t : Nat) (new : List Event)
    (h : ∀ ev ∈ new, ev.errorTrade = none) : ¬ errorLogged t new := by
  rintro ⟨ev, hev, he⟩
  rw [h ev hev] at he
  exact absurd he (by simp)

theorem ext_neutral_flag {s1 s2 : State} (h : Ext Neutral s1 s2) (e : Nat) :
    s2.tradeHasError.getD e false = s1.tradeHasError.getD e false := by
  obtain ⟨new, _, hn, _, hm, hr⟩ := h
  cases h1 : s1.tradeHasError.getD e false with
  | true => exact hm e h1
  | false =>
    cases h2 : s2.tradeHasError.getD e false with
    | false => rfl
    | true =>
      rcases hr e h2 with h' | ⟨ev, hev, he⟩
      · rw [h1] at h'
        exact absurd h' (by simp)
      · rw [(hn ev hev).2] at he
        exact absurd he (by simp)

theorem inv_of_ext_neutral {env : Env} {n : Nat} {s1 s2 : State} (hI : Inv env n s1)
    (h : Ext Neutral s1 s2) : Inv env n s2 := by
  have hflag := ext_neutral_flag h
  obtain ⟨new, ht, hn, hl, _, _⟩ := h
  have hc : ∀ ev ∈ new, ev.calcTrade = none := fun ev hev => (hn ev hev).1
  have he : ∀ ev ∈ new, ev.errorTrade = none := fun ev hev => (hn ev hev).2
  refine ⟨hl.trans hI.length, fun t => ?_, fun t => ?_, ?_, fun t => ?_⟩
  · rw [hflag, ht, raisedFor_append_neutral env t _ _ hc]
    exact hI.flag_iff t
  · rw [ht, raisedFor_append_neutral env t _ _ hc, errorLogged_append]
    constructor
    · rintro (h1 | h1)
      · exact (hI.logged_iff t).1 h1
      · exact absurd h1 (not_errorLogged_of_neutral t new he)
    · exact fun h1 => Or.inl ((hI.logged_iff t).2 h1)
  · rw [ht, noCallAfterRaise_append_neutral env _ _ hc]
    exact hI.noCall
  · rw [ht, errorCount_append, errorCount_eq_zero (not_errorLogged_of_neutral t new he)]
    exact hI.count t

theorem keeps_of_step_neutral {P : Event → Prop} {f : State → Outcome} (env : Env) (n : Nat)
    (hP : ∀ ev, P ev → Neutral ev) (h : Step P f) : Keeps (Inv env n) f :=
  fun s hI => inv_of_ext_neutral hI (ext_mono hP (h s))

theorem keeps_andThen {I : State → Prop} {f g : State → Outcome} (hf : Keeps I f)
    (hg : Keeps I g) : Keeps I (fun s => (f s).andThen g) := by
  intro s hI
  rcases andThen_cases (f s) g with ⟨_, h⟩ | ⟨e, _, h⟩
  · show I ((f s).andThen g).st
    rw [h]
    exact hg _ (hf s hI)
  · show I ((f s).andThen g).st
    rw [h]
    exact hf s hI

theorem keeps_forEach {α : Type} {I : State → Prop} {f : α → State → Outcome}
    (xs : List α) (h : ∀ x ∈ xs, Keeps I (f x)) : Keeps I (forEach f xs) := by
  induction xs with
  | nil => exact fun s hI => hI
  | cons x rest ih =>
    exact keeps_andThen (h x (List.mem_cons_self x rest))
      (ih fun y hy => h y (List.mem_cons_of_mem x hy))

theorem keeps_block_nil (I : State → Prop) : Keeps I (block []) :=
  fun _ hI => hI

theorem keeps_block_cons {I : State → Prop} {f : State → Outcome}
    {fs : List (State → Outcome)} (hf : Keeps I f) (hfs : Keeps I (block fs)) :
    Keeps I (block (f :: fs)) :=
  keeps_andThen hf hfs

theorem keeps_onlyIf {I : State → Prop} {b : Bool} {f : State → Outcome}
    (h : b = true → Keeps I f) : Keeps I (onlyIf b f) := by
  intro s hI
  unfold onlyIf
  cases b with
  | false => simpa using hI
  | true => simpa using h rfl s hI

theorem tryCalls_spec (env : Env) (t : Nat) (evs : List Event)
    (hevs : ∀ ev ∈ evs, ev.calcTrade = some t ∧ ev.errorTrade = none) :
    ∀ s, ¬ raisedFor env t s.trace → NoCallAfterRaise env s.trace →
      (tryCalls env evs s).2.tradeHasError = s.tradeHasError ∧
      (∀ u, raisedFor env u (tryCalls env evs s).2.trace ↔
        raisedFor env u s.trace ∨ (u = t ∧ (tryCalls env evs s).1 = true)) ∧
      (∀ u, errorLogged u (tryCalls env evs s).2.trace ↔ errorLogged u s.trace) ∧
      NoCallAfterRaise env (tryCalls env evs s).2.trace ∧
      (∀ u, errorCount u (tryCalls env evs s).2.trace = errorCount u s.trace) := by
  induction evs with
  | nil =>
    intro s _ hn
    simp [tryCalls, hn]
  | cons ev rest ih =>
    intro s hnr hn
    obtain ⟨hc, he⟩ := hevs ev (List.mem_cons_self ev rest)
    have hn1 : NoCallAfterRaise env (s.trace ++ [ev]) := by
      rw [noCallAfterRaise_snoc]
      refine ⟨hn, fun u hu => ?_⟩
      rw [hc] at hu
      cases hu
      exact hnr
    have hl1 : ∀ u, errorLogged u (s.trace ++ [ev]) ↔ errorLogged u s.trace := by
      intro u
      rw [errorLogged_append]
      constructor
      · rintro (h | ⟨x, hx, hxe⟩)
        · exact h
        · rw [List.mem_singleton.1 hx, he] at hxe
          exact absurd hxe (by simp)
      · exact Or.inl
    have hc1 : ∀ u, errorCount u (s.trace ++ [ev]) = errorCount u s.trace := by
      intro u
      rw [errorCount_append]
      simp [errorCount, he]
    by_cases hr : env.raises s.trace ev = true
    · rw [tryCalls_cons_raise env ev rest s hr]
      refine ⟨rfl, fun u => ?_, hl1, hn1, hc1⟩
      show raisedFor env u (s.trace ++ [ev]) ↔ _
      rw [raisedFor_snoc, hc, hr]
      simp [eq_comm]
    · rw [tryCalls_cons_pass env ev rest s hr]
      have hnr1 : ¬ raisedFor env t (s.trace ++ [ev]) := by
        rw [raisedFor_snoc]
        rintro (h | ⟨_, h⟩)
        · exact hnr h
        · exact hr h
      obtain ⟨i1, i2, i3, i4, i5⟩ := ih (fun e h => hevs e (List.mem_cons_of_mem ev h))
        (invoke env ev s).2 hnr1 hn1
      refine ⟨i1, fun u => ?_, fun u => (i3 u).trans (hl1 u), i4,
        fun u => (i5 u).trans (hc1 u)⟩
      rw [i2 u]
      show raisedFor env u (s.trace ++ [ev]) ∨ _ ↔ _
      rw [raisedFor_snoc, hc]
      constructor
      · rintro ((h | ⟨_, h⟩) | h)
        · exact Or.inl h
        · exact absurd h hr
        · exact Or.inr h
      · rintro (h | h)
        · exact Or.inl (Or.inl h)
        · exact Or.inr h

theorem andThen_block_nil (o : Outcome) : o.andThen (block []) = o := by
  obtain ⟨e, s⟩ := o
  cases e <;> rfl

theorem block_singleton (f : State → Outcome) (s : State) : block [f] s = f s := by
  rw [block_cons, andThen_block_nil]

theorem keeps_of_quiet_neutral {f : State → Outcome} (env : Env) (n : Nat)
    (h : Quiet Neutral f) : Keeps (Inv env n) f :=
  keeps_of_step_neutral env n (fun _ h => h) (step_of_quiet h)

theorem keeps_call_neutral (env : Env) (n : Nat) {ev : Event} (h : Neutral ev) :
    Keeps (Inv env n) (call env ev) :=
  keeps_of_quiet_neutral env n (quiet_call env h)

theorem keeps_recalibrateModels (env : Env) (n : Nat) (eng : Engine) (om : Mode) :
    Keeps (Inv env n) (recalibrateModels env eng om) :=
  keeps_of_quiet_neutral env n
    (quiet_recalibrateModels env eng om (fun _ _ => ⟨rfl, rfl⟩) (fun _ => ⟨rfl, rfl⟩))

theorem keeps_tradeExercisable (env : Env) (n : Nat) (enable : Bool) (trades : List Trade) :
    Keeps (Inv env n) (tradeExercisable env enable trades) :=
  keeps_of_quiet_neutral env n
    (quiet_tradeExercisable env enable trades (fun _ _ _ => ⟨rfl, rfl⟩)
      (fun _ _ _ => ⟨rfl, rfl⟩))

theorem keeps_require (env : Env) (n : Nat) (c : Bool) (e : Err) :
    Keeps (Inv env n) (require c e) :=
  keeps_of_quiet_neutral env n (quiet_require _ c e)

theorem keeps_runCptyCalculators (env : Env) (n : Nat) (m : Bool) (inp : Input) (d : Date)
    (k sample : Nat) : Keeps (Inv env n) (runCptyCalculators env m inp d k sample) := by
  unfold runCptyCalculators
  exact keeps_forEach _ fun idx _ => keeps_forEach _ fun c _ =>
    keeps_of_step_neutral env n (fun _ h => h) (step_callCalc env ⟨rfl, rfl⟩)

theorem keeps_dryRunFill (env : Env) (n : Nat) (eng : Engine) (inp : Input) (dryRun : Bool) :
    Keeps (Inv env n) (dryRunFill env eng inp dryRun) := by
  unfold dryRunFill
  exact keeps_onlyIf fun _ => keeps_forEach _ fun sample _ => keeps_forEach _ fun i _ =>
    keeps_forEach _ fun j _ => keeps_forEach _ fun d _ =>
      keeps_of_step_neutral env n (fun _ h => h) (step_dryRunSet env sample i j d ⟨rfl, rfl⟩)

theorem keeps_removeIfError (env : Env) (n i : Nat) : Keeps (Inv env n) (removeIfError env i) :=
  keeps_of_step_neutral env n (fun _ h => h) (step_removeIfError env i ⟨rfl, rfl⟩)

theorem inv_unflagged_of_neutral {f : State → Outcome} (env : Env) (n t : Nat)
    (h : Step Neutral f) (s : State)
    (hI : Inv env n s ∧ ¬ s.tradeHasError.getD t false = true) :
    Inv env n (f s).st ∧ ¬ (f s).st.tradeHasError.getD t false = true :=
  ⟨inv_of_ext_neutral hI.1 (h s), by rw [ext_neutral_flag (h s) t]; exact hI.2⟩

/-! ## Which raises escape -/

theorem escapes_ok (P : Event → Prop) : Escapes P ok := by
  intro s ev h
  simp at h

theorem escapes_call {P : Event → Prop} (env : Env) {ev : Event} (h : P ev) :
    Escapes P (call env ev) := by
  intro s ev1 h1
  unfold call at h1
  by_cases hr : env.raises s.trace ev = true
  · simp only [hr, ↓reduceIte, Option.some.injEq, Err.escaped.injEq] at h1
    exact h1 ▸ h
  · simp [hr] at h1

theorem escapes_callCalc {P : Event → Prop} (env : Env) {ev : Event} (h : P ev) :
    Escapes P (callCalc env ev) := by
  intro s ev1 h1
  unfold callCalc at h1
  by_cases hr : (invoke env ev s).1 = true
  · simp only [hr, ↓reduceIte, Option.some.injEq, Err.escaped.injEq] at h1
    exact h1 ▸ h
  · simp [hr] at h1

theorem escapes_require (P : Event → Prop) (c : Bool) {e : Err}
    (h : ∀ ev, e ≠ Err.escaped ev) : Escapes P (require c e) := by
  intro s ev h1
  unfold require at h1
  cases c with
  | true => simp at h1
  | false =>
    simp only [Bool.false_eq_true, ↓reduceIte, Option.some.injEq] at h1
    exact absurd h1 (h ev)

theorem escapes_onlyIf {P : Event → Prop} {b : Bool} {f : State → Outcome}
    (h : b = true → Escapes P f) : Escapes P (onlyIf b f) := by
  intro s ev h1
  unfold onlyIf at h1
  cases b with
  | false => simp at h1
  | true => exact h rfl s ev (by simpa using h1)

theorem escapes_andThen {P : Event → Prop} {f g : State → Outcome} (hf : Escapes P f)
    (hg : Escapes P g) : Escapes P (fun s => (f s).andThen g) := by
  intro s ev h1
  rcases andThen_cases (f s) g with ⟨_, h⟩ | ⟨e, _, h⟩
  · simp only [h] at h1
    exact hg _ ev h1
  · simp only [h] at h1
    exact hf s ev h1

theorem escapes_forEach {α : Type} {P : Event → Prop} {f : α → State → Outcome}
    (xs : List α) (h : ∀ x ∈ xs, Escapes P (f x)) : Escapes P (forEach f xs) := by
  induction xs with
  | nil => exact escapes_ok P
  | cons x rest ih =>
    exact escapes_andThen (h x (List.mem_cons_self x rest))
      (ih fun y hy => h y (List.mem_cons_of_mem x hy))

theorem escapes_block_nil (P : Event → Prop) : Escapes P (block []) :=
  escapes_ok P

theorem escapes_block_cons {P : Event → Prop} {f : State → Outcome}
    {fs : List (State → Outcome)} (hf : Escapes P f) (hfs : Escapes P (block fs)) :
    Escapes P (block (f :: fs)) :=
  escapes_andThen hf hfs

theorem escapes_call_then {P : Event → Prop} (env : Env) {ev : Event} (h : P ev)
    (g : State → Cubes) :
    Escapes P (fun s => (call env ev s).andThen fun s1 => ok { s1 with cubes := g s1 }) :=
  escapes_andThen (escapes_call env h) (fun s ev h1 => by simp at h1)

theorem escapes_call_noTry (env : Env) {ev : Event} (h : ev.calcTrade = none) :
    Escapes (fun ev => ev.calcTrade = none) (call env ev) :=
  escapes_call env h

theorem escapes_callCalc_noTry (env : Env) {ev : Event} (h : ev.calcTrade = none) :
    Escapes (fun ev => ev.calcTrade = none) (callCalc env ev) :=
  escapes_callCalc env h

theorem escapes_callAt (env : Env) (ev : Event) (h : ev.calcTrade = none) :
    Escapes (fun ev => ev.calcTrade = none) (call env ev) :=
  escapes_call env h

theorem escapes_call_thenAt (env : Env) (ev : Event) (h : ev.calcTrade = none)
    (g : State → Cubes) :
    Escapes (fun ev => ev.calcTrade = none)
      (fun s => (call env ev s).andThen fun s1 => ok { s1 with cubes := g s1 }) :=
  escapes_call_then env h g

theorem escapes_recalibrateModels (env : Env) (eng : Engine) (om : Mode) :
    Escapes (fun ev => ev.calcTrade = none) (recalibrateModels env eng om) := by
  unfold recalibrateModels
  exact escapes_forEach _ fun b _ =>
    escapes_block_cons (escapes_onlyIf fun _ => escapes_call_noTry env rfl)
      (escapes_block_cons (escapes_call_noTry env rfl) (escapes_block_nil _))

theorem escapes_tradeExercisable (env : Env) (enable : Bool) (trades : List Trade) :
    Escapes (fun ev => ev.calcTrade = none) (tradeExercisable env enable trades) := by
  unfold tradeExercisable
  refine escapes_forEach _ fun p _ => escapes_onlyIf fun _ => ?_
  cases enable with
  | true => simpa using escapes_callAt env (Event.enableExercise p.1) rfl
  | false => simpa using escapes_callAt env (Event.disableExercise p.1) rfl

theorem escapes_runCptyCalculators (env : Env) (m : Bool) (inp : Input) (d : Date)
    (k sample : Nat) :
    Escapes (fun ev => ev.calcTrade = none) (runCptyCalculators env m inp d k sample) := by
  unfold runCptyCalculators
  exact escapes_forEach _ fun idx _ => escapes_forEach _ fun c _ => escapes_callCalc_noTry env rfl

theorem escapes_initialiseCalculators (env : Env) (inp : Input) :
    Escapes (fun ev => ev.calcTrade = none) (initialiseCalculators env inp) := by
  unfold initialiseCalculators
  exact escapes_forEach _ fun c _ => escapes_block_cons (escapes_call_noTry env rfl)
    (escapes_block_cons (escapes_call_noTry env rfl) (escapes_block_nil _))

/-! ## The handler of a try block catches a std::exception only -/

theorem inv_congr {env : Env} {n : Nat} {s1 s2 : State} (hI : Inv env n s1)
    (ht : s2.trace = s1.trace) (hf : s2.tradeHasError = s1.tradeHasError) : Inv env n s2 :=
  ⟨by rw [hf]; exact hI.length, fun t => by rw [hf, ht]; exact hI.flag_iff t,
   fun t => by rw [ht]; exact hI.logged_iff t, by rw [ht]; exact hI.noCall,
   fun t => by rw [ht]; exact hI.count t⟩

theorem inv_tryCalls_handled (env : Env) (n t : Nat) (evs : List Event) (info : ErrorInfo)
    (hevs : ∀ ev ∈ evs, ev.calcTrade = some t ∧ ev.errorTrade = none) (ht : t < n)
    (s : State) (hI : Inv env n s) (hflag : ¬ s.tradeHasError.getD t false = true)
    (hr : (tryCalls env evs s).1 = true) :
    Inv env n (handleError t info (tryCalls env evs s).2) := by
  have hnr : ¬ raisedFor env t s.trace := fun h => hflag ((hI.flag_iff t).2 h)
  have hnl : ¬ errorLogged t s.trace := fun h => hnr ((hI.logged_iff t).1 h)
  obtain ⟨i1, i2, i3, i4, i5⟩ := tryCalls_spec env t evs hevs s hnr hI.noCall
  have herr : ∀ ev ∈ [Event.structuredError t "ScenarioValuation" info],
      ev.calcTrade = none := by
    intro ev hev
    rw [List.mem_singleton.1 hev]
    rfl
  have hlog : ∀ u, errorLogged u [Event.structuredError t "ScenarioValuation" info] ↔
      u = t := by
    intro u
    simp [errorLogged, Event.errorTrade, eq_comm]
  refine ⟨?_, fun u => ?_, fun u => ?_, ?_, fun u => ?_⟩
  · simp only [handleError, List.length_set, i1]
    exact hI.length
  · simp only [handleError]
    rw [raisedFor_append_neutral env u _ _ herr, i2 u, getD_set_true, i1, hI.length,
      hI.flag_iff u]
    constructor
    · rintro (⟨h, _⟩ | h)
      · exact Or.inr ⟨h, hr⟩
      · exact Or.inl h
    · rintro (h | ⟨h, _⟩)
      · exact Or.inr h
      · exact Or.inl ⟨h, ht⟩
  · simp only [handleError]
    rw [raisedFor_append_neutral env u _ _ herr, i2 u, errorLogged_append, i3 u, hlog u,
      hI.logged_iff u]
    constructor
    · rintro (h | h)
      · exact Or.inl h
      · exact Or.inr ⟨h, hr⟩
    · rintro (h | ⟨h, _⟩)
      · exact Or.inl h
      · exact Or.inr h
  · simp only [handleError]
    rw [noCallAfterRaise_append_neutral env _ _ herr]
    exact i4
  · simp only [handleError]
    rw [errorCount_append, i5 u]
    by_cases hu : u = t
    · subst hu
      rw [errorCount_eq_zero hnl]
      simp [errorCount, Event.errorTrade]
    · have : errorCount u [Event.structuredError t "ScenarioValuation" info] = 0 :=
        errorCount_eq_zero fun h => hu ((hlog u).1 h)
      rw [this]
      exact hI.count u

theorem inv_tryCalls_passed (env : Env) (n t : Nat) (evs : List Event)
    (hevs : ∀ ev ∈ evs, ev.calcTrade = some t ∧ ev.errorTrade = none)
    (s : State) (hI : Inv env n s) (hflag : ¬ s.tradeHasError.getD t false = true)
    (hr : ¬ (tryCalls env evs s).1 = true) :
    Inv env n (tryCalls env evs s).2 := by
  have hnr : ¬ raisedFor env t s.trace := fun h => hflag ((hI.flag_iff t).2 h)
  obtain ⟨i1, i2, i3, i4, i5⟩ := tryCalls_spec env t evs hevs s hnr hI.noCall
  refine ⟨i1 ▸ hI.length, fun u => ?_, fun u => ?_, i4, fun u => ?_⟩
  · rw [i1, i2 u, hI.flag_iff u]
    simp [hr]
  · rw [i2 u, i3 u, hI.logged_iff u]
    simp [hr]
  · rw [i5 u]
    exact hI.count u

theorem aborted_tryCalls (env : Env) (n t : Nat) (evs : List Event)
    (hevs : ∀ ev ∈ evs, ev.calcTrade = some t ∧ ev.errorTrade = none) :
    ∀ s, Inv env n s → ¬ s.tradeHasError.getD t false = true →
      ∀ ev, uncaught env evs s = some ev →
        Aborted env n ⟨some (Err.escaped ev), (tryCalls env evs s).2⟩ := by
  induction evs with
  | nil =>
    intro s _ _ ev hu
    exact absurd hu (by simp [uncaught])
  | cons e rest ih =>
    intro s hI hflag ev hu
    have hnr : ¬ raisedFor env t s.trace := fun h => hflag ((hI.flag_iff t).2 h)
    by_cases hr : env.raises s.trace e = true
    · rw [uncaught_cons_raise env e rest s hr] at hu
      rw [tryCalls_cons_raise env e rest s hr]
      cases hs : env.std s.trace e with
      | true => simp [hs] at hu
      | false =>
        simp only [hs, Bool.false_eq_true, ↓reduceIte, Option.some.injEq] at hu
        subst hu
        exact ⟨s.trace, e, t, rfl, rfl, (hevs e (List.mem_cons_self e rest)).1, hr, hs, hnr,
          inv_congr hI rfl rfl⟩
    · rw [uncaught_cons_pass env e rest s hr] at hu
      rw [tryCalls_cons_pass env e rest s hr]
      have hI1 : Inv env n (invoke env e s).2 := by
        have h1 := inv_tryCalls_passed env n t [e]
          (fun x hx => by rw [List.mem_singleton.1 hx]; exact hevs e (List.mem_cons_self e rest))
          s hI hflag
        rw [tryCalls_cons_pass env e [] s hr] at h1
        exact h1 (by simp [tryCalls])
      exact ih (fun x hx => hevs x (List.mem_cons_of_mem e hx)) _ hI1 hflag ev hu

theorem aborted_err {env : Env} {n : Nat} {o : Outcome} (h : Aborted env n o) :
    o.err ≠ none := by
  obtain ⟨pre, ev, t, he, _⟩ := h
  rw [he]
  simp

theorem guarded_tryBlock (env : Env) (n t : Nat) (evs : List Event) (info : ErrorInfo)
    (hevs : ∀ ev ∈ evs, ev.calcTrade = some t ∧ ev.errorTrade = none) (ht : t < n) :
    Guarded env n (fun s => Inv env n s ∧ ¬ s.tradeHasError.getD t false = true) (Inv env n)
      (tryBlock env evs t info) := by
  rintro s ⟨hI, hflag⟩
  cases hu : uncaught env evs s with
  | some ev =>
    rw [tryBlock_escaped env evs t info s ev hu]
    exact Or.inr (aborted_tryCalls env n t evs hevs s hI hflag ev hu)
  | none =>
    by_cases hr : (tryCalls env evs s).1 = true
    · rw [tryBlock_raised env evs t info s hr hu]
      exact Or.inl ⟨inv_tryCalls_handled env n t evs info hevs ht s hI hflag hr,
        fun ev h => by simp [ok] at h⟩
    · rw [tryBlock_passed env evs t info s hr]
      exact Or.inl ⟨inv_tryCalls_passed env n t evs hevs s hI hflag hr,
        fun ev h => by simp [ok] at h⟩

/-! ## Steps that a raise inside a try block may abort -/

theorem guarded_of_keeps {env : Env} {n : Nat} {I : State → Prop} {f : State → Outcome}
    (hk : Keeps I f) (he : Escapes (fun ev => ev.calcTrade = none) f) :
    Guarded env n I I f :=
  fun s hI => Or.inl ⟨hk s hI, he s⟩

theorem guarded_andThen {env : Env} {n : Nat} {I M J : State → Prop} {f g : State → Outcome}
    (hf : Guarded env n I M f) (hg : Guarded env n M J g) (hMJ : ∀ s, M s → J s) :
    Guarded env n I J (fun s => (f s).andThen g) := by
  intro s hI
  rcases andThen_cases (f s) g with ⟨hnone, h⟩ | ⟨e, _, h⟩
  · show (J ((f s).andThen g).st ∧
        ∀ ev, ((f s).andThen g).err = some (Err.escaped ev) → ev.calcTrade = none) ∨
      Aborted env n ((f s).andThen g)
    rw [h]
    rcases hf s hI with ⟨hM, _⟩ | hab
    · exact hg _ hM
    · exact absurd hnone (aborted_err hab)
  · show (J ((f s).andThen g).st ∧
        ∀ ev, ((f s).andThen g).err = some (Err.escaped ev) → ev.calcTrade = none) ∨
      Aborted env n ((f s).andThen g)
    rw [h]
    rcases hf s hI with ⟨hM, hesc⟩ | hab
    · exact Or.inl ⟨hMJ _ hM, hesc⟩
    · exact Or.inr hab

theorem guarded_block_nil (env : Env) (n : Nat) (I : State → Prop) :
    Guarded env n I I (block []) :=
  fun _ hI => Or.inl ⟨hI, fun ev h => by simp [block, forEach, ok] at h⟩

theorem guarded_block_cons {env : Env} {n : Nat} {I M J : State → Prop} {f : State → Outcome}
    {fs : List (State → Outcome)} (hf : Guarded env n I M f)
    (hfs : Guarded env n M J (block fs)) (hMJ : ∀ s, M s → J s) :
    Guarded env n I J (block (f :: fs)) :=
  guarded_andThen hf hfs hMJ

theorem guarded_step {env : Env} {n : Nat} {I : State → Prop} {f : State → Outcome}
    {fs : List (State → Outcome)} (hf : Guarded env n I I f)
    (hfs : Guarded env n I I (block fs)) : Guarded env n I I (block (f :: fs)) :=
  guarded_andThen hf hfs fun _ h => h

theorem guarded_forEach {α : Type} {env : Env} {n : Nat} {I : State → Prop}
    {f : α → State → Outcome} (xs : List α) (h : ∀ x ∈ xs, Guarded env n I I (f x)) :
    Guarded env n I I (forEach f xs) := by
  induction xs with
  | nil => exact fun _ hI => Or.inl ⟨hI, fun ev h => by simp [forEach, ok] at h⟩
  | cons x rest ih =>
    exact guarded_andThen (h x (List.mem_cons_self x rest))
      (ih fun y hy => h y (List.mem_cons_of_mem x hy)) fun _ h => h

theorem guarded_onlyIf {env : Env} {n : Nat} {I : State → Prop} {b : Bool}
    {f : State → Outcome} (h : b = true → Guarded env n I I f) :
    Guarded env n I I (onlyIf b f) := by
  intro s hI
  unfold onlyIf
  cases b with
  | false => exact Or.inl ⟨by simpa using hI, fun ev h => by simp [ok] at h⟩
  | true => simpa using h rfl s hI

theorem guarded_call (env : Env) (n : Nat) (ev : Event) (h : Neutral ev) :
    Guarded env n (Inv env n) (Inv env n) (call env ev) :=
  guarded_of_keeps (keeps_call_neutral env n h) (escapes_callAt env ev h.1)

theorem guarded_recalibrateModels (env : Env) (n : Nat) (eng : Engine) (om : Mode) :
    Guarded env n (Inv env n) (Inv env n) (recalibrateModels env eng om) :=
  guarded_of_keeps (keeps_recalibrateModels env n eng om) (escapes_recalibrateModels env eng om)

theorem guarded_tradeExercisable (env : Env) (n : Nat) (enable : Bool) (trades : List Trade) :
    Guarded env n (Inv env n) (Inv env n) (tradeExercisable env enable trades) :=
  guarded_of_keeps (keeps_tradeExercisable env n enable trades)
    (escapes_tradeExercisable env enable trades)

theorem keeps_unflagged_of_neutral {f : State → Outcome} (env : Env) (n t : Nat)
    (h : Step Neutral f) :
    Keeps (fun s => Inv env n s ∧ ¬ s.tradeHasError.getD t false = true) f :=
  fun s hI => inv_unflagged_of_neutral env n t h s hI

theorem guarded_runCalculatorsTrade (env : Env) (m : Bool) (inp : Input) (d : Date)
    (k sample j : Nat) (hj : j < inp.trades.length) :
    Guarded env inp.trades.length (Inv env inp.trades.length) (Inv env inp.trades.length)
      (runCalculatorsTrade env m inp inp.om d k sample j) := by
  intro s hI
  unfold runCalculatorsTrade
  by_cases hflag : s.tradeHasError.getD j false = true
  · rw [if_pos hflag]
    exact Or.inl ⟨hI, fun ev h => by simp [ok] at h⟩
  · rw [if_neg hflag]
    refine guarded_block_cons
      (I := fun s => Inv env inp.trades.length s ∧ ¬ s.tradeHasError.getD j false = true)
      (M := fun s => Inv env inp.trades.length s ∧ ¬ s.tradeHasError.getD j false = true)
      (guarded_of_keeps (keeps_unflagged_of_neutral env _ j
          (step_onlyIf fun _ => step_of_quiet
            (quiet_callAt env (Event.updateQlInstruments j) ⟨rfl, rfl⟩)))
        (escapes_onlyIf fun _ => escapes_callAt env (Event.updateQlInstruments j) rfl))
      (guarded_block_cons (M := Inv env inp.trades.length)
        (guarded_tryBlock env _ j _ _ ?_ hj) (guarded_block_nil _ _ _) fun _ h => h)
      (fun _ h => h.1) s ⟨hI, hflag⟩
    intro ev hev
    obtain ⟨c, _, rfl⟩ := List.mem_map.1 hev
    exact ⟨rfl, rfl⟩

theorem guarded_runCalculators (env : Env) (m : Bool) (inp : Input) (d : Date)
    (k sample : Nat) :
    Guarded env inp.trades.length (Inv env inp.trades.length) (Inv env inp.trades.length)
      (runCalculators env m inp d k sample) := by
  unfold runCalculators
  refine guarded_step (guarded_forEach _ fun c _ => guarded_call env _ _ ⟨rfl, rfl⟩)
    (guarded_step (guarded_forEach _ fun j hj => ?_) (guarded_block_nil _ _ _))
  exact guarded_runCalculatorsTrade env m inp d k sample j (List.mem_range.1 hj)

theorem guarded_runCptyCalculators (env : Env) (n : Nat) (m : Bool) (inp : Input) (d : Date)
    (k sample : Nat) :
    Guarded env n (Inv env n) (Inv env n) (runCptyCalculators env m inp d k sample) :=
  guarded_of_keeps (keeps_runCptyCalculators env n m inp d k sample)
    (escapes_runCptyCalculators env m inp d k sample)

theorem guarded_require (env : Env) (n : Nat) (c : Bool) (e : Err)
    (h : ∀ ev, e ≠ Err.escaped ev) :
    Guarded env n (Inv env n) (Inv env n) (require c e) :=
  guarded_of_keeps (keeps_require env n c e) (escapes_require _ c h)

theorem guarded_processCloseOutDate (env : Env) (eng : Engine) (inp : Input) (sample : Nat)
    (d : Date) (cdi : Int) :
    Guarded env inp.trades.length (Inv env inp.trades.length) (Inv env inp.trades.length)
      (processCloseOutDate env eng inp sample d cdi) := by
  unfold processCloseOutDate
  refine guarded_step (guarded_call env _ _ ⟨rfl, rfl⟩) ?_
  refine guarded_step (guarded_onlyIf fun _ => guarded_call env _ _ ⟨rfl, rfl⟩) ?_
  refine guarded_step (guarded_call env _ _ ⟨rfl, rfl⟩) ?_
  refine guarded_step (guarded_call env _ _ ⟨rfl, rfl⟩) ?_
  refine guarded_step (guarded_recalibrateModels env _ eng inp.om) ?_
  refine guarded_step (guarded_onlyIf fun _ => guarded_tradeExercisable env _ _ _) ?_
  refine guarded_step (guarded_require env _ _ _ fun ev h => by cases h) ?_
  refine guarded_step (guarded_runCalculators env true inp d _ sample) ?_
  exact guarded_step (guarded_onlyIf fun _ => guarded_tradeExercisable env _ _ _)
    (guarded_block_nil _ _ _)

theorem guarded_processValuationDate (env : Env) (eng : Engine) (inp : Input) (sample : Nat)
    (d : Date) (cdi : Int) (b : Bool) :
    Guarded env inp.trades.length (Inv env inp.trades.length) (Inv env inp.trades.length)
      (processValuationDate env eng inp sample d cdi b) := by
  unfold processValuationDate
  refine guarded_step (guarded_call env _ _ ⟨rfl, rfl⟩) ?_
  refine guarded_step (guarded_call env _ _ ⟨rfl, rfl⟩) ?_
  refine guarded_step (guarded_onlyIf fun _ => guarded_call env _ _ ⟨rfl, rfl⟩) ?_
  refine guarded_step (guarded_call env _ _ ⟨rfl, rfl⟩) ?_
  refine guarded_step (guarded_call env _ _ ⟨rfl, rfl⟩) ?_
  refine guarded_step (guarded_recalibrateModels env _ eng inp.om) ?_
  refine guarded_step (guarded_runCalculators env false inp d _ sample) ?_
  exact guarded_step (guarded_runCptyCalculators env _ false inp d _ sample)
    (guarded_block_nil _ _ _)

theorem guarded_dateLoop (env : Env) (eng : Engine) (inp : Input) (sample : Nat) :
    ∀ (rest : List GridSlot) (cdi : Int),
      Guarded env inp.trades.length (Inv env inp.trades.length) (Inv env inp.trades.length)
        (dateLoop env eng inp sample rest cdi) := by
  intro rest
  induction rest with
  | nil => exact fun _ _ hI => Or.inl ⟨hI, fun ev h => by simp [dateLoop, ok] at h⟩
  | cons g rest ih =>
    intro cdi
    exact guarded_andThen (f := block _)
      (guarded_step
        (guarded_onlyIf fun _ => guarded_processCloseOutDate env eng inp sample _ _)
        (guarded_step
          (guarded_onlyIf fun _ => guarded_processValuationDate env eng inp sample _ _ _)
          (guarded_block_nil _ _ _)))
      (ih _) fun _ h => h

theorem guarded_processSample (env : Env) (eng : Engine) (inp : Input) (sample : Nat) :
    Guarded env inp.trades.length (Inv env inp.trades.length) (Inv env inp.trades.length)
      (processSample env eng inp sample) := by
  unfold processSample
  refine guarded_step (guarded_forEach _ fun t _ => guarded_call env _ _ ⟨rfl, rfl⟩) ?_
  refine guarded_step (guarded_dateLoop env eng inp sample _ _) ?_
  exact guarded_step (guarded_call env _ _ ⟨rfl, rfl⟩) (guarded_block_nil _ _ _)

theorem escapes_dryRunFill (env : Env) (eng : Engine) (inp : Input) (dryRun : Bool) :
    Escapes (fun ev => ev.calcTrade = none) (dryRunFill env eng inp dryRun) := by
  unfold dryRunFill
  refine escapes_onlyIf fun _ => escapes_forEach _ fun sample _ => escapes_forEach _
    fun i _ => escapes_forEach _ fun j _ => escapes_forEach _ fun d _ => ?_
  unfold dryRunSet
  exact escapes_call_thenAt env (Event.cubeSet j i sample d) rfl _

theorem escapes_removeIfError (env : Env) (i : Nat) :
    Escapes (fun ev => ev.calcTrade = none) (removeIfError env i) := by
  intro s ev h
  unfold removeIfError at h
  by_cases hflag : s.tradeHasError.getD i false = true
  · rw [if_pos hflag] at h
    exact escapes_call_thenAt env (Event.cubeRemove i) rfl _ s ev h
  · rw [if_neg hflag] at h
    simp at h

theorem errorTrade_eq_some {ev : Event} {e : Nat} (h : ev.errorTrade = some e) :
    ∃ stage info, ev = Event.structuredError e stage info := by
  cases ev with
  | structuredError t stage info =>
    simp only [Event.errorTrade, Option.some.injEq] at h
    exact ⟨stage, info, by rw [h]⟩
  | _ => simp [Event.errorTrade] at h

theorem initialiseTrade_frame (env : Env) (eng : Engine) (inp : Input) (p : Nat × Trade)
    (s : State) (e : Nat) (he : e ≠ p.1)
    (h : (initialiseTrade env eng inp p s).st.tradeHasError.getD e false = true) :
    s.tradeHasError.getD e false = true := by
  obtain ⟨new, _, hn, _, _, hr⟩ := step_initialiseTrade env eng inp p s
  rcases hr e h with h1 | ⟨ev, hev, h1⟩
  · exact h1
  · obtain ⟨stage, info, rfl⟩ := errorTrade_eq_some h1
    exact absurd (hn _ hev).1 he

theorem guarded_initialiseTrade (env : Env) (eng : Engine) (inp : Input) (p : Nat × Trade)
    (hp : p.1 < inp.trades.length) :
    Guarded env inp.trades.length
      (fun s => Inv env inp.trades.length s ∧ ¬ s.tradeHasError.getD p.1 false = true)
      (Inv env inp.trades.length) (initialiseTrade env eng inp p) := by
  unfold initialiseTrade
  refine guarded_block_cons
    (M := fun s => Inv env inp.trades.length s ∧ ¬ s.tradeHasError.getD p.1 false = true)
    (guarded_of_keeps (keeps_unflagged_of_neutral env _ p.1 (step_of_quiet (quiet_require _ _ _)))
      (escapes_require _ _ fun ev h => by cases h)) ?_ (fun _ h => h.1)
  refine guarded_block_cons
    (M := fun s => Inv env inp.trades.length s ∧ ¬ s.tradeHasError.getD p.1 false = true)
    (guarded_of_keeps (keeps_unflagged_of_neutral env _ p.1
        (step_of_quiet (quiet_callAt env (Event.instrumentInitialise p.1) ⟨rfl, rfl⟩)))
      (escapes_callAt env (Event.instrumentInitialise p.1) rfl)) ?_ (fun _ h => h.1)
  refine guarded_block_cons
    (M := fun s => Inv env inp.trades.length s ∧ ¬ s.tradeHasError.getD p.1 false = true)
    (guarded_of_keeps (keeps_unflagged_of_neutral env _ p.1 (step_of_quiet
        (quiet_recalibrateModels env eng inp.om (fun _ _ => ⟨rfl, rfl⟩) (fun _ => ⟨rfl, rfl⟩))))
      (escapes_recalibrateModels env eng inp.om)) ?_ (fun _ h => h.1)
  refine guarded_block_cons (M := Inv env inp.trades.length)
    (guarded_tryBlock env _ p.1 _ _ ?_ hp) ?_ (fun _ h => h)
  · intro ev hev
    obtain ⟨c, _, rfl⟩ := List.mem_map.1 hev
    exact ⟨rfl, rfl⟩
  · exact guarded_step (guarded_onlyIf fun _ => guarded_call env _ _ ⟨rfl, rfl⟩)
      (guarded_block_nil _ _ _)

theorem guarded_initialiseTrades (env : Env) (eng : Engine) (inp : Input) :
    ∀ ps : List (Nat × Trade), (ps.map Prod.fst).Nodup →
      (∀ p ∈ ps, p.1 < inp.trades.length) →
      Guarded env inp.trades.length
        (fun s => Inv env inp.trades.length s ∧
          ∀ p ∈ ps, ¬ s.tradeHasError.getD p.1 false = true)
        (Inv env inp.trades.length) (forEach (initialiseTrade env eng inp) ps) := by
  intro ps
  induction ps with
  | nil => exact fun _ _ s hI => Or.inl ⟨hI.1, fun ev h => by simp [forEach, ok] at h⟩
  | cons p rest ih =>
    rintro hnd hlt s ⟨hI, hflags⟩
    rw [List.map_cons, List.nodup_cons] at hnd
    have h1 := guarded_initialiseTrade env eng inp p (hlt p (List.mem_cons_self p rest)) s
      ⟨hI, hflags p (List.mem_cons_self p rest)⟩
    rw [forEach_cons]
    rcases andThen_cases (initialiseTrade env eng inp p s)
      (forEach (initialiseTrade env eng inp) rest) with ⟨hnone, h⟩ | ⟨e, _, h⟩
    · rw [h]
      rcases h1 with ⟨hI1, _⟩ | hab
      · refine ih hnd.2 (fun q hq => hlt q (List.mem_cons_of_mem p hq)) _ ⟨hI1, fun q hq hq1 => ?_⟩
        have hne : q.1 ≠ p.1 := fun heq => hnd.1 (heq ▸ List.mem_map_of_mem Prod.fst hq)
        exact hflags q (List.mem_cons_of_mem p hq)
          (initialiseTrade_frame env eng inp p s q.1 hne hq1)
      · exact absurd hnone (aborted_err hab)
    · rw [h]
      exact h1

theorem getD_replicate_false (n e : Nat) : ¬ (List.replicate n false).getD e false = true := by
  simp only [List.getD_eq_getElem?_getD, List.getElem?_replicate]
  by_cases h : e < n <;> simp [h]

theorem not_raisedFor_of_neutral (env : Env) (t : Nat) (tr : List Event)
    (h : ∀ ev ∈ tr, ev.calcTrade = none) : ¬ raisedFor env t tr := by
  rintro ⟨pre, ev, post, rfl, hc, _⟩
  rw [h ev (by simp)] at hc
  exact absurd hc (by simp)

theorem inv_start (env : Env) (n : Nat) (tr : List Event) (cubes : Cubes)
    (h : ∀ ev ∈ tr, Neutral ev) : Inv env n ⟨tr, cubes, List.replicate n false⟩ := by
  have hr : ∀ t, ¬ raisedFor env t tr :=
    fun t => not_raisedFor_of_neutral env t tr fun ev hev => (h ev hev).1
  have hl : ∀ t, ¬ errorLogged t tr :=
    fun t => not_errorLogged_of_neutral t tr fun ev hev => (h ev hev).2
  refine ⟨by simp, fun t => ?_, fun t => ?_, ?_, fun t => ?_⟩
  · exact ⟨fun h1 => absurd h1 (getD_replicate_false n t), fun h1 => absurd h1 (hr t)⟩
  · exact ⟨fun h1 => absurd h1 (hl t), fun h1 => absurd h1 (hr t)⟩
  · rintro pre ev post t rfl hc _
    rw [(h ev (by simp)).1] at hc
    exact absurd hc (by simp)
  · rw [errorCount_eq_zero (hl t)]
    exact Nat.zero_le 1

theorem guarded_simulate (env : Env) (eng : Engine) (inp : Input) (dryRun : Bool)
    (asofDate : Date) :
    Guarded env inp.trades.length
      (fun s => Inv env inp.trades.length s ∧ ∀ e, ¬ s.tradeHasError.getD e false = true)
      (Inv env inp.trades.length) (simulate env eng inp dryRun asofDate) := by
  unfold simulate
  refine guarded_block_cons (M := Inv env inp.trades.length)
    (fun s1 h1 => guarded_initialiseTrades env eng inp _ ?_
      (fun p hp => List.fst_lt_of_mem_enum hp) s1 ⟨h1.1, fun p _ => h1.2 p.1⟩)
    ?_ (fun _ h => h)
  · rw [List.enum_map_fst]
    exact List.nodup_range _
  · refine guarded_step (guarded_onlyIf fun _ => guarded_call env _ _ ⟨rfl, rfl⟩) ?_
    refine guarded_step (guarded_forEach _ fun sample _ =>
      guarded_processSample env eng inp sample) ?_
    refine guarded_step (guarded_of_keeps (keeps_dryRunFill env _ eng inp dryRun)
      (escapes_dryRunFill env eng inp dryRun)) ?_
    exact guarded_step (guarded_forEach _ fun i _ =>
      guarded_of_keeps (keeps_removeIfError env _ i) (escapes_removeIfError env i))
      (guarded_block_nil _ _ _)

theorem inv_simulate (env : Env) (eng : Engine) (inp : Input) (dryRun : Bool)
    (asofDate : Date) (s : State) (hI : Inv env inp.trades.length s)
    (hflags : ∀ e, ¬ s.tradeHasError.getD e false = true)
    (hok : (simulate env eng inp dryRun asofDate s).err = none) :
    Inv env inp.trades.length (simulate env eng inp dryRun asofDate s).st := by
  rcases guarded_simulate env eng inp dryRun asofDate s ⟨hI, hflags⟩ with ⟨h, _⟩ | hab
  · exact h
  · exact absurd hok (aborted_err hab)

/-! ## The shape of a run -/

theorem outcome_eq {o : Outcome} {e : Option Err} {s : State} (h1 : o.err = e)
    (h2 : o.st = s) : o = ⟨e, s⟩ := by
  cases o
  simp_all

theorem buildCubeBody_prelude (env : Env) (eng : Engine) (inp : Input) (dryRun : Bool)
    (asofDate : Date) (cubes : Cubes) :
    (∃ e new, buildCubeBody env eng inp dryRun asofDate ⟨[], cubes, []⟩ =
        ⟨some e, ⟨new, cubes, []⟩⟩ ∧ (∀ ev ∈ new, PreludeEvent inp ev) ∧
        ∀ ev, e = Err.escaped ev → ev.calcTrade = none) ∨
    (∃ new, (∀ ev ∈ new, PreludeEvent inp ev) ∧ ¬ dimensionMismatch eng inp ∧
      buildCubeBody env eng inp dryRun asofDate ⟨[], cubes, []⟩ =
        simulate env eng inp dryRun asofDate
          ⟨new, cubes, List.replicate inp.trades.length false⟩) := by
  by_cases hm : dimensionMismatch eng inp
  · obtain ⟨e, he, hp⟩ := buildCubeBody_of_mismatch env eng inp dryRun asofDate ⟨[], cubes, []⟩ hm
    refine Or.inl ⟨e, [], he, by simp, fun ev h => ?_⟩
    rw [h] at hp
    simp [Err.isPrecondition] at hp
  · have hq : Quiet (PreludeEvent inp) (initialiseCalculators env inp) := by
      unfold initialiseCalculators
      refine quiet_forEach _ fun c hc => quiet_block _ fun f hf => ?_
      simp only [List.mem_cons, List.mem_singleton, List.not_mem_nil, or_false] at hf
      rcases hf with rfl | rfl
      · exact quiet_call env ⟨c, List.mem_range.1 hc, Or.inl rfl⟩
      · exact quiet_call env ⟨c, List.mem_range.1 hc, Or.inr rfl⟩
    obtain ⟨new, hst, hnew⟩ := hq ⟨[], cubes, []⟩
    simp only [List.nil_append] at hst
    unfold buildCubeBody
    rw [block_cons, checkDimensions_ok eng inp _ hm, andThen_ok, block_cons]
    rcases andThen_cases (initialiseCalculators env inp ⟨[], cubes, []⟩)
      (block [createErrorFlags inp, simulate env eng inp dryRun asofDate])
      with ⟨_, h⟩ | ⟨e, he, h⟩
    · refine Or.inr ⟨new, hnew, hm, ?_⟩
      rw [h, hst, block_cons]
      simp only [createErrorFlags, andThen_ok, block_singleton]
    · refine Or.inl ⟨e, new, ?_, hnew, fun ev hev => ?_⟩
      · rw [h]
        exact outcome_eq he hst
      · exact escapes_initialiseCalculators env inp _ ev (hev ▸ he)

theorem buildCubeBody_cases (env : Env) (eng : Engine) (inp : Input) (dryRun : Bool)
    (asofDate : Date) (cubes : Cubes) :
    (∃ e new, buildCubeBody env eng inp dryRun asofDate ⟨[], cubes, []⟩ =
        ⟨some e, ⟨new, cubes, []⟩⟩ ∧ ∀ ev ∈ new, PreludeEvent inp ev) ∨
    (∃ new, (∀ ev ∈ new, PreludeEvent inp ev) ∧ ¬ dimensionMismatch eng inp ∧
      buildCubeBody env eng inp dryRun asofDate ⟨[], cubes, []⟩ =
        simulate env eng inp dryRun asofDate
          ⟨new, cubes, List.replicate inp.trades.length false⟩) := by
  rcases buildCubeBody_prelude env eng inp dryRun asofDate cubes with
    ⟨e, new, he, hnew, _⟩ | h
  · exact Or.inl ⟨e, new, he, hnew⟩
  · exact Or.inr h

theorem preludeEvent_neutral (inp : Input) (ev : Event) (h : PreludeEvent inp ev) :
    Neutral ev := by
  obtain ⟨c, _, rfl | rfl⟩ := h <;> exact ⟨rfl, rfl⟩

theorem inv_buildCubeBody (env : Env) (eng : Engine) (inp : Input) (dryRun : Bool)
    (asofDate : Date) (cubes : Cubes)
    (h : (buildCubeBody env eng inp dryRun asofDate ⟨[], cubes, []⟩).err = none) :
    Inv env inp.trades.length (buildCubeBody env eng inp dryRun asofDate ⟨[], cubes, []⟩).st := by
  rcases buildCubeBody_cases env eng inp dryRun asofDate cubes with
    ⟨e, new, he, _⟩ | ⟨new, hnew, _, he⟩
  · rw [he] at h
    exact absurd h (by simp)
  · rw [he] at h ⊢
    exact inv_simulate env eng inp dryRun asofDate _
      (inv_start env _ new cubes fun ev hev => preludeEvent_neutral inp ev (hnew ev hev))
      (fun e => getD_replicate_false _ e) h

theorem inv_append_neutral {env : Env} {n : Nat} {s : State} (hI : Inv env n s)
    (new : List Event) (h : ∀ ev ∈ new, Neutral ev) :
    Inv env n { s with trace := s.trace ++ new } :=
  inv_of_ext_neutral hI ⟨new, rfl, h, rfl, fun _ h => h, fun _ h => Or.inl h⟩

theorem buildCube_inv (env : Env) (eng : Engine) (inp : Input) (dryRun : Bool)
    (asofDate : Date) (cubes : Cubes)
    (h : (buildCube env eng inp dryRun asofDate cubes).err = none) :
    Inv env inp.trades.length (buildCube env eng inp dryRun asofDate cubes).st := by
  refine inv_append_neutral (inv_buildCubeBody env eng inp dryRun asofDate cubes h) _ ?_
  intro ev hev
  rw [List.mem_singleton.1 hev]
  exact ⟨rfl, rfl⟩

theorem buildCube_good (env : Env) (eng : Engine) (inp : Input) (dryRun : Bool)
    (asofDate : Date) (cubes : Cubes) :
    ((∃ s, Inv env inp.trades.length s ∧
        s.trace = (buildCube env eng inp dryRun asofDate cubes).st.trace) ∧
      ∀ ev, (buildCube env eng inp dryRun asofDate cubes).err = some (Err.escaped ev) →
        ev.calcTrade = none) ∨
    (∃ pre ev t,
      (buildCube env eng inp dryRun asofDate cubes).err = some (Err.escaped ev) ∧
      (buildCube env eng inp dryRun asofDate cubes).st.trace =
        pre ++ [ev, Event.marketReset] ∧
      ev.calcTrade = some t ∧ env.raises pre ev = true ∧ env.std pre ev = false ∧
      ¬ raisedFor env t pre ∧ ∃ s, Inv env inp.trades.length s ∧ s.trace = pre) := by
  have hreset : ∀ ev ∈ [Event.marketReset], Neutral ev := by
    intro ev hev
    rw [List.mem_singleton.1 hev]
    exact ⟨rfl, rfl⟩
  rcases buildCubeBody_prelude env eng inp dryRun asofDate cubes with
    ⟨e, new, he, hnew, hesc⟩ | ⟨new, hnew, _, he⟩
  · refine Or.inl ⟨⟨_, inv_append_neutral (inv_start env inp.trades.length new cubes
      fun ev hev => preludeEvent_neutral inp ev (hnew ev hev)) _ hreset, ?_⟩, fun ev h => ?_⟩
    · simp [buildCube, he]
    · refine hesc ev ?_
      simpa [buildCube, he] using h
  · rcases guarded_simulate env eng inp dryRun asofDate _
      ⟨inv_start env _ new cubes fun ev hev => preludeEvent_neutral inp ev (hnew ev hev),
        fun e => getD_replicate_false _ e⟩ with ⟨hI, hesc⟩ | ⟨pre, ev, t, h1, h2, h3, h4, h5, h6, h7⟩
    · refine Or.inl ⟨⟨_, inv_append_neutral hI _ hreset, ?_⟩, fun ev h => hesc ev ?_⟩
      · simp [buildCube, he]
      · simpa [buildCube, he] using h
    · refine Or.inr ⟨pre, ev, t, ?_, ?_, h3, h4, h5, h6, _, h7, rfl⟩
      · simpa [buildCube, he] using h1
      · simp [buildCube, he, h2]

theorem calcTrade_errorTrade {ev : Event} {t : Nat} (h : ev.calcTrade = some t) :
    ev.errorTrade = none := by
  cases ev <;> simp [Event.calcTrade] at h <;> rfl

theorem raisedFor_append (env : Env) (t : Nat) (tr new : List Event)
    (h : raisedFor env t tr) : raisedFor env t (tr ++ new) := by
  obtain ⟨pre, ev, post, rfl, hc, hr⟩ := h
  exact ⟨pre, ev, post ++ new, by simp, hc, hr⟩

theorem buildCube_escaped (env : Env) (eng : Engine) (inp : Input) (dryRun : Bool)
    (asofDate : Date) (cubes : Cubes) (ev : Event)
    (h : (buildCube env eng inp dryRun asofDate cubes).err = some (Err.escaped ev)) :
    ev.calcTrade = none ∨
    ∃ pre, (buildCube env eng inp dryRun asofDate cubes).st.trace =
        pre ++ [ev, Event.marketReset] ∧
      env.raises pre ev = true ∧ env.std pre ev = false := by
  rcases buildCube_good env eng inp dryRun asofDate cubes with
    ⟨_, hesc⟩ | ⟨pre, ev1, t, h1, h2, _, h4, h5, _⟩
  · exact Or.inl (hesc ev h)
  · rw [h1] at h
    simp only [Option.some.injEq, Err.escaped.injEq] at h
    subst h
    exact Or.inr ⟨pre, h2, h4, h5⟩

theorem buildCube_trace_inv (env : Env) (eng : Engine) (inp : Input) (dryRun : Bool)
    (asofDate : Date) (cubes : Cubes) :
    NoCallAfterRaise env (buildCube env eng inp dryRun asofDate cubes).st.trace ∧
    (∀ t, errorLogged t (buildCube env eng inp dryRun asofDate cubes).st.trace →
      raisedFor env t (buildCube env eng inp dryRun asofDate cubes).st.trace) ∧
    (∀ t, raisedStdFor env t (buildCube env eng inp dryRun asofDate cubes).st.trace →
      errorLogged t (buildCube env eng inp dryRun asofDate cubes).st.trace) ∧
    ∀ t, errorCount t (buildCube env eng inp dryRun asofDate cubes).st.trace ≤ 1 := by
  rcases buildCube_good env eng inp dryRun asofDate cubes with
    ⟨⟨s, hI, hs⟩, _⟩ | ⟨pre, ev, u, _, h2, h3, _, h5, h6, s, hI, hs⟩
  · rw [← hs]
    refine ⟨hI.noCall, fun t => (hI.logged_iff t).1, fun t h => ?_, hI.count⟩
    obtain ⟨p, e, post, htr, hc, hr, _⟩ := h
    exact (hI.logged_iff t).2 ⟨p, e, post, htr, hc, hr⟩
  · subst hs
    have hsplit : s.trace ++ [ev, Event.marketReset] = (s.trace ++ [ev]) ++ [Event.marketReset] := by
      simp
    have hev : ev.errorTrade = none := calcTrade_errorTrade h3
    have hnl : ∀ t, ¬ errorLogged t [ev, Event.marketReset] := by
      intro t
      refine not_errorLogged_of_neutral t _ fun x hx => ?_
      simp only [List.mem_cons, List.mem_singleton, List.not_mem_nil, or_false] at hx
      rcases hx with rfl | rfl
      · exact hev
      · rfl
    rw [h2]
    refine ⟨?_, fun t h => ?_, fun t h => ?_, fun t => ?_⟩
    · rw [hsplit, noCallAfterRaise_append_neutral env _ _ (by
        intro x hx
        rw [List.mem_singleton.1 hx]
        rfl), noCallAfterRaise_snoc]
      refine ⟨hI.noCall, fun t ht => ?_⟩
      rw [h3] at ht
      cases ht
      exact h6
    · rcases (errorLogged_append t _ _).1 h with h1 | h1
      · exact raisedFor_append env t _ _ ((hI.logged_iff t).1 h1)
      · exact absurd h1 (hnl t)
    · obtain ⟨p, e, post, htr, hc, hr, hstd⟩ := h
      rw [hsplit] at htr
      rcases snoc_eq_append_cons htr with ⟨_, rfl, _⟩ | ⟨post1, _, htr1⟩
      · exact absurd hc (by simp [Event.calcTrade])
      · rcases snoc_eq_append_cons htr1 with ⟨rfl, rfl, _⟩ | ⟨post2, _, htr2⟩
        · rw [h5] at hstd
          exact absurd hstd (by simp)
        · exact (errorLogged_append t _ _).2
            (Or.inl ((hI.logged_iff t).2 ⟨p, e, post2, htr2, hc, hr⟩))
    · rw [errorCount_append, errorCount_eq_zero (hnl t)]
      exact hI.count t

/-! ## The last loop: zeroing the flagged entities -/

theorem block_cons_err_none {f : State → Outcome} {fs : List (State → Outcome)} {s : State}
    (h : (block (f :: fs) s).err = none) :
    (f s).err = none ∧ (block fs (f s).st).err = none ∧
      block (f :: fs) s = block fs (f s).st := by
  rw [block_cons] at h
  obtain ⟨h1, h2⟩ := andThen_err_none.1 h
  exact ⟨h1, h2, by rw [block_cons, andThen_of_none h1]⟩

theorem keeps_removedFlagged_of_step {P : Event → Prop} {f : State → Outcome}
    (h : Step P f) (hP : ∀ ev, P ev → ∀ i, ev ≠ Event.cubeRemove i) :
    Keeps RemovedFlagged f := by
  intro s hR i hi
  obtain ⟨new, ht, hn, _, hm, _⟩ := h s
  rw [ht] at hi
  rcases List.mem_append.1 hi with h1 | h1
  · exact hm i (hR i h1)
  · exact absurd rfl (hP _ (hn _ h1) i)

theorem removeIfError_flags (env : Env) (i : Nat) (s : State) :
    (removeIfError env i s).st.tradeHasError = s.tradeHasError := by
  unfold removeIfError call
  by_cases hflag : s.tradeHasError.getD i false = true
  · rw [if_pos hflag]
    by_cases hr : env.raises s.trace (Event.cubeRemove i) = true <;>
      simp [hr, ok, Outcome.andThen]
  · rw [if_neg hflag]
    rfl

theorem keeps_removedFlagged_removeIfError (env : Env) (i : Nat) :
    Keeps RemovedFlagged (removeIfError env i) := by
  intro s hR j hj
  rw [removeIfError_flags]
  by_cases hflag : s.tradeHasError.getD i false = true
  · obtain ⟨new, ht, hn, _⟩ := step_removeIfError (P := fun ev => ev = Event.cubeRemove i)
      env i rfl s
    rw [ht] at hj
    rcases List.mem_append.1 hj with h1 | h1
    · exact hR j h1
    · have := hn _ h1
      simp only [Event.cubeRemove.injEq] at this
      rw [this]
      exact hflag
  · have : removeIfError env i s = ok s := by
      unfold removeIfError
      rw [if_neg hflag]
    rw [this] at hj
    exact hR j hj

theorem keeps_removedFlagged_simulate (env : Env) (eng : Engine) (inp : Input)
    (dryRun : Bool) (asofDate : Date) :
    Keeps RemovedFlagged (simulate env eng inp dryRun asofDate) := by
  unfold simulate
  refine keeps_block_cons (keeps_removedFlagged_of_step (step_initialiseTrades env eng inp)
    ?_) ?_
  · rintro ev ⟨t, _, h⟩ i rfl
    exact h
  refine keeps_block_cons (keeps_onlyIf fun _ => keeps_removedFlagged_of_step
    (step_of_quiet (quiet_call (P := fun ev => ev = Event.fixingInitialise) env rfl)) ?_) ?_
  · rintro ev h i rfl
    exact absurd h (by simp)
  refine keeps_block_cons (keeps_forEach _ fun sample _ => keeps_removedFlagged_of_step
    (step_processSample env eng inp sample) ?_) ?_
  · rintro ev h i rfl
    exact h
  refine keeps_block_cons (keeps_removedFlagged_of_step (step_dryRunFill env eng inp dryRun)
    ?_) ?_
  · rintro ev h i rfl
    exact h
  exact keeps_block_cons (keeps_forEach _ fun i _ => keeps_removedFlagged_removeIfError env i)
    (keeps_block_nil _)

theorem buildCube_removedFlagged (env : Env) (eng : Engine) (inp : Input) (dryRun : Bool)
    (asofDate : Date) (cubes : Cubes) :
    RemovedFlagged (buildCube env eng inp dryRun asofDate cubes).st := by
  have hstart : ∀ new : List Event, (∀ ev ∈ new, PreludeEvent inp ev) →
      ∀ flags, RemovedFlagged ⟨new, cubes, flags⟩ := by
    intro new hnew flags i hi
    obtain ⟨c, _, h | h⟩ := hnew _ hi <;> exact absurd h (by simp)
  have hfin : ∀ s, RemovedFlagged s →
      RemovedFlagged { s with trace := s.trace ++ [Event.marketReset] } := by
    intro s hR i hi
    rcases List.mem_append.1 hi with h | h
    · exact hR i h
    · exact absurd (List.mem_singleton.1 h) (by simp)
  rcases buildCubeBody_cases env eng inp dryRun asofDate cubes with
    ⟨e, new, he, hnew⟩ | ⟨new, hnew, _, he⟩
  · simp only [buildCube, he]
    exact hfin _ (hstart new hnew _)
  · simp only [buildCube, he]
    exact hfin _ (keeps_removedFlagged_simulate env eng inp dryRun asofDate _
      (hstart new hnew _))

theorem eq_ok_of_err_none {o : Outcome} (h : o.err = none) : o = ok o.st :=
  outcome_eq h rfl

theorem simulate_ok (env : Env) (eng : Engine) (inp : Input) (dryRun : Bool)
    (asofDate : Date) (s : State) (h : (simulate env eng inp dryRun asofDate s).err = none) :
    ∃ s1 s2 s3 s4,
      forEach (initialiseTrade env eng inp) inp.trades.enum s = ok s1 ∧
      initialiseFixings env eng asofDate s1 = ok s2 ∧
      forEach (processSample env eng inp) (List.range (numSamplesReplayed inp dryRun)) s2 =
        ok s3 ∧
      dryRunFill env eng inp dryRun s3 = ok s4 ∧
      (forEach (removeIfError env) (List.range inp.trades.length) s4).err = none ∧
      simulate env eng inp dryRun asofDate s =
        forEach (removeIfError env) (List.range inp.trades.length) s4 := by
  unfold simulate at h ⊢
  obtain ⟨a1, b1, c1⟩ := block_cons_err_none h
  obtain ⟨a2, b2, c2⟩ := block_cons_err_none b1
  obtain ⟨a3, b3, c3⟩ := block_cons_err_none b2
  obtain ⟨a4, b4, c4⟩ := block_cons_err_none b3
  rw [block_singleton] at b4 c4
  exact ⟨_, _, _, _, eq_ok_of_err_none a1, eq_ok_of_err_none a2, eq_ok_of_err_none a3,
    eq_ok_of_err_none a4, b4, by rw [c1, c2, c3, c4]⟩

theorem removeIfError_zero (env : Env) (i : Nat) (s : State)
    (hok : (removeIfError env i s).err = none) :
    (s.tradeHasError.getD i false = true →
      zeroAt (removeIfError env i s).st.cubes.outputCube i) ∧
    (∀ e, zeroAt s.cubes.outputCube e →
      zeroAt (removeIfError env i s).st.cubes.outputCube e) := by
  unfold removeIfError call at hok ⊢
  by_cases hflag : s.tradeHasError.getD i false = true
  · rw [if_pos hflag] at hok ⊢
    by_cases hr : env.raises s.trace (Event.cubeRemove i) = true
    · simp [hr, Outcome.andThen] at hok
    · simp only [hr, Bool.false_eq_true, ↓reduceIte, andThen_ok, ok_st]
      refine ⟨fun _ d smp k => ?_, fun e he d smp k => ?_⟩
      · simp [CubeData.get, CubeData.remove]
      · have := he d smp k
        simp only [CubeData.get] at this
        simp [CubeData.get, CubeData.remove, this]
  · rw [if_neg hflag]
    exact ⟨fun h => absurd h hflag, fun e he => he⟩

theorem removeLoop_zero (env : Env) :
    ∀ (xs : List Nat) (s : State), (forEach (removeIfError env) xs s).err = none →
      (∀ e ∈ xs, s.tradeHasError.getD e false = true →
        zeroAt (forEach (removeIfError env) xs s).st.cubes.outputCube e) ∧
      (∀ e, zeroAt s.cubes.outputCube e →
        zeroAt (forEach (removeIfError env) xs s).st.cubes.outputCube e) ∧
      (forEach (removeIfError env) xs s).st.tradeHasError = s.tradeHasError := by
  intro xs
  induction xs with
  | nil =>
    intro s _
    exact ⟨fun e he => absurd he (List.not_mem_nil e), fun _ h => h, rfl⟩
  | cons i rest ih =>
    intro s hok
    rw [forEach_cons] at hok ⊢
    obtain ⟨h1, h2⟩ := andThen_err_none.1 hok
    rw [andThen_of_none h1]
    obtain ⟨z1, z2⟩ := removeIfError_zero env i s h1
    obtain ⟨r1, r2, r3⟩ := ih _ h2
    refine ⟨fun e he hflag => ?_, fun e he => r2 e (z2 e he), ?_⟩
    · rcases List.mem_cons.1 he with rfl | he'
      · exact r2 _ (z1 hflag)
      · exact r1 e he' (by rw [removeIfError_flags]; exact hflag)
    · rw [r3, removeIfError_flags]

/-! ## The calculate calls a trade receives -/

theorem triple_of_keeps {I : State → Prop} {f : State → Outcome} (h : Keeps I f) :
    Triple I f I :=
  fun s hI _ => h s hI

theorem triple_andThen {P Q R : State → Prop} {f g : State → Outcome} (hf : Triple P f Q)
    (hg : Triple Q g R) : Triple P (fun s => (f s).andThen g) R := by
  intro s hP hok
  obtain ⟨h1, h2⟩ := andThen_err_none.1 hok
  show R ((f s).andThen g).st
  rw [andThen_of_none h1]
  exact hg _ (hf s hP h1) h2

theorem triple_block_nil (P : State → Prop) : Triple P (block []) P :=
  fun _ h _ => h

theorem triple_block_cons {P Q R : State → Prop} {f : State → Outcome}
    {fs : List (State → Outcome)} (hf : Triple P f Q) (hfs : Triple Q (block fs) R) :
    Triple P (block (f :: fs)) R :=
  triple_andThen hf hfs

theorem triple_onlyIf {P Q : State → Prop} {b : Bool} {f : State → Outcome}
    (ht : b = true → Triple P f Q) (hf : b = false → ∀ s, P s → Q s) :
    Triple P (onlyIf b f) Q := by
  intro s hP hok
  unfold onlyIf at hok ⊢
  cases b with
  | false => simpa using hf rfl s hP
  | true => exact ht rfl s hP (by simpa using hok)

theorem callsFor_append (e : Nat) (tr new : List Event) :
    callsFor e (tr ++ new) = callsFor e tr ++ callsFor e new :=
  List.filterMap_append _ _ _

theorem callsFor_eq_nil (e : Nat) (new : List Event) (h : ∀ ev ∈ new, ev.callFor e = none) :
    callsFor e new = [] := by
  unfold callsFor
  rw [List.filterMap_eq_nil_iff]
  exact h

theorem callsInv_of_ext {n e : Nat} {E : List (Nat × Round)} {s1 s2 : State}
    (hI : CallsInv n e E s1) (h : Ext (fun ev => ev.callFor e = none) s1 s2) :
    CallsInv n e E s2 := by
  obtain ⟨new, ht, hn, hl, hm, _⟩ := h
  have hc : callsFor e s2.trace = callsFor e s1.trace := by
    rw [ht, callsFor_append, callsFor_eq_nil e new hn, List.append_nil]
  refine ⟨hl.trans hI.1, hc ▸ hI.2.1, fun hflag => ?_⟩
  rw [hc]
  exact hI.2.2 fun h1 => hflag (hm e h1)

theorem keeps_callsInv_of_step {P : Event → Prop} {f : State → Outcome} (n e : Nat)
    (E : List (Nat × Round)) (hP : ∀ ev, P ev → ev.callFor e = none) (h : Step P f) :
    Keeps (CallsInv n e E) f :=
  fun s hI => callsInv_of_ext hI (ext_mono hP (h s))

theorem keeps_callsInv_of_quiet {f : State → Outcome} (n e : Nat)
    (E : List (Nat × Round)) (h : Quiet (fun ev => ev.callFor e = none) f) :
    Keeps (CallsInv n e E) f :=
  keeps_callsInv_of_step n e E (fun _ h => h) (step_of_quiet h)

theorem tryCalls_trace (env : Env) (evs : List Event) :
    ∀ s, (tryCalls env evs s).2.tradeHasError = s.tradeHasError ∧
      ∃ k, (tryCalls env evs s).2.trace = s.trace ++ evs.take k ∧
        (¬ (tryCalls env evs s).1 = true → (tryCalls env evs s).2.trace = s.trace ++ evs) := by
  induction evs with
  | nil =>
    intro s
    exact ⟨rfl, 0, by simp [tryCalls], fun _ => by simp [tryCalls]⟩
  | cons ev rest ih =>
    intro s
    by_cases hr : env.raises s.trace ev = true
    · rw [tryCalls_cons_raise env ev rest s hr]
      exact ⟨rfl, 1, by simp [invoke], fun h => absurd rfl h⟩
    · rw [tryCalls_cons_pass env ev rest s hr]
      obtain ⟨h1, k, h2, h3⟩ := ih (invoke env ev s).2
      refine ⟨h1, k + 1, ?_, fun h => ?_⟩
      · rw [h2]
        simp [invoke]
      · rw [h3 h]
        simp [invoke]

theorem callsFor_round_take (e : Nat) (numCalculators : Nat) (d : Date) (k sample : Nat)
    (m : Bool) (i : Nat) :
    callsFor e (((List.range numCalculators).map fun c =>
        Event.calculate c e d k sample m).take i) =
      (roundCalls numCalculators (d, k, sample, m)).take i := by
  unfold callsFor roundCalls
  rw [← List.map_take, ← List.map_take, List.filterMap_map]
  rw [← List.filterMap_eq_map]
  congr 1
  funext c
  simp [Event.callFor]

theorem step_runCalculatorsTrade_other (env : Env) (m : Bool) (inp : Input) (d : Date)
    (k sample j e : Nat) (hne : j ≠ e) :
    Step (fun ev => ev.callFor e = none)
      (runCalculatorsTrade env m inp inp.om d k sample j) := by
  intro s
  unfold runCalculatorsTrade
  by_cases hflag : s.tradeHasError.getD j false = true
  · rw [if_pos hflag]
    exact ext_refl _ s
  · rw [if_neg hflag]
    refine step_block_cons (P := fun ev => ev.callFor e = none)
      (step_onlyIf fun _ => step_of_quiet
        (quiet_callAt env (Event.updateQlInstruments j) rfl))
      (step_block_cons (step_tryBlock env _ j _ ?_ rfl) (step_block_nil _)) s
    intro ev hev
    obtain ⟨c, _, rfl⟩ := List.mem_map.1 hev
    simp [Event.callFor, hne]

theorem callsInv_tryBlock_self (env : Env) (n numCalculators : Nat) (d : Date)
    (k sample : Nat) (m : Bool) (e : Nat) (he : e < n) (E : List (Nat × Round)) (s : State)
    (hI : CallsInv n e E s) (hflag : ¬ s.tradeHasError.getD e false = true)
    (hok : (tryBlock env ((List.range numCalculators).map fun c =>
        Event.calculate c e d k sample m) e (ErrorInfo.scenario d sample) s).err = none) :
    CallsInv n e (E ++ roundCalls numCalculators (d, k, sample, m))
      (tryBlock env ((List.range numCalculators).map fun c =>
        Event.calculate c e d k sample m) e (ErrorInfo.scenario d sample) s).st := by
  have hu := tryBlock_err_none _ _ _ _ _ hok
  obtain ⟨hfl, i, htr, hpass⟩ := tryCalls_trace env
    ((List.range numCalculators).map fun c => Event.calculate c e d k sample m) s
  have hE : callsFor e s.trace = E := hI.2.2 hflag
  by_cases hr : (tryCalls env ((List.range numCalculators).map fun c =>
      Event.calculate c e d k sample m) s).1 = true
  · rw [tryBlock_raised _ _ _ _ _ hr hu, ok_st]
    refine ⟨?_, ?_, fun h => ?_⟩
    · simp only [handleError, List.length_set, hfl]
      exact hI.1
    · simp only [handleError]
      rw [callsFor_append, htr, callsFor_append, hE, callsFor_round_take,
        callsFor_eq_nil e [_] (by simp [Event.callFor]), List.append_nil]
      exact (List.prefix_append_right_inj E).2 (List.take_prefix _ _)
    · refine absurd ?_ h
      simp only [handleError]
      rw [getD_set_true, hfl, hI.1]
      exact Or.inl ⟨rfl, he⟩
  · rw [tryBlock_passed _ _ _ _ _ hr, ok_st]
    have hc : callsFor e (tryCalls env ((List.range numCalculators).map fun c =>
        Event.calculate c e d k sample m) s).2.trace =
        E ++ roundCalls numCalculators (d, k, sample, m) := by
      rw [hpass hr, callsFor_append, hE]
      have := callsFor_round_take e numCalculators d k sample m numCalculators
      rw [List.take_of_length_le (by simp), List.take_of_length_le (by simp [roundCalls])]
        at this
      rw [this]
    exact ⟨hfl ▸ hI.1, hc ▸ List.prefix_refl _, fun _ => hc⟩

theorem triple_runCalculatorsTrade_self (env : Env) (m : Bool) (inp : Input) (d : Date)
    (k sample e : Nat) (he : e < inp.trades.length) (E : List (Nat × Round)) :
    Triple (CallsInv inp.trades.length e E)
      (runCalculatorsTrade env m inp inp.om d k sample e)
      (CallsInv inp.trades.length e (E ++ roundCalls inp.numCalculators (d, k, sample, m))) := by
  intro s hI hok
  unfold runCalculatorsTrade at hok ⊢
  by_cases hflag : s.tradeHasError.getD e false = true
  · rw [if_pos hflag]
    exact ⟨hI.1, hI.2.1.trans (List.prefix_append _ _), fun h => absurd hflag h⟩
  · rw [if_neg hflag] at hok ⊢
    obtain ⟨_, _, h3⟩ := block_cons_err_none hok
    rw [h3, block_singleton]
    have hstep : Step (fun ev => ev = Event.updateQlInstruments e)
        (onlyIf (decide (inp.om = Mode.Disable ∨ inp.om = Mode.Unregister))
          (call env (Event.updateQlInstruments e))) :=
      step_onlyIf fun _ => step_of_quiet (quiet_call env rfl)
    refine callsInv_tryBlock_self env _ _ d k sample m e he E _
      (keeps_callsInv_of_step _ e E (fun ev h => by rw [h]; rfl) hstep s hI) ?_ ?_
    · rw [ext_neutral_flag (ext_mono (fun ev h => by rw [h]; exact ⟨rfl, rfl⟩) (hstep s)) e]
      exact hflag
    · rw [h3, block_singleton] at hok
      exact hok

theorem triple_runCalculators_trades (env : Env) (m : Bool) (inp : Input) (d : Date)
    (k sample e : Nat) (he : e < inp.trades.length) :
    ∀ (xs : List Nat) (E : List (Nat × Round)), xs.Nodup →
      Triple (CallsInv inp.trades.length e E)
        (forEach (runCalculatorsTrade env m inp inp.om d k sample) xs)
        (CallsInv inp.trades.length e
          (E ++ if e ∈ xs then roundCalls inp.numCalculators (d, k, sample, m) else [])) := by
  intro xs
  induction xs with
  | nil =>
    intro E _ s hI _
    simpa using hI
  | cons x rest ih =>
    intro E hnd
    rw [List.nodup_cons] at hnd
    by_cases hx : x = e
    · subst hx
      have hrest : Keeps (CallsInv inp.trades.length x
          (E ++ roundCalls inp.numCalculators (d, k, sample, m)))
          (forEach (runCalculatorsTrade env m inp inp.om d k sample) rest) :=
        keeps_forEach _ fun j hj => keeps_callsInv_of_step _ x _ (fun _ h => h)
          (step_runCalculatorsTrade_other env m inp d k sample j x
            (fun h => hnd.1 (h ▸ hj)))
      have := triple_andThen (triple_runCalculatorsTrade_self env m inp d k sample x he E)
        (triple_of_keeps hrest)
      simpa using this
    · have h1 : Keeps (CallsInv inp.trades.length e E)
          (runCalculatorsTrade env m inp inp.om d k sample x) :=
        keeps_callsInv_of_step _ e _ (fun _ h => h)
          (step_runCalculatorsTrade_other env m inp d k sample x e hx)
      have := triple_andThen (triple_of_keeps h1) (ih E hnd.2)
      have hmem : (e ∈ x :: rest) ↔ e ∈ rest := by
        simp [List.mem_cons, Ne.symm hx]
      simpa [hmem] using this

theorem triple_runCalculators (env : Env) (m : Bool) (inp : Input) (d : Date)
    (k sample e : Nat) (he : e < inp.trades.length) (E : List (Nat × Round)) :
    Triple (CallsInv inp.trades.length e E) (runCalculators env m inp d k sample)
      (CallsInv inp.trades.length e (E ++ roundCalls inp.numCalculators (d, k, sample, m))) := by
  unfold runCalculators
  refine triple_block_cons (triple_of_keeps (keeps_forEach _ fun c _ =>
    keeps_callsInv_of_quiet _ e E (quiet_call env rfl))) ?_
  have := triple_runCalculators_trades env m inp d k sample e he
    (List.range inp.trades.length) E (List.nodup_range _)
  rw [if_pos (List.mem_range.2 he)] at this
  exact triple_block_cons this (triple_block_nil _)

theorem keeps_callsInv_recalibrate (env : Env) (eng : Engine) (om : Mode) (n e : Nat)
    (E : List (Nat × Round)) : Keeps (CallsInv n e E) (recalibrateModels env eng om) :=
  keeps_callsInv_of_quiet n e E
    (quiet_recalibrateModels env eng om (fun _ _ => rfl) (fun _ => rfl))

theorem keeps_callsInv_exercisable (env : Env) (enable : Bool) (trades : List Trade)
    (n e : Nat) (E : List (Nat × Round)) :
    Keeps (CallsInv n e E) (tradeExercisable env enable trades) :=
  keeps_callsInv_of_quiet n e E
    (quiet_tradeExercisable env enable trades (fun _ _ _ => rfl) (fun _ _ _ => rfl))

theorem keeps_callsInv_call (env : Env) (n e : Nat) (E : List (Nat × Round)) (ev : Event)
    (h : ev.callFor e = none) : Keeps (CallsInv n e E) (call env ev) :=
  keeps_callsInv_of_quiet n e E (quiet_call env h)

theorem triple_processCloseOutDate (env : Env) (eng : Engine) (inp : Input) (sample : Nat)
    (d : Date) (cdi : Int) (e : Nat) (he : e < inp.trades.length) (E : List (Nat × Round)) :
    Triple (CallsInv inp.trades.length e E) (processCloseOutDate env eng inp sample d cdi)
      (CallsInv inp.trades.length e
        (E ++ roundCalls inp.numCalculators (d, cdi.toNat, sample, true))) := by
  unfold processCloseOutDate
  refine triple_block_cons (triple_of_keeps (keeps_callsInv_call env _ e E _ rfl)) ?_
  refine triple_block_cons (triple_of_keeps
    (keeps_onlyIf fun _ => keeps_callsInv_call env _ e E _ rfl)) ?_
  refine triple_block_cons (triple_of_keeps (keeps_callsInv_call env _ e E _ rfl)) ?_
  refine triple_block_cons (triple_of_keeps (keeps_callsInv_call env _ e E _ rfl)) ?_
  refine triple_block_cons (triple_of_keeps (keeps_callsInv_recalibrate env eng _ _ e E)) ?_
  refine triple_block_cons (triple_of_keeps
    (keeps_onlyIf fun _ => keeps_callsInv_exercisable env _ _ _ e E)) ?_
  refine triple_block_cons (triple_of_keeps
    (keeps_callsInv_of_quiet _ e E (quiet_require _ _ _))) ?_
  refine triple_block_cons (triple_runCalculators env true inp d _ sample e he E) ?_
  exact triple_block_cons (triple_of_keeps
    (keeps_onlyIf fun _ => keeps_callsInv_exercisable env _ _ _ e _)) (triple_block_nil _)

theorem keeps_callsInv_cpty (env : Env) (m : Bool) (inp : Input) (d : Date) (k sample : Nat)
    (n e : Nat) (E : List (Nat × Round)) :
    Keeps (CallsInv n e E) (runCptyCalculators env m inp d k sample) := by
  unfold runCptyCalculators
  exact keeps_forEach _ fun idx _ => keeps_forEach _ fun c _ =>
    keeps_callsInv_of_step n e E (fun _ h => h)
      (step_callCalcAt env (Event.cptyCalculate c idx d k sample m) rfl)

theorem triple_processValuationDate (env : Env) (eng : Engine) (inp : Input) (sample : Nat)
    (d : Date) (cdi : Int) (b : Bool) (e : Nat) (he : e < inp.trades.length)
    (E : List (Nat × Round)) :
    Triple (CallsInv inp.trades.length e E)
      (processValuationDate env eng inp sample d cdi b)
      (CallsInv inp.trades.length e
        (E ++ roundCalls inp.numCalculators (d, cdi.toNat, sample, false))) := by
  unfold processValuationDate
  refine triple_block_cons (triple_of_keeps (keeps_callsInv_call env _ e E _ rfl)) ?_
  refine triple_block_cons (triple_of_keeps (keeps_callsInv_call env _ e E _ rfl)) ?_
  refine triple_block_cons (triple_of_keeps
    (keeps_onlyIf fun _ => keeps_callsInv_call env _ e E _ rfl)) ?_
  refine triple_block_cons (triple_of_keeps (keeps_callsInv_call env _ e E _ rfl)) ?_
  refine triple_block_cons (triple_of_keeps (keeps_callsInv_call env _ e E _ rfl)) ?_
  refine triple_block_cons (triple_of_keeps (keeps_callsInv_recalibrate env eng _ _ e E)) ?_
  refine triple_block_cons (triple_runCalculators env false inp d _ sample e he E) ?_
  exact triple_block_cons (triple_of_keeps (keeps_callsInv_cpty env _ inp d _ sample _ e _))
    (triple_block_nil _)

theorem triple_dateLoop (env : Env) (eng : Engine) (inp : Input) (sample : Nat) (e : Nat)
    (he : e < inp.trades.length) :
    ∀ (rest : List GridSlot) (cdi : Int) (E : List (Nat × Round)),
      Triple (CallsInv inp.trades.length e E) (dateLoop env eng inp sample rest cdi)
        (CallsInv inp.trades.length e
          (E ++ (gridRounds sample rest cdi).flatMap (roundCalls inp.numCalculators))) := by
  intro rest
  induction rest with
  | nil =>
    intro cdi E s hI _
    simpa [gridRounds, dateLoop] using hI
  | cons g rest ih =>
    intro cdi E
    have h1 : Triple (CallsInv inp.trades.length e E)
        (onlyIf g.isCloseOutDate (processCloseOutDate env eng inp sample g.date cdi))
        (CallsInv inp.trades.length e (E ++
          (if g.isCloseOutDate = true then [(g.date, cdi.toNat, sample, true)] else []).flatMap
            (roundCalls inp.numCalculators))) := by
      refine triple_onlyIf (fun hc => ?_) (fun hc s hI => ?_)
      · rw [if_pos hc, List.flatMap_singleton]
        exact triple_processCloseOutDate env eng inp sample g.date cdi e he E
      · rw [hc]
        simpa using hI
    have h2 : Triple (CallsInv inp.trades.length e (E ++
          (if g.isCloseOutDate = true then [(g.date, cdi.toNat, sample, true)] else []).flatMap
            (roundCalls inp.numCalculators)))
        (onlyIf g.isValuationDate (processValuationDate env eng inp sample g.date
          (if g.isValuationDate = true then cdi + 1 else cdi) g.isCloseOutDate))
        (CallsInv inp.trades.length e (E ++
          ((if g.isCloseOutDate = true then [(g.date, cdi.toNat, sample, true)] else []) ++
           (if g.isValuationDate = true then [(g.date, (cdi + 1).toNat, sample, false)]
            else [])).flatMap (roundCalls inp.numCalculators))) := by
      refine triple_onlyIf (fun hv => ?_) (fun hv s hI => ?_)
      · rw [if_pos hv, if_pos hv, List.flatMap_append, List.flatMap_singleton,
          ← List.append_assoc]
        exact triple_processValuationDate env eng inp sample g.date _ _ e he _
      · rw [hv]
        simpa using hI
    have h3 := triple_andThen (f := block _)
      (triple_block_cons h1 (triple_block_cons h2 (triple_block_nil _)))
      (ih (if g.isValuationDate = true then cdi + 1 else cdi) _)
    intro s hI hok
    have := h3 s hI hok
    simpa [gridRounds, List.flatMap_append, List.append_assoc] using this

theorem triple_processSample (env : Env) (eng : Engine) (inp : Input) (sample : Nat)
    (e : Nat) (he : e < inp.trades.length) (E : List (Nat × Round)) :
    Triple (CallsInv inp.trades.length e E) (processSample env eng inp sample)
      (CallsInv inp.trades.length e
        (E ++ (gridRounds sample eng.dg (-1)).flatMap (roundCalls inp.numCalculators))) := by
  unfold processSample
  refine triple_block_cons (triple_of_keeps (keeps_forEach _ fun t _ =>
    keeps_callsInv_call env _ e E _ rfl)) ?_
  refine triple_block_cons (triple_dateLoop env eng inp sample e he eng.dg (-1) E) ?_
  exact triple_block_cons (triple_of_keeps (keeps_callsInv_call env _ e _ _ rfl))
    (triple_block_nil _)

theorem triple_sampleLoop (env : Env) (eng : Engine) (inp : Input) (e : Nat)
    (he : e < inp.trades.length) :
    ∀ (samples : List Nat) (E : List (Nat × Round)),
      Triple (CallsInv inp.trades.length e E) (forEach (processSample env eng inp) samples)
        (CallsInv inp.trades.length e
          (E ++ (sampleRounds eng.dg samples).flatMap (roundCalls inp.numCalculators))) := by
  intro samples
  induction samples with
  | nil =>
    intro E s hI _
    simpa [sampleRounds] using hI
  | cons x rest ih =>
    intro E s hI hok
    have := triple_andThen (triple_processSample env eng inp x e he E) (ih _) s hI hok
    simpa [sampleRounds, List.flatMap_append, List.append_assoc] using this

theorem triple_simulate_calls (env : Env) (eng : Engine) (inp : Input) (dryRun : Bool)
    (asofDate : Date) (e : Nat) (he : e < inp.trades.length) :
    Triple (CallsInv inp.trades.length e []) (simulate env eng inp dryRun asofDate)
      (CallsInv inp.trades.length e (expectedCalls eng inp dryRun)) := by
  unfold simulate
  refine triple_block_cons (triple_of_keeps (keeps_callsInv_of_step _ e _ ?_
    (step_initialiseTrades env eng inp))) ?_
  · rintro ev ⟨t, _, h⟩
    cases ev <;> first | rfl | exact absurd h (by simp [TradeInitEvent])
  refine triple_block_cons (triple_of_keeps
    (keeps_onlyIf fun _ => keeps_callsInv_call env _ e _ _ rfl)) ?_
  refine triple_block_cons (Q := CallsInv inp.trades.length e (expectedCalls eng inp dryRun))
    ?_ ?_
  · have := triple_sampleLoop env eng inp e he (List.range (numSamplesReplayed inp dryRun)) []
    simpa [expectedCalls] using this
  refine triple_block_cons (triple_of_keeps (keeps_callsInv_of_step _ e _ ?_
    (step_dryRunFill env eng inp dryRun))) ?_
  · intro ev h
    cases ev <;> first | rfl | exact absurd h (by simp [FillEvent])
  exact triple_block_cons (triple_of_keeps (keeps_forEach _ fun i _ =>
    keeps_callsInv_of_step _ e _ (fun _ h => h)
      (step_removeIfError env i (P := fun ev => ev.callFor e = none) rfl)))
    (triple_block_nil _)

theorem buildCube_calls (env : Env) (eng : Engine) (inp : Input) (dryRun : Bool)
    (asofDate : Date) (cubes : Cubes)
    (hok : (buildCube env eng inp dryRun asofDate cubes).err = none) (e : Nat)
    (he : e < inp.trades.length) :
    callsFor e (buildCube env eng inp dryRun asofDate cubes).st.trace <+:
      expectedCalls eng inp dryRun ∧
    (¬ raisedFor env e (buildCube env eng inp dryRun asofDate cubes).st.trace →
      callsFor e (buildCube env eng inp dryRun asofDate cubes).st.trace =
        expectedCalls eng inp dryRun) := by
  have hI := buildCube_inv env eng inp dryRun asofDate cubes hok
  rcases buildCubeBody_cases env eng inp dryRun asofDate cubes with
    ⟨e1, new, hb, _⟩ | ⟨new, hnew, _, hb⟩
  · simp [buildCube, hb] at hok
  · have hok' : (simulate env eng inp dryRun asofDate
        ⟨new, cubes, List.replicate inp.trades.length false⟩).err = none := by
      simpa [buildCube, hb] using hok
    have hnil : callsFor e new = [] := by
      refine callsFor_eq_nil e new fun ev hev => ?_
      obtain ⟨c, _, rfl | rfl⟩ := hnew ev hev <;> rfl
    have h0 : CallsInv inp.trades.length e []
        ⟨new, cubes, List.replicate inp.trades.length false⟩ :=
      ⟨by simp, by simp [hnil], fun _ => hnil⟩
    have h1 := triple_simulate_calls env eng inp dryRun asofDate e he _ h0 hok'
    have htr : callsFor e (buildCube env eng inp dryRun asofDate cubes).st.trace =
        callsFor e (simulate env eng inp dryRun asofDate
          ⟨new, cubes, List.replicate inp.trades.length false⟩).st.trace := by
      simp only [buildCube, hb]
      rw [callsFor_append, callsFor_eq_nil e [Event.marketReset] (by simp [Event.callFor]),
        List.append_nil]
    have hfl : (buildCube env eng inp dryRun asofDate cubes).st.tradeHasError =
        (simulate env eng inp dryRun asofDate
          ⟨new, cubes, List.replicate inp.trades.length false⟩).st.tradeHasError := by
      simp only [buildCube, hb]
    rw [htr]
    refine ⟨h1.2.1, fun hnr => h1.2.2 fun hflag => hnr ((hI.flag_iff e).1 ?_)⟩
    rw [hfl]
    exact hflag

/-! ## The rounds of a complete run -/

theorem callsBy_eq_callsFor (c e : Nat) (tr : List Event) :
    callsBy c e tr =
      (callsFor e tr).filterMap fun p => if p.1 = c then some p.2 else none := by
  unfold callsBy callsFor
  rw [List.filterMap_filterMap]
  congr 1
  funext ev
  cases ev with
  | calculate c1 t d k s m =>
    by_cases ht : t = e <;> by_cases hc : c1 = c <;>
      simp [Event.roundBy, Event.callFor, ht, hc]
  | _ => rfl

theorem range_filterMap_pick {α : Type} (n c : Nat) (x : α) :
    (List.range n).filterMap (fun c1 => if c1 = c then some x else none) =
      if c < n then [x] else [] := by
  induction n with
  | zero => simp
  | succ n ih =>
    rw [List.range_succ, List.filterMap_append, ih]
    by_cases h1 : c < n
    · have h2 : n ≠ c := by omega
      have h3 : c < n + 1 := by omega
      simp [h1, h2, h3]
    · by_cases h2 : n = c
      · subst h2
        simp
      · have h3 : ¬ c < n + 1 := by omega
        simp [h1, h2, h3]

theorem roundCalls_pick (n c : Nat) (r : Round) :
    (roundCalls n r).filterMap (fun p => if p.1 = c then some p.2 else none) =
      if c < n then [r] else [] := by
  unfold roundCalls
  rw [List.filterMap_map]
  exact range_filterMap_pick n c r

theorem flatMap_pure {α : Type} (l : List α) : (l.flatMap fun x => [x]) = l := by
  induction l with
  | nil => rfl
  | cons x rest ih => rw [List.flatMap_cons, ih]; rfl

theorem expectedCalls_pick (eng : Engine) (inp : Input) (dryRun : Bool) (c : Nat)
    (hc : c < inp.numCalculators) :
    (expectedCalls eng inp dryRun).filterMap (fun p => if p.1 = c then some p.2 else none) =
      sampleRounds eng.dg (List.range (numSamplesReplayed inp dryRun)) := by
  unfold expectedCalls
  rw [List.filterMap_flatMap]
  simp only [roundCalls_pick, hc, ↓reduceIte]
  exact flatMap_pure _

theorem gridRounds_valuation (sample : Nat) :
    ∀ (dg : List GridSlot) (cdi : Int), -1 ≤ cdi →
      valuationIndexes (gridRounds sample dg cdi) =
        (List.range' (cdi + 1).toNat (valuationDates dg).length).map fun k => (k, sample) := by
  intro dg
  induction dg with
  | nil =>
    intro cdi _
    simp [gridRounds, valuationIndexes, valuationDates]
  | cons g rest ih =>
    intro cdi hcdi
    unfold valuationIndexes at ih ⊢
    cases hv : g.isValuationDate
    · have := ih cdi hcdi
      cases hc : g.isCloseOutDate <;>
        simp [gridRounds, hv, hc, valuationDates, List.filterMap_cons] at this ⊢ <;>
        exact this
    · have := ih (cdi + 1) (by omega)
      have hsucc : (cdi + 1 + 1).toNat = (cdi + 1).toNat + 1 := by omega
      rw [hsucc] at this
      cases hc : g.isCloseOutDate <;>
        simp [gridRounds, hv, hc, valuationDates, List.filterMap_cons, List.range'_succ]
          at this ⊢ <;>
        exact this

theorem gridRounds_closeOut (sample : Nat) :
    ∀ (dg : List GridSlot) (cdi : Int),
      closeOutSlots (gridRounds sample dg cdi) =
        (closeOutDates dg).map fun d => (d, sample) := by
  intro dg
  induction dg with
  | nil =>
    intro cdi
    simp [gridRounds, closeOutSlots, closeOutDates]
  | cons g rest ih =>
    intro cdi
    unfold closeOutSlots at ih ⊢
    have := ih (if g.isValuationDate = true then cdi + 1 else cdi)
    cases hv : g.isValuationDate <;> cases hc : g.isCloseOutDate <;>
      simp [gridRounds, hv, hc, closeOutDates, List.filterMap_cons] at this ⊢ <;>
      exact this

theorem gridRounds_length (sample : Nat) :
    ∀ (dg : List GridSlot) (cdi : Int),
      (gridRounds sample dg cdi).length =
        (valuationDates dg).length + (closeOutDates dg).length := by
  intro dg
  induction dg with
  | nil =>
    intro cdi
    simp [gridRounds, valuationDates, closeOutDates]
  | cons g rest ih =>
    intro cdi
    have := ih (if g.isValuationDate = true then cdi + 1 else cdi)
    cases hv : g.isValuationDate <;> cases hc : g.isCloseOutDate <;>
      simp [gridRounds, hv, hc, valuationDates, closeOutDates] at this ⊢ <;>
      omega

theorem sampleRounds_valuation (dg : List GridSlot) (samples : List Nat) :
    valuationIndexes (sampleRounds dg samples) =
      samples.flatMap fun s => (List.range (valuationDates dg).length).map fun k => (k, s) := by
  unfold sampleRounds
  have h : ∀ s, valuationIndexes (gridRounds s dg (-1)) =
      (List.range (valuationDates dg).length).map fun k => (k, s) := by
    intro s
    rw [gridRounds_valuation s dg (-1) (le_refl _), List.range_eq_range']
    rfl
  unfold valuationIndexes at h ⊢
  rw [List.filterMap_flatMap]
  simp only [h]

theorem sampleRounds_closeOut (dg : List GridSlot) (samples : List Nat) :
    closeOutSlots (sampleRounds dg samples) =
      samples.flatMap fun s => (closeOutDates dg).map fun d => (d, s) := by
  unfold sampleRounds
  have h := fun s => gridRounds_closeOut s dg (-1)
  unfold closeOutSlots at h ⊢
  rw [List.filterMap_flatMap]
  simp only [h]

theorem sampleRounds_length (dg : List GridSlot) (samples : List Nat) :
    (sampleRounds dg samples).length =
      samples.length * ((valuationDates dg).length + (closeOutDates dg).length) := by
  unfold sampleRounds
  induction samples with
  | nil => simp
  | cons s rest ih =>
    rw [List.flatMap_cons, List.length_append, ih, gridRounds_length, List.length_cons]
    ring

theorem not_raisedFor_of_quiet (env : Env) (e : Nat) (tr : List Event)
    (hquiet : ∀ pre ev t, ev.calcTrade = some t → env.raises pre ev = false) :
    ¬ raisedFor env e tr := by
  rintro ⟨pre, ev, post, _, hc, hr⟩
  rw [hquiet pre ev e hc] at hr
  exact absurd hr (by simp)

theorem buildCube_ok_numDates (env : Env) (eng : Engine) (inp : Input) (dryRun : Bool)
    (asofDate : Date) (cubes : Cubes)
    (hok : (buildCube env eng inp dryRun asofDate cubes).err = none) :
    inp.outputCube.numDates = (valuationDates eng.dg).length := by
  rcases buildCubeBody_cases env eng inp dryRun asofDate cubes with
    ⟨e1, new, hb, _⟩ | ⟨new, _, hm, _⟩
  · simp [buildCube, hb] at hok
  · by_contra h
    exact hm (Or.inr (Or.inr (Or.inl h)))

theorem buildCube_callsBy (env : Env) (eng : Engine) (inp : Input) (dryRun : Bool)
    (asofDate : Date) (cubes : Cubes)
    (hok : (buildCube env eng inp dryRun asofDate cubes).err = none) (e : Nat)
    (he : e < inp.trades.length)
    (hnr : ¬ raisedFor env e (buildCube env eng inp dryRun asofDate cubes).st.trace)
    (c : Nat) (hc : c < inp.numCalculators) :
    callsBy c e (buildCube env eng inp dryRun asofDate cubes).st.trace =
      sampleRounds eng.dg (List.range (numSamplesReplayed inp dryRun)) := by
  rw [callsBy_eq_callsFor, (buildCube_calls env eng inp dryRun asofDate cubes hok e he).2 hnr,
    expectedCalls_pick eng inp dryRun c hc]

/-! ## Runs in which only calculators raise -/

theorem succeeds_ok : Succeeds ok :=
  fun _ => rfl

theorem succeeds_call (env : Env)
    (hcalm : ∀ pre ev, ev.calcTrade = none → env.raises pre ev = false) (ev : Event)
    (h : ev.calcTrade = none) : Succeeds (call env ev) := by
  intro s
  simp [call, hcalm s.trace ev h]

theorem succeeds_onlyIf {b : Bool} {f : State → Outcome} (h : b = true → Succeeds f) :
    Succeeds (onlyIf b f) := by
  intro s
  unfold onlyIf
  cases b with
  | false => rfl
  | true => simpa using h rfl s

theorem succeeds_andThen {f g : State → Outcome} (hf : Succeeds f) (hg : Succeeds g) :
    Succeeds (fun s => (f s).andThen g) :=
  fun s => andThen_err_none.2 ⟨hf s, hg _⟩

theorem succeeds_forEach {α : Type} {f : α → State → Outcome} (xs : List α)
    (h : ∀ x ∈ xs, Succeeds (f x)) : Succeeds (forEach f xs) := by
  induction xs with
  | nil => exact succeeds_ok
  | cons x rest ih =>
    exact succeeds_andThen (h x (List.mem_cons_self x rest))
      (ih fun y hy => h y (List.mem_cons_of_mem x hy))

theorem succeeds_block_nil : Succeeds (block []) :=
  succeeds_ok

theorem succeeds_block_cons {f : State → Outcome} {fs : List (State → Outcome)}
    (hf : Succeeds f) (hfs : Succeeds (block fs)) : Succeeds (block (f :: fs)) :=
  succeeds_andThen hf hfs

theorem succeeds_tryBlock (env : Env)
    (hstd : ∀ pre ev, env.raises pre ev = true → env.std pre ev = true) (evs : List Event)
    (t : Nat) (info : ErrorInfo) : Succeeds (tryBlock env evs t info) := by
  intro s
  by_cases hr : (tryCalls env evs s).1 = true
  · rw [tryBlock_raised env evs t info s hr (uncaught_of_std env hstd evs s)]
    rfl
  · rw [tryBlock_passed env evs t info s hr]
    rfl

theorem succeeds_recalibrateModels (env : Env)
    (hcalm : ∀ pre ev, ev.calcTrade = none → env.raises pre ev = false) (eng : Engine)
    (om : Mode) : Succeeds (recalibrateModels env eng om) := by
  unfold recalibrateModels
  exact succeeds_forEach _ fun b _ =>
    succeeds_block_cons (succeeds_onlyIf fun _ => succeeds_call env hcalm _ rfl)
      (succeeds_block_cons (succeeds_call env hcalm _ rfl) succeeds_block_nil)

theorem succeeds_tradeExercisable (env : Env)
    (hcalm : ∀ pre ev, ev.calcTrade = none → env.raises pre ev = false) (enable : Bool)
    (trades : List Trade) : Succeeds (tradeExercisable env enable trades) := by
  unfold tradeExercisable
  refine succeeds_forEach _ fun p _ => succeeds_onlyIf fun _ => ?_
  cases enable with
  | true => simpa using succeeds_call env hcalm (Event.enableExercise p.1) rfl
  | false => simpa using succeeds_call env hcalm (Event.disableExercise p.1) rfl

theorem succeeds_initialiseCalculators (env : Env)
    (hcalm : ∀ pre ev, ev.calcTrade = none → env.raises pre ev = false) (inp : Input) :
    Succeeds (initialiseCalculators env inp) := by
  unfold initialiseCalculators
  exact succeeds_forEach _ fun c _ =>
    succeeds_block_cons (succeeds_call env hcalm _ rfl)
      (succeeds_block_cons (succeeds_call env hcalm _ rfl) succeeds_block_nil)

theorem succeeds_initialiseTrades (env : Env)
    (hcalm : ∀ pre ev, ev.calcTrade = none → env.raises pre ev = false)
    (hstd : ∀ pre ev, env.raises pre ev = true → env.std pre ev = true) (eng : Engine)
    (inp : Input) (hccy : ∀ t ∈ inp.trades, t.npvCurrencyEmpty = false) :
    Succeeds (forEach (initialiseTrade env eng inp) inp.trades.enum) := by
  refine succeeds_forEach _ fun p hp => ?_
  have hmem : p.2 ∈ inp.trades := by
    have := List.mk_mem_enum_iff_getElem?.1 (show (p.1, p.2) ∈ inp.trades.enum from hp)
    exact List.mem_iff_getElem?.2 ⟨p.1, this⟩
  unfold initialiseTrade
  refine succeeds_block_cons ?_ ?_
  · intro s
    simp [require, hccy p.2 hmem]
  refine succeeds_block_cons (succeeds_call env hcalm _ rfl) ?_
  refine succeeds_block_cons (succeeds_recalibrateModels env hcalm eng inp.om) ?_
  refine succeeds_block_cons (succeeds_tryBlock env hstd _ _ _) ?_
  exact succeeds_block_cons (succeeds_onlyIf fun _ => succeeds_call env hcalm _ rfl)
    succeeds_block_nil

theorem failsWith_andThen_here {P : Event → Prop} {e : Err} {f : State → Outcome}
    (g : State → Outcome) (hf : FailsWith P e f) :
    FailsWith P e (fun s => (f s).andThen g) := by
  intro s
  show ((f s).andThen g).err = some e ∧ Grows P s ((f s).andThen g).st
  rw [andThen_of_some (hf s).1]
  exact hf s

theorem failsWith_andThen_after {P : Event → Prop} {e : Err} {f g : State → Outcome}
    (hs : Succeeds f) (he : Emits P f) (hg : FailsWith P e g) :
    FailsWith P e (fun s => (f s).andThen g) := by
  intro s
  show ((f s).andThen g).err = some e ∧ Grows P s ((f s).andThen g).st
  rw [andThen_of_none (hs s)]
  exact ⟨(hg _).1, grows_trans (he s) (hg _).2⟩

theorem failsWith_block_here {P : Event → Prop} {e : Err} {f : State → Outcome}
    (fs : List (State → Outcome)) (hf : FailsWith P e f) : FailsWith P e (block (f :: fs)) :=
  failsWith_andThen_here (block fs) hf

theorem failsWith_block_after {P : Event → Prop} {e : Err} {f : State → Outcome}
    {fs : List (State → Outcome)} (hs : Succeeds f) (he : Emits P f)
    (hfs : FailsWith P e (block fs)) : FailsWith P e (block (f :: fs)) :=
  failsWith_andThen_after hs he hfs

theorem failsWith_require (P : Event → Prop) (e : Err) : FailsWith P e (require false e) :=
  fun s => ⟨rfl, grows_refl P s⟩

theorem emits_of_quiet {P : Event → Prop} {f : State → Outcome} (h : Quiet P f) : Emits P f :=
  emits_of_step (step_of_quiet h)

theorem emits_call_notCalculate (env : Env) (ev : Event) (h : ev.callFor = fun _ => none) :
    Emits NotCalculate (call env ev) := by
  refine emits_of_quiet (quiet_call env ?_)
  intro c t d k s m heq
  rw [heq] at h
  have := congrFun h t
  simp [Event.callFor] at this

theorem failsWith_processCloseOutDate (env : Env)
    (hcalm : ∀ pre ev, ev.calcTrade = none → env.raises pre ev = false) (eng : Engine)
    (inp : Input) (sample : Nat) (d : Date) :
    FailsWith NotCalculate Err.negativeCubeDateIndex
      (processCloseOutDate env eng inp sample d (-1)) := by
  unfold processCloseOutDate
  refine failsWith_block_after (succeeds_call env hcalm _ rfl)
    (emits_call_notCalculate env _ rfl) ?_
  refine failsWith_block_after (succeeds_onlyIf fun _ => succeeds_call env hcalm _ rfl)
    (emits_of_step (step_onlyIf fun _ => step_of_quiet
      (quiet_callAt env (Event.updateDate d) fun _ _ _ _ _ _ h => by cases h))) ?_
  refine failsWith_block_after (succeeds_call env hcalm _ rfl)
    (emits_call_notCalculate env _ rfl) ?_
  refine failsWith_block_after (succeeds_call env hcalm _ rfl)
    (emits_call_notCalculate env _ rfl) ?_
  refine failsWith_block_after (succeeds_recalibrateModels env hcalm eng inp.om)
    (emits_of_quiet (quiet_recalibrateModels env eng inp.om
      (fun _ _ _ _ _ _ _ _ h => by cases h) (fun _ _ _ _ _ _ _ h => by cases h))) ?_
  refine failsWith_block_after
    (succeeds_onlyIf fun _ => succeeds_tradeExercisable env hcalm _ _)
    (emits_of_step (step_onlyIf fun _ => step_of_quiet
      (quiet_tradeExercisable env false inp.trades
        (fun _ _ _ _ _ _ _ _ _ h => by cases h) (fun _ _ _ _ _ _ _ _ _ h => by cases h)))) ?_
  exact failsWith_block_here _ (failsWith_require _ _)

theorem valuationDatesBefore_cons_succ (g : GridSlot) (rest : List GridSlot) (j : Nat) :
    valuationDatesBefore (g :: rest) (j + 1) =
      valuationDatesBefore rest j + (if g.isValuationDate = true then 1 else 0) := by
  unfold valuationDatesBefore
  cases hv : g.isValuationDate <;> simp [List.take_succ_cons, List.filter_cons, hv]

theorem failsWith_dateLoop (env : Env)
    (hcalm : ∀ pre ev, ev.calcTrade = none → env.raises pre ev = false) (eng : Engine)
    (inp : Input) (sample : Nat) :
    ∀ dg : List GridSlot,
      (∃ i g, dg[i]? = some g ∧ g.isCloseOutDate = true ∧ valuationDatesBefore dg i = 0) →
      FailsWith NotCalculate Err.negativeCubeDateIndex
        (dateLoop env eng inp sample dg (-1)) := by
  intro dg
  induction dg with
  | nil =>
    rintro ⟨i, g, h, _⟩
    simp at h
  | cons g0 rest ih =>
    rintro ⟨i, g, hi, hco, hval⟩
    by_cases hc0 : g0.isCloseOutDate = true
    · refine failsWith_andThen_here (f := block _) _ (failsWith_block_here _ ?_)
      rw [hc0]
      intro s
      simpa [onlyIf] using failsWith_processCloseOutDate env hcalm eng inp sample g0.date s
    · cases i with
      | zero =>
        simp only [List.getElem?_cons_zero, Option.some.injEq] at hi
        rw [hi] at hc0
        exact absurd hco hc0
      | succ j =>
        simp only [List.getElem?_cons_succ] at hi
        rw [valuationDatesBefore_cons_succ] at hval
        have hv0 : g0.isValuationDate = false := by
          cases hv : g0.isValuationDate
          · rfl
          · rw [hv] at hval
            simp at hval
        have hval' : valuationDatesBefore rest j = 0 := by omega
        have hrec := ih ⟨j, g, hi, hco, hval'⟩
        intro s
        have hc0' : g0.isCloseOutDate = false := by simpa using hc0
        simpa [dateLoop, hv0, hc0', onlyIf] using hrec s

theorem notCalculate_of_timeZero (inp : Input) (ev : Event) (h : TimeZeroEvent inp ev) :
    NotCalculate ev := by
  obtain ⟨t, _, h⟩ := h
  intro c t1 d k s m heq
  rw [heq] at h
  exact h

theorem failsWith_simulate (env : Env)
    (hcalm : ∀ pre ev, ev.calcTrade = none → env.raises pre ev = false)
    (hstd : ∀ pre ev, env.raises pre ev = true → env.std pre ev = true) (eng : Engine)
    (inp : Input) (dryRun : Bool) (asofDate : Date)
    (hccy : ∀ t ∈ inp.trades, t.npvCurrencyEmpty = false)
    (hN : 0 < numSamplesReplayed inp dryRun)
    (hgrid : ∃ i g, eng.dg[i]? = some g ∧ g.isCloseOutDate = true ∧
      valuationDatesBefore eng.dg i = 0) :
    FailsWith NotCalculate Err.negativeCubeDateIndex
      (simulate env eng inp dryRun asofDate) := by
  unfold simulate
  refine failsWith_block_after (succeeds_initialiseTrades env hcalm hstd eng inp hccy)
    (emits_of_step (step_mono (notCalculate_of_timeZero inp)
      (step_initialiseTrades env eng inp))) ?_
  refine failsWith_block_after (succeeds_onlyIf fun _ => succeeds_call env hcalm _ rfl)
    (emits_of_step (step_onlyIf fun _ => step_of_quiet
      (quiet_callAt env (Event.fixingInitialise) fun _ _ _ _ _ _ h => by cases h))) ?_
  refine failsWith_block_here _ ?_
  obtain ⟨n, hn⟩ : ∃ n, numSamplesReplayed inp dryRun = n + 1 := ⟨_, (Nat.succ_pred_eq_of_pos hN).symm⟩
  rw [hn]
  have hrange : List.range (n + 1) = 0 :: List.range' 1 n := by
    rw [List.range_eq_range', List.range'_succ]
  rw [hrange]
  refine failsWith_andThen_here _ ?_
  unfold processSample
  refine failsWith_block_after
    (succeeds_forEach _ fun t _ => succeeds_call env hcalm _ rfl)
    (emits_of_step (step_forEach _ fun t _ => step_of_quiet
      (quiet_callAt env (Event.instrumentReset t) fun _ _ _ _ _ _ h => by cases h))) ?_
  exact failsWith_block_here _ (failsWith_dateLoop env hcalm eng inp 0 eng.dg hgrid)

theorem failsWith_buildCubeBody (env : Env)
    (hcalm : ∀ pre ev, ev.calcTrade = none → env.raises pre ev = false)
    (hstd : ∀ pre ev, env.raises pre ev = true → env.std pre ev = true) (eng : Engine)
    (inp : Input) (dryRun : Bool) (asofDate : Date)
    (hdim : ¬ dimensionMismatch eng inp)
    (hccy : ∀ t ∈ inp.trades, t.npvCurrencyEmpty = false)
    (hN : 0 < numSamplesReplayed inp dryRun)
    (hgrid : ∃ i g, eng.dg[i]? = some g ∧ g.isCloseOutDate = true ∧
      valuationDatesBefore eng.dg i = 0) :
    FailsWith NotCalculate Err.negativeCubeDateIndex
      (buildCubeBody env eng inp dryRun asofDate) := by
  unfold buildCubeBody
  refine failsWith_block_after (fun s => by rw [checkDimensions_ok eng inp s hdim]; rfl)
    (emits_of_quiet (quiet_checkDimensions _ eng inp)) ?_
  refine failsWith_block_after (succeeds_initialiseCalculators env hcalm inp)
    (emits_of_quiet ?_) ?_
  · unfold initialiseCalculators
    refine quiet_forEach _ fun c _ => quiet_block _ fun f hf => ?_
    simp only [List.mem_cons, List.mem_singleton, List.not_mem_nil, or_false] at hf
    rcases hf with rfl | rfl
    · exact quiet_call env fun _ _ _ _ _ _ h => by cases h
    · exact quiet_call env fun _ _ _ _ _ _ h => by cases h
  refine failsWith_block_after (fun s => rfl) (fun s => grows_refl _ _) ?_
  exact failsWith_block_here _
    (failsWith_simulate env hcalm hstd eng inp dryRun asofDate hccy hN hgrid)

/-! ## The dry-run fill -/

theorem forEach_establish {α : Type} (f : α → State → Outcome) (Q : α → State → Prop)
    (hest : ∀ x s, (f x s).err = none → Q x (f x s).st)
    (hkeep : ∀ x y, Keeps (Q y) (f x)) :
    ∀ (xs : List α) (s : State), (forEach f xs s).err = none →
      ∀ x ∈ xs, Q x (forEach f xs s).st := by
  intro xs
  induction xs with
  | nil => exact fun _ _ x hx => absurd hx (List.not_mem_nil x)
  | cons a rest ih =>
    intro s hok x hx
    rw [forEach_cons] at hok ⊢
    obtain ⟨h1, h2⟩ := andThen_err_none.1 hok
    rw [andThen_of_none h1]
    rcases List.mem_cons.1 hx with rfl | hx'
    · exact keeps_forEach rest (fun y _ => hkeep y x) _ (hest x s h1)
    · exact ih _ h2 x hx'

theorem dryRunSet_cases (env : Env) (sample i j d : Nat) (s : State) :
    ((dryRunSet env sample i j d s).err = none ∧
      (dryRunSet env sample i j d s).st.cubes.outputCube =
        s.cubes.outputCube.set
          (env.add (s.cubes.outputCube.getT0 j d) (dryRunNoise i j d sample)) j i sample d) ∨
    ((dryRunSet env sample i j d s).err ≠ none ∧
      (dryRunSet env sample i j d s).st.cubes = s.cubes) := by
  unfold dryRunSet call
  by_cases hr : env.raises s.trace (Event.cubeSet j i sample d) = true
  · right
    simp [hr, Outcome.andThen]
  · left
    simp [hr, Outcome.andThen, ok]

theorem keeps_filledAt_dryRunSet (env : Env) (sample i j d : Nat) (j1 i1 s1 k1 : Nat) :
    Keeps (fun s => FilledAt env s j1 i1 s1 k1) (dryRunSet env sample i j d) := by
  intro s h
  rcases dryRunSet_cases env sample i j d s with ⟨_, hc⟩ | ⟨_, hc⟩
  · unfold FilledAt at h ⊢
    rw [hc]
    simp only [CubeData.get, CubeData.getT0, CubeData.set] at h ⊢
    by_cases heq : j1 = j ∧ i1 = i ∧ s1 = sample ∧ k1 = d
    · obtain ⟨rfl, rfl, rfl, rfl⟩ := heq
      simp
    · rw [if_neg heq]
      exact h
  · unfold FilledAt at h ⊢
    rw [hc]
    exact h

theorem filledAt_dryRunSet (env : Env) (sample i j d : Nat) (s : State)
    (hok : (dryRunSet env sample i j d s).err = none) :
    FilledAt env (dryRunSet env sample i j d s).st j i sample d := by
  rcases dryRunSet_cases env sample i j d s with ⟨_, hc⟩ | ⟨hne, _⟩
  · unfold FilledAt
    rw [hc]
    simp [CubeData.get, CubeData.getT0, CubeData.set]
  · exact absurd hok hne

theorem dryRunFill_filled (env : Env) (eng : Engine) (inp : Input) (s : State)
    (hok : (dryRunFill env eng inp true s).err = none) (sample i j k : Nat)
    (hs1 : 1 ≤ sample) (hs2 : sample < inp.outputCube.samples) (hi : i < eng.dg.length)
    (hj : j < inp.trades.length) (hk : k < inp.outputCube.depth) :
    FilledAt env (dryRunFill env eng inp true s).st j i sample k := by
  have hmem : sample ∈ List.range' 1 (inp.outputCube.samples - 1) := by
    rw [List.mem_range'_1]
    omega
  have hok' : (forEach (fun sample => forEach (fun i => forEach (fun j =>
      forEach (fun d => dryRunSet env sample i j d) (List.range inp.outputCube.depth))
      (List.range inp.trades.length)) (List.range eng.dg.length))
      (List.range' 1 (inp.outputCube.samples - 1)) s).err = none := by
    simpa [dryRunFill, onlyIf] using hok
  have key := forEach_establish
    (fun sample => forEach (fun i => forEach (fun j =>
      forEach (fun d => dryRunSet env sample i j d) (List.range inp.outputCube.depth))
      (List.range inp.trades.length)) (List.range eng.dg.length))
    (fun sample s => ∀ i ∈ List.range eng.dg.length, ∀ j ∈ List.range inp.trades.length,
      ∀ d ∈ List.range inp.outputCube.depth, FilledAt env s j i sample d)
    (fun sample s h => forEach_establish
      (fun i => forEach (fun j =>
        forEach (fun d => dryRunSet env sample i j d) (List.range inp.outputCube.depth))
        (List.range inp.trades.length))
      (fun i s => ∀ j ∈ List.range inp.trades.length,
        ∀ d ∈ List.range inp.outputCube.depth, FilledAt env s j i sample d)
      (fun i s h => forEach_establish
        (fun j => forEach (fun d => dryRunSet env sample i j d)
          (List.range inp.outputCube.depth))
        (fun j s => ∀ d ∈ List.range inp.outputCube.depth, FilledAt env s j i sample d)
        (fun j s h => forEach_establish (fun d => dryRunSet env sample i j d)
          (fun d s => FilledAt env s j i sample d)
          (fun d s h => filledAt_dryRunSet env sample i j d s h)
          (fun d d1 => keeps_filledAt_dryRunSet env sample i j d j i sample d1) _ s h)
        (fun j j1 s h d hd => keeps_forEach _
          (fun d2 _ => keeps_filledAt_dryRunSet env sample i j d2 j1 i sample d) s (h d hd))
        _ s h)
      (fun i i1 s h j hj d hd => keeps_forEach _ (fun j2 _ => keeps_forEach _
          (fun d2 _ => keeps_filledAt_dryRunSet env sample i j2 d2 j i1 sample d)) s
          (h j hj d hd))
      _ s h)
    (fun sample sample1 s h i hi j hj d hd => keeps_forEach _ (fun i2 _ => keeps_forEach _
        (fun j2 _ => keeps_forEach _
          (fun d2 _ => keeps_filledAt_dryRunSet env sample i2 j2 d2 j i sample1 d))) s
        (h i hi j hj d hd))
    _ s hok' sample hmem i (List.mem_range.2 hi) j (List.mem_range.2 hj) k (List.mem_range.2 hk)
  simpa [dryRunFill, onlyIf] using key

theorem removeIfError_frame (env : Env) (i : Nat) (s : State) (j : Nat)
    (hj : ¬ s.tradeHasError.getD j false = true) (d smp k : Nat) :
    (removeIfError env i s).st.cubes.outputCube.get j d smp k =
      s.cubes.outputCube.get j d smp k ∧
    (removeIfError env i s).st.cubes.outputCube.getT0 j k = s.cubes.outputCube.getT0 j k := by
  unfold removeIfError call
  by_cases hflag : s.tradeHasError.getD i false = true
  · have hne : j ≠ i := fun h => hj (h ▸ hflag)
    rw [if_pos hflag]
    by_cases hr : env.raises s.trace (Event.cubeRemove i) = true
    · simp [hr, Outcome.andThen]
    · simp [hr, Outcome.andThen, ok, CubeData.get, CubeData.getT0, CubeData.remove, hne]
  · rw [if_neg hflag]
    exact ⟨rfl, rfl⟩

theorem removeLoop_filled (env : Env) (j i smp k : Nat) :
    ∀ (xs : List Nat) (s : State), ¬ s.tradeHasError.getD j false = true →
      FilledAt env s j i smp k → FilledAt env (forEach (removeIfError env) xs s).st j i smp k := by
  intro xs
  induction xs with
  | nil => exact fun _ _ h => h
  | cons x rest ih =>
    intro s hj h
    rw [forEach_cons]
    have h1 : FilledAt env (removeIfError env x s).st j i smp k := by
      obtain ⟨a, b⟩ := removeIfError_frame env x s j hj i smp k
      unfold FilledAt at h ⊢
      rw [a, b]
      exact h
    rcases andThen_cases (removeIfError env x s) (forEach (removeIfError env) rest) with
      ⟨_, hc⟩ | ⟨e, _, hc⟩
    · rw [hc]
      exact ih _ (by rw [removeIfError_flags]; exact hj) h1
    · rw [hc]
      exact h1

theorem valuationDates_length_le (dg : List GridSlot) : (valuationDates dg).length ≤ dg.length := by
  unfold valuationDates
  rw [List.length_map]
  exact List.length_filter_le _ _

theorem buildCube_dryRun_filled (env : Env) (eng : Engine) (inp : Input) (asofDate : Date)
    (cubes : Cubes) (hok : (buildCube env eng inp true asofDate cubes).err = none)
    (j i smp k : Nat) (hj : j < inp.trades.length)
    (hnr : ¬ raisedFor env j (buildCube env eng inp true asofDate cubes).st.trace)
    (hi : i < inp.outputCube.numDates) (hk : k < inp.outputCube.depth) (hs1 : 1 ≤ smp)
    (hs2 : smp < inp.outputCube.samples) :
    FilledAt env (buildCube env eng inp true asofDate cubes).st j i smp k := by
  have hI := buildCube_inv env eng inp true asofDate cubes hok
  have hflag : ¬ (buildCube env eng inp true asofDate cubes).st.tradeHasError.getD j false
      = true := fun h => hnr ((hI.flag_iff j).1 h)
  have hnum := buildCube_ok_numDates env eng inp true asofDate cubes hok
  have hi' : i < eng.dg.length := by
    have := valuationDates_length_le eng.dg
    omega
  rcases buildCubeBody_cases env eng inp true asofDate cubes with
    ⟨e1, new, hb, _⟩ | ⟨new, _, _, hb⟩
  · simp [buildCube, hb] at hok
  · have hok' : (simulate env eng inp true asofDate
        ⟨new, cubes, List.replicate inp.trades.length false⟩).err = none := by
      simpa [buildCube, hb] using hok
    obtain ⟨s1, s2, s3, s4, _, _, _, h4, h5, h6⟩ := simulate_ok env eng inp true asofDate _ hok'
    have hfill : FilledAt env s4 j i smp k := by
      have := dryRunFill_filled env eng inp s3 (by rw [h4]; rfl) smp i j k hs1 hs2 hi' hj hk
      rw [h4] at this
      exact this
    obtain ⟨_, _, r3⟩ := removeLoop_zero env _ s4 h5
    have hflag4 : ¬ s4.tradeHasError.getD j false = true := by
      intro h
      apply hflag
      simp only [buildCube, hb, h6]
      rw [r3]
      exact h
    have := removeLoop_filled env j i smp k (List.range inp.trades.length) s4 hflag4 hfill
    unfold FilledAt at this ⊢
    simp only [buildCube, hb, h6]
    exact this

/-! ## Sample 0 of a dry run and of a normal run -/

theorem notSampleZero_of_sampleEvent (eng : Engine) (inp : Input) (x : Nat) (hx : 1 ≤ x)
    (ev : Event) (h : SampleEvent eng inp x ev) : NotSampleZero ev := by
  cases ev <;> try rfl
  · simp only [SampleEvent] at h
    simp only [NotSampleZero, isSampleZeroCall, decide_eq_false_iff_not]
    omega
  · simp only [SampleEvent] at h
    simp only [NotSampleZero, isSampleZeroCall, decide_eq_false_iff_not]
    omega

theorem emits_finish_notSampleZero (env : Env) (eng : Engine) (inp : Input) (dryRun : Bool) :
    Emits NotSampleZero (block [dryRunFill env eng inp dryRun,
      forEach (removeIfError env) (List.range inp.trades.length)]) := by
  refine emits_block_cons (emits_of_step (step_mono ?_ (step_dryRunFill env eng inp dryRun)))
    (emits_block_cons (emits_of_step (step_forEach _ fun i _ =>
      step_removeIfError env i rfl)) (fun s => grows_refl _ _))
  intro ev h
  cases ev <;> first | rfl | exact absurd h (by simp [FillEvent])

theorem emits_laterSamples_notSampleZero (env : Env) (eng : Engine) (inp : Input) (m : Nat) :
    Emits NotSampleZero (forEach (processSample env eng inp) (List.range' 1 m)) :=
  emits_of_step (step_forEach _ fun x hx =>
    step_mono (notSampleZero_of_sampleEvent eng inp x (List.mem_range'_1.1 hx).1)
      (step_processSample env eng inp x))

theorem sampleLoop_common (env : Env) (eng : Engine) (inp : Input) (s : State) :
    ∃ c, Grows NotSampleZero c
        (block [forEach (processSample env eng inp) (List.range (numSamplesReplayed inp true)),
          dryRunFill env eng inp true,
          forEach (removeIfError env) (List.range inp.trades.length)] s).st ∧
      Grows NotSampleZero c
        (block [forEach (processSample env eng inp) (List.range (numSamplesReplayed inp false)),
          dryRunFill env eng inp false,
          forEach (removeIfError env) (List.range inp.trades.length)] s).st := by
  cases hS : inp.outputCube.samples with
  | zero =>
    refine ⟨s, ?_, ?_⟩
    · have : numSamplesReplayed inp true = 0 := by simp [numSamplesReplayed, hS]
      rw [this, block_cons]
      simpa using emits_finish_notSampleZero env eng inp true s
    · have : numSamplesReplayed inp false = 0 := by simp [numSamplesReplayed, hS]
      rw [this, block_cons]
      simpa using emits_finish_notSampleZero env eng inp false s
  | succ m =>
    have h1 : List.range (numSamplesReplayed inp true) = [0] := by
      have : numSamplesReplayed inp true = 1 := by simp [numSamplesReplayed, hS]
      rw [this]
      rfl
    have h2 : List.range (numSamplesReplayed inp false) = 0 :: List.range' 1 m := by
      simp only [numSamplesReplayed, hS, Bool.false_eq_true, ↓reduceIte]
      rw [List.range_eq_range', List.range'_succ]
    rw [h1, h2, block_cons, block_cons, forEach_cons, forEach_cons]
    cases hP : (processSample env eng inp 0 s).err with
    | some e =>
      refine ⟨(processSample env eng inp 0 s).st, ?_, ?_⟩
      · rw [andThen_of_some hP, andThen_of_some hP]
        exact grows_refl _ _
      · rw [andThen_of_some hP, andThen_of_some hP]
        exact grows_refl _ _
    | none =>
      refine ⟨(processSample env eng inp 0 s).st, ?_, ?_⟩
      · rw [andThen_of_none hP, forEach_nil, andThen_ok]
        exact emits_finish_notSampleZero env eng inp true _
      · rw [andThen_of_none hP]
        exact emits_andThen (emits_laterSamples_notSampleZero env eng inp m)
          (emits_finish_notSampleZero env eng inp false) _

theorem simulate_common (env : Env) (eng : Engine) (inp : Input) (asofDate : Date)
    (s : State) :
    ∃ c, Grows NotSampleZero c (simulate env eng inp true asofDate s).st ∧
      Grows NotSampleZero c (simulate env eng inp false asofDate s).st := by
  unfold simulate
  rw [block_cons, block_cons]
  cases hA : (forEach (initialiseTrade env eng inp) inp.trades.enum s).err with
  | some e =>
    rw [andThen_of_some hA, andThen_of_some hA]
    exact ⟨_, grows_refl _ _, grows_refl _ _⟩
  | none =>
    rw [andThen_of_none hA, andThen_of_none hA, block_cons, block_cons]
    cases hB : (initialiseFixings env eng asofDate
        (forEach (initialiseTrade env eng inp) inp.trades.enum s).st).err with
    | some e =>
      rw [andThen_of_some hB, andThen_of_some hB]
      exact ⟨_, grows_refl _ _, grows_refl _ _⟩
    | none =>
      rw [andThen_of_none hB, andThen_of_none hB]
      exact sampleLoop_common env eng inp _

theorem buildCubeBody_common (env : Env) (eng : Engine) (inp : Input) (asofDate : Date)
    (s : State) :
    ∃ c, Grows NotSampleZero c (buildCubeBody env eng inp true asofDate s).st ∧
      Grows NotSampleZero c (buildCubeBody env eng inp false asofDate s).st := by
  unfold buildCubeBody
  rw [block_cons, block_cons]
  cases hA : (checkDimensions eng inp s).err with
  | some e =>
    rw [andThen_of_some hA, andThen_of_some hA]
    exact ⟨_, grows_refl _ _, grows_refl _ _⟩
  | none =>
    rw [andThen_of_none hA, andThen_of_none hA, block_cons, block_cons]
    cases hB : (initialiseCalculators env inp (checkDimensions eng inp s).st).err with
    | some e =>
      rw [andThen_of_some hB, andThen_of_some hB]
      exact ⟨_, grows_refl _ _, grows_refl _ _⟩
    | none =>
      rw [andThen_of_none hB, andThen_of_none hB, block_cons, block_cons]
      simp only [createErrorFlags, andThen_ok, block_singleton]
      exact simulate_common env eng inp asofDate _

theorem filter_of_grows {c s : State} (h : Grows NotSampleZero c s) (extra : List Event)
    (hextra : ∀ ev ∈ extra, NotSampleZero ev) :
    (s.trace ++ extra).filter isSampleZeroCall = c.trace.filter isSampleZeroCall := by
  obtain ⟨new, ht, hn⟩ := h
  rw [ht, List.filter_append, List.filter_append]
  have h1 : new.filter isSampleZeroCall = [] := by
    rw [List.filter_eq_nil_iff]
    intro ev hev
    rw [hn ev hev]
    simp
  have h2 : extra.filter isSampleZeroCall = [] := by
    rw [List.filter_eq_nil_iff]
    intro ev hev
    rw [hextra ev hev]
    simp
  rw [h1, h2, List.append_nil, List.append_nil]

theorem buildCube_sampleZero (env : Env) (eng : Engine) (inp : Input) (asofDate : Date)
    (cubes : Cubes) :
    (buildCube env eng inp true asofDate cubes).st.trace.filter isSampleZeroCall =
      (buildCube env eng inp false asofDate cubes).st.trace.filter isSampleZeroCall := by
  obtain ⟨c, h1, h2⟩ := buildCubeBody_common env eng inp asofDate ⟨[], cubes, []⟩
  have hreset : ∀ ev ∈ [Event.marketReset], NotSampleZero ev := by
    intro ev hev
    rw [List.mem_singleton.1 hev]
    rfl
  show ((buildCubeBody env eng inp true asofDate ⟨[], cubes, []⟩).st.trace ++
      [Event.marketReset]).filter isSampleZeroCall =
    ((buildCubeBody env eng inp false asofDate ⟨[], cubes, []⟩).st.trace ++
      [Event.marketReset]).filter isSampleZeroCall
  rw [filter_of_grows h1 _ hreset, filter_of_grows h2 _ hreset]

/-! ## Sticky close-out dates -/

theorem call_st (env : Env) (ev : Event) (s : State) :
    (call env ev s).st = { s with trace := s.trace ++ [ev] } := by
  unfold call
  by_cases hr : env.raises s.trace ev = true <;> simp [hr, ok]

theorem forEach_calls_ok {α : Type} (env : Env) (c : α → Bool) (e : α → Event) :
    ∀ (ps : List α) (s : State),
      (forEach (fun p => onlyIf (c p) (call env (e p))) ps s).err = none →
      (forEach (fun p => onlyIf (c p) (call env (e p))) ps s).st =
        { s with trace := s.trace ++ (ps.filter c).map e } := by
  intro ps
  induction ps with
  | nil =>
    intro s _
    simp
  | cons p rest ih =>
    intro s hok
    rw [forEach_cons] at hok ⊢
    obtain ⟨h1, h2⟩ := andThen_err_none.1 hok
    rw [andThen_of_none h1, ih _ h2]
    cases hc : c p
    · simp [onlyIf, hc, List.filter_cons]
    · simp [onlyIf, hc, List.filter_cons, call_st]

theorem tradeExercisable_ok (env : Env) (enable : Bool) (trades : List Trade) (s : State)
    (hok : (tradeExercisable env enable trades s).err = none) :
    (tradeExercisable env enable trades s).st =
      { s with trace := s.trace ++ (exercisableTrades trades).map fun t =>
          if enable then Event.enableExercise t else Event.disableExercise t } := by
  have key := forEach_calls_ok env (fun p : Nat × Trade => p.2.isOptionWrapper)
    (fun p => if enable then Event.enableExercise p.1 else Event.disableExercise p.1)
    trades.enum s
  have heq : tradeExercisable env enable trades =
      forEach (fun p : Nat × Trade => onlyIf p.2.isOptionWrapper
        (call env (if enable then Event.enableExercise p.1 else Event.disableExercise p.1)))
        trades.enum := by
    unfold tradeExercisable
    cases enable <;> rfl
  rw [heq] at hok ⊢
  rw [key hok]
  simp [exercisableTrades, List.map_map, Function.comp_def]

theorem andThen_assoc (o : Outcome) (f g : State → Outcome) :
    (o.andThen f).andThen g = o.andThen fun s => (f s).andThen g := by
  cases h : o.err with
  | none => rw [andThen_of_none h, andThen_of_none h]
  | some e => rw [andThen_of_some h, andThen_of_some h, andThen_of_some h]

theorem block_append (fs gs : List (State → Outcome)) (s : State) :
    block (fs ++ gs) s = (block fs s).andThen (block gs) := by
  induction fs generalizing s with
  | nil => rfl
  | cons f rest ih =>
    rw [List.cons_append, block_cons, block_cons, andThen_assoc]
    congr 1
    funext s1
    exact ih s1

theorem quiet_closeOutUpdate (env : Env) (eng : Engine) (inp : Input) (d : Date) :
    Quiet (CloseOutUpdateEvent inp.mporStickyDate d)
      (block [call env Event.preUpdate,
        onlyIf (!inp.mporStickyDate) (call env (Event.updateDate d)),
        call env (Event.updateScenario d),
        call env (Event.postUpdate d (!inp.mporStickyDate)),
        recalibrateModels env eng inp.om]) := by
  refine quiet_block _ fun f hf => ?_
  simp only [List.mem_cons, List.mem_singleton, List.not_mem_nil, or_false] at hf
  rcases hf with rfl | rfl | rfl | rfl | rfl
  · exact quiet_callAt env (Event.preUpdate) True.intro
  · exact quiet_onlyIf fun h =>
      quiet_callAt env (Event.updateDate d) ⟨by simpa using h, rfl⟩
  · exact quiet_callAt env (Event.updateScenario d) rfl
  · exact quiet_callAt env (Event.postUpdate d (!inp.mporStickyDate)) ⟨rfl, rfl⟩
  · exact quiet_recalibrateModels env eng inp.om (fun _ _ => True.intro) (fun _ => True.intro)

theorem processCloseOutDate_split (env : Env) (eng : Engine) (inp : Input) (sample : Nat)
    (d : Date) (cdi : Int) (s : State) :
    processCloseOutDate env eng inp sample d cdi s =
      (block [call env Event.preUpdate,
        onlyIf (!inp.mporStickyDate) (call env (Event.updateDate d)),
        call env (Event.updateScenario d),
        call env (Event.postUpdate d (!inp.mporStickyDate)),
        recalibrateModels env eng inp.om] s).andThen
      (block [onlyIf inp.mporStickyDate (tradeExercisable env false inp.trades),
        require (decide (cdi ≥ 0)) Err.negativeCubeDateIndex,
        runCalculators env true inp d cdi.toNat sample,
        onlyIf inp.mporStickyDate (tradeExercisable env true inp.trades)]) := by
  rw [← block_append]
  rfl

theorem processCloseOutDate_sticky (env : Env) (eng : Engine) (inp : Input) (sample : Nat)
    (d : Date) (cdi : Int) (s : State) (hs : inp.mporStickyDate = true)
    (hok : (processCloseOutDate env eng inp sample d cdi s).err = none) :
    ∃ pre round,
      (processCloseOutDate env eng inp sample d cdi s).st.trace =
        s.trace ++ pre ++ (exercisableTrades inp.trades).map Event.disableExercise ++ round ++
          (exercisableTrades inp.trades).map Event.enableExercise ∧
      (∀ ev ∈ pre, CloseOutUpdateEvent true d ev) ∧
      (∀ ev ∈ round, RoundEvent inp true d cdi.toNat sample ev) := by
  rw [processCloseOutDate_split] at hok ⊢
  obtain ⟨pre, hst, hpre⟩ := quiet_closeOutUpdate env eng inp d s
  obtain ⟨h1, h2⟩ := andThen_err_none.1 hok
  rw [andThen_of_none h1]
  rw [hst] at h2 ⊢
  rw [hs] at hpre h2 ⊢
  generalize hs5 : ({ s with trace := s.trace ++ pre } : State) = s5 at h2 ⊢
  have htr5 : s5.trace = s.trace ++ pre := by rw [← hs5]
  obtain ⟨a6, hok6, e6⟩ := block_cons_err_none h2
  have t6 := tradeExercisable_ok env false inp.trades s5 a6
  obtain ⟨a7, hok7, e7⟩ := block_cons_err_none hok6
  obtain ⟨a8, hok8, e8⟩ := block_cons_err_none hok7
  rw [block_singleton] at hok8 e8
  have t9 := tradeExercisable_ok env true inp.trades _ hok8
  have hs7 : (require (decide (cdi ≥ 0)) Err.negativeCubeDateIndex
      (onlyIf true (tradeExercisable env false inp.trades) s5).st).st =
      (onlyIf true (tradeExercisable env false inp.trades) s5).st := by
    obtain ⟨new, hq, hn⟩ := quiet_require (fun _ => False) (decide (cdi ≥ 0))
      Err.negativeCubeDateIndex (onlyIf true (tradeExercisable env false inp.trades) s5).st
    have : new = [] := List.eq_nil_iff_forall_not_mem.2 fun ev hev => hn ev hev
    rw [hq, this]
    simp
  obtain ⟨round, hr1, hr2, _⟩ := step_runCalculators env true inp d cdi.toNat sample
    (require (decide (cdi ≥ 0)) Err.negativeCubeDateIndex
      (onlyIf true (tradeExercisable env false inp.trades) s5).st).st
  refine ⟨pre, round, ?_, hpre, hr2⟩
  rw [e6, e7, e8]
  show (tradeExercisable env true inp.trades _).st.trace = _
  rw [t9]
  show _ ++ _ = _
  rw [hr1, hs7]
  show (tradeExercisable env false inp.trades s5).st.trace ++ round ++ _ = _
  rw [t6]
  simp [htr5]


/-! ## C1: the calculate calls of a complete run -/

/-- C1, as amended: in a run of `buildCube` that returns normally and in
which no calculator call raises, every calculator `c` is called for every
trade `e` exactly once in valuation mode for every pair of a cube date index
below `numDates` and a replayed sample, exactly once in close-out mode for
every pair of a close-out-flagged grid slot and a replayed sample, and so
`N * (valuationDates + closeOutDates)` times in all, where `N` is
`samples` in a normal run and `min 1 samples` in a dry run. -/
theorem calls_complete (env : Env) (eng : Engine) (inp : Input) (dryRun : Bool)
    (asofDate : Date) (cubes : Cubes)
    (hok : (buildCube env eng inp dryRun asofDate cubes).err = none)
    (hquiet : ∀ pre ev t, ev.calcTrade = some t → env.raises pre ev = false)
    (c : Nat) (hc : c < inp.numCalculators) (e : Nat) (he : e < inp.trades.length) :
    valuationIndexes (callsBy c e (buildCube env eng inp dryRun asofDate cubes).st.trace) =
      ((List.range (numSamplesReplayed inp dryRun)).flatMap fun s =>
        (List.range inp.outputCube.numDates).map fun k => (k, s)) ∧
    closeOutSlots (callsBy c e (buildCube env eng inp dryRun asofDate cubes).st.trace) =
      ((List.range (numSamplesReplayed inp dryRun)).flatMap fun s =>
        (closeOutDates eng.dg).map fun d => (d, s)) ∧
    (callsBy c e (buildCube env eng inp dryRun asofDate cubes).st.trace).length =
      numSamplesReplayed inp dryRun *
        ((valuationDates eng.dg).length + (closeOutDates eng.dg).length) := by
  rw [buildCube_callsBy env eng inp dryRun asofDate cubes hok e he
    (not_raisedFor_of_quiet env e _ hquiet) c hc,
    buildCube_ok_numDates env eng inp dryRun asofDate cubes hok]
  refine ⟨sampleRounds_valuation _ _, sampleRounds_closeOut _ _, ?_⟩
  rw [sampleRounds_length, List.length_range]

/-- Witness for C1: the run over two valuation dates, the second also a
close-out date, three samples, one trade and one calculator that never
raises. -/
theorem calls_complete_witness :
    (buildCube calmEnv engTwoDates inpOneTrade false 0 zeroCubes).err = none ∧
    valuationIndexes
        (callsBy 0 0 (buildCube calmEnv engTwoDates inpOneTrade false 0 zeroCubes).st.trace) =
      ((List.range (numSamplesReplayed inpOneTrade false)).flatMap fun s =>
        (List.range inpOneTrade.outputCube.numDates).map fun k => (k, s)) ∧
    closeOutSlots
        (callsBy 0 0 (buildCube calmEnv engTwoDates inpOneTrade false 0 zeroCubes).st.trace) =
      ((List.range (numSamplesReplayed inpOneTrade false)).flatMap fun s =>
        (closeOutDates engTwoDates.dg).map fun d => (d, s)) ∧
    (callsBy 0 0 (buildCube calmEnv engTwoDates inpOneTrade false 0 zeroCubes).st.trace).length =
      numSamplesReplayed inpOneTrade false *
        ((valuationDates engTwoDates.dg).length + (closeOutDates engTwoDates.dg).length) :=
  ⟨by decide,
   calls_complete calmEnv engTwoDates inpOneTrade false 0 zeroCubes (by decide)
     (fun _ _ _ _ => rfl) 0 (by decide) 0 (by decide)⟩

/-- Counterexample to C1 as stated: on a grid whose first slot is flagged both
close-out and valuation the run passes the dimension checks and no calculator
raises, yet the run fails on the negative cube date index and the calculator
is never called, while the cube has one date and three samples. -/
theorem calls_complete_counterexample :
    ¬ dimensionMismatch engCloseOutFirst inpOneDate ∧
    (∀ pre ev, calmEnv.raises pre ev = false) ∧
    (buildCube calmEnv engCloseOutFirst inpOneDate false 0 zeroCubes).err =
      some Err.negativeCubeDateIndex ∧
    callsBy 0 0 (buildCube calmEnv engCloseOutFirst inpOneDate false 0 zeroCubes).st.trace
      = [] ∧
    valuationIndexes
        (callsBy 0 0 (buildCube calmEnv engCloseOutFirst inpOneDate false 0
          zeroCubes).st.trace) ≠
      ((List.range (numSamplesReplayed inpOneDate false)).flatMap fun s =>
        (List.range inpOneDate.outputCube.numDates).map fun k => (k, s)) :=
  ⟨by decide, fun _ _ => rfl, by decide, by decide, by decide⟩


/-! ## C2: flagged entities end with a zeroed cube -/

/-- C2: in a run of `buildCube` that returns normally, every trade for which
a calculator call raised (`calculateT0`, or `calculate` at some date and
sample; normal or dry run) ends with every stored value of the output cube
equal to zero, `remove` being modelled as zeroing the values of its entity;
and every `remove` call of the run is for a trade for which a calculator call
raised. -/
theorem flagged_entities_zeroed (env : Env) (eng : Engine) (inp : Input) (dryRun : Bool)
    (asofDate : Date) (cubes : Cubes)
    (hok : (buildCube env eng inp dryRun asofDate cubes).err = none) :
    (∀ e, raisedFor env e (buildCube env eng inp dryRun asofDate cubes).st.trace →
      ∀ d s k, (buildCube env eng inp dryRun asofDate cubes).st.cubes.outputCube.get e d s k
        = 0) ∧
    (∀ e, Event.cubeRemove e ∈ (buildCube env eng inp dryRun asofDate cubes).st.trace →
      raisedFor env e (buildCube env eng inp dryRun asofDate cubes).st.trace) := by
  have hI := buildCube_inv env eng inp dryRun asofDate cubes hok
  refine ⟨fun e he => ?_, fun e he =>
    (hI.flag_iff e).1 (buildCube_removedFlagged env eng inp dryRun asofDate cubes e he)⟩
  have hflag := (hI.flag_iff e).2 he
  have hlt : e < inp.trades.length := hI.length ▸ getD_true_lt hflag
  rcases buildCubeBody_cases env eng inp dryRun asofDate cubes with
    ⟨e1, new, hb, _⟩ | ⟨new, _, _, hb⟩
  · simp [buildCube, hb] at hok
  · have hok' : (simulate env eng inp dryRun asofDate
        ⟨new, cubes, List.replicate inp.trades.length false⟩).err = none := by
      simpa [buildCube, hb] using hok
    obtain ⟨s1, s2, s3, s4, _, _, _, _, h5, h6⟩ := simulate_ok env eng inp dryRun asofDate _ hok'
    obtain ⟨r1, _, r3⟩ := removeLoop_zero env _ s4 h5
    simp only [buildCube, hb, h6] at hflag ⊢
    rw [r3] at hflag
    exact r1 e (List.mem_range.2 hlt) hflag

/-- Witness for C2: two trades, of which the first raises at sample 1; the run
returns normally and calls `remove` for the first trade. -/
theorem flagged_entities_zeroed_witness :
    (buildCube raisingEnv engTwoDates inpTwoTrades false 0 zeroCubes).err = none ∧
    Event.cubeRemove 0 ∈ (buildCube raisingEnv engTwoDates inpTwoTrades false 0 zeroCubes).st.trace ∧
    ((∀ e, raisedFor raisingEnv e
        (buildCube raisingEnv engTwoDates inpTwoTrades false 0 zeroCubes).st.trace →
      ∀ d s k, (buildCube raisingEnv engTwoDates inpTwoTrades false 0
        zeroCubes).st.cubes.outputCube.get e d s k = 0) ∧
    (∀ e, Event.cubeRemove e ∈
        (buildCube raisingEnv engTwoDates inpTwoTrades false 0 zeroCubes).st.trace →
      raisedFor raisingEnv e
        (buildCube raisingEnv engTwoDates inpTwoTrades false 0 zeroCubes).st.trace)) :=
  ⟨by decide, by decide,
   flagged_entities_zeroed raisingEnv engTwoDates inpTwoTrades false 0 zeroCubes (by decide)⟩

/-! ## C3: fault isolation -/

/-- C3, as amended: a raise of a calculator aborts `buildCube` only if what
is raised is not a `std::exception` (a failure on the escaping raise of a
`calculateT0` call or of a trade `calculate` call ends the log with that call
and the reset of the market, and the raise is not a `std::exception`), so
never when every raise is a `std::exception`; once a calculator call for a
trade has raised, no calculator is called for that trade again; and in a run
that returns normally the `calculate` calls a trade receives are an initial
part of the calls of all rounds (every calculator, in every round of every
replayed sample, in order) and are all of them for a trade for which no call
raised. -/
theorem fault_isolation (env : Env) (eng : Engine) (inp : Input) (dryRun : Bool)
    (asofDate : Date) (cubes : Cubes) :
    (∀ ev, (buildCube env eng inp dryRun asofDate cubes).err = some (Err.escaped ev) →
      ev.calcTrade = none ∨
      ∃ pre, (buildCube env eng inp dryRun asofDate cubes).st.trace =
          pre ++ [ev, Event.marketReset] ∧
        env.raises pre ev = true ∧ env.std pre ev = false) ∧
    ((∀ pre ev, env.raises pre ev = true → env.std pre ev = true) →
      ∀ ev, (buildCube env eng inp dryRun asofDate cubes).err = some (Err.escaped ev) →
        ev.calcTrade = none) ∧
    (∀ pre ev post t,
      (buildCube env eng inp dryRun asofDate cubes).st.trace = pre ++ ev :: post →
      ev.calcTrade = some t → ¬ raisedFor env t pre) ∧
    ((buildCube env eng inp dryRun asofDate cubes).err = none →
      ∀ e, e < inp.trades.length →
        callsFor e (buildCube env eng inp dryRun asofDate cubes).st.trace <+:
          expectedCalls eng inp dryRun ∧
        (¬ raisedFor env e (buildCube env eng inp dryRun asofDate cubes).st.trace →
          ∀ c, c < inp.numCalculators →
            callsBy c e (buildCube env eng inp dryRun asofDate cubes).st.trace =
              sampleRounds eng.dg (List.range (numSamplesReplayed inp dryRun)))) := by
  refine ⟨buildCube_escaped env eng inp dryRun asofDate cubes, fun hstd ev h => ?_,
    (buildCube_trace_inv env eng inp dryRun asofDate cubes).1, fun hok e he =>
      ⟨(buildCube_calls env eng inp dryRun asofDate cubes hok e he).1,
       fun hnr c hc => buildCube_callsBy env eng inp dryRun asofDate cubes hok e he hnr c hc⟩⟩
  rcases buildCube_escaped env eng inp dryRun asofDate cubes ev h with h1 | ⟨pre, _, hr, hs⟩
  · exact h1
  · rw [hstd pre ev hr] at hs
    exact absurd hs (by simp)

/-- Witness for C3: of two trades the first raises a `std::exception` at
sample 1; the run returns normally, the first trade received its calls of
sample 0 and the one that raised, the second trade received the calls of all
nine rounds. -/
theorem fault_isolation_witness :
    (buildCube raisingEnv engTwoDates inpTwoTrades false 0 zeroCubes).err = none ∧
    callsBy 0 0 (buildCube raisingEnv engTwoDates inpTwoTrades false 0 zeroCubes).st.trace =
      [(1, 0, 0, false), (2, 0, 0, true), (2, 1, 0, false), (1, 0, 1, false)] ∧
    callsBy 0 1 (buildCube raisingEnv engTwoDates inpTwoTrades false 0 zeroCubes).st.trace =
      sampleRounds engTwoDates.dg (List.range 3) ∧
    (∀ ev, (buildCube raisingEnv engTwoDates inpTwoTrades false 0 zeroCubes).err =
        some (Err.escaped ev) → ev.calcTrade = none) ∧
    (∀ pre ev post t,
      (buildCube raisingEnv engTwoDates inpTwoTrades false 0 zeroCubes).st.trace =
        pre ++ ev :: post →
      ev.calcTrade = some t → ¬ raisedFor raisingEnv t pre) :=
  ⟨by decide, by decide, by decide,
   (fault_isolation raisingEnv engTwoDates inpTwoTrades false 0 zeroCubes).2.1
     (fun _ _ _ => rfl),
   (fault_isolation raisingEnv engTwoDates inpTwoTrades false 0 zeroCubes).2.2.1⟩

/-- Counterexample to C3 as stated: of two trades, a calculator raises for the
first at sample 1 something that is not a `std::exception`.  The handler does
not catch it: `buildCube` aborts on that raise, and the second trade, for
which nothing raised, receives the calls of sample 0 only, not its call at
that date and sample nor any later one. -/
theorem fault_isolation_counterexample :
    (∀ pre, nonStdEnv.raises pre (Event.calculate 0 0 1 0 1 false) = true) ∧
    (Event.calculate 0 0 1 0 1 false).calcTrade = some 0 ∧
    (buildCube nonStdEnv engTwoDates inpTwoTrades false 0 zeroCubes).err =
      some (Err.escaped (Event.calculate 0 0 1 0 1 false)) ∧
    (buildCube nonStdEnv engTwoDates inpTwoTrades false 0 zeroCubes).st.tradeHasError =
      [false, false] ∧
    callsBy 0 1 (buildCube nonStdEnv engTwoDates inpTwoTrades false 0 zeroCubes).st.trace =
      [(1, 0, 0, false), (2, 0, 0, true), (2, 1, 0, false)] ∧
    callsBy 0 1 (buildCube nonStdEnv engTwoDates inpTwoTrades false 0 zeroCubes).st.trace ≠
      sampleRounds engTwoDates.dg (List.range 3) :=
  ⟨fun _ => rfl, rfl, by decide, by decide, by decide, by decide⟩


/-! ## C6: the cube date index of a close-out call -/

/-- C6: every close-out-mode `calculate` call of a run carries the date of a
close-out-flagged grid slot `i` and, as cube date index, the number of
valuation-flagged slots of index smaller than `i`, minus one: the index of the
most recent valuation date strictly before the slot, also when the slot
itself is flagged as a valuation date. -/
theorem closeOut_call_dateIndex (env : Env) (eng : Engine) (inp : Input) (dryRun : Bool)
    (asofDate : Date) (cubes : Cubes) (c t : Nat) (d : Date) (k sample : Nat)
    (h : Event.calculate c t d k sample true ∈
      (buildCube env eng inp dryRun asofDate cubes).st.trace) :
    ∃ i g, eng.dg[i]? = some g ∧ g.isCloseOutDate = true ∧ g.date = d ∧
      (k : Int) = (valuationDatesBefore eng.dg i : Int) - 1 := by
  rcases buildCube_runEvent env eng inp dryRun asofDate cubes _ h with
    ⟨_, _, h | h⟩ | h | h | ⟨_, _, h⟩ | h | h
  · exact absurd h (by simp)
  · exact absurd h (by simp)
  · exact absurd h (by simp [TimeZeroEvent, TradeInitEvent])
  · exact absurd h (by simp)
  · exact h.2.2.2.1 rfl
  · exact absurd h (by simp [FinishEvent, FillEvent])
  · exact absurd h (by simp)

/-- Witness for C6: on the grid of two valuation dates whose second is also a
close-out date, the close-out call at the second slot (date 2) uses cube date
index 0. -/
theorem closeOut_call_dateIndex_witness :
    Event.calculate 0 0 2 0 0 true ∈
      (buildCube calmEnv engTwoDates inpOneTrade false 0 zeroCubes).st.trace ∧
    ∃ i g, engTwoDates.dg[i]? = some g ∧ g.isCloseOutDate = true ∧ g.date = 2 ∧
      ((0 : Nat) : Int) = (valuationDatesBefore engTwoDates.dg i : Int) - 1 :=
  ⟨by decide,
   closeOut_call_dateIndex calmEnv engTwoDates inpOneTrade false 0 zeroCubes 0 0 2 0 0
     (by decide)⟩

/-! ## C7: a close-out slot before the first valuation slot -/

theorem emits_forEach {α : Type} {P : Event → Prop} {f : α → State → Outcome}
    (xs : List α) (h : ∀ x ∈ xs, Emits P (f x)) : Emits P (forEach f xs) := by
  induction xs with
  | nil => exact fun s => grows_refl P s
  | cons x rest ih =>
    exact emits_andThen (h x (List.mem_cons_self x rest))
      (ih fun y hy => h y (List.mem_cons_of_mem x hy))

theorem emits_block_nil (P : Event → Prop) : Emits P (block []) :=
  fun s => grows_refl P s

theorem emits_of_halts {P : Event → Prop} {f : State → Outcome} (h : Halts P f) :
    Emits P f :=
  fun s => (h s).2

theorem halts_andThen_here {P : Event → Prop} {f : State → Outcome}
    (g : State → Outcome) (hf : Halts P f) : Halts P (fun s => (f s).andThen g) := by
  intro s
  show ((f s).andThen g).err ≠ none ∧ Grows P s ((f s).andThen g).st
  rcases andThen_cases (f s) g with ⟨hnone, _⟩ | ⟨e, _, h⟩
  · exact absurd hnone (hf s).1
  · rw [h]
    exact hf s

theorem halts_andThen_after {P : Event → Prop} {f g : State → Outcome} (he : Emits P f)
    (hg : Halts P g) : Halts P (fun s => (f s).andThen g) := by
  intro s
  show ((f s).andThen g).err ≠ none ∧ Grows P s ((f s).andThen g).st
  rcases andThen_cases (f s) g with ⟨_, h⟩ | ⟨e, hs, h⟩
  · rw [h]
    exact ⟨(hg _).1, grows_trans (he s) (hg _).2⟩
  · rw [h]
    exact ⟨by rw [hs]; simp, he s⟩

theorem halts_block_here {P : Event → Prop} {f : State → Outcome}
    (fs : List (State → Outcome)) (hf : Halts P f) : Halts P (block (f :: fs)) :=
  halts_andThen_here (block fs) hf

theorem halts_block_after {P : Event → Prop} {f : State → Outcome}
    {fs : List (State → Outcome)} (he : Emits P f) (hfs : Halts P (block fs)) :
    Halts P (block (f :: fs)) :=
  halts_andThen_after he hfs

theorem halts_require (P : Event → Prop) (e : Err) : Halts P (require false e) :=
  fun s => ⟨by simp [require], grows_refl P s⟩

theorem halts_processCloseOutDate (env : Env) (eng : Engine) (inp : Input) (sample : Nat)
    (d : Date) :
    Halts NotCalculate (processCloseOutDate env eng inp sample d (-1)) := by
  unfold processCloseOutDate
  refine halts_block_after (emits_call_notCalculate env _ rfl) ?_
  refine halts_block_after (emits_of_step (step_onlyIf fun _ => step_of_quiet
      (quiet_callAt env (Event.updateDate d) fun _ _ _ _ _ _ h => by cases h))) ?_
  refine halts_block_after (emits_call_notCalculate env _ rfl) ?_
  refine halts_block_after (emits_call_notCalculate env _ rfl) ?_
  refine halts_block_after (emits_of_quiet (quiet_recalibrateModels env eng inp.om
      (fun _ _ _ _ _ _ _ _ h => by cases h) (fun _ _ _ _ _ _ _ h => by cases h))) ?_
  refine halts_block_after (emits_of_step (step_onlyIf fun _ => step_of_quiet
      (quiet_tradeExercisable env false inp.trades
        (fun _ _ _ _ _ _ _ _ _ h => by cases h) (fun _ _ _ _ _ _ _ _ _ h => by cases h)))) ?_
  exact halts_block_here _ (halts_require _ _)

theorem halts_dateLoop (env : Env) (eng : Engine) (inp : Input) (sample : Nat) :
    ∀ dg : List GridSlot,
      (∃ i g, dg[i]? = some g ∧ g.isCloseOutDate = true ∧ valuationDatesBefore dg i = 0) →
      Halts NotCalculate (dateLoop env eng inp sample dg (-1)) := by
  intro dg
  induction dg with
  | nil =>
    rintro ⟨i, g, h, _⟩
    simp at h
  | cons g0 rest ih =>
    rintro ⟨i, g, hi, hco, hval⟩
    by_cases hc0 : g0.isCloseOutDate = true
    · refine halts_andThen_here (f := block _) _ (halts_block_here _ ?_)
      rw [hc0]
      intro s
      simpa [onlyIf] using halts_processCloseOutDate env eng inp sample g0.date s
    · cases i with
      | zero =>
        simp only [List.getElem?_cons_zero, Option.some.injEq] at hi
        rw [hi] at hc0
        exact absurd hco hc0
      | succ j =>
        simp only [List.getElem?_cons_succ] at hi
        rw [valuationDatesBefore_cons_succ] at hval
        have hv0 : g0.isValuationDate = false := by
          cases hv : g0.isValuationDate
          · rfl
          · rw [hv] at hval
            simp at hval
        have hval' : valuationDatesBefore rest j = 0 := by omega
        have hrec := ih ⟨j, g, hi, hco, hval'⟩
        intro s
        have hc0' : g0.isCloseOutDate = false := by simpa using hc0
        simpa [dateLoop, hv0, hc0', onlyIf] using hrec s

theorem halts_processSample (env : Env) (eng : Engine) (inp : Input) (sample : Nat)
    (hgrid : ∃ i g, eng.dg[i]? = some g ∧ g.isCloseOutDate = true ∧
      valuationDatesBefore eng.dg i = 0) :
    Halts NotCalculate (processSample env eng inp sample) := by
  unfold processSample
  refine halts_block_after (emits_of_step (step_forEach _ fun t _ => step_of_quiet
    (quiet_callAt env (Event.instrumentReset t) fun _ _ _ _ _ _ h => by cases h))) ?_
  exact halts_block_here _ (halts_dateLoop env eng inp sample eng.dg hgrid)

theorem emits_beforeSamples_notCalculate (env : Env) (eng : Engine) (inp : Input)
    (asofDate : Date) :
    Emits NotCalculate (forEach (initialiseTrade env eng inp) inp.trades.enum) ∧
    Emits NotCalculate (initialiseFixings env eng asofDate) :=
  ⟨emits_of_step (step_mono (notCalculate_of_timeZero inp) (step_initialiseTrades env eng inp)),
   emits_of_step (step_onlyIf fun _ => step_of_quiet
     (quiet_callAt env (Event.fixingInitialise) fun _ _ _ _ _ _ h => by cases h))⟩

theorem emits_simulate_notCalculate (env : Env) (eng : Engine) (inp : Input) (dryRun : Bool)
    (asofDate : Date)
    (hgrid : ∃ i g, eng.dg[i]? = some g ∧ g.isCloseOutDate = true ∧
      valuationDatesBefore eng.dg i = 0) :
    Emits NotCalculate (simulate env eng inp dryRun asofDate) := by
  unfold simulate
  refine emits_block_cons (emits_beforeSamples_notCalculate env eng inp asofDate).1 ?_
  refine emits_block_cons (emits_beforeSamples_notCalculate env eng inp asofDate).2 ?_
  refine emits_block_cons (emits_forEach _ fun sample _ =>
    emits_of_halts (halts_processSample env eng inp sample hgrid)) ?_
  refine emits_block_cons (emits_of_step (step_mono (fun ev h => ?_)
    (step_dryRunFill env eng inp dryRun))) ?_
  · intro c t d k s m heq
    rw [heq] at h
    exact h
  · exact emits_block_cons (emits_forEach _ fun i _ => emits_of_step
      (step_removeIfError env i fun _ _ _ _ _ _ h => by cases h)) (emits_block_nil _)

theorem halts_simulate (env : Env) (eng : Engine) (inp : Input) (dryRun : Bool)
    (asofDate : Date) (hN : 0 < numSamplesReplayed inp dryRun)
    (hgrid : ∃ i g, eng.dg[i]? = some g ∧ g.isCloseOutDate = true ∧
      valuationDatesBefore eng.dg i = 0) :
    Halts NotCalculate (simulate env eng inp dryRun asofDate) := by
  unfold simulate
  refine halts_block_after (emits_beforeSamples_notCalculate env eng inp asofDate).1 ?_
  refine halts_block_after (emits_beforeSamples_notCalculate env eng inp asofDate).2 ?_
  refine halts_block_here _ ?_
  obtain ⟨n, hn⟩ : ∃ n, numSamplesReplayed inp dryRun = n + 1 :=
    ⟨_, (Nat.succ_pred_eq_of_pos hN).symm⟩
  rw [hn]
  have hrange : List.range (n + 1) = 0 :: List.range' 1 n := by
    rw [List.range_eq_range', List.range'_succ]
  rw [hrange]
  exact halts_andThen_here _ (halts_processSample env eng inp 0 hgrid)

theorem emits_prelude_notCalculate (env : Env) (eng : Engine) (inp : Input) :
    Emits NotCalculate (checkDimensions eng inp) ∧
    Emits NotCalculate (initialiseCalculators env inp) ∧
    Emits NotCalculate (createErrorFlags inp) := by
  refine ⟨emits_of_quiet (quiet_checkDimensions _ eng inp), emits_of_quiet ?_,
    fun s => grows_refl _ _⟩
  unfold initialiseCalculators
  refine quiet_forEach _ fun c _ => quiet_block _ fun f hf => ?_
  simp only [List.mem_cons, List.mem_singleton, List.not_mem_nil, or_false] at hf
  rcases hf with rfl | rfl
  · exact quiet_call env fun _ _ _ _ _ _ h => by cases h
  · exact quiet_call env fun _ _ _ _ _ _ h => by cases h

theorem emits_buildCubeBody_notCalculate (env : Env) (eng : Engine) (inp : Input)
    (dryRun : Bool) (asofDate : Date)
    (hgrid : ∃ i g, eng.dg[i]? = some g ∧ g.isCloseOutDate = true ∧
      valuationDatesBefore eng.dg i = 0) :
    Emits NotCalculate (buildCubeBody env eng inp dryRun asofDate) := by
  unfold buildCubeBody
  obtain ⟨h1, h2, h3⟩ := emits_prelude_notCalculate env eng inp
  exact emits_block_cons h1 (emits_block_cons h2 (emits_block_cons h3
    (emits_block_cons (emits_simulate_notCalculate env eng inp dryRun asofDate hgrid)
      (emits_block_nil _))))

theorem halts_buildCubeBody (env : Env) (eng : Engine) (inp : Input)
    (dryRun : Bool) (asofDate : Date) (hN : 0 < numSamplesReplayed inp dryRun)
    (hgrid : ∃ i g, eng.dg[i]? = some g ∧ g.isCloseOutDate = true ∧
      valuationDatesBefore eng.dg i = 0) :
    Halts NotCalculate (buildCubeBody env eng inp dryRun asofDate) := by
  unfold buildCubeBody
  obtain ⟨h1, h2, h3⟩ := emits_prelude_notCalculate env eng inp
  exact halts_block_after h1 (halts_block_after h2 (halts_block_after h3
    (halts_block_here _ (halts_simulate env eng inp dryRun asofDate hN hgrid))))

/-- C7, as amended: let the grid hold a close-out-flagged slot with no
valuation-flagged slot of smaller index (also a first slot flagged both
ways).  Then no run of `buildCube` makes a `calculate` call, so none in
close-out mode for that slot, and no run that replays at least one sample
returns normally.  The failure is the negative cube date index error when the
run reaches that slot: the dimension checks pass, every trade has an NPV
currency, no collaborator call outside the `try` blocks raises, and what a
call raises is a `std::exception`. -/
theorem closeOut_before_valuation_fails (env : Env) (eng : Engine) (inp : Input)
    (dryRun : Bool) (asofDate : Date) (cubes : Cubes)
    (i : Nat) (g : GridSlot) (hi : eng.dg[i]? = some g) (hco : g.isCloseOutDate = true)
    (hval : valuationDatesBefore eng.dg i = 0) :
    (∀ c t d k s m, Event.calculate c t d k s m ∉
      (buildCube env eng inp dryRun asofDate cubes).st.trace) ∧
    (0 < numSamplesReplayed inp dryRun →
      (buildCube env eng inp dryRun asofDate cubes).err ≠ none) ∧
    (0 < numSamplesReplayed inp dryRun →
      ¬ dimensionMismatch eng inp →
      (∀ t ∈ inp.trades, t.npvCurrencyEmpty = false) →
      (∀ pre ev, ev.calcTrade = none → env.raises pre ev = false) →
      (∀ pre ev, env.raises pre ev = true → env.std pre ev = true) →
      (buildCube env eng inp dryRun asofDate cubes).err = some Err.negativeCubeDateIndex) := by
  refine ⟨fun c t d k s m hmem => ?_, fun hN => ?_, fun hN hdim hccy hcalm hstd => ?_⟩
  · obtain ⟨new, htr, hnew⟩ := emits_buildCubeBody_notCalculate env eng inp dryRun asofDate
      ⟨i, g, hi, hco, hval⟩ ⟨[], cubes, []⟩
    simp only [buildCube, htr, List.nil_append, List.mem_append, List.mem_singleton] at hmem
    rcases hmem with h | h
    · exact hnew _ h c t d k s m rfl
    · exact absurd h (by simp)
  · exact (halts_buildCubeBody env eng inp dryRun asofDate hN ⟨i, g, hi, hco, hval⟩
      ⟨[], cubes, []⟩).1
  · exact (failsWith_buildCubeBody env hcalm hstd eng inp dryRun asofDate hdim hccy hN
      ⟨i, g, hi, hco, hval⟩ ⟨[], cubes, []⟩).1

/-- Witness for C7: the grid whose first slot is flagged both close-out and
valuation, with collaborators that never raise: the run fails with the
negative cube date index error and its log holds no `calculate` call. -/
theorem closeOut_before_valuation_fails_witness :
    (buildCube calmEnv engCloseOutFirst inpOneDate false 0 zeroCubes).err =
      some Err.negativeCubeDateIndex ∧
    ∀ c t d k s m, Event.calculate c t d k s m ∉
      (buildCube calmEnv engCloseOutFirst inpOneDate false 0 zeroCubes).st.trace :=
  ⟨(closeOut_before_valuation_fails calmEnv engCloseOutFirst inpOneDate false 0 zeroCubes
      0 ⟨1, true, true⟩ rfl rfl (by decide)).2.2 (by decide) (by decide) (by decide)
      (fun _ _ _ => rfl) (fun _ _ h => by cases h),
   (closeOut_before_valuation_fails calmEnv engCloseOutFirst inpOneDate false 0 zeroCubes
      0 ⟨1, true, true⟩ rfl rfl (by decide)).1⟩

/-- Counterexample to C7 as stated: the first slot of the grid is flagged both
close-out and valuation and the run replays three samples, but `preUpdate` of
the scenario market raises: the run fails on that raise, before it reaches the
check of the cube date index, not with the negative cube date index error. -/
theorem closeOut_before_valuation_fails_counterexample :
    engCloseOutFirst.dg[0]? = some ⟨1, true, true⟩ ∧
    valuationDatesBefore engCloseOutFirst.dg 0 = 0 ∧
    0 < numSamplesReplayed inpOneDate false ∧
    (buildCube preUpdateFailsEnv engCloseOutFirst inpOneDate false 0 zeroCubes).err =
      some (Err.escaped Event.preUpdate) ∧
    (buildCube preUpdateFailsEnv engCloseOutFirst inpOneDate false 0 zeroCubes).err ≠
      some Err.negativeCubeDateIndex := by
  decide

/-! ## C8: the cube after a dry run -/

/-- C8, as amended: after a dry run of `buildCube` that returns normally, for
every trade `j` for which no calculator call raised, every cube date index
`i`, depth `k` and sample `s` with `1 ≤ s < samples`, the stored value is the
sum of the time-zero value of `(j, k)` and of `i + j + k + s` as the machine
computes it when `s < 10`, and the sum of the time-zero value and of zero as
the machine computes it when `s ≥ 10`: the time-zero value itself where the addition of
zero changes nothing, and the exact sum where the addition of the machine is
exact on these operands.  The calculator calls for sample 0 are, in order,
those of the normal run on the same input. -/
theorem dryRun_cube (env : Env) (eng : Engine) (inp : Input) (asofDate : Date)
    (cubes : Cubes) (hok : (buildCube env eng inp true asofDate cubes).err = none) :
    (∀ j i k s, j < inp.trades.length →
      ¬ raisedFor env j (buildCube env eng inp true asofDate cubes).st.trace →
      i < inp.outputCube.numDates → k < inp.outputCube.depth → 1 ≤ s →
      s < inp.outputCube.samples →
      (s < 10 →
        (buildCube env eng inp true asofDate cubes).st.cubes.outputCube.get j i s k =
          env.add ((buildCube env eng inp true asofDate cubes).st.cubes.outputCube.getT0 j k)
            ((i + j + k + s : Nat) : ℚ)) ∧
      (10 ≤ s →
        (buildCube env eng inp true asofDate cubes).st.cubes.outputCube.get j i s k =
          env.add ((buildCube env eng inp true asofDate cubes).st.cubes.outputCube.getT0 j k)
            0) ∧
      (10 ≤ s →
        env.add ((buildCube env eng inp true asofDate cubes).st.cubes.outputCube.getT0 j k) 0 =
          (buildCube env eng inp true asofDate cubes).st.cubes.outputCube.getT0 j k →
        (buildCube env eng inp true asofDate cubes).st.cubes.outputCube.get j i s k =
          (buildCube env eng inp true asofDate cubes).st.cubes.outputCube.getT0 j k) ∧
      (s < 10 →
        env.add ((buildCube env eng inp true asofDate cubes).st.cubes.outputCube.getT0 j k)
            ((i + j + k + s : Nat) : ℚ) =
          (buildCube env eng inp true asofDate cubes).st.cubes.outputCube.getT0 j k +
            ((i + j + k + s : Nat) : ℚ) →
        (buildCube env eng inp true asofDate cubes).st.cubes.outputCube.get j i s k =
          (buildCube env eng inp true asofDate cubes).st.cubes.outputCube.getT0 j k +
            ((i + j + k + s : Nat) : ℚ))) ∧
    (buildCube env eng inp true asofDate cubes).st.trace.filter isSampleZeroCall =
      (buildCube env eng inp false asofDate cubes).st.trace.filter isSampleZeroCall := by
  refine ⟨fun j i k s hj hnr hi hk hs1 hs2 => ?_, buildCube_sampleZero env eng inp asofDate cubes⟩
  have h := buildCube_dryRun_filled env eng inp asofDate cubes hok j i s k hj hnr hi hk hs1 hs2
  unfold FilledAt dryRunNoise at h
  refine ⟨fun h10 => ?_, fun h10 => ?_, fun h10 hzero => ?_, fun h10 hexact => ?_⟩
  · rw [h, if_pos h10]
  · rw [h, if_neg (by omega)]
  · rw [h, if_neg (by omega), hzero]
  · rw [h, if_pos h10, hexact]

/-- Witness for C8: the dry run over two dates with three samples on a machine
whose addition is exact on the operands; the cell of trade 0 at date index 1,
sample 2, depth 0 holds the time-zero value plus `1 + 0 + 0 + 2`. -/
theorem dryRun_cube_witness :
    (buildCube calmEnv engTwoDates inpOneTrade true 0 zeroCubes).err = none ∧
    (buildCube calmEnv engTwoDates inpOneTrade true 0 zeroCubes).st.cubes.outputCube.get
        0 1 2 0 =
      (buildCube calmEnv engTwoDates inpOneTrade true 0 zeroCubes).st.cubes.outputCube.getT0
        0 0 + 3 ∧
    (buildCube calmEnv engTwoDates inpOneTrade true 0 zeroCubes).st.trace.filter
        isSampleZeroCall =
      (buildCube calmEnv engTwoDates inpOneTrade false 0 zeroCubes).st.trace.filter
        isSampleZeroCall := by
  have h := dryRun_cube calmEnv engTwoDates inpOneTrade 0 zeroCubes (by decide)
  refine ⟨by decide, ?_, h.2⟩
  have h1 := (h.1 0 1 0 2 (by decide)
    (not_raisedFor_of_quiet calmEnv 0 _ (fun _ _ _ _ => rfl))
    (by decide) (by decide) (by decide) (by decide)).2.2.2 (by decide) rfl
  rw [h1]
  norm_num

/-- Counterexample to C8 as stated: the time-zero value of the trade is 10^17,
and the machine adds as doubles do, so that 10^17 + 3 is 10^17 (the doubles
next to 10^17 are 16 away).  The dry run returns normally, nothing raises, and
the cell of trade 0 at date index 1, sample 2, depth 0 holds 10^17, the
time-zero value, not the time-zero value plus `1 + 0 + 0 + 2`. -/
theorem dryRun_cube_counterexample :
    (buildCube roundingEnv engTwoDates inpOneTrade true 0 largeT0Cubes).err = none ∧
    (buildCube roundingEnv engTwoDates inpOneTrade true 0
        largeT0Cubes).st.cubes.outputCube.getT0 0 0 = 100000000000000000 ∧
    (buildCube roundingEnv engTwoDates inpOneTrade true 0
        largeT0Cubes).st.cubes.outputCube.get 0 1 2 0 = 100000000000000000 ∧
    (buildCube roundingEnv engTwoDates inpOneTrade true 0
        largeT0Cubes).st.cubes.outputCube.get 0 1 2 0 ≠
      (buildCube roundingEnv engTwoDates inpOneTrade true 0
        largeT0Cubes).st.cubes.outputCube.getT0 0 0 + ((1 + 0 + 0 + 2 : Nat) : ℚ) := by
  have hok : (buildCube roundingEnv engTwoDates inpOneTrade true 0 largeT0Cubes).err = none := by
    decide
  have ht0 : (buildCube roundingEnv engTwoDates inpOneTrade true 0
      largeT0Cubes).st.cubes.outputCube.getT0 0 0 = 100000000000000000 := rfl
  have hget : (buildCube roundingEnv engTwoDates inpOneTrade true 0
      largeT0Cubes).st.cubes.outputCube.get 0 1 2 0 = 100000000000000000 := by
    have h := buildCube_dryRun_filled roundingEnv engTwoDates inpOneTrade 0 largeT0Cubes hok
      0 1 2 0 (by decide) (not_raisedFor_of_quiet roundingEnv 0 _ (fun _ _ _ _ => rfl))
      (by decide) (by decide) (by decide) (by decide)
    unfold FilledAt dryRunNoise at h
    rw [h, ht0]
    norm_num [roundingEnv]
  refine ⟨hok, ht0, hget, ?_⟩
  rw [hget, ht0]
  norm_num


/-! ## C9 and C10: exercise around sticky close-out rounds -/

/-- C9: with `mporStickyDate` set, every close-out processing that completes
logs, after its market update and recalibration calls, `disableExercise` for
exactly the exercisable trades, then the calls of the close-out calculator
round (among them no valuation-mode `calculate`), then `enableExercise` for
exactly the exercisable trades; and in every run of `buildCube` a
`disableExercise` or `enableExercise` call implies that `mporStickyDate` is
set and that the trade is exercisable, so with `mporStickyDate` unset neither
is ever called. -/
theorem sticky_exercise_bracket (env : Env) (eng : Engine) (inp : Input) :
    (inp.mporStickyDate = true → ∀ sample d cdi s,
      (processCloseOutDate env eng inp sample d cdi s).err = none →
      ∃ pre round,
        (processCloseOutDate env eng inp sample d cdi s).st.trace =
          s.trace ++ pre ++ (exercisableTrades inp.trades).map Event.disableExercise ++
            round ++ (exercisableTrades inp.trades).map Event.enableExercise ∧
        (∀ ev ∈ pre, CloseOutUpdateEvent true d ev) ∧
        (∀ ev ∈ round, RoundEvent inp true d cdi.toNat sample ev) ∧
        (∀ c t d1 k s1, Event.calculate c t d1 k s1 false ∉ round)) ∧
    (∀ dryRun asofDate cubes t,
      (Event.disableExercise t ∈ (buildCube env eng inp dryRun asofDate cubes).st.trace ∨
       Event.enableExercise t ∈ (buildCube env eng inp dryRun asofDate cubes).st.trace) →
      inp.mporStickyDate = true ∧ isExercisable inp.trades t) := by
  constructor
  · intro hs sample d cdi s hok
    obtain ⟨pre, round, h1, h2, h3⟩ :=
      processCloseOutDate_sticky env eng inp sample d cdi s hs hok
    refine ⟨pre, round, h1, h2, h3, fun c t d1 k s1 hmem => ?_⟩
    have := h3 _ hmem
    simp [RoundEvent] at this
  · intro dryRun asofDate cubes t h
    rcases h with h | h
    · rcases buildCube_runEvent env eng inp dryRun asofDate cubes _ h with
        ⟨_, _, h | h⟩ | ⟨_, _, h⟩ | h | ⟨_, _, h⟩ | h | h
      · exact absurd h (by simp)
      · exact absurd h (by simp)
      · exact absurd h (by simp [TradeInitEvent])
      · exact absurd h (by simp)
      · exact h
      · exact absurd h (by simp [FinishEvent, FillEvent])
      · exact absurd h (by simp)
    · rcases buildCube_runEvent env eng inp dryRun asofDate cubes _ h with
        ⟨_, _, h | h⟩ | ⟨_, _, h⟩ | h | ⟨_, _, h⟩ | h | h
      · exact absurd h (by simp)
      · exact absurd h (by simp)
      · exact absurd h (by simp [TradeInitEvent])
      · exact absurd h (by simp)
      · exact h
      · exact absurd h (by simp [FinishEvent, FillEvent])
      · exact absurd h (by simp)

/-- Witness for C9: the sticky close-out processing of date 2 at cube date
index 0 for one exercisable trade. -/
theorem sticky_exercise_bracket_witness :
    ∃ pre round,
      (processCloseOutDate calmEnv engTwoDates inpOneTrade 0 2 0
          ⟨[], zeroCubes, [false]⟩).st.trace =
        [] ++ pre ++ (exercisableTrades inpOneTrade.trades).map Event.disableExercise ++
          round ++ (exercisableTrades inpOneTrade.trades).map Event.enableExercise ∧
      (∀ ev ∈ pre, CloseOutUpdateEvent true 2 ev) ∧
      (∀ ev ∈ round, RoundEvent inpOneTrade true 2 (0 : Int).toNat 0 ev) ∧
      (∀ c t d1 k s1, Event.calculate c t d1 k s1 false ∉ round) :=
  (sticky_exercise_bracket calmEnv engTwoDates inpOneTrade).1 rfl 0 2 0
    ⟨[], zeroCubes, [false]⟩ (by decide)

/-- C10 fails on the code: with sticky close-out dates, a run that aborts
during close-out processing leaves exercise disabled.  On a grid whose first
slot is a close-out slot the run fails on the negative cube date index check
after `disableExercise` and never calls `enableExercise`; the same happens
when `initScenario` raises inside the close-out calculator round. -/
theorem exercise_left_disabled :
    inpOneDate.mporStickyDate = true ∧
    (buildCube calmEnv engCloseOutFirst inpOneDate false 0 zeroCubes).err =
      some Err.negativeCubeDateIndex ∧
    Event.disableExercise 0 ∈
      (buildCube calmEnv engCloseOutFirst inpOneDate false 0 zeroCubes).st.trace ∧
    Event.enableExercise 0 ∉
      (buildCube calmEnv engCloseOutFirst inpOneDate false 0 zeroCubes).st.trace ∧
    (buildCube initScenarioFailsEnv engTwoDates inpOneTrade false 0 zeroCubes).err =
      some (Err.escaped (Event.calcInitScenario 0)) ∧
    Event.disableExercise 0 ∈
      (buildCube initScenarioFailsEnv engTwoDates inpOneTrade false 0 zeroCubes).st.trace ∧
    Event.enableExercise 0 ∉
      (buildCube initScenarioFailsEnv engTwoDates inpOneTrade false 0 zeroCubes).st.trace := by
  decide

/-! # Further lemmas and theorems -/

/-! ## The events a step logs when it completes normally -/

theorem logs_mono {Q R : List Event → Prop} {f : State → Outcome} (h : ∀ l, Q l → R l)
    (hf : Logs Q f) : Logs R f := by
  intro s hs
  obtain ⟨new, h1, h2⟩ := hf s hs
  exact ⟨new, h1, h _ h2⟩

theorem logs_ok {Q : List Event → Prop} (h : Q []) : Logs Q ok :=
  fun s _ => ⟨[], by simp, h⟩

theorem logs_require {Q : List Event → Prop} (c : Bool) (e : Err) (h : Q []) :
    Logs Q (require c e) := by
  intro s _
  refine ⟨[], ?_, h⟩
  unfold require
  cases c <;> simp [ok]

theorem logs_call (env : Env) (ev : Event) : Logs (fun new => new = [ev]) (call env ev) := by
  intro s _
  exact ⟨[ev], by rw [call_st], rfl⟩

theorem logs_onlyIf {Q : List Event → Prop} {b : Bool} {f : State → Outcome}
    (ht : b = true → Logs Q f) (hf : b = false → Q []) : Logs Q (onlyIf b f) := by
  intro s hs
  unfold onlyIf at hs ⊢
  cases b with
  | false => exact ⟨[], by simp, hf rfl⟩
  | true => exact ht rfl s (by simpa using hs)

theorem logs_andThen {Q R : List Event → Prop} {f g : State → Outcome} (hf : Logs Q f)
    (hg : Logs R g) :
    Logs (fun new => ∃ a b, new = a ++ b ∧ Q a ∧ R b) (fun s => (f s).andThen g) := by
  intro s hs
  obtain ⟨h1, h2⟩ := andThen_err_none.1 hs
  obtain ⟨a, ha, qa⟩ := hf s h1
  obtain ⟨b, hb, rb⟩ := hg _ h2
  refine ⟨a ++ b, ?_, a, b, rfl, qa, rb⟩
  show ((f s).andThen g).st.trace = _
  rw [andThen_of_none h1, hb, ha, List.append_assoc]

theorem logs_block_nil : Logs (fun new => new = []) (block []) :=
  logs_ok rfl

theorem logs_block_cons {Q R : List Event → Prop} {f : State → Outcome}
    {fs : List (State → Outcome)} (hf : Logs Q f) (hfs : Logs R (block fs)) :
    Logs (fun new => ∃ a b, new = a ++ b ∧ Q a ∧ R b) (block (f :: fs)) :=
  logs_andThen hf hfs

theorem logs_forEach {α : Type} {Q : α → List Event → Prop} {f : α → State → Outcome}
    (xs : List α) (h : ∀ x ∈ xs, Logs (Q x) (f x)) :
    Logs (fun new => ∃ segs, new = segs.flatten ∧ List.Forall₂ Q xs segs) (forEach f xs) := by
  induction xs with
  | nil => exact logs_ok ⟨[], rfl, List.Forall₂.nil⟩
  | cons x rest ih =>
    refine logs_mono ?_ (logs_andThen (h x (List.mem_cons_self x rest))
      (ih fun y hy => h y (List.mem_cons_of_mem x hy)))
    rintro l ⟨a, b, rfl, qa, segs, rfl, hsegs⟩
    exact ⟨a :: segs, by simp, List.Forall₂.cons qa hsegs⟩

theorem logs_of_emits {P : Event → Prop} {f : State → Outcome} (h : Emits P f) :
    Logs (fun new => ∀ ev ∈ new, P ev) f :=
  fun s _ => h s

theorem logs_and {Q R : List Event → Prop} {f : State → Outcome} (hq : Logs Q f)
    (hr : Logs R f) : Logs (fun new => Q new ∧ R new) f := by
  intro s hs
  obtain ⟨a, ha, qa⟩ := hq s hs
  obtain ⟨b, hb, rb⟩ := hr s hs
  have hab : a = b := List.append_cancel_left (ha.symm.trans hb)
  exact ⟨a, ha, qa, hab ▸ rb⟩

/-! ## Recalibration -/

theorem forceThenRecalibrate_of_noForce {l : List Event}
    (h : ∀ b, Event.forceRecalculate b ∉ l) : ForceThenRecalibrate l := by
  intro pre b post hl
  exact absurd (hl ▸ List.mem_append_right pre (List.mem_cons_self _ _)) (h b)

theorem forceThenRecalibrate_append {x y : List Event} (hx : ForceThenRecalibrate x)
    (hy : ForceThenRecalibrate y) : ForceThenRecalibrate (x ++ y) := by
  intro pre b post h
  rcases List.append_eq_append_iff.1 h with ⟨c, rfl, hc⟩ | ⟨c, rfl, hc⟩
  · exact hy c b post hc
  · cases c with
    | nil => exact hy [] b post (by simpa using hc.symm)
    | cons e c1 =>
      simp only [List.cons_append, List.cons.injEq] at hc
      obtain ⟨rfl, rfl⟩ := hc
      obtain ⟨rest, hrest⟩ := hx pre b c1 rfl
      exact ⟨rest ++ y, by rw [hrest, List.cons_append]⟩

theorem recalLog_zero (om : Mode) (b : Nat) {new : List Event}
    (h : ∀ ev ∈ new, isRecalibration ev = false) : RecalLog om b 0 new := by
  have hf : ∀ b1, Event.forceRecalculate b1 ∉ new := fun b1 hb => by
    simpa [isRecalibration] using h _ hb
  have hr : Event.recalibrate b ∉ new := fun hb => by
    simpa [isRecalibration] using h _ hb
  refine ⟨?_, List.count_eq_zero_of_not_mem hr, forceThenRecalibrate_of_noForce hf⟩
  rw [List.count_eq_zero_of_not_mem (hf b)]
  simp

theorem recalLog_append {om : Mode} {b j k : Nat} {x y : List Event}
    (hx : RecalLog om b j x) (hy : RecalLog om b k y) : RecalLog om b (j + k) (x ++ y) := by
  obtain ⟨x1, x2, x3⟩ := hx
  obtain ⟨y1, y2, y3⟩ := hy
  refine ⟨?_, by rw [List.count_append, x2, y2], forceThenRecalibrate_append x3 y3⟩
  rw [List.count_append, x1, y1]
  by_cases h : om = Mode.Disable <;> simp [h]

theorem recalLog_builder (om : Mode) (b c : Nat) :
    RecalLog om b (if c = b then 1 else 0)
      ((if om = Mode.Disable then [Event.forceRecalculate c] else []) ++
        [Event.recalibrate c]) := by
  refine ⟨?_, ?_, ?_⟩
  · by_cases h : om = Mode.Disable <;> by_cases hc : c = b <;>
      simp [h, hc, List.count_cons, List.count_singleton]
  · by_cases h : om = Mode.Disable <;> by_cases hc : c = b <;>
      simp [h, hc, List.count_cons, List.count_singleton]
  · intro pre b1 post h
    by_cases hd : om = Mode.Disable
    · simp only [hd, ↓reduceIte, List.cons_append, List.nil_append] at h
      cases pre with
      | nil =>
        simp only [List.nil_append, List.cons.injEq, Event.forceRecalculate.injEq] at h
        exact ⟨[], by rw [← h.1, ← h.2]⟩
      | cons e pre1 =>
        simp only [List.cons_append, List.cons.injEq] at h
        cases pre1 with
        | nil => simp at h
        | cons e1 pre2 => simp at h
    · simp only [hd, ↓reduceIte, List.nil_append] at h
      cases pre with
      | nil => simp at h
      | cons e pre1 => simp at h

theorem recalLog_range (om : Mode) (b : Nat) :
    ∀ n, RecalLog om b (if b < n then 1 else 0) (recalRound om n) := by
  intro n
  induction n with
  | zero => exact recalLog_zero om b (by simp [recalRound])
  | succ n ih =>
    have h := recalLog_append ih (recalLog_builder om b n)
    have hround : recalRound om (n + 1) = recalRound om n ++
        ((if om = Mode.Disable then [Event.forceRecalculate n] else []) ++
          [Event.recalibrate n]) := by
      simp [recalRound, List.range_succ, List.flatMap_append]
    rw [hround]
    have hk : (if b < n + 1 then 1 else 0) =
        (if b < n then 1 else 0) + (if n = b then 1 else 0) := by
      by_cases h1 : b < n <;> by_cases h2 : n = b <;> simp [h1, h2] <;> omega
    rw [hk]
    exact h

theorem recalLog_recalRound (om : Mode) {b n : Nat} (hb : b < n) :
    RecalLog om b 1 (recalRound om n) := by
  simpa [hb] using recalLog_range om b n

theorem logs_flatMap {α : Type} {g : α → List Event} {f : α → State → Outcome}
    (xs : List α) (h : ∀ x ∈ xs, Logs (fun new => new = g x) (f x)) :
    Logs (fun new => new = xs.flatMap g) (forEach f xs) := by
  refine logs_mono ?_ (logs_forEach xs h)
  rintro l ⟨segs, rfl, hsegs⟩
  clear h
  induction hsegs with
  | nil => rfl
  | cons h1 _ ih => simp [h1, ih]

theorem logs_recalibrateModels (env : Env) (eng : Engine) (om : Mode) :
    Logs (fun new => new = recalRound om eng.numModelBuilders)
      (recalibrateModels env eng om) := by
  unfold recalibrateModels recalRound
  refine logs_flatMap _ fun b _ => ?_
  refine logs_mono ?_ (logs_block_cons
    (logs_onlyIf (Q := fun new => new = if om = Mode.Disable then [Event.forceRecalculate b]
      else []) (fun h => logs_mono (fun l hl => by simpa [of_decide_eq_true h] using hl)
        (logs_call env _)) (fun h => by simp [of_decide_eq_false h]))
    (logs_block_cons (logs_call env (Event.recalibrate b)) logs_block_nil))
  rintro l ⟨a, c, rfl, rfl, c1, c2, rfl, rfl, rfl⟩
  simp

theorem logs_recal_of_step {P : Event → Prop} {f : State → Outcome} (om : Mode) (b : Nat)
    (hP : ∀ ev, P ev → isRecalibration ev = false) (h : Step P f) :
    Logs (RecalLog om b 0) f :=
  logs_mono (fun _ hl => recalLog_zero om b fun ev hev => hP ev (hl ev hev))
    (logs_of_emits (emits_of_step h))

theorem logs_recal_call (env : Env) (om : Mode) (b : Nat) (ev : Event)
    (h : isRecalibration ev = false) : Logs (RecalLog om b 0) (call env ev) :=
  logs_recal_of_step om b (fun _ h1 => h1)
    (step_of_quiet (quiet_call (P := fun ev => isRecalibration ev = false) env h))

theorem logs_recal_block_nil (om : Mode) (b : Nat) : Logs (RecalLog om b 0) (block []) :=
  logs_ok (recalLog_zero om b (by simp))

theorem logs_recal_block_cons {om : Mode} {b j k : Nat} {f : State → Outcome}
    {fs : List (State → Outcome)} (hf : Logs (RecalLog om b j) f)
    (hfs : Logs (RecalLog om b k) (block fs)) :
    Logs (RecalLog om b (j + k)) (block (f :: fs)) :=
  logs_mono (by rintro l ⟨x, y, rfl, hx, hy⟩; exact recalLog_append hx hy)
    (logs_block_cons hf hfs)

theorem logs_recal_skip {om : Mode} {b k : Nat} {f : State → Outcome}
    {fs : List (State → Outcome)} (hf : Logs (RecalLog om b 0) f)
    (hfs : Logs (RecalLog om b k) (block fs)) : Logs (RecalLog om b k) (block (f :: fs)) := by
  simpa using logs_recal_block_cons hf hfs

theorem logs_recal_point {om : Mode} {b j : Nat} {f : State → Outcome}
    {fs : List (State → Outcome)} (hf : Logs (RecalLog om b j) f)
    (hfs : Logs (RecalLog om b 0) (block fs)) : Logs (RecalLog om b j) (block (f :: fs)) :=
  logs_recal_block_cons hf hfs

theorem logs_recal_forEach {α : Type} {om : Mode} {b k : Nat} {f : α → State → Outcome}
    (xs : List α) (h : ∀ x ∈ xs, Logs (RecalLog om b k) (f x)) :
    Logs (RecalLog om b (xs.length * k)) (forEach f xs) := by
  induction xs with
  | nil => simpa using logs_ok (recalLog_zero om b (by simp))
  | cons x rest ih =>
    refine logs_mono ?_ (logs_andThen (h x (List.mem_cons_self x rest))
      (ih fun y hy => h y (List.mem_cons_of_mem x hy)))
    rintro l ⟨a, c, rfl, ha, hc⟩
    have := recalLog_append ha hc
    rwa [List.length_cons, Nat.succ_mul, Nat.add_comm]

theorem logs_recal_onlyIf {om : Mode} {b : Nat} {c : Bool} {f : State → Outcome}
    (h : c = true → Logs (RecalLog om b 0) f) : Logs (RecalLog om b 0) (onlyIf c f) :=
  logs_onlyIf h fun _ => recalLog_zero om b (by simp)

theorem roundEvent_notRecal {inp : Input} {m : Bool} {d : Date} {k sample : Nat} {ev : Event}
    (h : RoundEvent inp m d k sample ev) : isRecalibration ev = false := by
  cases ev <;> first | rfl | exact h.elim

theorem step_runCptyCalculators_of {P : Event → Prop} (env : Env) (m : Bool) (inp : Input)
    (d : Date) (k sample : Nat) (h : ∀ c idx, P (Event.cptyCalculate c idx d k sample m)) :
    Step P (runCptyCalculators env m inp d k sample) := by
  unfold runCptyCalculators
  exact step_forEach _ fun idx _ => step_forEach _ fun c _ => step_callCalcAt env _ (h c idx)

theorem logs_recal_recalibrateModels (env : Env) (eng : Engine) (om : Mode) {b : Nat}
    (hb : b < eng.numModelBuilders) :
    Logs (RecalLog om b 1) (recalibrateModels env eng om) :=
  logs_mono (fun l (hl : l = recalRound om eng.numModelBuilders) =>
    hl ▸ recalLog_recalRound om hb) (logs_recalibrateModels env eng om)

theorem logs_recal_tradeExercisable (env : Env) (om : Mode) (b : Nat) (enable : Bool)
    (trades : List Trade) : Logs (RecalLog om b 0) (tradeExercisable env enable trades) :=
  logs_recal_of_step om b (fun _ h1 => h1)
    (step_of_quiet (quiet_tradeExercisable (P := fun ev => isRecalibration ev = false)
      env enable trades (fun _ _ _ => rfl) (fun _ _ _ => rfl)))

theorem logs_recal_initialiseTrade (env : Env) (eng : Engine) (inp : Input) (p : Nat × Trade)
    {b : Nat} (hb : b < eng.numModelBuilders) :
    Logs (RecalLog inp.om b 1) (initialiseTrade env eng inp p) := by
  unfold initialiseTrade
  refine logs_recal_skip (logs_require _ _ (recalLog_zero _ b (by simp))) ?_
  refine logs_recal_skip (logs_recal_call env inp.om b _ rfl) ?_
  refine logs_recal_point (logs_recal_recalibrateModels env eng inp.om hb) ?_
  refine logs_recal_skip (logs_recal_of_step inp.om b (fun _ h1 => h1)
    (step_tryBlock (P := fun ev => isRecalibration ev = false) env _ p.1 _
      (by simp [isRecalibration]) rfl)) ?_
  exact logs_recal_skip (logs_recal_onlyIf fun _ => logs_recal_call env inp.om b _ rfl)
    (logs_recal_block_nil inp.om b)

theorem logs_recal_processCloseOutDate (env : Env) (eng : Engine) (inp : Input)
    (sample : Nat) (d : Date) (cdi : Int) {b : Nat} (hb : b < eng.numModelBuilders) :
    Logs (RecalLog inp.om b 1) (processCloseOutDate env eng inp sample d cdi) := by
  unfold processCloseOutDate
  refine logs_recal_skip (logs_recal_call env inp.om b _ rfl) ?_
  refine logs_recal_skip (logs_recal_onlyIf fun _ => logs_recal_call env inp.om b _ rfl) ?_
  refine logs_recal_skip (logs_recal_call env inp.om b _ rfl) ?_
  refine logs_recal_skip (logs_recal_call env inp.om b _ rfl) ?_
  refine logs_recal_point (logs_recal_recalibrateModels env eng inp.om hb) ?_
  refine logs_recal_skip (logs_recal_onlyIf fun _ =>
    logs_recal_tradeExercisable env inp.om b false inp.trades) ?_
  refine logs_recal_skip (logs_require _ _ (recalLog_zero _ b (by simp))) ?_
  refine logs_recal_skip (logs_recal_of_step inp.om b (fun _ h1 => roundEvent_notRecal h1)
    (step_runCalculators env true inp d cdi.toNat sample)) ?_
  exact logs_recal_skip (logs_recal_onlyIf fun _ =>
    logs_recal_tradeExercisable env inp.om b true inp.trades) (logs_recal_block_nil inp.om b)

theorem logs_recal_processValuationDate (env : Env) (eng : Engine) (inp : Input)
    (sample : Nat) (d : Date) (cdi : Int) (u : Bool) {b : Nat}
    (hb : b < eng.numModelBuilders) :
    Logs (RecalLog inp.om b 1) (processValuationDate env eng inp sample d cdi u) := by
  unfold processValuationDate
  refine logs_recal_skip (logs_recal_call env inp.om b _ rfl) ?_
  refine logs_recal_skip (logs_recal_call env inp.om b _ rfl) ?_
  refine logs_recal_skip (logs_recal_onlyIf fun _ => logs_recal_call env inp.om b _ rfl) ?_
  refine logs_recal_skip (logs_recal_call env inp.om b _ rfl) ?_
  refine logs_recal_skip (logs_recal_call env inp.om b _ rfl) ?_
  refine logs_recal_point (logs_recal_recalibrateModels env eng inp.om hb) ?_
  refine logs_recal_skip (logs_recal_of_step inp.om b (fun _ h1 => roundEvent_notRecal h1)
    (step_runCalculators env false inp d cdi.toNat sample)) ?_
  exact logs_recal_skip (logs_recal_of_step inp.om b (fun _ h1 => h1)
    (step_runCptyCalculators_of (P := fun ev => isRecalibration ev = false) env false inp d
      cdi.toNat sample (fun _ _ => rfl))) (logs_recal_block_nil inp.om b)

theorem dateLoop_cons (env : Env) (eng : Engine) (inp : Input) (sample : Nat) (g : GridSlot)
    (rest : List GridSlot) (cdi : Int) :
    dateLoop env eng inp sample (g :: rest) cdi = fun s =>
      (processGridSlot env eng inp sample g cdi s).andThen
        (dateLoop env eng inp sample rest (if g.isValuationDate then cdi + 1 else cdi)) :=
  rfl

theorem logs_recal_andThen {om : Mode} {b j k : Nat} {f g : State → Outcome}
    (hf : Logs (RecalLog om b j) f) (hg : Logs (RecalLog om b k) g) :
    Logs (RecalLog om b (j + k)) (fun s => (f s).andThen g) :=
  logs_mono (by rintro l ⟨x, y, rfl, hx, hy⟩; exact recalLog_append hx hy)
    (logs_andThen hf hg)

theorem logs_recal_onlyIf_count {om : Mode} {b k : Nat} {c : Bool} {f : State → Outcome}
    (h : c = true → Logs (RecalLog om b k) f) :
    Logs (RecalLog om b (if c then k else 0)) (onlyIf c f) := by
  cases c with
  | false => exact logs_onlyIf (fun h => by simp at h) fun _ => recalLog_zero _ b (by simp)
  | true => exact logs_onlyIf h (fun h => by simp at h)

theorem logs_recal_processGridSlot (env : Env) (eng : Engine) (inp : Input) (sample : Nat)
    (g : GridSlot) (cdi : Int) {b : Nat} (hb : b < eng.numModelBuilders) :
    Logs (RecalLog inp.om b
        ((if g.isCloseOutDate then 1 else 0) + (if g.isValuationDate then 1 else 0)))
      (processGridSlot env eng inp sample g cdi) := by
  unfold processGridSlot
  exact logs_recal_block_cons
    (logs_recal_onlyIf_count fun _ => logs_recal_processCloseOutDate env eng inp sample _ _ hb)
    (logs_recal_block_cons
      (logs_recal_onlyIf_count fun _ =>
        logs_recal_processValuationDate env eng inp sample _ _ _ hb)
      (logs_recal_block_nil inp.om b))

theorem logs_recal_dateLoop (env : Env) (eng : Engine) (inp : Input) (sample : Nat) {b : Nat}
    (hb : b < eng.numModelBuilders) :
    ∀ (rest : List GridSlot) (cdi : Int),
      Logs (RecalLog inp.om b ((closeOutDates rest).length + (valuationDates rest).length))
        (dateLoop env eng inp sample rest cdi) := by
  intro rest
  induction rest with
  | nil =>
    intro cdi
    exact logs_ok (recalLog_zero _ b (by simp))
  | cons g rest ih =>
    intro cdi
    rw [dateLoop_cons]
    have h := logs_recal_andThen (logs_recal_processGridSlot env eng inp sample g cdi hb)
      (ih (if g.isValuationDate then cdi + 1 else cdi))
    have hk : (closeOutDates (g :: rest)).length + (valuationDates (g :: rest)).length =
        ((if g.isCloseOutDate then 1 else 0) + (if g.isValuationDate then 1 else 0)) +
          ((closeOutDates rest).length + (valuationDates rest).length) := by
      cases hc : g.isCloseOutDate <;> cases hv : g.isValuationDate <;>
        simp [closeOutDates, valuationDates, List.filter_cons, hc, hv] <;> omega
    rw [hk]
    exact h

theorem logs_recal_processSample (env : Env) (eng : Engine) (inp : Input) (sample : Nat)
    {b : Nat} (hb : b < eng.numModelBuilders) :
    Logs (RecalLog inp.om b ((closeOutDates eng.dg).length + (valuationDates eng.dg).length))
      (processSample env eng inp sample) := by
  unfold processSample
  refine logs_recal_skip (logs_recal_of_step inp.om b (fun _ h1 => h1)
    (step_forEach _ fun t _ => step_of_quiet
      (quiet_call (P := fun ev => isRecalibration ev = false) env rfl))) ?_
  exact logs_recal_point (logs_recal_dateLoop env eng inp sample hb eng.dg (-1))
    (logs_recal_skip (logs_recal_call env inp.om b Event.fixingReset rfl)
      (logs_recal_block_nil inp.om b))

theorem logs_recal_simulate (env : Env) (eng : Engine) (inp : Input) (dryRun : Bool)
    (asofDate : Date) {b : Nat} (hb : b < eng.numModelBuilders) :
    Logs (RecalLog inp.om b (recalibrationPoints eng inp dryRun))
      (simulate env eng inp dryRun asofDate) := by
  unfold simulate recalibrationPoints
  have h1 := logs_recal_forEach inp.trades.enum fun p _ =>
    logs_recal_initialiseTrade env eng inp p hb
  have h3 := logs_recal_forEach (List.range (numSamplesReplayed inp dryRun)) fun sample _ =>
    logs_recal_processSample env eng inp sample hb
  rw [List.enum_length, Nat.mul_one] at h1
  rw [List.length_range] at h3
  refine logs_recal_block_cons h1 ?_
  unfold initialiseFixings
  refine logs_recal_skip (logs_recal_onlyIf fun _ =>
    logs_recal_call env inp.om b Event.fixingInitialise rfl) ?_
  refine logs_recal_point h3 ?_
  refine logs_recal_skip (logs_recal_of_step inp.om b
    (fun ev (h1 : FillEvent eng inp dryRun ev) => by
      cases ev <;> first | rfl | exact h1.elim)
    (step_dryRunFill env eng inp dryRun)) ?_
  exact logs_recal_skip (logs_recal_of_step inp.om b (fun _ h1 => h1)
    (step_forEach _ fun i _ => step_removeIfError
      (P := fun ev => isRecalibration ev = false) env i rfl))
    (logs_recal_block_nil inp.om b)

theorem logs_recal_buildCubeBody (env : Env) (eng : Engine) (inp : Input) (dryRun : Bool)
    (asofDate : Date) {b : Nat} (hb : b < eng.numModelBuilders) :
    Logs (RecalLog inp.om b (recalibrationPoints eng inp dryRun))
      (buildCubeBody env eng inp dryRun asofDate) := by
  unfold buildCubeBody
  refine logs_recal_skip (logs_recal_of_step inp.om b (fun _ h1 => h1)
    (step_of_quiet (quiet_checkDimensions _ eng inp))) ?_
  refine logs_recal_skip (logs_recal_of_step inp.om b (fun _ h1 => h1) (step_of_quiet ?_)) ?_
  · unfold initialiseCalculators
    refine quiet_forEach _ fun c _ => quiet_block _ fun f hf => ?_
    simp only [List.mem_cons, List.mem_singleton, List.not_mem_nil, or_false] at hf
    rcases hf with rfl | rfl
    · exact quiet_callAt env _ rfl
    · exact quiet_callAt env _ rfl
  refine logs_recal_skip (fun s _ => ⟨[], by simp [createErrorFlags, ok],
    recalLog_zero _ b (by simp)⟩) ?_
  exact logs_recal_point (logs_recal_simulate env eng inp dryRun asofDate hb)
    (logs_recal_block_nil inp.om b)

theorem buildCube_recalLog (env : Env) (eng : Engine) (inp : Input) (dryRun : Bool)
    (asofDate : Date) (cubes : Cubes)
    (hok : (buildCube env eng inp dryRun asofDate cubes).err = none) {b : Nat}
    (hb : b < eng.numModelBuilders) :
    RecalLog inp.om b (recalibrationPoints eng inp dryRun)
      (buildCube env eng inp dryRun asofDate cubes).st.trace := by
  obtain ⟨new, h1, h2⟩ := logs_recal_buildCubeBody env eng inp dryRun asofDate hb
    ⟨[], cubes, []⟩ hok
  have htr : (buildCube env eng inp dryRun asofDate cubes).st.trace =
      new ++ [Event.marketReset] := by
    simp only [buildCube, h1, List.nil_append]
  rw [htr]
  have h0 : RecalLog inp.om b 0 [Event.marketReset] :=
    recalLog_zero inp.om b (by simp [isRecalibration])
  exact recalLog_append (j := recalibrationPoints eng inp dryRun) (k := 0) h2 h0

/-! ## The order of the calls within a grid slot -/

theorem logs_block_append {Q R : List Event → Prop} {fs gs : List (State → Outcome)}
    (hf : Logs Q (block fs)) (hg : Logs R (block gs)) :
    Logs (fun new => ∃ a b, new = a ++ b ∧ Q a ∧ R b) (block (fs ++ gs)) := by
  have h : block (fs ++ gs) = fun s => (block fs s).andThen (block gs) :=
    funext fun s => block_append fs gs s
  rw [h]
  exact logs_andThen hf hg

theorem logs_closeOutAdvance (env : Env) (sticky : Bool) (d : Date) :
    Logs (fun new => new = closeOutAdvance sticky d)
      (block [call env Event.preUpdate,
        onlyIf (!sticky) (call env (Event.updateDate d)),
        call env (Event.updateScenario d),
        call env (Event.postUpdate d (!sticky))]) := by
  refine logs_mono ?_ (logs_block_cons (logs_call env _)
    (logs_block_cons (logs_onlyIf (Q := fun new => new = if sticky then []
        else [Event.updateDate d])
      (fun h => logs_mono (fun l hl => by cases sticky <;> simp_all) (logs_call env _))
      (fun h => by cases sticky <;> simp_all))
    (logs_block_cons (logs_call env _) (logs_block_cons (logs_call env _) logs_block_nil))))
  rintro l ⟨_, _, rfl, rfl, _, _, rfl, rfl, _, _, rfl, rfl, _, _, rfl, rfl, rfl⟩
  cases sticky <;> simp [closeOutAdvance]

theorem logs_valuationAdvance (env : Env) (d : Date) (u : Bool) :
    Logs (fun new => new = valuationAdvance d u)
      (block [call env Event.preUpdate,
        call env (Event.updateDate d),
        onlyIf (!u) (call env (Event.updateScenario d)),
        call env (Event.postUpdate d true),
        call env (Event.updateAsd d)]) := by
  refine logs_mono ?_ (logs_block_cons (logs_call env _) (logs_block_cons (logs_call env _)
    (logs_block_cons (logs_onlyIf (Q := fun new => new = if u then []
        else [Event.updateScenario d])
      (fun h => logs_mono (fun l hl => by cases u <;> simp_all) (logs_call env _))
      (fun h => by cases u <;> simp_all))
    (logs_block_cons (logs_call env _) (logs_block_cons (logs_call env _) logs_block_nil)))))
  rintro l ⟨_, _, rfl, rfl, _, _, rfl, rfl, _, _, rfl, rfl, _, _, rfl, rfl, _, _, rfl, rfl, rfl⟩
  cases u <;> simp [valuationAdvance]

theorem step_closeOutCalcPhase (env : Env) (inp : Input) (sample : Nat) (d : Date)
    (cdi : Int) :
    Step (CalcPhaseEvent inp true d cdi.toNat sample)
      (block [onlyIf inp.mporStickyDate (tradeExercisable env false inp.trades),
        require (decide (cdi ≥ 0)) Err.negativeCubeDateIndex,
        runCalculators env true inp d cdi.toNat sample,
        onlyIf inp.mporStickyDate (tradeExercisable env true inp.trades)]) := by
  refine step_block_cons (step_onlyIf fun hs => step_of_quiet
    (quiet_tradeExercisable env false inp.trades (fun h => by simp at h)
      (fun _ t _ => Or.inr (Or.inl ⟨rfl, hs, t, Or.inl rfl⟩)))) ?_
  refine step_block_cons (step_of_quiet (quiet_require _ _ _)) ?_
  refine step_block_cons (step_mono (fun _ h => Or.inl h)
    (step_runCalculators env true inp d cdi.toNat sample)) ?_
  exact step_block_cons (step_onlyIf fun hs => step_of_quiet
    (quiet_tradeExercisable env true inp.trades
      (fun _ t _ => Or.inr (Or.inl ⟨rfl, hs, t, Or.inr rfl⟩)) (fun h => by simp at h)))
    (step_block_nil _)

theorem step_valuationCalcPhase (env : Env) (inp : Input) (sample : Nat) (d : Date)
    (k : Nat) :
    Step (CalcPhaseEvent inp false d k sample)
      (block [runCalculators env false inp d k sample,
        runCptyCalculators env false inp d k sample]) := by
  refine step_block_cons (step_mono (fun _ h => Or.inl h)
    (step_runCalculators env false inp d k sample)) ?_
  exact step_block_cons (step_runCptyCalculators_of env false inp d k sample
    (fun c idx => Or.inr (Or.inr ⟨rfl, c, idx, rfl⟩))) (step_block_nil _)

theorem logs_processCloseOutDate (env : Env) (eng : Engine) (inp : Input) (sample : Nat)
    (d : Date) (cdi : Int) :
    Logs (PartLog eng inp (closeOutAdvance inp.mporStickyDate d) true d cdi.toNat sample)
      (processCloseOutDate env eng inp sample d cdi) := by
  have h := logs_block_append (logs_closeOutAdvance env inp.mporStickyDate d)
    (logs_block_cons (logs_recalibrateModels env eng inp.om)
      (logs_of_emits (emits_of_step (step_closeOutCalcPhase env inp sample d cdi))))
  refine logs_mono ?_ h
  rintro l ⟨_, _, rfl, rfl, _, phase, rfl, rfl, hcalc⟩
  exact ⟨phase, by simp, hcalc⟩

theorem logs_processValuationDate (env : Env) (eng : Engine) (inp : Input) (sample : Nat)
    (d : Date) (cdi : Int) (u : Bool) :
    Logs (PartLog eng inp (valuationAdvance d u) false d cdi.toNat sample)
      (processValuationDate env eng inp sample d cdi u) := by
  have h := logs_block_append (logs_valuationAdvance env d u)
    (logs_block_cons (logs_recalibrateModels env eng inp.om)
      (logs_of_emits (emits_of_step (step_valuationCalcPhase env inp sample d cdi.toNat))))
  refine logs_mono ?_ h
  rintro l ⟨_, _, rfl, rfl, _, phase, rfl, rfl, hcalc⟩
  exact ⟨phase, by simp, hcalc⟩

theorem logs_processGridSlot (env : Env) (eng : Engine) (inp : Input) (sample : Nat)
    (g : GridSlot) (cdi : Int) :
    Logs (SlotLog eng inp sample g cdi) (processGridSlot env eng inp sample g cdi) := by
  unfold processGridSlot
  refine logs_mono ?_ (logs_block_cons
    (logs_onlyIf (Q := fun co => if g.isCloseOutDate then
        PartLog eng inp (closeOutAdvance inp.mporStickyDate g.date) true g.date cdi.toNat
          sample co else co = [])
      (fun h => logs_mono (fun l hl => by rw [if_pos h]; exact hl)
        (logs_processCloseOutDate env eng inp sample g.date cdi))
      (fun h => by simp [h]))
    (logs_block_cons
      (logs_onlyIf (Q := fun va => if g.isValuationDate then
          PartLog eng inp (valuationAdvance g.date g.isCloseOutDate) false g.date
            (cdi + 1).toNat sample va else va = [])
        (fun h => logs_mono (fun l hl => by rw [if_pos h]; simpa [h] using hl)
          (logs_processValuationDate env eng inp sample g.date _ g.isCloseOutDate))
        (fun h => by simp [h]))
      logs_block_nil))
  rintro l ⟨co, _, rfl, hco, va, _, rfl, hva, rfl⟩
  exact ⟨co, va, by simp, hco, hva⟩

theorem processCloseOutDate_nonneg (env : Env) (eng : Engine) (inp : Input) (sample : Nat)
    (d : Date) (cdi : Int) (s : State)
    (hok : (processCloseOutDate env eng inp sample d cdi s).err = none) : 0 ≤ cdi := by
  unfold processCloseOutDate at hok
  obtain ⟨-, h1, -⟩ := block_cons_err_none hok
  obtain ⟨-, h2, -⟩ := block_cons_err_none h1
  obtain ⟨-, h3, -⟩ := block_cons_err_none h2
  obtain ⟨-, h4, -⟩ := block_cons_err_none h3
  obtain ⟨-, h5, -⟩ := block_cons_err_none h4
  obtain ⟨-, h6, -⟩ := block_cons_err_none h5
  obtain ⟨h7, -, -⟩ := block_cons_err_none h6
  by_contra hneg
  simp [require, hneg] at h7

theorem recalRound_isRecalibration (om : Mode) (n : Nat) :
    ∀ ev ∈ recalRound om n, isRecalibration ev = true := by
  intro ev hev
  simp only [recalRound, List.mem_flatMap, List.mem_append, List.mem_singleton] at hev
  obtain ⟨b, _, h | rfl⟩ := hev
  · by_cases hd : om = Mode.Disable
    · simp only [hd, ↓reduceIte, List.mem_singleton] at h
      rw [h]; rfl
    · simp [hd] at h
  · rfl

theorem calcPhaseEvent_notMarket {inp : Input} {m : Bool} {d : Date} {k sample : Nat}
    {ev : Event} (h : CalcPhaseEvent inp m d k sample ev) : isMarketAdvance ev = false := by
  rcases h with h | ⟨_, _, t, rfl | rfl⟩ | ⟨_, c, idx, rfl⟩
  · cases ev <;> first | rfl | exact h.elim
  · rfl
  · rfl
  · rfl

theorem calcPhaseEvent_notRecal {inp : Input} {m : Bool} {d : Date} {k sample : Nat}
    {ev : Event} (h : CalcPhaseEvent inp m d k sample ev) : isRecalibration ev = false := by
  rcases h with h | ⟨_, _, t, rfl | rfl⟩ | ⟨_, c, idx, rfl⟩
  · exact roundEvent_notRecal h
  · rfl
  · rfl
  · rfl

theorem closeOutAdvance_isMarket (sticky : Bool) (d : Date) :
    ∀ ev ∈ closeOutAdvance sticky d, isMarketAdvance ev = true := by
  cases sticky <;> simp [closeOutAdvance, isMarketAdvance]

theorem valuationAdvance_isMarket (d : Date) (u : Bool) :
    ∀ ev ∈ valuationAdvance d u, isMarketAdvance ev = true := by
  cases u <;> simp [valuationAdvance, isMarketAdvance]

theorem isRecal_notMarket {ev : Event} (h : isRecalibration ev = true) :
    isMarketAdvance ev = false := by
  cases ev <;> first | rfl | exact absurd h (by simp [isRecalibration])

theorem partLog_filter_market {eng : Engine} {inp : Input} {adv : List Event} {m : Bool}
    {d : Date} {k sample : Nat} {new : List Event}
    (h : PartLog eng inp adv m d k sample new)
    (hadv : ∀ ev ∈ adv, isMarketAdvance ev = true) : new.filter isMarketAdvance = adv := by
  obtain ⟨phase, rfl, hphase⟩ := h
  rw [List.filter_append, List.filter_append, List.filter_eq_self.2 hadv,
    List.filter_eq_nil_iff.2 fun ev hev => by
      rw [isRecal_notMarket (recalRound_isRecalibration _ _ ev hev)]; simp,
    List.filter_eq_nil_iff.2 fun ev hev => by
      rw [calcPhaseEvent_notMarket (hphase ev hev)]; simp]
  simp

theorem partLog_calculate {eng : Engine} {inp : Input} {adv : List Event} {m : Bool}
    {d : Date} {k sample : Nat} {new : List Event}
    (h : PartLog eng inp adv m d k sample new)
    (hadv : ∀ ev ∈ adv, isMarketAdvance ev = true) {c t d1 k1 s1 : Nat} {m1 : Bool}
    (hmem : Event.calculate c t d1 k1 s1 m1 ∈ new) :
    m1 = m ∧ d1 = d ∧ k1 = k ∧ s1 = sample := by
  obtain ⟨phase, rfl, hphase⟩ := h
  rcases List.mem_append.1 hmem with h1 | h1
  · rcases List.mem_append.1 h1 with h2 | h2
    · exact absurd (hadv _ h2) (by simp [isMarketAdvance])
    · exact absurd (recalRound_isRecalibration _ _ _ h2) (by simp [isRecalibration])
  · rcases hphase _ h1 with h | ⟨_, _, t, h | h⟩ | ⟨_, c, idx, h⟩
    · exact ⟨h.2.2.2.2.2, h.2.2.1, h.2.2.2.1, h.2.2.2.2.1⟩
    · cases h
    · cases h
    · cases h

theorem count_updateScenario_filter (new : List Event) (d : Date) :
    new.count (Event.updateScenario d) =
      (new.filter isMarketAdvance).count (Event.updateScenario d) := by
  rw [List.count_filter]
  rfl

/-! ## C11: the reset of the scenario market -/

theorem step_simulate_noReset (env : Env) (eng : Engine) (inp : Input) (dryRun : Bool)
    (asofDate : Date) :
    Step (fun ev => ev ≠ Event.marketReset) (simulate env eng inp dryRun asofDate) := by
  unfold simulate
  refine step_block_cons (step_mono (fun ev h => ?_) (step_initialiseTrades env eng inp)) ?_
  · rintro rfl
    obtain ⟨t, _, ht⟩ := h
    exact ht
  refine step_block_cons (step_onlyIf fun _ =>
    step_of_quiet (quiet_call env (by simp))) ?_
  refine step_block_cons (step_forEach _ fun sample _ =>
    step_mono (fun ev h => ?_) (step_processSample env eng inp sample)) ?_
  · rintro rfl
    exact h
  refine step_block_cons (step_mono (fun ev h => ?_) (step_dryRunFill env eng inp dryRun)) ?_
  · rintro rfl
    exact h
  exact step_block_cons (step_forEach _ fun i _ => step_removeIfError env i (by simp))
    (step_block_nil _)

theorem emits_buildCubeBody_noReset (env : Env) (eng : Engine) (inp : Input) (dryRun : Bool)
    (asofDate : Date) :
    Emits (fun ev => ev ≠ Event.marketReset) (buildCubeBody env eng inp dryRun asofDate) := by
  unfold buildCubeBody
  refine emits_block_cons (emits_of_step (step_of_quiet (quiet_checkDimensions _ eng inp))) ?_
  refine emits_block_cons (emits_of_step (step_of_quiet ?_)) ?_
  · unfold initialiseCalculators
    refine quiet_forEach _ fun c _ => quiet_block _ fun f hf => ?_
    simp only [List.mem_cons, List.mem_singleton, List.not_mem_nil, or_false] at hf
    rcases hf with rfl | rfl
    · exact quiet_call env (by simp)
    · exact quiet_call env (by simp)
  refine emits_block_cons (fun s => grows_refl _ _) ?_
  exact emits_block_cons (emits_of_step (step_simulate_noReset env eng inp dryRun asofDate))
    (fun s => grows_refl _ _)

/-- C11: in every execution of `buildCube`, whether it returns normally or
fails at any point, the call log ends with the `reset()` of the scoped guard
and holds no other `reset()` call: the market is reset exactly once, and no
call on any collaborator follows it. -/
theorem marketReset_once_last (env : Env) (eng : Engine) (inp : Input) (dryRun : Bool)
    (asofDate : Date) (cubes : Cubes) :
    (buildCube env eng inp dryRun asofDate cubes).st.trace.getLast? = some Event.marketReset ∧
    (buildCube env eng inp dryRun asofDate cubes).st.trace.count Event.marketReset = 1 ∧
    ∃ body, (buildCube env eng inp dryRun asofDate cubes).st.trace =
        body ++ [Event.marketReset] ∧ Event.marketReset ∉ body := by
  obtain ⟨new, h1, h2⟩ := emits_buildCubeBody_noReset env eng inp dryRun asofDate ⟨[], cubes, []⟩
  have hnot : Event.marketReset ∉ new := fun h => h2 _ h rfl
  have htr : (buildCube env eng inp dryRun asofDate cubes).st.trace =
      new ++ [Event.marketReset] := by
    simp only [buildCube, h1, List.nil_append]
  rw [htr]
  refine ⟨by simp, ?_, new, rfl, hnot⟩
  rw [List.count_append, List.count_eq_zero_of_not_mem hnot]
  simp


/-! ## C12: at most one structured error per entity -/

/-- C12, as amended: in every run of `buildCube` at most one structured error
is recorded per entity; if a `calculateT0` call for entity `e` raised a
`std::exception`, exactly one structured error names `e` in the whole run;
every structured error of a run carries the stage tag "ScenarioValuation";
and a structured error names only an entity for which a calculator call
raised. -/
theorem structuredError_once (env : Env) (eng : Engine) (inp : Input) (dryRun : Bool)
    (asofDate : Date) (cubes : Cubes) :
    (∀ e, errorCount e (buildCube env eng inp dryRun asofDate cubes).st.trace ≤ 1) ∧
    (∀ e, raisedStdAtT0 env e (buildCube env eng inp dryRun asofDate cubes).st.trace →
      errorCount e (buildCube env eng inp dryRun asofDate cubes).st.trace = 1) ∧
    (∀ e stage info,
      Event.structuredError e stage info ∈
        (buildCube env eng inp dryRun asofDate cubes).st.trace →
      stage = "ScenarioValuation") ∧
    (∀ e, errorLogged e (buildCube env eng inp dryRun asofDate cubes).st.trace →
      raisedFor env e (buildCube env eng inp dryRun asofDate cubes).st.trace) := by
  obtain ⟨_, hlog, hstd, hcount⟩ := buildCube_trace_inv env eng inp dryRun asofDate cubes
  refine ⟨hcount, fun e he => ?_, fun e stage info hmem => ?_, hlog⟩
  · obtain ⟨pre, c, post, htr, hr, hs⟩ := he
    obtain ⟨ev, hev, het⟩ := hstd e ⟨pre, Event.calculateT0 c e, post, htr, rfl, hr, hs⟩
    have hpos : 0 < errorCount e (buildCube env eng inp dryRun asofDate cubes).st.trace :=
      List.countP_pos_iff.2 ⟨ev, hev, by simpa using het⟩
    have := hcount e
    omega
  · rcases buildCube_runEvent env eng inp dryRun asofDate cubes _ hmem with
      ⟨_, _, h | h⟩ | ⟨_, _, h⟩ | h | ⟨_, _, h⟩ | h | h
    · exact absurd h (by simp)
    · exact absurd h (by simp)
    · exact h.2.1
    · exact absurd h (by simp)
    · exact h.2.1
    · exact absurd h (by simp [FinishEvent, FillEvent])
    · exact absurd h (by simp)

/-- Witness for C12: the time-zero valuation of the only trade raises a
`std::exception`; the run returns normally and records exactly one structured
error for the trade, the one of the time-zero handler, with the stage tag
"ScenarioValuation". -/
theorem structuredError_once_witness :
    (buildCube t0FailsEnv engTwoDates inpOneTrade false 0 zeroCubes).err = none ∧
    Event.structuredError 0 "ScenarioValuation" ErrorInfo.t0 ∈
      (buildCube t0FailsEnv engTwoDates inpOneTrade false 0 zeroCubes).st.trace ∧
    errorCount 0 (buildCube t0FailsEnv engTwoDates inpOneTrade false 0 zeroCubes).st.trace = 1 :=
  ⟨by decide, by decide,
   (structuredError_once t0FailsEnv engTwoDates inpOneTrade false 0 zeroCubes).2.1 0
     ⟨[Event.calcInit 0, Event.calcInitScenario 0, Event.instrumentInitialise 0,
        Event.recalibrate 0], 0,
      (buildCube t0FailsEnv engTwoDates inpOneTrade false 0 zeroCubes).st.trace.drop 5,
      by decide, by decide, by decide⟩⟩

/-- Counterexample to C12 as stated: the time-zero valuation of the only trade
raises something that is not a `std::exception`.  The handler does not catch
it: `buildCube` aborts on that raise and no structured error is recorded for
the trade. -/
theorem structuredError_once_counterexample :
    raisedAtT0 t0NonStdEnv 0
      (buildCube t0NonStdEnv engTwoDates inpOneTrade false 0 zeroCubes).st.trace ∧
    (buildCube t0NonStdEnv engTwoDates inpOneTrade false 0 zeroCubes).err =
      some (Err.escaped (Event.calculateT0 0 0)) ∧
    errorCount 0
      (buildCube t0NonStdEnv engTwoDates inpOneTrade false 0 zeroCubes).st.trace = 0 :=
  ⟨⟨[Event.calcInit 0, Event.calcInitScenario 0, Event.instrumentInitialise 0,
      Event.recalibrate 0], 0, [Event.marketReset], by decide, by decide⟩,
   by decide, by decide⟩

/-! ## C13: the date indexes of the counterparty cube -/

/-- C13 fails on the code: on a grid of a valuation date followed by a date
that is a close-out date only, with a counterparty cube of two dates (as the
check on its dimensions asks for), the run returns normally and every
counterparty `calculate` call is passed the cube date index 0: no call is
made for date index 1 of the counterparty cube. -/
theorem cptyCube_dateIndex_unvisited :
    ¬ dimensionMismatch engCloseOutOnly inpCptyCube ∧
    (inpCptyCube.outputCptyCube.map fun p => p.1.numDates) = some 2 ∧
    (buildCube calmEnv engCloseOutOnly inpCptyCube false 0 zeroCubes).err = none ∧
    cptyDateIndexes (buildCube calmEnv engCloseOutOnly inpCptyCube false 0 zeroCubes).st.trace =
      [0, 0, 0, 0, 0, 0] ∧
    1 ∉ cptyDateIndexes
      (buildCube calmEnv engCloseOutOnly inpCptyCube false 0 zeroCubes).st.trace := by
  decide

/-! ## C14: recalibration points -/

/-- C14: in a run of `buildCube` that returns normally, every model builder
receives `recalibrate` once per recalibration point, that is `numTrades +
N * (closeOutSlots + valuationSlots)` times for `N` replayed samples, under
every policy; under the policy `Disable` it receives `forceRecalculate` as
often, and every `forceRecalculate` call is immediately followed by the
`recalibrate` call of the same model builder; under every other policy
`forceRecalculate` is never called.  A recalibration point that completes
logs, for every model builder in turn, `forceRecalculate` (under `Disable`)
and `recalibrate`, and nothing else. -/
theorem recalibration_points (env : Env) (eng : Engine) (inp : Input) (dryRun : Bool)
    (asofDate : Date) (cubes : Cubes)
    (hok : (buildCube env eng inp dryRun asofDate cubes).err = none)
    (b : Nat) (hb : b < eng.numModelBuilders) :
    (buildCube env eng inp dryRun asofDate cubes).st.trace.count (Event.recalibrate b) =
      inp.trades.length + numSamplesReplayed inp dryRun *
        ((closeOutDates eng.dg).length + (valuationDates eng.dg).length) ∧
    (inp.om = Mode.Disable →
      (buildCube env eng inp dryRun asofDate cubes).st.trace.count (Event.forceRecalculate b) =
        inp.trades.length + numSamplesReplayed inp dryRun *
          ((closeOutDates eng.dg).length + (valuationDates eng.dg).length) ∧
      ForceThenRecalibrate (buildCube env eng inp dryRun asofDate cubes).st.trace) ∧
    (inp.om ≠ Mode.Disable →
      ∀ c, Event.forceRecalculate c ∉ (buildCube env eng inp dryRun asofDate cubes).st.trace) ∧
    (∀ s, (recalibrateModels env eng inp.om s).err = none →
      (recalibrateModels env eng inp.om s).st.trace =
        s.trace ++ recalRound inp.om eng.numModelBuilders) := by
  obtain ⟨h1, h2, h3⟩ := buildCube_recalLog env eng inp dryRun asofDate cubes hok hb
  refine ⟨h2, fun hd => ⟨by rw [h1, if_pos hd]; rfl, h3⟩, fun hd c hc => ?_, fun s hs => ?_⟩
  · rcases buildCube_runEvent env eng inp dryRun asofDate cubes _ hc with
      ⟨_, _, h | h⟩ | ⟨_, _, h⟩ | h | ⟨_, _, h⟩ | h | h
    · cases h
    · cases h
    · exact hd h
    · cases h
    · exact hd h
    · simp [FinishEvent, FillEvent] at h
    · cases h
  · obtain ⟨new, hnew, rfl⟩ := logs_recalibrateModels env eng inp.om s hs
    exact hnew

/-- Witness for C14: under the policy `Disable`, the run over two valuation
dates, the second also a close-out date, three samples, one trade and one
model builder has 1 + 3 * (1 + 2) = 10 recalibration points. -/
theorem recalibration_points_witness :
    (buildCube calmEnv engTwoDates inpDisable false 0 zeroCubes).err = none ∧
    inpDisable.trades.length + numSamplesReplayed inpDisable false *
        ((closeOutDates engTwoDates.dg).length + (valuationDates engTwoDates.dg).length) = 10 ∧
    (buildCube calmEnv engTwoDates inpDisable false 0 zeroCubes).st.trace.count
        (Event.forceRecalculate 0) =
      inpDisable.trades.length + numSamplesReplayed inpDisable false *
        ((closeOutDates engTwoDates.dg).length + (valuationDates engTwoDates.dg).length) ∧
    ForceThenRecalibrate (buildCube calmEnv engTwoDates inpDisable false 0 zeroCubes).st.trace :=
  ⟨by decide, by decide,
   ((recalibration_points calmEnv engTwoDates inpDisable false 0 zeroCubes (by decide) 0
     (by decide)).2.1 rfl)⟩

/-! ## C15: independence of the observation policy -/

theorem policyFree_append (a b : List Event) :
    policyFree (a ++ b) = policyFree a ++ policyFree b := by
  simp [policyFree]

theorem agree_refl (s : State) : Agree s s := ⟨rfl, rfl, rfl⟩

theorem agree_symm {s1 s2 : State} (h : Agree s1 s2) : Agree s2 s1 :=
  ⟨h.1.symm, h.2.1.symm, h.2.2.symm⟩

theorem agree_trans {s1 s2 s3 : State} (h12 : Agree s1 s2) (h23 : Agree s2 s3) :
    Agree s1 s3 :=
  ⟨h12.1.trans h23.1, h12.2.1.trans h23.2.1, h12.2.2.trans h23.2.2⟩

theorem sim_ok : Sim ok ok := fun _ _ h => ⟨rfl, h⟩

theorem sim_andThen {f g f1 g1 : State → Outcome} (h : Sim f g) (h1 : Sim f1 g1) :
    Sim (fun s => (f s).andThen f1) (fun s => (g s).andThen g1) := by
  intro s1 s2 hA
  obtain ⟨he, hA1⟩ := h s1 s2 hA
  show ((f s1).andThen f1).err = ((g s2).andThen g1).err ∧
    Agree ((f s1).andThen f1).st ((g s2).andThen g1).st
  rcases andThen_cases (f s1) f1 with ⟨hn, heq⟩ | ⟨e, hs, heq⟩
  · rw [heq, andThen_of_none (he ▸ hn)]
    exact h1 _ _ hA1
  · rw [heq, andThen_of_some (he ▸ hs)]
    exact ⟨he, hA1⟩

theorem sim_forEach {α : Type} {f g : α → State → Outcome} (xs : List α)
    (h : ∀ x ∈ xs, Sim (f x) (g x)) : Sim (forEach f xs) (forEach g xs) := by
  induction xs with
  | nil => exact sim_ok
  | cons x rest ih =>
    exact sim_andThen (h x (List.mem_cons_self x rest))
      (ih fun y hy => h y (List.mem_cons_of_mem x hy))

theorem sim_block_nil : Sim (block []) (block []) := sim_ok

theorem sim_block_cons {f g : State → Outcome} {fs gs : List (State → Outcome)}
    (h : Sim f g) (hs : Sim (block fs) (block gs)) : Sim (block (f :: fs)) (block (g :: gs)) :=
  sim_andThen h hs

theorem sim_onlyIf {b : Bool} {f g : State → Outcome} (h : b = true → Sim f g) :
    Sim (onlyIf b f) (onlyIf b g) := by
  cases b with
  | false => exact fun _ _ hA => ⟨rfl, hA⟩
  | true => exact fun s1 s2 hA => by simpa [onlyIf] using h rfl s1 s2 hA

theorem sim_require (c : Bool) (e : Err) : Sim (require c e) (require c e) := by
  intro s1 s2 hA
  cases c <;> exact ⟨rfl, hA⟩

theorem sim_call {env : Env} (hB : PolicyBlind env) (ev : Event) :
    Sim (call env ev) (call env ev) := by
  intro s1 s2 hA
  have hr : env.raises s1.trace ev = env.raises s2.trace ev := by
    rw [hB.raises s1.trace, hB.raises s2.trace, hA.1]
  have hA1 : Agree { s1 with trace := s1.trace ++ [ev] } { s2 with trace := s2.trace ++ [ev] } :=
    ⟨by simp [policyFree_append, hA.1], hA.2.1, hA.2.2⟩
  unfold call
  rw [hr]
  by_cases h : env.raises s2.trace ev = true
  · rw [if_pos h, if_pos h]
    exact ⟨rfl, hA1⟩
  · rw [if_neg h, if_neg h]
    exact ⟨rfl, hA1⟩

theorem silent_ok : Silent ok := fun s => ⟨rfl, agree_refl s⟩

theorem silent_call {env : Env} (hB : PolicyBlind env) (ev : Event)
    (hev : isPolicyCall ev = true) : Silent (call env ev) := by
  intro s
  unfold call
  rw [hB.calm s.trace ev hev]
  exact ⟨rfl, by simp [policyFree_append, policyFree, hev], rfl, rfl⟩

theorem silent_onlyIf {b : Bool} {f : State → Outcome} (h : Silent f) :
    Silent (onlyIf b f) := by
  cases b with
  | false => exact silent_ok
  | true => exact fun s => by simpa [onlyIf] using h s

theorem sim_of_silent {f g : State → Outcome} (hf : Silent f) (hg : Silent g) : Sim f g := by
  intro s1 s2 hA
  exact ⟨(hf s1).1.trans (hg s2).1.symm,
    agree_trans (hf s1).2 (agree_trans hA (agree_symm (hg s2).2))⟩

theorem agree_invoke {env : Env} (hB : PolicyBlind env) (ev : Event) {s1 s2 : State}
    (hA : Agree s1 s2) :
    (invoke env ev s1).1 = (invoke env ev s2).1 ∧
      Agree (invoke env ev s1).2 (invoke env ev s2).2 := by
  refine ⟨?_, ?_, ?_, hA.2.2⟩
  · show env.raises s1.trace ev = env.raises s2.trace ev
    rw [hB.raises s1.trace, hB.raises s2.trace, hA.1]
  · show policyFree (s1.trace ++ [ev]) = policyFree (s2.trace ++ [ev])
    rw [policyFree_append, policyFree_append, hA.1]
  · show env.write s1.trace ev s1.cubes = env.write s2.trace ev s2.cubes
    rw [hB.write s1.trace, hB.write s2.trace, hA.1, hA.2.1]

theorem sim_callCalc {env : Env} (hB : PolicyBlind env) (ev : Event) :
    Sim (callCalc env ev) (callCalc env ev) := by
  intro s1 s2 hA
  obtain ⟨h1, h2⟩ := agree_invoke hB ev hA
  show (if (invoke env ev s1).1 = true then _ else _ : Outcome).err =
      (if (invoke env ev s2).1 = true then _ else _ : Outcome).err ∧
    Agree (if (invoke env ev s1).1 = true then _ else _ : Outcome).st
      (if (invoke env ev s2).1 = true then _ else _ : Outcome).st
  rw [h1]
  by_cases h : (invoke env ev s2).1 = true
  · rw [if_pos h, if_pos h]
    exact ⟨rfl, h2⟩
  · rw [if_neg h, if_neg h]
    exact ⟨rfl, h2⟩

theorem agree_tryCalls {env : Env} (hB : PolicyBlind env) :
    ∀ (evs : List Event) (s1 s2 : State), Agree s1 s2 →
        (tryCalls env evs s1).1 = (tryCalls env evs s2).1 ∧
          Agree (tryCalls env evs s1).2 (tryCalls env evs s2).2 := by
  intro evs
  induction evs with
  | nil => exact fun s1 s2 hA => ⟨rfl, hA⟩
  | cons ev rest ih =>
    intro s1 s2 hA
    obtain ⟨h1, h2⟩ := agree_invoke hB ev hA
    by_cases h : env.raises s2.trace ev = true
    · have h' : env.raises s1.trace ev = true := h1.trans h
      rw [tryCalls_cons_raise env ev rest s1 h', tryCalls_cons_raise env ev rest s2 h]
      exact ⟨rfl, h2⟩
    · have h' : ¬ env.raises s1.trace ev = true := fun hh => h (h1.symm.trans hh)
      rw [tryCalls_cons_pass env ev rest s1 h', tryCalls_cons_pass env ev rest s2 h]
      exact ih _ _ h2

theorem agree_uncaught {env : Env} (hB : PolicyBlind env) :
    ∀ (evs : List Event) (s1 s2 : State), Agree s1 s2 →
        uncaught env evs s1 = uncaught env evs s2 := by
  intro evs
  induction evs with
  | nil => exact fun _ _ _ => rfl
  | cons ev rest ih =>
    intro s1 s2 hA
    obtain ⟨h1, h2⟩ := agree_invoke hB ev hA
    have hs : env.std s1.trace ev = env.std s2.trace ev := by
      rw [hB.std s1.trace, hB.std s2.trace, hA.1]
    by_cases h : env.raises s2.trace ev = true
    · have h' : env.raises s1.trace ev = true := h1.trans h
      rw [uncaught_cons_raise env ev rest s1 h', uncaught_cons_raise env ev rest s2 h, hs]
    · have h' : ¬ env.raises s1.trace ev = true := fun hh => h (h1.symm.trans hh)
      rw [uncaught_cons_pass env ev rest s1 h', uncaught_cons_pass env ev rest s2 h]
      exact ih _ _ h2

theorem sim_tryBlock {env : Env} (hB : PolicyBlind env) (evs : List Event) (t : Nat)
    (info : ErrorInfo) : Sim (tryBlock env evs t info) (tryBlock env evs t info) := by
  intro s1 s2 hA
  obtain ⟨h1, h2⟩ := agree_tryCalls hB evs s1 s2 hA
  have hu := agree_uncaught hB evs s1 s2 hA
  cases hu2 : uncaught env evs s2 with
  | some ev =>
    rw [tryBlock_escaped env evs t info s1 ev (hu.trans hu2),
      tryBlock_escaped env evs t info s2 ev hu2]
    exact ⟨rfl, h2⟩
  | none =>
    by_cases h : (tryCalls env evs s2).1 = true
    · rw [tryBlock_raised env evs t info s1 (h1.trans h) (hu.trans hu2),
        tryBlock_raised env evs t info s2 h hu2]
      refine ⟨rfl, ?_, h2.2.1, ?_⟩
      · show policyFree (_ ++ [_]) = policyFree (_ ++ [_])
        rw [policyFree_append, policyFree_append, h2.1]
      · show List.set _ t true = List.set _ t true
        rw [h2.2.2]
    · rw [tryBlock_passed env evs t info s1 (fun hh => h (h1.symm.trans hh)),
        tryBlock_passed env evs t info s2 h]
      exact ⟨rfl, h2⟩

theorem sim_recalibrateModels {env : Env} (hB : PolicyBlind env) (eng : Engine)
    (om1 om2 : Mode) :
    Sim (recalibrateModels env eng om1) (recalibrateModels env eng om2) := by
  unfold recalibrateModels
  exact sim_forEach _ fun b _ => sim_block_cons
    (sim_of_silent (silent_onlyIf (silent_call hB (Event.forceRecalculate b) rfl))
      (silent_onlyIf (silent_call hB (Event.forceRecalculate b) rfl)))
    (sim_block_cons (sim_call hB _) sim_block_nil)

theorem sim_tradeExercisable {env : Env} (hB : PolicyBlind env) (enable : Bool)
    (trades : List Trade) :
    Sim (tradeExercisable env enable trades) (tradeExercisable env enable trades) := by
  unfold tradeExercisable
  refine sim_forEach _ fun p _ => sim_onlyIf fun _ => ?_
  cases enable
  · exact sim_call hB _
  · exact sim_call hB _

theorem sim_runCalculatorsTrade {env : Env} (hB : PolicyBlind env) (m : Bool) (inp : Input)
    (om1 om2 : Mode) (d : Date) (k sample j : Nat) :
    Sim (runCalculatorsTrade env m inp om1 d k sample j)
      (runCalculatorsTrade env m inp om2 d k sample j) := by
  intro s1 s2 hA
  unfold runCalculatorsTrade
  rw [hA.2.2]
  by_cases h : s2.tradeHasError.getD j false = true
  · rw [if_pos h, if_pos h]
    exact ⟨rfl, hA⟩
  · rw [if_neg h, if_neg h]
    exact sim_block_cons
      (sim_of_silent (silent_onlyIf (silent_call hB (Event.updateQlInstruments j) rfl))
        (silent_onlyIf (silent_call hB (Event.updateQlInstruments j) rfl)))
      (sim_block_cons (sim_tryBlock hB _ _ _) sim_block_nil) s1 s2 hA

theorem sim_runCalculators {env : Env} (hB : PolicyBlind env) (m : Bool) (inp : Input)
    (om1 om2 : Mode) (d : Date) (k sample : Nat) :
    Sim (runCalculators env m (inp.withMode om1) d k sample)
      (runCalculators env m (inp.withMode om2) d k sample) := by
  unfold runCalculators
  exact sim_block_cons (sim_forEach _ fun c _ => sim_call hB _)
    (sim_block_cons (sim_forEach _ fun j _ =>
      sim_runCalculatorsTrade hB m inp om1 om2 d k sample j) sim_block_nil)

theorem sim_runCptyCalculators {env : Env} (hB : PolicyBlind env) (m : Bool) (inp : Input)
    (om1 om2 : Mode) (d : Date) (k sample : Nat) :
    Sim (runCptyCalculators env m (inp.withMode om1) d k sample)
      (runCptyCalculators env m (inp.withMode om2) d k sample) := by
  unfold runCptyCalculators
  exact sim_forEach _ fun idx _ => sim_forEach _ fun c _ => sim_callCalc hB _

theorem sim_initialiseTrade {env : Env} (hB : PolicyBlind env) (eng : Engine) (inp : Input)
    (om1 om2 : Mode) (p : Nat × Trade) :
    Sim (initialiseTrade env eng (inp.withMode om1) p)
      (initialiseTrade env eng (inp.withMode om2) p) := by
  unfold initialiseTrade
  refine sim_block_cons (sim_require _ _) ?_
  refine sim_block_cons (sim_call hB _) ?_
  refine sim_block_cons (sim_recalibrateModels hB eng om1 om2) ?_
  refine sim_block_cons (sim_tryBlock hB _ _ _) ?_
  exact sim_block_cons
    (sim_of_silent (silent_onlyIf (silent_call hB (Event.unregisterCoupons p.1) rfl))
      (silent_onlyIf (silent_call hB (Event.unregisterCoupons p.1) rfl)))
    sim_block_nil

theorem sim_processCloseOutDate {env : Env} (hB : PolicyBlind env) (eng : Engine)
    (inp : Input) (om1 om2 : Mode) (sample : Nat) (d : Date) (cdi : Int) :
    Sim (processCloseOutDate env eng (inp.withMode om1) sample d cdi)
      (processCloseOutDate env eng (inp.withMode om2) sample d cdi) := by
  unfold processCloseOutDate
  refine sim_block_cons (sim_call hB _) ?_
  refine sim_block_cons (sim_onlyIf fun _ => sim_call hB _) ?_
  refine sim_block_cons (sim_call hB _) ?_
  refine sim_block_cons (sim_call hB _) ?_
  refine sim_block_cons (sim_recalibrateModels hB eng om1 om2) ?_
  refine sim_block_cons (sim_onlyIf fun _ => sim_tradeExercisable hB _ _) ?_
  refine sim_block_cons (sim_require _ _) ?_
  refine sim_block_cons (sim_runCalculators hB true inp om1 om2 d cdi.toNat sample) ?_
  exact sim_block_cons (sim_onlyIf fun _ => sim_tradeExercisable hB _ _) sim_block_nil

theorem sim_processValuationDate {env : Env} (hB : PolicyBlind env) (eng : Engine)
    (inp : Input) (om1 om2 : Mode) (sample : Nat) (d : Date) (cdi : Int) (u : Bool) :
    Sim (processValuationDate env eng (inp.withMode om1) sample d cdi u)
      (processValuationDate env eng (inp.withMode om2) sample d cdi u) := by
  unfold processValuationDate
  refine sim_block_cons (sim_call hB _) ?_
  refine sim_block_cons (sim_call hB _) ?_
  refine sim_block_cons (sim_onlyIf fun _ => sim_call hB _) ?_
  refine sim_block_cons (sim_call hB _) ?_
  refine sim_block_cons (sim_call hB _) ?_
  refine sim_block_cons (sim_recalibrateModels hB eng om1 om2) ?_
  refine sim_block_cons (sim_runCalculators hB false inp om1 om2 d cdi.toNat sample) ?_
  exact sim_block_cons (sim_runCptyCalculators hB false inp om1 om2 d cdi.toNat sample)
    sim_block_nil

theorem sim_dateLoop {env : Env} (hB : PolicyBlind env) (eng : Engine) (inp : Input)
    (om1 om2 : Mode) (sample : Nat) :
    ∀ (rest : List GridSlot) (cdi : Int),
      Sim (dateLoop env eng (inp.withMode om1) sample rest cdi)
        (dateLoop env eng (inp.withMode om2) sample rest cdi) := by
  intro rest
  induction rest with
  | nil => exact fun _ => sim_ok
  | cons g rest ih =>
    intro cdi
    rw [dateLoop_cons, dateLoop_cons]
    refine sim_andThen ?_ (ih _)
    unfold processGridSlot
    exact sim_block_cons (sim_onlyIf fun _ => sim_processCloseOutDate hB eng inp om1 om2 _ _ _)
      (sim_block_cons (sim_onlyIf fun _ =>
        sim_processValuationDate hB eng inp om1 om2 _ _ _ _) sim_block_nil)

theorem sim_processSample {env : Env} (hB : PolicyBlind env) (eng : Engine) (inp : Input)
    (om1 om2 : Mode) (sample : Nat) :
    Sim (processSample env eng (inp.withMode om1) sample)
      (processSample env eng (inp.withMode om2) sample) := by
  unfold processSample
  exact sim_block_cons (sim_forEach _ fun t _ => sim_call hB _)
    (sim_block_cons (sim_dateLoop hB eng inp om1 om2 sample eng.dg (-1))
      (sim_block_cons (sim_call hB _) sim_block_nil))

theorem sim_call_then_cubes {env : Env} (hB : PolicyBlind env) (ev : Event)
    (g : Cubes → Cubes) :
    Sim (fun s => (call env ev s).andThen fun s1 => ok { s1 with cubes := g s1.cubes })
      (fun s => (call env ev s).andThen fun s1 => ok { s1 with cubes := g s1.cubes }) :=
  sim_andThen (sim_call hB ev) fun s1 s2 hA =>
    ⟨rfl, hA.1, by show g s1.cubes = g s2.cubes; rw [hA.2.1], hA.2.2⟩

theorem sim_dryRunFill {env : Env} (hB : PolicyBlind env) (eng : Engine) (inp : Input)
    (om1 om2 : Mode) (dryRun : Bool) :
    Sim (dryRunFill env eng (inp.withMode om1) dryRun)
      (dryRunFill env eng (inp.withMode om2) dryRun) := by
  unfold dryRunFill
  refine sim_onlyIf fun _ => sim_forEach _ fun sample _ => sim_forEach _ fun i _ =>
    sim_forEach _ fun j _ => sim_forEach _ fun d _ => ?_
  exact sim_call_then_cubes hB (Event.cubeSet j i sample d) fun c =>
    { c with
      outputCube :=
        CubeData.set c.outputCube (env.add (c.outputCube.getT0 j d) (dryRunNoise i j d sample))
          j i sample d }

theorem sim_removeIfError {env : Env} (hB : PolicyBlind env) (i : Nat) :
    Sim (removeIfError env i) (removeIfError env i) := by
  intro s1 s2 hA
  unfold removeIfError
  rw [hA.2.2]
  by_cases h : s2.tradeHasError.getD i false = true
  · rw [if_pos h, if_pos h]
    exact sim_call_then_cubes hB (Event.cubeRemove i)
      (fun c => { c with outputCube := c.outputCube.remove i }) s1 s2 hA
  · rw [if_neg h, if_neg h]
    exact ⟨rfl, hA⟩

theorem sim_simulate {env : Env} (hB : PolicyBlind env) (eng : Engine) (inp : Input)
    (om1 om2 : Mode) (dryRun : Bool) (asofDate : Date) :
    Sim (simulate env eng (inp.withMode om1) dryRun asofDate)
      (simulate env eng (inp.withMode om2) dryRun asofDate) := by
  unfold simulate
  refine sim_block_cons (sim_forEach _ fun p _ => sim_initialiseTrade hB eng inp om1 om2 p) ?_
  refine sim_block_cons (sim_onlyIf fun _ => sim_call hB _) ?_
  refine sim_block_cons (sim_forEach _ fun sample _ =>
    sim_processSample hB eng inp om1 om2 sample) ?_
  refine sim_block_cons (sim_dryRunFill hB eng inp om1 om2 dryRun) ?_
  exact sim_block_cons (sim_forEach _ fun i _ => sim_removeIfError hB i) sim_block_nil

theorem sim_checkDimensions (eng : Engine) (inp : Input) (om1 om2 : Mode) :
    Sim (checkDimensions eng (inp.withMode om1)) (checkDimensions eng (inp.withMode om2)) := by
  unfold checkDimensions
  refine sim_block_cons (sim_require _ _) ?_
  refine sim_block_cons (sim_require _ _) ?_
  refine sim_block_cons (sim_require _ _) ?_
  refine sim_block_cons ?_ sim_block_nil
  show Sim (match inp.outputCptyCube with
      | some p => block [
          require (decide (p.1.numIds = inp.numCounterparties + 1)) Err.cptyCubeXDimension,
          require (decide (p.1.numDates = eng.dg.length)) Err.cptyCubeYDimension]
      | none => ok)
    (match inp.outputCptyCube with
      | some p => block [
          require (decide (p.1.numIds = inp.numCounterparties + 1)) Err.cptyCubeXDimension,
          require (decide (p.1.numDates = eng.dg.length)) Err.cptyCubeYDimension]
      | none => ok)
  cases inp.outputCptyCube with
  | none => exact sim_ok
  | some p =>
    exact sim_block_cons (sim_require _ _) (sim_block_cons (sim_require _ _) sim_block_nil)

theorem sim_buildCubeBody {env : Env} (hB : PolicyBlind env) (eng : Engine) (inp : Input)
    (om1 om2 : Mode) (dryRun : Bool) (asofDate : Date) :
    Sim (buildCubeBody env eng (inp.withMode om1) dryRun asofDate)
      (buildCubeBody env eng (inp.withMode om2) dryRun asofDate) := by
  unfold buildCubeBody
  refine sim_block_cons (sim_checkDimensions eng inp om1 om2) ?_
  refine sim_block_cons ?_ ?_
  · unfold initialiseCalculators
    exact sim_forEach _ fun c _ =>
      sim_block_cons (sim_call hB _) (sim_block_cons (sim_call hB _) sim_block_nil)
  refine sim_block_cons ?_ ?_
  · exact fun s1 s2 hA => ⟨rfl, hA.1, hA.2.1, rfl⟩
  exact sim_block_cons (sim_simulate hB eng inp om1 om2 dryRun asofDate) sim_block_nil

theorem filter_policyFree (p : Event → Bool) (hp : ∀ ev, isPolicyCall ev = true → p ev = false)
    (tr : List Event) : (policyFree tr).filter p = tr.filter p := by
  induction tr with
  | nil => rfl
  | cons ev rest ih =>
    unfold policyFree at ih ⊢
    by_cases h : isPolicyCall ev = true
    · simp [List.filter_cons, h, hp ev h, ih]
    · simp only [Bool.not_eq_true] at h
      by_cases hpe : p ev = true <;> simp [List.filter_cons, h, hpe, ih]

theorem policyBlind_raisingEnv : PolicyBlind raisingEnv :=
  ⟨fun _ _ => rfl, fun _ _ => rfl, fun _ _ => rfl, fun _ ev h => by
    cases ev <;> first | rfl | exact absurd h (by simp [isPolicyCall])⟩

/-- C15, as amended: let the collaborators not tell the policies apart
(whether a call raises, whether what it raises is a `std::exception` and what
a calculator writes depend on the earlier calls only through those every
policy makes, and the calls only some policies make never raise).  Then two
runs of `buildCube` that differ only in the observation mode end the
same way, log the same calls in the same order apart from `forceRecalculate`,
`updateQlInstruments` and the unregistration of coupons (in particular the
same `calculate` calls with the same arguments and the same market advance
calls), and leave the same error flags and the same cubes. -/
theorem observation_mode_independent (env : Env) (eng : Engine) (inp : Input)
    (dryRun : Bool) (asofDate : Date) (cubes : Cubes) (om1 om2 : Mode)
    (hB : PolicyBlind env) :
    (buildCube env eng (inp.withMode om1) dryRun asofDate cubes).err =
      (buildCube env eng (inp.withMode om2) dryRun asofDate cubes).err ∧
    policyFree (buildCube env eng (inp.withMode om1) dryRun asofDate cubes).st.trace =
      policyFree (buildCube env eng (inp.withMode om2) dryRun asofDate cubes).st.trace ∧
    (buildCube env eng (inp.withMode om1) dryRun asofDate cubes).st.trace.filter isCalculate =
      (buildCube env eng (inp.withMode om2) dryRun asofDate cubes).st.trace.filter
        isCalculate ∧
    (buildCube env eng (inp.withMode om1) dryRun asofDate cubes).st.trace.filter
        isMarketAdvance =
      (buildCube env eng (inp.withMode om2) dryRun asofDate cubes).st.trace.filter
        isMarketAdvance ∧
    (buildCube env eng (inp.withMode om1) dryRun asofDate cubes).st.tradeHasError =
      (buildCube env eng (inp.withMode om2) dryRun asofDate cubes).st.tradeHasError ∧
    (buildCube env eng (inp.withMode om1) dryRun asofDate cubes).st.cubes =
      (buildCube env eng (inp.withMode om2) dryRun asofDate cubes).st.cubes := by
  obtain ⟨he, ht, hc, hf⟩ := sim_buildCubeBody hB eng inp om1 om2 dryRun asofDate
    ⟨[], cubes, []⟩ ⟨[], cubes, []⟩ (agree_refl _)
  have htr : policyFree (buildCube env eng (inp.withMode om1) dryRun asofDate cubes).st.trace =
      policyFree (buildCube env eng (inp.withMode om2) dryRun asofDate cubes).st.trace := by
    show policyFree (_ ++ [Event.marketReset]) = policyFree (_ ++ [Event.marketReset])
    rw [policyFree_append, policyFree_append, ht]
  refine ⟨he, htr, ?_, ?_, hf, hc⟩
  · rw [← filter_policyFree isCalculate (fun ev h => by
        cases ev <;> first | rfl | exact absurd h (by simp [isPolicyCall])),
      htr, filter_policyFree isCalculate (fun ev h => by
        cases ev <;> first | rfl | exact absurd h (by simp [isPolicyCall]))]
  · rw [← filter_policyFree isMarketAdvance (fun ev h => by
        cases ev <;> first | rfl | exact absurd h (by simp [isPolicyCall])),
      htr, filter_policyFree isMarketAdvance (fun ev h => by
        cases ev <;> first | rfl | exact absurd h (by simp [isPolicyCall]))]

/-- Witness for C15: the only trade raises at sample 1; the run under
the policy `Disable` and the run under the policy `None` log different calls
(`forceRecalculate` only under `Disable`)
but end the same way with the same error flags and the same cubes. -/
theorem observation_mode_independent_witness :
    Event.forceRecalculate 0 ∈
      (buildCube raisingEnv engTwoDates (inpOneTrade.withMode Mode.Disable) false 0
        zeroCubes).st.trace ∧
    Event.forceRecalculate 0 ∉
      (buildCube raisingEnv engTwoDates (inpOneTrade.withMode Mode.None) false 0
        zeroCubes).st.trace ∧
    (buildCube raisingEnv engTwoDates (inpOneTrade.withMode Mode.Disable) false 0
        zeroCubes).st.tradeHasError = [true] ∧
    (buildCube raisingEnv engTwoDates (inpOneTrade.withMode Mode.Disable) false 0
        zeroCubes).st.tradeHasError =
      (buildCube raisingEnv engTwoDates (inpOneTrade.withMode Mode.None) false 0
        zeroCubes).st.tradeHasError ∧
    (buildCube raisingEnv engTwoDates (inpOneTrade.withMode Mode.Disable) false 0
        zeroCubes).st.cubes =
      (buildCube raisingEnv engTwoDates (inpOneTrade.withMode Mode.None) false 0
        zeroCubes).st.cubes :=
  ⟨by decide, by decide, by decide,
   (observation_mode_independent raisingEnv engTwoDates inpOneTrade false 0 zeroCubes
     Mode.Disable Mode.None policyBlind_raisingEnv).2.2.2.2⟩

/-- Counterexample to C15 as stated: `forceRecalculate` of the model builder
raises.  The call is made only under the policy `Disable`: the run under
`Disable` aborts on that raise in the time-zero loop and calls no calculator,
while the run under `None` on the same input with the same collaborators
returns normally and makes all nine `calculate` calls. -/
theorem observation_mode_independent_counterexample :
    (buildCube forceRecalculateFailsEnv engTwoDates (inpOneTrade.withMode Mode.Disable) false 0
        zeroCubes).err = some (Err.escaped (Event.forceRecalculate 0)) ∧
    (buildCube forceRecalculateFailsEnv engTwoDates (inpOneTrade.withMode Mode.None) false 0
        zeroCubes).err = none ∧
    (buildCube forceRecalculateFailsEnv engTwoDates (inpOneTrade.withMode Mode.Disable) false 0
        zeroCubes).st.trace.filter isCalculate = [] ∧
    ((buildCube forceRecalculateFailsEnv engTwoDates (inpOneTrade.withMode Mode.None) false 0
        zeroCubes).st.trace.filter isCalculate).length = 9 ∧
    (buildCube forceRecalculateFailsEnv engTwoDates (inpOneTrade.withMode Mode.Disable) false 0
        zeroCubes).st.trace.filter isCalculate ≠
      (buildCube forceRecalculateFailsEnv engTwoDates (inpOneTrade.withMode Mode.None) false 0
        zeroCubes).st.trace.filter isCalculate := by
  decide

/-! ## C16: the constructor -/

/-- C16: the constructor fails if and only if the date grid is empty, or
`today` is strictly later than the first date of the grid, or the scenario
market is absent; when `today` equals the first date of the grid and the
market is present it succeeds and stores its arguments. -/
theorem construct_fails_iff (today : Date) (dg : List GridSlot) (simMarket : Bool)
    (numModelBuilders : Nat) :
    ((ValuationEngine today dg simMarket numModelBuilders).isOk = false ↔
      dg = [] ∨ (∃ g, dg.head? = some g ∧ g.date < today) ∨ simMarket = false) ∧
    (∀ g, dg.head? = some g → today = g.date → simMarket = true →
      ValuationEngine today dg simMarket numModelBuilders =
        Except.ok ⟨today, dg, numModelBuilders⟩) := by
  cases dg with
  | nil => simp [ValuationEngine, Except.isOk, Except.toBool]
  | cons g rest =>
    cases simMarket <;> by_cases h : today ≤ g.date <;>
      simp [ValuationEngine, Except.isOk, Except.toBool, h]
    exact ⟨Nat.lt_of_not_le h, fun e => h (Nat.le_of_eq e)⟩

/-! ## C17: H and the helper parameter h -/

/-- C17 fails on the code: `H` integrates the square of the helper parameter.
With no grid times, `h = 2` throughout, scaling 1 and shift 0, `Hprime`
returns 2 everywhere and the integral of `h` over `[0, 1]` is 2, but
`H(1) = 4`; `H` grows by 4 per unit of time, not by `Hprime = 2`. -/
theorem H_integrates_square :
    lgmConstantTwo.Hprime 1 = 2 ∧
    lgmConstantTwo.integral_h 1 = 2 ∧
    lgmConstantTwo.H 1 = 4 ∧
    lgmConstantTwo.H 1 ≠ lgmConstantTwo.integral_h 1 ∧
    lgmConstantTwo.H 2 - lgmConstantTwo.H 1 = 4 := by
  norm_num [lgmConstantTwo, Lgm1fPiecewiseLinearParametrization.Hprime,
    Lgm1fPiecewiseLinearParametrization.H, Lgm1fPiecewiseLinearParametrization.integral_h,
    PiecewiseConstantHelper1.y, PiecewiseConstantHelper1.int_y_sqr, stepIntegral]

/-! ## C18: a slot that is both a close-out date and a valuation date -/

/-- C18: whenever the body of the date loop completes for a grid slot, its
log is the close-out part followed by the valuation part (either is empty if
the slot lacks the flag).  Every `calculate` call of the close-out part is in
close-out mode at the cube date index before the slot, every `calculate` call
of the valuation part is in valuation mode at the incremented index, so the
close-out round is complete before the valuation round starts; at a slot with
both flags the index before is not negative and the valuation index is one
more.  `updateScenario` is called exactly once for a slot with at least one
flag, with the date of the slot: in the close-out part if the slot is a
close-out date, and then not again in the valuation part. -/
theorem closeOut_round_before_valuation (env : Env) (eng : Engine) (inp : Input)
    (sample : Nat) (g : GridSlot) (cdi : Int) (s : State)
    (hok : (processGridSlot env eng inp sample g cdi s).err = none) :
    ∃ co va, (processGridSlot env eng inp sample g cdi s).st.trace = s.trace ++ co ++ va ∧
      (g.isCloseOutDate = false → co = []) ∧
      (g.isValuationDate = false → va = []) ∧
      (∀ c t d k n m, Event.calculate c t d k n m ∈ co →
        m = true ∧ d = g.date ∧ k = cdi.toNat ∧ n = sample) ∧
      (∀ c t d k n m, Event.calculate c t d k n m ∈ va →
        m = false ∧ d = g.date ∧ k = (cdi + 1).toNat ∧ n = sample) ∧
      (g.isCloseOutDate = true → 0 ≤ cdi ∧ (cdi + 1).toNat = cdi.toNat + 1) ∧
      (∀ d, (co ++ va).count (Event.updateScenario d) =
        if (g.isCloseOutDate = true ∨ g.isValuationDate = true) ∧ d = g.date then 1 else 0) ∧
      (g.isCloseOutDate = true →
        co.count (Event.updateScenario g.date) = 1 ∧ ∀ d, Event.updateScenario d ∉ va) := by
  obtain ⟨new, hnew, co, va, rfl, hco, hva⟩ := logs_processGridSlot env eng inp sample g cdi s hok
  have hcoCount : ∀ d, co.count (Event.updateScenario d) =
      if g.isCloseOutDate = true ∧ d = g.date then 1 else 0 := by
    intro d
    cases hc : g.isCloseOutDate with
    | false =>
      simp only [hc] at hco
      simp [show co = [] from hco]
    | true =>
      simp only [hc, if_true] at hco
      rw [count_updateScenario_filter,
        partLog_filter_market hco (closeOutAdvance_isMarket _ _)]
      cases inp.mporStickyDate <;> by_cases hd : d = g.date <;>
        simp [closeOutAdvance, List.count_cons, hd]
  have hvaCount : ∀ d, va.count (Event.updateScenario d) =
      if g.isCloseOutDate = false ∧ g.isValuationDate = true ∧ d = g.date then 1 else 0 := by
    intro d
    cases hv : g.isValuationDate with
    | false =>
      simp only [hv] at hva
      simp [show va = [] from hva]
    | true =>
      simp only [hv, if_true] at hva
      rw [count_updateScenario_filter,
        partLog_filter_market hva (valuationAdvance_isMarket _ _)]
      cases g.isCloseOutDate <;> by_cases hd : d = g.date <;>
        simp [valuationAdvance, List.count_cons, hd]
  refine ⟨co, va, by rw [hnew, List.append_assoc], fun hc => by simpa [hc] using hco,
    fun hv => by simpa [hv] using hva, ?_, ?_, ?_, ?_, ?_⟩
  · intro c t d k n m hmem
    cases hc : g.isCloseOutDate with
    | false =>
      simp only [hc] at hco
      rw [show co = [] from hco] at hmem
      cases hmem
    | true =>
      simp only [hc, if_true] at hco
      exact partLog_calculate hco (closeOutAdvance_isMarket _ _) hmem
  · intro c t d k n m hmem
    cases hv : g.isValuationDate with
    | false =>
      simp only [hv] at hva
      rw [show va = [] from hva] at hmem
      cases hmem
    | true =>
      simp only [hv, if_true] at hva
      exact partLog_calculate hva (valuationAdvance_isMarket _ _) hmem
  · intro hc
    have hnn : 0 ≤ cdi := by
      unfold processGridSlot at hok
      obtain ⟨h1, -, -⟩ := block_cons_err_none hok
      simp only [onlyIf, hc, if_true] at h1
      exact processCloseOutDate_nonneg env eng inp sample g.date cdi s h1
    exact ⟨hnn, by omega⟩
  · intro d
    rw [List.count_append, hcoCount, hvaCount]
    cases g.isCloseOutDate <;> cases g.isValuationDate <;> by_cases hd : d = g.date <;>
      simp [hd]
  · intro hc
    refine ⟨by rw [hcoCount]; simp [hc], fun d hd => ?_⟩
    have := hvaCount d
    rw [hc] at this
    simp only [Bool.true_eq_false, false_and, if_false] at this
    exact absurd hd (List.count_eq_zero.1 this)

/-- Witness for C18: the second slot of the grid is both a close-out date and
a valuation date; its processing after the first valuation date completes. -/
theorem closeOut_round_before_valuation_witness :
    (⟨2, true, true⟩ : GridSlot).isCloseOutDate = true ∧
    ∃ co va,
      (processGridSlot calmEnv engTwoDates inpOneTrade 0 ⟨2, true, true⟩ 0
        ⟨[], zeroCubes, [false]⟩).st.trace = [] ++ co ++ va ∧
      (∀ c t d k n m, Event.calculate c t d k n m ∈ co →
        m = true ∧ d = 2 ∧ k = (0 : Int).toNat ∧ n = 0) ∧
      (∀ c t d k n m, Event.calculate c t d k n m ∈ va →
        m = false ∧ d = 2 ∧ k = ((0 : Int) + 1).toNat ∧ n = 0) ∧
      (co ++ va).count (Event.updateScenario 2) = 1 :=
  ⟨rfl,
   let ⟨co, va, h1, _, _, h4, h5, _, h7, _⟩ :=
     closeOut_round_before_valuation calmEnv engTwoDates inpOneTrade 0 ⟨2, true, true⟩ 0
       ⟨[], zeroCubes, [false]⟩ (by decide)
   ⟨co, va, h1, h4, h5, by simpa using h7 2⟩⟩


/-! ## C19: the order of the calls of a run -/

theorem logs_dateLoop (env : Env) (eng : Engine) (inp : Input) (sample : Nat) :
    ∀ (rest : List GridSlot) (cdi : Int),
      Logs (fun new => ∃ slots, new = slots.flatten ∧
          List.Forall₂ (fun g slot => ∃ k, SlotLog eng inp sample g k slot) rest slots)
        (dateLoop env eng inp sample rest cdi) := by
  intro rest
  induction rest with
  | nil =>
    intro cdi
    exact logs_ok ⟨[], rfl, List.Forall₂.nil⟩
  | cons g rest ih =>
    intro cdi
    rw [dateLoop_cons]
    refine logs_mono ?_ (logs_andThen (logs_processGridSlot env eng inp sample g cdi)
      (ih (if g.isValuationDate then cdi + 1 else cdi)))
    rintro l ⟨a, b, rfl, ha, slots, rfl, hslots⟩
    exact ⟨a :: slots, by simp, List.Forall₂.cons ⟨cdi, ha⟩ hslots⟩

theorem logs_processSample (env : Env) (eng : Engine) (inp : Input) (sample : Nat) :
    Logs (SampleLog eng inp sample) (processSample env eng inp sample) := by
  unfold processSample
  refine logs_mono ?_ (logs_block_cons
    (logs_of_emits (P := fun ev => ∃ t, ev = Event.instrumentReset t)
      (emits_of_step (step_forEach _ fun t _ => step_of_quiet (quiet_call env ⟨t, rfl⟩))))
    (logs_block_cons (logs_dateLoop env eng inp sample eng.dg (-1))
      (logs_block_cons (logs_call env Event.fixingReset) logs_block_nil)))
  rintro l ⟨resets, _, rfl, hresets, _, _, rfl, ⟨slots, rfl, hslots⟩, _, _, rfl, rfl, rfl⟩
  exact ⟨resets, slots, by simp, hresets, hslots⟩

theorem outsideSlots_of_timeZero {inp : Input} {ev : Event} (h : TimeZeroEvent inp ev) :
    OutsideSlots ev := by
  obtain ⟨t, _, h⟩ := h
  cases ev <;> first | exact ⟨rfl, rfl⟩ | exact h.elim

theorem outsideSlots_of_fill {eng : Engine} {inp : Input} {dryRun : Bool} {ev : Event}
    (h : FillEvent eng inp dryRun ev) : OutsideSlots ev := by
  cases ev <;> first | exact ⟨rfl, rfl⟩ | exact h.elim

theorem logs_simulate (env : Env) (eng : Engine) (inp : Input) (dryRun : Bool)
    (asofDate : Date) :
    Logs (RunLog eng inp dryRun) (simulate env eng inp dryRun asofDate) := by
  unfold simulate
  refine logs_mono ?_ (logs_block_cons
    (logs_of_emits (emits_of_step (step_mono (fun _ h => outsideSlots_of_timeZero h)
      (step_initialiseTrades env eng inp))))
    (logs_block_cons
      (logs_of_emits (P := OutsideSlots) (emits_of_step (step_onlyIf fun _ =>
        step_of_quiet (quiet_call env ⟨rfl, rfl⟩))))
    (logs_block_cons
      (logs_forEach (List.range (numSamplesReplayed inp dryRun)) fun sample _ =>
        logs_processSample env eng inp sample)
    (logs_block_cons
      (logs_of_emits (emits_of_step (step_mono (fun _ h => outsideSlots_of_fill h)
        (step_dryRunFill env eng inp dryRun))))
    (logs_block_cons
      (logs_of_emits (P := OutsideSlots) (emits_of_step (step_forEach _ fun i _ =>
        step_removeIfError env i ⟨rfl, rfl⟩)))
      logs_block_nil)))))
  rintro l ⟨p1, _, rfl, hp1, p2, _, rfl, hp2, _, _, rfl, ⟨samples, rfl, hsamples⟩,
    f1, _, rfl, hf1, f2, _, rfl, hf2, rfl⟩
  refine ⟨p1 ++ p2, samples, f1 ++ f2, by simp, ?_, ?_, hsamples⟩
  · intro ev hev
    rcases List.mem_append.1 hev with h | h
    · exact hp1 ev h
    · exact hp2 ev h
  · intro ev hev
    rcases List.mem_append.1 hev with h | h
    · exact hf1 ev h
    · exact hf2 ev h

theorem logs_buildCubeBody (env : Env) (eng : Engine) (inp : Input) (dryRun : Bool)
    (asofDate : Date) :
    Logs (RunLog eng inp dryRun) (buildCubeBody env eng inp dryRun asofDate) := by
  unfold buildCubeBody
  refine logs_mono ?_ (logs_block_cons
    (logs_of_emits (P := OutsideSlots) (emits_of_step (step_of_quiet
      (quiet_checkDimensions _ eng inp))))
    (logs_block_cons
      (logs_of_emits (P := OutsideSlots) (emits_of_step (step_of_quiet ?_)))
    (logs_block_cons (Q := fun new => new = [])
      (fun s _ => ⟨[], by simp [createErrorFlags, ok], rfl⟩)
    (logs_block_cons (logs_simulate env eng inp dryRun asofDate) logs_block_nil))))
  · rintro l ⟨p1, _, rfl, hp1, p2, _, rfl, hp2, _, _, rfl, rfl, _, _, rfl,
      ⟨prelude, samples, finish, rfl, hpre, hfin, hsamples⟩, rfl⟩
    refine ⟨p1 ++ p2 ++ prelude, samples, finish, by simp, ?_, hfin, hsamples⟩
    intro ev hev
    rcases List.mem_append.1 hev with h | h
    · rcases List.mem_append.1 h with h | h
      · exact hp1 ev h
      · exact hp2 ev h
    · exact hpre ev h
  · unfold initialiseCalculators
    refine quiet_forEach _ fun c _ => quiet_block _ fun f hf => ?_
    simp only [List.mem_cons, List.mem_singleton, List.not_mem_nil, or_false] at hf
    rcases hf with rfl | rfl
    · exact quiet_callAt env _ ⟨rfl, rfl⟩
    · exact quiet_callAt env _ ⟨rfl, rfl⟩

/-- C19: the call log of a run of `buildCube` that returns normally is a
prelude, then the logs of the replayed samples in ascending sample order, then
a finish, where the prelude and the finish hold no market advance and no
`calculate` call.  The log of a sample is the reset of the instruments, then
the logs of the grid slots in ascending grid order, then the reset of the
fixing manager.  The log of a slot is its close-out part (if flagged) followed
by its valuation part (if flagged), and each part is: the market advance calls
of that slot, then the recalibration of the model builders, then the
calculator phase, all of whose `calculate` calls carry the date of the slot
and the sample.  The `calculate` calls of the run therefore come in
lexicographically ascending order of (sample, grid index). -/
theorem calls_in_order (env : Env) (eng : Engine) (inp : Input) (dryRun : Bool)
    (asofDate : Date) (cubes : Cubes)
    (hok : (buildCube env eng inp dryRun asofDate cubes).err = none) :
    ∃ prelude samples finish,
      (buildCube env eng inp dryRun asofDate cubes).st.trace =
        prelude ++ samples.flatten ++ finish ∧
      (∀ ev ∈ prelude, isMarketAdvance ev = false ∧ isCalculate ev = false) ∧
      (∀ ev ∈ finish, isMarketAdvance ev = false ∧ isCalculate ev = false) ∧
      List.Forall₂ (SampleLog eng inp) (List.range (numSamplesReplayed inp dryRun))
        samples := by
  obtain ⟨new, h1, prelude, samples, finish, rfl, hpre, hfin, hsamples⟩ :=
    logs_buildCubeBody env eng inp dryRun asofDate ⟨[], cubes, []⟩ hok
  refine ⟨prelude, samples, finish ++ [Event.marketReset], ?_, hpre, ?_, hsamples⟩
  · simp only [buildCube, h1, List.nil_append, List.append_assoc]
  · intro ev hev
    rcases List.mem_append.1 hev with h | h
    · exact hfin ev h
    · rw [List.mem_singleton.1 h]
      exact ⟨rfl, rfl⟩

/-- Witness for C19: the run over two valuation dates, the second also a
close-out date, three samples, one trade and one calculator returns normally;
its log splits into the logs of the three samples. -/
theorem calls_in_order_witness :
    (buildCube calmEnv engTwoDates inpOneTrade false 0 zeroCubes).err = none ∧
    ∃ prelude samples finish,
      (buildCube calmEnv engTwoDates inpOneTrade false 0 zeroCubes).st.trace =
        prelude ++ samples.flatten ++ finish ∧
      (∀ ev ∈ prelude, isMarketAdvance ev = false ∧ isCalculate ev = false) ∧
      (∀ ev ∈ finish, isMarketAdvance ev = false ∧ isCalculate ev = false) ∧
      List.Forall₂ (SampleLog engTwoDates inpOneTrade) (List.range 3) samples :=
  ⟨by decide,
   calls_in_order calmEnv engTwoDates inpOneTrade false 0 zeroCubes (by decide)⟩


/-! ## C20: the market calls of close-out processing -/

theorem call_err_some {env : Env} {ev : Event} {s : State} {e : Err}
    (h : (call env ev s).err = some e) : e = Err.escaped ev := by
  unfold call at h
  by_cases hr : env.raises s.trace ev = true
  · simp only [hr, ↓reduceIte, Option.some.injEq] at h
    exact h.symm
  · simp [hr, ok] at h

theorem onlyIf_err_some {b : Bool} {f : State → Outcome} {s : State} {e : Err}
    (h : (onlyIf b f s).err = some e) : (f s).err = some e := by
  unfold onlyIf at h
  cases b with
  | false => simp [ok] at h
  | true => simpa using h

theorem block_cons_err_some {f : State → Outcome} {fs : List (State → Outcome)} {s : State}
    {e : Err} (h : (block (f :: fs) s).err = some e) :
    (f s).err = some e ∨ (block fs (f s).st).err = some e := by
  rw [block_cons] at h
  rcases andThen_cases (f s) (block fs) with ⟨_, h2⟩ | ⟨e1, _, h2⟩
  · exact Or.inr (h2 ▸ h)
  · exact Or.inl (h2 ▸ h)

theorem closeOutAdvance_err_some {env : Env} {sticky : Bool} {d : Date} {s : State} {e : Err}
    (h : (block [call env Event.preUpdate,
        onlyIf (!sticky) (call env (Event.updateDate d)),
        call env (Event.updateScenario d),
        call env (Event.postUpdate d (!sticky))] s).err = some e) :
    ∃ ev, e = Err.escaped ev ∧ isMarketAdvance ev = true := by
  rcases block_cons_err_some h with h | h
  · exact ⟨_, call_err_some h, rfl⟩
  rcases block_cons_err_some h with h | h
  · exact ⟨_, call_err_some (onlyIf_err_some h), rfl⟩
  rcases block_cons_err_some h with h | h
  · exact ⟨_, call_err_some h, rfl⟩
  rcases block_cons_err_some h with h | h
  · exact ⟨_, call_err_some h, rfl⟩
  · simp [block, forEach, ok] at h

theorem emits_afterCloseOutAdvance (env : Env) (eng : Engine) (inp : Input) (sample : Nat)
    (d : Date) (cdi : Int) :
    Emits (fun ev => isMarketAdvance ev = false)
      (block [recalibrateModels env eng inp.om,
        onlyIf inp.mporStickyDate (tradeExercisable env false inp.trades),
        require (decide (cdi ≥ 0)) Err.negativeCubeDateIndex,
        runCalculators env true inp d cdi.toNat sample,
        onlyIf inp.mporStickyDate (tradeExercisable env true inp.trades)]) :=
  emits_of_step (step_block_cons
    (step_of_quiet (quiet_recalibrateModels env eng inp.om (fun _ _ => rfl) (fun _ => rfl)))
    (step_mono (fun _ h => calcPhaseEvent_notMarket h)
      (step_closeOutCalcPhase env inp sample d cdi)))

theorem processCloseOutDate_advance_split (env : Env) (eng : Engine) (inp : Input)
    (sample : Nat) (d : Date) (cdi : Int) (s : State) :
    processCloseOutDate env eng inp sample d cdi s =
      (block [call env Event.preUpdate,
        onlyIf (!inp.mporStickyDate) (call env (Event.updateDate d)),
        call env (Event.updateScenario d),
        call env (Event.postUpdate d (!inp.mporStickyDate))] s).andThen
      (block [recalibrateModels env eng inp.om,
        onlyIf inp.mporStickyDate (tradeExercisable env false inp.trades),
        require (decide (cdi ≥ 0)) Err.negativeCubeDateIndex,
        runCalculators env true inp d cdi.toNat sample,
        onlyIf inp.mporStickyDate (tradeExercisable env true inp.trades)]) := by
  rw [← block_append]
  rfl

theorem emits_processCloseOutDate_market (env : Env) (eng : Engine) (inp : Input)
    (sample : Nat) (d : Date) (cdi : Int) :
    Emits (fun ev => isMarketAdvance ev = true → ev ∈ closeOutAdvance inp.mporStickyDate d)
      (processCloseOutDate env eng inp sample d cdi) := by
  intro s
  rw [processCloseOutDate_advance_split]
  refine emits_andThen (f := block _) (emits_of_step ?_)
    (fun s1 => ?_) s
  · refine step_block_cons (step_of_quiet (quiet_call env fun _ => ?_)) ?_
    · cases inp.mporStickyDate <;> simp [closeOutAdvance]
    refine step_block_cons (step_onlyIf fun hs => step_of_quiet (quiet_call env fun _ => ?_)) ?_
    · cases h : inp.mporStickyDate <;> simp_all [closeOutAdvance]
    refine step_block_cons (step_of_quiet (quiet_call env fun _ => ?_)) ?_
    · cases inp.mporStickyDate <;> simp [closeOutAdvance]
    refine step_block_cons (step_of_quiet (quiet_call env fun _ => ?_)) (step_block_nil _)
    · cases inp.mporStickyDate <;> simp [closeOutAdvance]
  · obtain ⟨new, h1, h2⟩ := emits_afterCloseOutAdvance env eng inp sample d cdi s1
    exact ⟨new, h1, fun ev hev hm => absurd hm (by rw [h2 ev hev]; simp)⟩

/-- C20: in every close-out processing at date `d` no `updateAsd` call is
made, and with sticky close-out dates no `updateDate` call; unless one of the
market calls itself raises, the market calls made are exactly `preUpdate()`,
`updateScenario(d)`, `postUpdate(d, false)` with sticky close-out dates and
exactly `preUpdate()`, `updateDate(d)`, `updateScenario(d)`,
`postUpdate(d, true)` without: the scenario is advanced in both cases, also
when the processing fails later on. -/
theorem closeOut_market_calls (env : Env) (eng : Engine) (inp : Input) (sample : Nat)
    (d : Date) (cdi : Int) (s : State) :
    ∃ new, (processCloseOutDate env eng inp sample d cdi s).st.trace = s.trace ++ new ∧
      (∀ d1, Event.updateAsd d1 ∉ new) ∧
      (inp.mporStickyDate = true → ∀ d1, Event.updateDate d1 ∉ new) ∧
      ((∀ ev, (processCloseOutDate env eng inp sample d cdi s).err = some (Err.escaped ev) →
          isMarketAdvance ev = false) →
        (inp.mporStickyDate = true → new.filter isMarketAdvance =
          [Event.preUpdate, Event.updateScenario d, Event.postUpdate d false]) ∧
        (inp.mporStickyDate = false → new.filter isMarketAdvance =
          [Event.preUpdate, Event.updateDate d, Event.updateScenario d,
            Event.postUpdate d true])) := by
  obtain ⟨new, hnew, hP⟩ := emits_processCloseOutDate_market env eng inp sample d cdi s
  refine ⟨new, hnew, fun d1 h => ?_, fun hs d1 h => ?_, fun hadv => ?_⟩
  · have := hP _ h rfl
    cases hs : inp.mporStickyDate <;> simp [closeOutAdvance, hs] at this
  · have := hP _ h rfl
    simp [closeOutAdvance, hs] at this
  · have hfilter : new.filter isMarketAdvance = closeOutAdvance inp.mporStickyDate d := by
      rw [processCloseOutDate_advance_split] at hnew hadv
      rcases andThen_cases (block [call env Event.preUpdate,
        onlyIf (!inp.mporStickyDate) (call env (Event.updateDate d)),
        call env (Event.updateScenario d),
        call env (Event.postUpdate d (!inp.mporStickyDate))] s)
        (block [recalibrateModels env eng inp.om,
        onlyIf inp.mporStickyDate (tradeExercisable env false inp.trades),
        require (decide (cdi ≥ 0)) Err.negativeCubeDateIndex,
        runCalculators env true inp d cdi.toNat sample,
        onlyIf inp.mporStickyDate (tradeExercisable env true inp.trades)]) with
        ⟨h1, h2⟩ | ⟨e, h1, h2⟩
      · obtain ⟨adv, hadv1, rfl⟩ := logs_closeOutAdvance env inp.mporStickyDate d s h1
        obtain ⟨r, hr1, hr2⟩ := emits_afterCloseOutAdvance env eng inp sample d cdi
          (block [call env Event.preUpdate,
            onlyIf (!inp.mporStickyDate) (call env (Event.updateDate d)),
            call env (Event.updateScenario d),
            call env (Event.postUpdate d (!inp.mporStickyDate))] s).st
        rw [h2, hr1, hadv1, List.append_assoc] at hnew
        have hn : new = closeOutAdvance inp.mporStickyDate d ++ r :=
          (List.append_cancel_left hnew).symm
        rw [hn, List.filter_append, List.filter_eq_self.2 (closeOutAdvance_isMarket _ _),
          List.filter_eq_nil_iff.2 fun ev hev => by rw [hr2 ev hev]; simp]
        simp
      · obtain ⟨ev, rfl, hev⟩ := closeOutAdvance_err_some h1
        rw [h2] at hadv
        exact absurd (hadv ev h1) (by rw [hev]; simp)
    exact ⟨fun hs => by rw [hfilter, hs]; rfl, fun hs => by rw [hfilter, hs]; rfl⟩

/-- Witness for C20: sticky close-out processing before any valuation date
fails on the negative cube date index, after the scenario has been advanced by
the three market calls. -/
theorem closeOut_market_calls_witness :
    (processCloseOutDate calmEnv engCloseOutFirst inpOneDate 0 1 (-1)
      ⟨[], zeroCubes, [false]⟩).err = some Err.negativeCubeDateIndex ∧
    ∃ new, (processCloseOutDate calmEnv engCloseOutFirst inpOneDate 0 1 (-1)
        ⟨[], zeroCubes, [false]⟩).st.trace = [] ++ new ∧
      new.filter isMarketAdvance =
        [Event.preUpdate, Event.updateScenario 1, Event.postUpdate 1 false] := by
  have herr : (processCloseOutDate calmEnv engCloseOutFirst inpOneDate 0 1 (-1)
      ⟨[], zeroCubes, [false]⟩).err = some Err.negativeCubeDateIndex := by decide
  obtain ⟨new, h1, _, _, h4⟩ := closeOut_market_calls calmEnv engCloseOutFirst inpOneDate 0 1
    (-1) ⟨[], zeroCubes, [false]⟩
  exact ⟨herr, new, h1, (h4 fun ev h => by rw [herr] at h; cases h).1 rfl⟩


/-! ## C21: the start of the fixing manager -/

theorem emits_fromSamples (env : Env) (eng : Engine) (inp : Input) (dryRun : Bool) :
    Emits (FromSamplesEvent eng inp dryRun)
      (block [forEach (processSample env eng inp) (List.range (numSamplesReplayed inp dryRun)),
        dryRunFill env eng inp dryRun,
        forEach (removeIfError env) (List.range inp.trades.length)]) := by
  refine emits_of_step (step_block_cons (step_forEach _ fun sample hs =>
    step_mono (fun _ h => Or.inl ⟨sample, List.mem_range.1 hs, h⟩)
      (step_processSample env eng inp sample)) ?_)
  refine step_block_cons (step_mono (fun _ h => Or.inr (Or.inl (Or.inl h)))
    (step_dryRunFill env eng inp dryRun)) ?_
  exact step_block_cons (step_forEach _ fun i hi => step_removeIfError env i
    (Or.inr (Or.inl (Or.inr ⟨i, List.mem_range.1 hi, rfl⟩)))) (step_block_nil _)

theorem simulate_fixingStart (env : Env) (eng : Engine) (inp : Input) (dryRun : Bool)
    (asofDate : Date) (s : State) :
    ∃ a mid post,
      (simulate env eng inp dryRun asofDate s).st.trace = s.trace ++ a ++ mid ++ post ∧
      (∀ ev ∈ a, TimeZeroEvent inp ev) ∧
      (mid = [] ∨ mid = [Event.fixingInitialise]) ∧
      (mid = [Event.fixingInitialise] → firstDateAfter eng.dg asofDate) ∧
      ((simulate env eng inp dryRun asofDate s).err = none →
        firstDateAfter eng.dg asofDate → mid = [Event.fixingInitialise]) ∧
      (∀ ev ∈ post, FromSamplesEvent eng inp dryRun ev) := by
  obtain ⟨a, ha, hPa⟩ := emits_of_step (step_initialiseTrades env eng inp) s
  unfold simulate
  rw [block_cons]
  rcases andThen_cases (forEach (initialiseTrade env eng inp) inp.trades.enum s)
    (block [initialiseFixings env eng asofDate,
      forEach (processSample env eng inp) (List.range (numSamplesReplayed inp dryRun)),
      dryRunFill env eng inp dryRun,
      forEach (removeIfError env) (List.range inp.trades.length)]) with
    ⟨_, heq⟩ | ⟨e, hs, heq⟩
  · rw [heq, block_cons]
    by_cases hc : firstDateAfter eng.dg asofDate
    · have hF : initialiseFixings env eng asofDate
          (forEach (initialiseTrade env eng inp) inp.trades.enum s).st =
          call env Event.fixingInitialise
            (forEach (initialiseTrade env eng inp) inp.trades.enum s).st := by
        unfold initialiseFixings onlyIf
        exact if_pos hc
      rw [hF]
      have hst := call_st env Event.fixingInitialise
        (forEach (initialiseTrade env eng inp) inp.trades.enum s).st
      rcases andThen_cases (call env Event.fixingInitialise
          (forEach (initialiseTrade env eng inp) inp.trades.enum s).st)
        (block [forEach (processSample env eng inp)
            (List.range (numSamplesReplayed inp dryRun)),
          dryRunFill env eng inp dryRun,
          forEach (removeIfError env) (List.range inp.trades.length)]) with
        ⟨_, heq2⟩ | ⟨e2, hs2, heq2⟩
      · obtain ⟨r, hr, hPr⟩ := emits_fromSamples env eng inp dryRun
          (call env Event.fixingInitialise
            (forEach (initialiseTrade env eng inp) inp.trades.enum s).st).st
        refine ⟨a, [Event.fixingInitialise], r, ?_, hPa, Or.inr rfl, fun _ => hc,
          fun _ _ => rfl, hPr⟩
        rw [heq2, hr, hst]
        show (_ ++ [Event.fixingInitialise]) ++ r = _
        rw [ha]
      · refine ⟨a, [Event.fixingInitialise], [], ?_, hPa, Or.inr rfl, fun _ => hc,
          fun _ _ => rfl, by simp⟩
        rw [heq2, hst]
        show _ ++ [Event.fixingInitialise] = _
        rw [ha, List.append_nil]
    · have hF : initialiseFixings env eng asofDate
          (forEach (initialiseTrade env eng inp) inp.trades.enum s).st =
          ok (forEach (initialiseTrade env eng inp) inp.trades.enum s).st := by
        unfold initialiseFixings onlyIf
        exact if_neg hc
      rw [hF, andThen_of_none rfl]
      obtain ⟨r, hr, hPr⟩ := emits_fromSamples env eng inp dryRun
        (forEach (initialiseTrade env eng inp) inp.trades.enum s).st
      refine ⟨a, [], r, ?_, hPa, Or.inl rfl, (fun h => by cases h),
        (fun _ h => absurd h hc), hPr⟩
      show (block _ (ok _).st).st.trace = _
      rw [show (ok (forEach (initialiseTrade env eng inp) inp.trades.enum s).st).st =
        (forEach (initialiseTrade env eng inp) inp.trades.enum s).st from rfl, hr, ha,
        List.append_nil]
  · refine ⟨a, [], [], ?_, hPa, Or.inl rfl, (fun h => by cases h), (fun h => ?_),
      (fun _ h => by cases h)⟩
    · rw [heq, ha]
      simp
    · rw [heq, hs] at h
      cases h

theorem fixingInitialise_not_before {inp : Input} {ev : Event}
    (h : PreludeEvent inp ev ∨ TimeZeroEvent inp ev) : ev ≠ Event.fixingInitialise := by
  rintro rfl
  rcases h with ⟨c, _, h | h⟩ | ⟨t, _, h⟩
  · cases h
  · cases h
  · exact h

theorem fixingInitialise_not_after {eng : Engine} {inp : Input} {dryRun : Bool} {ev : Event}
    (h : FromSamplesEvent eng inp dryRun ev) : ev ≠ Event.fixingInitialise := by
  rintro rfl
  rcases h with ⟨_, _, h⟩ | h | h
  · exact h
  · simp [FinishEvent, FillEvent] at h
  · cases h

/-- What the guard of source line 167 does: the call log of every run of
`buildCube` is the events of the initialisation of the calculators and of the
time-zero loop, then at most one `initialise` call of the fixing manager, then
the events of the samples, of the dry-run fill, of the last loop and the reset
of the market.  The `initialise` call is made only if the grid is not empty
and its first date is strictly after the as-of date of the market, and in a
run that returns normally it is made exactly once if and only if that is
so. -/
theorem fixingInitialise_iff_firstDate (env : Env) (eng : Engine) (inp : Input)
    (dryRun : Bool) (asofDate : Date) (cubes : Cubes) :
    (∃ pre mid post,
      (buildCube env eng inp dryRun asofDate cubes).st.trace = pre ++ mid ++ post ∧
      (∀ ev ∈ pre, PreludeEvent inp ev ∨ TimeZeroEvent inp ev) ∧
      (mid = [] ∨ mid = [Event.fixingInitialise]) ∧
      (∀ ev ∈ post, FromSamplesEvent eng inp dryRun ev)) ∧
    (buildCube env eng inp dryRun asofDate cubes).st.trace.count Event.fixingInitialise ≤ 1 ∧
    (Event.fixingInitialise ∈ (buildCube env eng inp dryRun asofDate cubes).st.trace →
      firstDateAfter eng.dg asofDate) ∧
    ((buildCube env eng inp dryRun asofDate cubes).err = none →
      ((buildCube env eng inp dryRun asofDate cubes).st.trace.count Event.fixingInitialise = 1 ↔
        firstDateAfter eng.dg asofDate)) := by
  have hshape : ∃ pre mid post,
      (buildCube env eng inp dryRun asofDate cubes).st.trace = pre ++ mid ++ post ∧
      (∀ ev ∈ pre, PreludeEvent inp ev ∨ TimeZeroEvent inp ev) ∧
      (mid = [] ∨ mid = [Event.fixingInitialise]) ∧
      (mid = [Event.fixingInitialise] → firstDateAfter eng.dg asofDate) ∧
      ((buildCube env eng inp dryRun asofDate cubes).err = none →
        firstDateAfter eng.dg asofDate → mid = [Event.fixingInitialise]) ∧
      (∀ ev ∈ post, FromSamplesEvent eng inp dryRun ev) := by
    rcases buildCubeBody_cases env eng inp dryRun asofDate cubes with
      ⟨e, new, hb, hnew⟩ | ⟨new, hnew, _, hb⟩
    · refine ⟨new, [], [Event.marketReset], by simp [buildCube, hb],
        fun ev hev => Or.inl (hnew ev hev), Or.inl rfl, (fun h => by cases h),
        (fun h => by simp [buildCube, hb] at h), ?_⟩
      intro ev hev
      rw [List.mem_singleton.1 hev]
      exact Or.inr (Or.inr rfl)
    · obtain ⟨a, mid, post, htr, ha, hmid, hif, hok, hpost⟩ :=
        simulate_fixingStart env eng inp dryRun asofDate
          ⟨new, cubes, List.replicate inp.trades.length false⟩
      refine ⟨new ++ a, mid, post ++ [Event.marketReset], ?_, ?_, hmid, hif, ?_, ?_⟩
      · simp only [buildCube, hb, htr, List.append_assoc]
      · intro ev hev
        rcases List.mem_append.1 hev with h | h
        · exact Or.inl (hnew ev h)
        · exact Or.inr (ha ev h)
      · intro herr
        exact hok (by simpa [buildCube, hb] using herr)
      · intro ev hev
        rcases List.mem_append.1 hev with h | h
        · exact hpost ev h
        · rw [List.mem_singleton.1 h]
          exact Or.inr (Or.inr rfl)
  obtain ⟨pre, mid, post, htr, hpre, hmid, hif, hok, hpost⟩ := hshape
  have hnpre : Event.fixingInitialise ∉ pre := fun h =>
    fixingInitialise_not_before (hpre _ h) rfl
  have hnpost : Event.fixingInitialise ∉ post := fun h =>
    fixingInitialise_not_after (hpost _ h) rfl
  have hcount : (buildCube env eng inp dryRun asofDate cubes).st.trace.count
      Event.fixingInitialise = mid.count Event.fixingInitialise := by
    rw [htr, List.count_append, List.count_append, List.count_eq_zero_of_not_mem hnpre,
      List.count_eq_zero_of_not_mem hnpost]
    simp
  refine ⟨⟨pre, mid, post, htr, hpre, hmid, hpost⟩, ?_, ?_, ?_⟩
  · rw [hcount]
    rcases hmid with rfl | rfl <;> simp
  · intro hmem
    rw [htr] at hmem
    rcases hmid with rfl | rfl
    · simp only [List.append_nil, List.mem_append] at hmem
      rcases hmem with h | h
      · exact absurd h hnpre
      · exact absurd h hnpost
    · exact hif rfl
  · intro herr
    rw [hcount]
    constructor
    · intro h1
      rcases hmid with rfl | rfl
      · simp at h1
      · exact hif rfl
    · intro hc
      rw [hok herr hc]
      simp

/-- An instance: the first grid date 1 is after the as-of date 0; the run
returns normally and starts the fixing manager exactly once. -/
theorem fixingInitialise_iff_firstDate_witness :
    (buildCube calmEnv engTwoDates inpOneTrade false 0 zeroCubes).err = none ∧
    firstDateAfter engTwoDates.dg 0 ∧
    (buildCube calmEnv engTwoDates inpOneTrade false 0 zeroCubes).st.trace.count
      Event.fixingInitialise = 1 :=
  ⟨by decide, by decide,
   ((fixingInitialise_iff_firstDate calmEnv engTwoDates inpOneTrade false 0
     zeroCubes).2.2.2 (by decide)).2 (by decide)⟩

/-- C21 fails on the code: the grid starts at `today`, which is also the as-of
date of the market, and holds a later date.  The constructor accepts the grid
and some grid date is strictly after the as-of date, so the simulation dates
contain a future date, the condition the comment of source line 168 gives for
the fixing manager to be required; yet the guard of line 167 looks at the
first date only: the run returns normally and the fixing manager is never
started. -/
theorem fixingInitialise_skipped :
    (ValuationEngine 1 engStartsToday.dg true 1).isOk = true ∧
    someDateAfter engStartsToday.dg 1 ∧
    ¬ firstDateAfter engStartsToday.dg 1 ∧
    (buildCube calmEnv engStartsToday inpOneTrade false 1 zeroCubes).err = none ∧
    Event.fixingInitialise ∉
      (buildCube calmEnv engStartsToday inpOneTrade false 1 zeroCubes).st.trace := by
  decide


/-! ## C22: the coordinates of the dry-run fill -/

/-- C22 fails on the code: on a grid of a valuation date followed by a date
that is a close-out date only, with a trade cube of one date (as the check on
its dimensions asks for), the dry run returns normally and its fill writes at
the date index 1, which is not below `numDates = 1`: the fill runs over all
grid dates, not over the dates of the cube. -/
theorem dryRunFill_dateIndex_out_of_range :
    ¬ dimensionMismatch engCloseOutOnly inpOneDate ∧
    inpOneDate.outputCube.numDates = 1 ∧
    (buildCube calmEnv engCloseOutOnly inpOneDate true 0 zeroCubes).err = none ∧
    Event.cubeSet 0 1 1 0 ∈
      (buildCube calmEnv engCloseOutOnly inpOneDate true 0 zeroCubes).st.trace ∧
    (buildCube calmEnv engCloseOutOnly inpOneDate true 0 zeroCubes).st.trace.filter
        (fun ev => !cubeSetInRange inpOneDate.outputCube ev) =
      [Event.cubeSet 0 1 1 0, Event.cubeSet 0 1 2 0] := by
  decide

end ValuationEngine
